import Mathlib

/-!
PrivatePay (puracore/pura): shallow embedding of the mixing core.

The definitions below are translated from `src/privatepay.cpp` and
`src/privatepay-server.cpp`.  Conventions of the embedding:

* `CAmount` (`int64_t`) is modelled by `Int`; sums of amounts are taken in `Int`
  (signed overflow is undefined behaviour in the source and is not modelled).
* `uint256` hashes are natural numbers, scripts are byte lists.
* Process-wide collaborators (chain lookup, mempool acceptance, script
  classification, peer connectivity) are fields of an explicit environment.
* Stateful member functions take the session state and return the new one,
  together with the network messages they push.
-/

namespace PrivatePay

/-! ## Primitive data -/

/-- Monetary amount (`CAmount`, a 64-bit signed integer in the source). -/
abbrev CAmount := Int

/-- Script bytes (`CScript`). -/
abbrev CScript := List Nat

/-- Number of base units per coin. -/
def COIN : CAmount := 100000000

/-- An outpoint: transaction hash and output index. -/
structure COutPoint where
  hash : Nat
  n : Nat
deriving DecidableEq, Repr

/-- `COutPoint::IsNull`: null hash and index `(uint32_t) -1`. -/
def COutPoint.IsNull (o : COutPoint) : Bool :=
  o.hash == 0 && o.n == 4294967295

/-- Transaction input, with the memory-only `prevPubKey` the mixing code uses. -/
structure CTxIn where
  prevout : COutPoint
  scriptSig : CScript
  nSequence : Nat
  prevPubKey : CScript
deriving DecidableEq, Repr

/-- Transaction output. -/
structure CTxOut where
  nValue : CAmount
  scriptPubKey : CScript
deriving DecidableEq, Repr

/-- Mixing input: a `CTxIn` plus the "already signed" flag. -/
structure CTxDSIn extends CTxIn where
  fHasSig : Bool
deriving DecidableEq, Repr

/-- Mixing output: in the code read here it is used only through its `CTxOut` part. -/
abbrev CTxDSOut := CTxOut

/-- A transaction (`CTransaction` and `CMutableTransaction` share this shape). -/
structure CTransaction where
  vin : List CTxIn
  vout : List CTxOut
  nLockTime : Nat
deriving DecidableEq, Repr

/-! ## Denominations (`privatepay.cpp`) -/

/-- The static member `vecStandardDenominations` as filled by
`InitStandardDenominations`: `10*COIN+10000`, `1*COIN+1000`, `.1*COIN+100`,
`.01*COIN+10` (the two floating point products are exactly `COIN/10` and
`COIN/100`). -/
def vecStandardDenominations : List CAmount :=
  [(10 * COIN) + 10000, (1 * COIN) + 1000, (COIN / 10) + 100, (COIN / 100) + 10]

/-- Inner loop of `GetDenominations`: every pair whose amount equals `nValue`
gets its use count set to 1; the flag tells whether one was found. -/
def markDenomUsed (nValue : CAmount) : List (CAmount × Nat) → List (CAmount × Nat) × Bool
  | [] => ([], false)
  | s :: rest =>
    let r := markDenomUsed nValue rest
    if nValue = s.1 then ((s.1, 1) :: r.1, true) else (s :: r.1, r.2)

/-- Outer loop of `GetDenominations` over the outputs; `none` is the early
`return 0` taken when an output matches no denomination. -/
def lookForDenominations : List CTxOut → List (CAmount × Nat) → Option (List (CAmount × Nat))
  | [], vecDenomUsed => some vecDenomUsed
  | txout :: rest, vecDenomUsed =>
    let r := markDenomUsed txout.nValue vecDenomUsed
    if r.2 then lookForDenominations rest r.1 else none

/-- Last loop of `GetDenominations`: shift the bit of every used denomination
on.  `rand k` is the value drawn by `GetRandInt(2)` in iteration `k`; it is
drawn only in single-random mode, where the loop stops at the first bit set. -/
def shiftDenomBits (fSingleRandomDenom : Bool) (rand : Nat → Nat) :
    List (CAmount × Nat) → Nat → Nat → Nat
  | [], nDenom, _ => nDenom
  | s :: rest, nDenom, c =>
    let bit := (if fSingleRandomDenom then rand c % 2 else 1) &&& s.2
    let nDenom1 := nDenom ||| (bit <<< c)
    if fSingleRandomDenom && bit != 0 then nDenom1
    else shiftDenomBits fSingleRandomDenom rand rest nDenom1 (c + 1)

/-- `CPrivatePay::GetDenominations(vecTxOut, fSingleRandomDenom)`. -/
def GetDenominations (vecTxOut : List CTxOut) (fSingleRandomDenom : Bool)
    (rand : Nat → Nat) : Int :=
  let vecDenomUsed := vecStandardDenominations.map (fun nDenomValue => (nDenomValue, 0))
  match lookForDenominations vecTxOut vecDenomUsed with
  | none => 0
  | some used => ((shiftDenomBits fSingleRandomDenom rand used 0 0 : Nat) : Int)

/-- Bit pattern of a 32-bit `int` (two's complement). -/
def intBits (x : Int) : Nat := (x % 4294967296).toNat

/-- The `for` loop of `GetDenominationsBits`, from index `i` over `k` more indices. -/
def collectDenomBits (nDenom : Int) : Nat → Nat → List Nat → List Nat
  | 0, _, vecBitsRet => vecBitsRet
  | k + 1, i, vecBitsRet =>
    if intBits nDenom &&& (1 <<< i) != 0 then collectDenomBits nDenom k (i + 1) (vecBitsRet ++ [i])
    else collectDenomBits nDenom k (i + 1) vecBitsRet

/-- `CPrivatePay::GetDenominationsBits(nDenom, vecBitsRet)`: the returned pair is
the boolean result and the content of the out-parameter afterwards. -/
def GetDenominationsBits (nDenom : Int) (vecBitsRet : List Nat) : Bool × List Nat :=
  let nMaxDenoms := vecStandardDenominations.length
  if nDenom ≥ ((1 <<< nMaxDenoms : Nat) : Int) then (false, vecBitsRet)
  else
    let bits := collectDenomBits nDenom nMaxDenoms 0 []
    (!bits.isEmpty, bits)

/-! ## Collateral validity (`privatepay.cpp`) -/

/-- Collaborators of the mixing code that live outside it: the process flags,
the chain parameters and the chain, mempool, script and peer layers. -/
structure Env where
  /-- Global `fMasterNode`. -/
  fMasterNode : Bool
  /-- Global `fLiteMode`. -/
  fLiteMode : Bool
  /-- The answer of `masternodeSync.IsBlockchainSynced()`. -/
  IsBlockchainSynced : Bool
  /-- The constant `MIN_PRIVATEPAY_PEER_PROTO_VERSION`. -/
  MIN_PRIVATEPAY_PEER_PROTO_VERSION : Int
  /-- The value of `CPrivatePay::GetCollateralAmount()`. -/
  CollateralAmount : CAmount
  /-- Chain and mempool lookup `GetTransaction(hash, txPrev, ..., true)`. -/
  GetTransaction : Nat → Option CTransaction
  /-- Dry-run `AcceptToMemoryPool(mempool, state, tx, ...)`. -/
  AcceptToMemoryPool : CTransaction → Bool
  /-- The method `CScript::IsNormalPaymentScript`. -/
  IsNormalPaymentScript : CScript → Bool
  /-- Whether `g_connman->ForNode(addr, ...)` finds a connected peer at `addr`. -/
  ForNode : Nat → Bool
  /-- The call `VerifyScript(scriptSig, sigPubKey, flags, checker(txNew, nIn))`. -/
  VerifyScript : CScript → CScript → CTransaction → Nat → Bool
  /-- Message signing with the active masternode key; `none` when signing or the check of the fresh signature fails. -/
  SignMessage : COutPoint → Int → Int → Bool → Option (List Nat)
  /-- Verification of a queue signature against a masternode public key. -/
  VerifyMessage : Nat → List Nat → COutPoint → Int → Int → Bool → Bool
  /-- The outpoint `activeMasternode.vin`. -/
  activeMasternodeVin : COutPoint

/-- `Params().PoolMaxTransactions()`, set to 3 in `chainparams.cpp`. -/
def GetMaxPoolTransactions : Nat := 3

/-- Modelled from the spec: the constant `PRIVATEPAY_ENTRY_MAX_SIZE` is declared
in `privatepay.h`, which is not among the sources; the specification gives 9. -/
def PRIVATEPAY_ENTRY_MAX_SIZE : Nat := 9

/-- Modelled from the spec: `PRIVATEPAY_QUEUE_TIMEOUT` (seconds), declared in `privatepay.h`. -/
def PRIVATEPAY_QUEUE_TIMEOUT : Int := 30

/-- Modelled from the spec: `PRIVATEPAY_SIGNING_TIMEOUT` (seconds), declared in `privatepay.h`. -/
def PRIVATEPAY_SIGNING_TIMEOUT : Int := 15

/-- First loop of `IsCollateralValid`: sum the output values; `none` is the
`return false` taken at an output whose script is not a normal payment script. -/
def collateralOutputs (env : Env) : List CTxOut → CAmount → Option CAmount
  | [], nValueOut => some nValueOut
  | txout :: rest, nValueOut =>
    if !env.IsNormalPaymentScript txout.scriptPubKey then none
    else collateralOutputs env rest (nValueOut + txout.nValue)

/-- Second loop of `IsCollateralValid`: sum the values of the previous outputs
that resolve, and raise `fMissingTx` for every input whose transaction does not. -/
def collateralInputs (env : Env) : List CTxIn → CAmount → Bool → CAmount × Bool
  | [], nValueIn, fMissingTx => (nValueIn, fMissingTx)
  | txin :: rest, nValueIn, fMissingTx =>
    match env.GetTransaction txin.prevout.hash with
    | some txPrev =>
      if txPrev.vout.length > txin.prevout.n then
        collateralInputs env rest (nValueIn + (txPrev.vout.getD txin.prevout.n ⟨0, []⟩).nValue) fMissingTx
      else collateralInputs env rest nValueIn fMissingTx
    | none => collateralInputs env rest nValueIn true

/-- `CPrivatePay::IsCollateralValid(txCollateral)`. -/
def IsCollateralValid (env : Env) (txCollateral : CTransaction) : Bool :=
  if txCollateral.vout.isEmpty then false
  else if txCollateral.nLockTime != 0 then false
  else
    match collateralOutputs env txCollateral.vout 0 with
    | none => false
    | some nValueOut =>
      let r := collateralInputs env txCollateral.vin 0 false
      if r.2 then false
      else if r.1 - nValueOut < env.CollateralAmount then false
      else if !env.AcceptToMemoryPool txCollateral then false
      else true

/-- The amount the input loops of `IsCollateralValid` and of the `PPVIN` check
add for one input: the value of the output it spends when the previous
transaction is found and has that output, and nothing otherwise. -/
def prevOutValue (env : Env) (txin : CTxIn) : CAmount :=
  match env.GetTransaction txin.prevout.hash with
  | some txPrev =>
    if txPrev.vout.length > txin.prevout.n then (txPrev.vout.getD txin.prevout.n ⟨0, []⟩).nValue else 0
  | none => 0

/-! ## Session data -/

/-- The enumeration `PoolState`. -/
inductive PoolState where
  | POOL_STATE_IDLE
  | POOL_STATE_QUEUE
  | POOL_STATE_ACCEPTING_ENTRIES
  | POOL_STATE_SIGNING
  | POOL_STATE_ERROR
  | POOL_STATE_SUCCESS
deriving DecidableEq, Repr

/-- The enumeration `PoolMessage`. -/
inductive PoolMessage where
  | ERR_ALREADY_HAVE
  | ERR_DENOM
  | ERR_ENTRIES_FULL
  | ERR_EXISTING_TX
  | ERR_FEES
  | ERR_INVALID_COLLATERAL
  | ERR_INVALID_INPUT
  | ERR_INVALID_SCRIPT
  | ERR_INVALID_TX
  | ERR_MAXIMUM
  | ERR_MN_LIST
  | ERR_MODE
  | ERR_NON_STANDARD_PUBKEY
  | ERR_NOT_A_MN
  | ERR_QUEUE_FULL
  | ERR_RECENT
  | ERR_SESSION
  | ERR_MISSING_TX
  | ERR_VERSION
  | MSG_NOERR
  | MSG_SUCCESS
  | MSG_ENTRIES_ADDED
deriving DecidableEq, Repr

/-- The enumeration `PoolStatusUpdate`. -/
inductive PoolStatusUpdate where
  | STATUS_REJECTED
  | STATUS_ACCEPTED
deriving DecidableEq, Repr

open PoolState PoolMessage PoolStatusUpdate

/-- One participant's submission (`CPrivatePayEntry`). -/
structure CPrivatePayEntry where
  vecTxDSIn : List CTxDSIn
  vecTxDSOut : List CTxDSOut
  txCollateral : CTransaction
  addr : Nat
deriving DecidableEq, Repr

/-- A queue advertisement (`CPrivatepayQueue`); `fTried` is the memory-only
flag the client sets, false in an advertisement just built or received. -/
structure CPrivatepayQueue where
  nDenom : Int
  vin : COutPoint
  nTime : Int
  fReady : Bool
  vchSig : List Nat
  fTried : Bool
deriving DecidableEq, Repr

/-- Modelled from the spec: `operator==` of the advertisement is declared in
`privatepay.h`; advertisements are compared by the value of what they announce,
the local flag `fTried` apart. -/
def CPrivatepayQueue.sameAs (a b : CPrivatepayQueue) : Bool :=
  a.nDenom == b.nDenom && a.vin == b.vin && a.nTime == b.nTime && a.fReady == b.fReady &&
    a.vchSig == b.vchSig

/-- Conversion of an integer to a 32-bit `int` (two's complement), as in
`int nThreshold = ...`. -/
def toInt32 (x : Int) : Int := (x + 2147483648) % 4294967296 - 2147483648

/-- A peer as the handlers see it (`CNode`): its address and protocol version. -/
structure CNode where
  addr : Nat
  nVersion : Int
deriving DecidableEq, Repr

/-- What coordinator and client push to the network or hand to the mempool. -/
inductive NetMsg where
  | PPSTATUSUPDATE (addr : Nat) (nSessionID : Int) (nState : PoolState) (nEntriesCount : Nat)
      (nStatusUpdate : PoolStatusUpdate) (nMessageID : PoolMessage)
  | PPFINALTX (addr : Nat) (nSessionID : Int) (txFinal : CTransaction)
  | PPCOMPLETE (addr : Nat) (nSessionID : Int) (nMessageID : PoolMessage)
  | PPQUEUE (dsq : CPrivatepayQueue)
  | PPTX (tx : CTransaction) (sigTime : Int)
  | SubmitToMempool (tx : CTransaction)
  | RelayTransaction (tx : CTransaction)
  | AskForMN (addr : Nat) (vin : COutPoint)
  | PPSIGNFINALTX (addr : Nat) (vecTxIn : List CTxIn)
  | PPVIN (addr : Nat) (entry : CPrivatePayEntry)
  | PPACCEPT (addr : Nat) (nDenom : Int) (txCollateral : CTransaction)
deriving DecidableEq, Repr

/-- The coordinator object (`CPrivatePayServer` with its `CPrivatePayBase` part). -/
structure CPrivatePayServer where
  nState : PoolState
  nSessionID : Int
  nSessionDenom : Int
  vecEntries : List CPrivatePayEntry
  finalMutableTransaction : CTransaction
  nTimeLastSuccessfulStep : Int
  vecSessionCollaterals : List CTransaction
  vecPrivatepayQueue : List CPrivatepayQueue
  fUnitTest : Bool
deriving DecidableEq, Repr

/-- Values the handlers read from their surroundings during one call: the
clocks, the random draws (`rand k` feeds the `k`-th `GetRandInt` of the call)
and whether the try-locks are obtained. -/
structure Ambient where
  GetTimeMillis : Int
  GetTime : Int
  GetAdjustedTime : Int
  rand : Nat → Nat
  lockRecv : Bool
  lockMain : Bool

/-- The call `GetRandInt(nMax)` fed by the `k`-th draw: a value in `[0, nMax)`. -/
def GetRandInt (amb : Ambient) (k : Nat) (nMax : Nat) : Nat := amb.rand k % nMax

/-- `CPrivatePayServer::SetNull` (which ends in `CPrivatePayBase::SetNull`). -/
def SetNull (amb : Ambient) (s : CPrivatePayServer) : CPrivatePayServer :=
  { s with
    vecSessionCollaterals := []
    nState := POOL_STATE_IDLE
    nSessionID := 0
    nSessionDenom := 0
    vecEntries := []
    finalMutableTransaction := { s.finalMutableTransaction with vin := [], vout := [] }
    nTimeLastSuccessfulStep := amb.GetTimeMillis }

/-- `CPrivatePayServer::SetState`. -/
def SetState (env : Env) (s : CPrivatePayServer) (nStateNew : PoolState) : CPrivatePayServer :=
  if env.fMasterNode && (nStateNew == POOL_STATE_ERROR || nStateNew == POOL_STATE_SUCCESS) then s
  else { s with nState := nStateNew }

/-- `GetEntriesCount()`. -/
def GetEntriesCount (s : CPrivatePayServer) : Nat := s.vecEntries.length

/-- `IsSessionReady()`: the session holds `GetMaxPoolTransactions()` collaterals. -/
def IsSessionReady (s : CPrivatePayServer) : Bool :=
  decide (s.vecSessionCollaterals.length ≥ GetMaxPoolTransactions)

/-- The message `PushStatus` sends to the peer at `addr`. -/
def PushStatus (s : CPrivatePayServer) (addr : Nat) (nStatusUpdate : PoolStatusUpdate)
    (nMessageID : PoolMessage) : NetMsg :=
  NetMsg.PPSTATUSUPDATE addr s.nSessionID s.nState s.vecEntries.length nStatusUpdate nMessageID

/-- `CPrivatePayServer::RelayStatus`. -/
def RelayStatus (env : Env) (amb : Ambient) (s : CPrivatePayServer)
    (nStatusUpdate : PoolStatusUpdate) (nMessageID : PoolMessage) :
    CPrivatePayServer × List NetMsg :=
  let connected := s.vecEntries.filter (fun entry => env.ForNode entry.addr)
  let first := connected.map (fun entry => PushStatus s entry.addr nStatusUpdate nMessageID)
  let nDisconnected := (s.vecEntries.filter (fun entry => !env.ForNode entry.addr)).length
  if nDisconnected == 0 then (s, first)
  else
    let second := connected.map (fun entry => PushStatus s entry.addr STATUS_REJECTED MSG_NOERR)
    if nDisconnected == s.vecEntries.length then (SetNull amb s, first ++ second)
    else (s, first ++ second)

/-! ## Coordinator: entries and the final transaction (`privatepay-server.cpp`) -/

/-- `CPrivatePayServer::IsOutputsCompatibleWithSessionDenom`.  The non-random
`GetDenominations` draws nothing, so the stream passed to it is immaterial. -/
def IsOutputsCompatibleWithSessionDenom (s : CPrivatePayServer) (vecTxDSOut : List CTxDSOut) : Bool :=
  if GetDenominations vecTxDSOut false (fun _ => 0) == 0 then false
  else s.vecEntries.all (fun entry =>
    GetDenominations vecTxDSOut false (fun _ => 0) == GetDenominations entry.vecTxDSOut false (fun _ => 0))

/-- The search of `AddEntry` for an input of the new entry among the inputs of
the entries already in the pool. -/
def hasInputInPool (s : CPrivatePayServer) (entryNew : CPrivatePayEntry) : Bool :=
  entryNew.vecTxDSIn.any (fun txin =>
    s.vecEntries.any (fun entry =>
      entry.vecTxDSIn.any (fun txdsin => txdsin.prevout == txin.prevout)))

/-- `CPrivatePayServer::AddEntry`: the result, the message id left in
`nMessageIDRet` (which the caller initialises to `nMessageID`), and the new state. -/
def AddEntry (env : Env) (amb : Ambient) (s : CPrivatePayServer) (entryNew : CPrivatePayEntry)
    (nMessageID : PoolMessage) : Bool × PoolMessage × CPrivatePayServer :=
  if !env.fMasterNode then (false, nMessageID, s)
  else if entryNew.vecTxDSIn.any (fun txin => txin.prevout.IsNull) then (false, ERR_INVALID_INPUT, s)
  else if !IsCollateralValid env entryNew.txCollateral then (false, ERR_INVALID_COLLATERAL, s)
  else if GetEntriesCount s ≥ GetMaxPoolTransactions then (false, ERR_ENTRIES_FULL, s)
  else if hasInputInPool s entryNew then (false, ERR_ALREADY_HAVE, s)
  else (true, MSG_ENTRIES_ADDED,
    { s with vecEntries := s.vecEntries ++ [entryNew], nTimeLastSuccessfulStep := amb.GetTimeMillis })

/-- Modelled from the spec: the comparator `CompareInputBIP69` is declared in a
header that is not among the sources; inputs are ordered by `(prevHash, prevIndex)`. -/
def CompareInputBIP69 (a b : CTxIn) : Bool :=
  if a.prevout.hash == b.prevout.hash then decide (a.prevout.n < b.prevout.n)
  else decide (a.prevout.hash < b.prevout.hash)

/-- Lexicographic "less than" on byte strings (`operator<` of the script vector). -/
def scriptLess : CScript → CScript → Bool
  | _, [] => false
  | [], _ :: _ => true
  | x :: xs, y :: ys => if x < y then true else if y < x then false else scriptLess xs ys

/-- Modelled from the spec: the comparator `CompareOutputBIP69` is declared in a
header that is not among the sources; outputs are ordered by `(value, scriptPubKey)`. -/
def CompareOutputBIP69 (a b : CTxOut) : Bool :=
  decide (a.nValue < b.nValue) || (a.nValue == b.nValue && scriptLess a.scriptPubKey b.scriptPubKey)

/-- The library call `std::sort(first, last, comp)`, modelled by insertion sort
with the same comparator. -/
def stdSort {α : Type} (comp : α → α → Bool) (l : List α) : List α :=
  l.insertionSort (fun a b => comp b a = false)

/-- The loop of `CreateFinalTransaction` that copies the outputs and the inputs
of every entry into `txNew`. -/
def collectEntries : List CPrivatePayEntry → CTransaction → CTransaction
  | [], txNew => txNew
  | entry :: rest, txNew =>
    collectEntries rest
      { txNew with
        vout := txNew.vout ++ entry.vecTxDSOut
        vin := txNew.vin ++ entry.vecTxDSIn.map CTxDSIn.toCTxIn }

/-- The transaction `CreateFinalTransaction` stores in `finalMutableTransaction`. -/
def buildFinalTransaction (vecEntries : List CPrivatePayEntry) : CTransaction :=
  let txNew := collectEntries vecEntries ⟨[], [], 0⟩
  { txNew with
    vin := stdSort CompareInputBIP69 txNew.vin
    vout := stdSort CompareOutputBIP69 txNew.vout }

/-- The loop of `RelayFinalTransaction` over the entries still to be served. -/
def relayFinalLoop (env : Env) (amb : Ambient) (s : CPrivatePayServer) (txFinal : CTransaction) :
    List CPrivatePayEntry → CPrivatePayServer × List NetMsg
  | [] => (s, [])
  | entry :: rest =>
    if env.ForNode entry.addr then
      let r := relayFinalLoop env amb s txFinal rest
      (r.1, NetMsg.PPFINALTX entry.addr s.nSessionID txFinal :: r.2)
    else RelayStatus env amb s STATUS_REJECTED MSG_NOERR

/-- `CPrivatePayServer::RelayFinalTransaction`. -/
def RelayFinalTransaction (env : Env) (amb : Ambient) (s : CPrivatePayServer)
    (txFinal : CTransaction) : CPrivatePayServer × List NetMsg :=
  relayFinalLoop env amb s txFinal s.vecEntries

/-- `CPrivatePayServer::CreateFinalTransaction`. -/
def CreateFinalTransaction (env : Env) (amb : Ambient) (s : CPrivatePayServer) :
    CPrivatePayServer × List NetMsg :=
  let s1 := { s with finalMutableTransaction := buildFinalTransaction s.vecEntries }
  let r := RelayFinalTransaction env amb s1 s1.finalMutableTransaction
  (SetState env r.1 POOL_STATE_SIGNING, r.2)

/-- The loop of `RelayCompletedTransaction` over the entries still to be served. -/
def relayCompletedLoop (env : Env) (amb : Ambient) (s : CPrivatePayServer) (nMessageID : PoolMessage) :
    List CPrivatePayEntry → CPrivatePayServer × List NetMsg
  | [] => (s, [])
  | entry :: rest =>
    if env.ForNode entry.addr then
      let r := relayCompletedLoop env amb s nMessageID rest
      (r.1, NetMsg.PPCOMPLETE entry.addr s.nSessionID nMessageID :: r.2)
    else RelayStatus env amb s STATUS_REJECTED MSG_NOERR

/-- `CPrivatePayServer::RelayCompletedTransaction`. -/
def RelayCompletedTransaction (env : Env) (amb : Ambient) (s : CPrivatePayServer)
    (nMessageID : PoolMessage) : CPrivatePayServer × List NetMsg :=
  relayCompletedLoop env amb s nMessageID s.vecEntries

/-- What handing `tx` to the mempool produces: it is relayed when accepted. -/
def submitToMempool (env : Env) (tx : CTransaction) : List NetMsg :=
  if env.AcceptToMemoryPool tx then [NetMsg.SubmitToMempool tx, NetMsg.RelayTransaction tx]
  else [NetMsg.SubmitToMempool tx]

/-- The loop of `ChargeRandomFees`; `k` counts the draws made so far. -/
def chargeRandomLoop (env : Env) (amb : Ambient) : List CTransaction → Nat → List NetMsg
  | [], _ => []
  | txCollateral :: rest, k =>
    if GetRandInt amb k 100 > 10 then []
    else submitToMempool env txCollateral ++ chargeRandomLoop env amb rest (k + 1)

/-- `CPrivatePayServer::ChargeRandomFees`. -/
def ChargeRandomFees (env : Env) (amb : Ambient) (s : CPrivatePayServer) : List NetMsg :=
  if !env.fMasterNode then [] else chargeRandomLoop env amb s.vecSessionCollaterals 0

/-- The offenders `ChargeFees` collects, in the order it collects them. -/
def vecOffendersCollaterals (s : CPrivatePayServer) : List CTransaction :=
  (if s.nState == POOL_STATE_ACCEPTING_ENTRIES then
      s.vecSessionCollaterals.filter (fun txCollateral =>
        !s.vecEntries.any (fun entry => entry.txCollateral == txCollateral))
    else []) ++
  (if s.nState == POOL_STATE_SIGNING then
      s.vecEntries.flatMap (fun entry =>
        (entry.vecTxDSIn.filter (fun txdsin => !txdsin.fHasSig)).map (fun _ => entry.txCollateral))
    else [])

/-- `CPrivatePayServer::ChargeFees`.  Draws 0 and 1 are the two `GetRandInt(100)`
gates; draw 2 stands for `std::random_shuffle`, of whose result only the first
element is used. -/
def ChargeFees (env : Env) (amb : Ambient) (s : CPrivatePayServer) : List NetMsg :=
  if !env.fMasterNode then []
  else if GetRandInt amb 0 100 > 33 then []
  else
    let offenders := vecOffendersCollaterals s
    if offenders.isEmpty then []
    else if offenders.length + 1 ≥ GetMaxPoolTransactions && GetRandInt amb 1 100 > 33 then []
    else if offenders.length ≥ GetMaxPoolTransactions then []
    else if s.nState == POOL_STATE_ACCEPTING_ENTRIES || s.nState == POOL_STATE_SIGNING then
      match offenders.get? (GetRandInt amb 2 offenders.length) with
      | some txCollateral => submitToMempool env txCollateral
      | none => []
    else []

/-- `CPrivatePayServer::IsSignaturesComplete`. -/
def IsSignaturesComplete (s : CPrivatePayServer) : Bool :=
  s.vecEntries.all (fun entry => entry.vecTxDSIn.all (fun txdsin => txdsin.fHasSig))

/-- `CPrivatePayServer::CommitFinalTransaction`.  The insertion of the signed
record into the static PPTX map and its `INV` relay are one `PPTX` output. -/
def CommitFinalTransaction (env : Env) (amb : Ambient) (s : CPrivatePayServer) :
    CPrivatePayServer × List NetMsg :=
  if !env.fMasterNode then (s, [])
  else if !amb.lockMain || !env.AcceptToMemoryPool s.finalMutableTransaction then
    RelayCompletedTransaction env amb (SetNull amb s) ERR_INVALID_TX
  else
    let r := RelayCompletedTransaction env amb s MSG_SUCCESS
    (SetNull amb r.1,
      NetMsg.PPTX s.finalMutableTransaction amb.GetAdjustedTime :: r.2 ++ ChargeRandomFees env amb r.1)

/-- `CPrivatePayServer::CheckPool`. -/
def CheckPool (env : Env) (amb : Ambient) (s : CPrivatePayServer) : CPrivatePayServer × List NetMsg :=
  if env.fMasterNode &&
      (s.nState == POOL_STATE_ACCEPTING_ENTRIES && decide (GetEntriesCount s ≥ GetMaxPoolTransactions)) then
    CreateFinalTransaction env amb s
  else if env.fMasterNode && (s.nState == POOL_STATE_SIGNING && IsSignaturesComplete s) then
    CommitFinalTransaction env amb s
  else if (s.nState == POOL_STATE_ERROR || s.nState == POOL_STATE_SUCCESS) &&
      decide (amb.GetTimeMillis - s.nTimeLastSuccessfulStep ≥ 10000) then
    (SetNull amb s, [])
  else (s, [])

/-! ## Coordinator: signatures -/

/-- The scan of `IsInputScriptSigValid` over the pooled inputs: position and
`prevPubKey` of the last input spending `prevout`, counting from `i`. -/
def findPoolInput (prevout : COutPoint) : List CTxDSIn → Nat → Option (Nat × CScript) →
    Option (Nat × CScript)
  | [], _, found => found
  | txdsin :: rest, i, found =>
    findPoolInput prevout rest (i + 1)
      (if txdsin.prevout == prevout then some (i, txdsin.prevPubKey) else found)

/-- `CPrivatePayServer::IsInputScriptSigValid`. -/
def IsInputScriptSigValid (env : Env) (s : CPrivatePayServer) (txin : CTxIn) : Bool :=
  let txNew := collectEntries s.vecEntries ⟨[], [], 0⟩
  match findPoolInput txin.prevout (s.vecEntries.flatMap (fun entry => entry.vecTxDSIn)) 0 none with
  | some (nTxInIndex, sigPubKey) =>
    let vin := txNew.vin.modify (fun t => { t with scriptSig := txin.scriptSig }) nTxInIndex
    env.VerifyScript txin.scriptSig sigPubKey { txNew with vin := vin } nTxInIndex
  | none => false

/-- `CPrivatePayEntry::AddScriptSig` on the entry's input vector. -/
def entryAddScriptSig (txin : CTxIn) : List CTxDSIn → Bool × List CTxDSIn
  | [] => (false, [])
  | txdsin :: rest =>
    if txdsin.prevout == txin.prevout && txdsin.nSequence == txin.nSequence then
      if txdsin.fHasSig then (false, txdsin :: rest)
      else (true,
        { txdsin with scriptSig := txin.scriptSig, prevPubKey := txin.prevPubKey, fHasSig := true } :: rest)
    else
      let r := entryAddScriptSig txin rest
      (r.1, txdsin :: r.2)

/-- The last loop of the coordinator's `AddScriptSig`: the first entry that
takes the signature ends the search. -/
def entriesAddScriptSig (txinNew : CTxIn) : List CPrivatePayEntry → Bool × List CPrivatePayEntry
  | [] => (false, [])
  | entry :: rest =>
    let r := entryAddScriptSig txinNew entry.vecTxDSIn
    if r.1 then (true, { entry with vecTxDSIn := r.2 } :: rest)
    else
      let q := entriesAddScriptSig txinNew rest
      (q.1, entry :: q.2)

/-- `CPrivatePayServer::AddScriptSig`. -/
def AddScriptSig (env : Env) (s : CPrivatePayServer) (txinNew : CTxIn) : Bool × CPrivatePayServer :=
  if s.vecEntries.any (fun entry =>
      entry.vecTxDSIn.any (fun txdsin => txdsin.scriptSig == txinNew.scriptSig)) then (false, s)
  else if !IsInputScriptSigValid env s txinNew then (false, s)
  else
    let vin := s.finalMutableTransaction.vin.map (fun txin =>
      if txinNew.prevout == txin.prevout && txin.nSequence == txinNew.nSequence then
        { txin with scriptSig := txinNew.scriptSig, prevPubKey := txinNew.prevPubKey }
      else txin)
    let r := entriesAddScriptSig txinNew s.vecEntries
    (r.1, { s with
      finalMutableTransaction := { s.finalMutableTransaction with vin := vin }
      vecEntries := r.2 })

/-! ## Coordinator: sessions -/

/-- The part of the masternode registry (`mnodeman`) the handlers touch. -/
structure CMasternode where
  vin : COutPoint
  addr : Nat
  pubKeyMasternode : Nat
  nLastDsq : Int
  fAllowMixingTx : Bool
deriving DecidableEq, Repr

/-- The registry: its masternodes, the counter `nDsqCount` and the value
`CountEnabled(MIN_PRIVATEPAY_PEER_PROTO_VERSION)` currently returns. -/
structure CMasternodeMan where
  vMasternodes : List CMasternode
  nDsqCount : Int
  CountEnabled : Int
deriving DecidableEq, Repr

/-- `mnodeman.Find(vin)`. -/
def CMasternodeMan.Find (mn : CMasternodeMan) (vin : COutPoint) : Option CMasternode :=
  mn.vMasternodes.find? (fun m => m.vin == vin)

/-- Build, sign and relay a queue advertisement (`dsq.Sign(); dsq.Relay()`). -/
def signedQueue (env : Env) (nDenom : Int) (nTime : Int) (fReady : Bool) : CPrivatepayQueue :=
  let vchSig := if env.fMasterNode then
      (env.SignMessage env.activeMasternodeVin nDenom nTime fReady).getD []
    else []
  ⟨nDenom, env.activeMasternodeVin, nTime, fReady, vchSig, false⟩

/-- `CPrivatePayServer::IsAcceptableDenomAndCollateral`. -/
def IsAcceptableDenomAndCollateral (env : Env) (s : CPrivatePayServer) (nDenom : Int)
    (txCollateral : CTransaction) (nMessageID : PoolMessage) : Bool × PoolMessage :=
  if !env.fMasterNode then (false, nMessageID)
  else if !(GetDenominationsBits nDenom []).1 then (false, ERR_DENOM)
  else if !s.fUnitTest && !IsCollateralValid env txCollateral then (false, ERR_INVALID_COLLATERAL)
  else (true, nMessageID)

/-- `CPrivatePayServer::CreateNewSession`. -/
def CreateNewSession (env : Env) (amb : Ambient) (s : CPrivatePayServer) (nDenom : Int)
    (txCollateral : CTransaction) (nMessageID : PoolMessage) :
    Bool × PoolMessage × CPrivatePayServer × List NetMsg :=
  if !env.fMasterNode || s.nSessionID != 0 then (false, nMessageID, s, [])
  else if s.nState != POOL_STATE_IDLE then (false, ERR_MODE, s, [])
  else
    let a := IsAcceptableDenomAndCollateral env s nDenom txCollateral nMessageID
    if !a.1 then (false, a.2, s, [])
    else
      let s1 := SetState env
        { s with nSessionID := (GetRandInt amb 0 999999 : Nat) + 1, nSessionDenom := nDenom }
        POOL_STATE_QUEUE
      let s2 := { s1 with nTimeLastSuccessfulStep := amb.GetTimeMillis }
      let dsq := signedQueue env nDenom amb.GetTime false
      let s3 := if !s.fUnitTest then { s2 with vecPrivatepayQueue := s2.vecPrivatepayQueue ++ [dsq] } else s2
      (true, MSG_NOERR,
        { s3 with vecSessionCollaterals := s3.vecSessionCollaterals ++ [txCollateral] },
        if !s.fUnitTest then [NetMsg.PPQUEUE dsq] else [])

/-- `CPrivatePayServer::AddUserToExistingSession`. -/
def AddUserToExistingSession (env : Env) (amb : Ambient) (s : CPrivatePayServer) (nDenom : Int)
    (txCollateral : CTransaction) (nMessageID : PoolMessage) :
    Bool × PoolMessage × CPrivatePayServer :=
  if !env.fMasterNode || s.nSessionID == 0 || IsSessionReady s then (false, nMessageID, s)
  else
    let a := IsAcceptableDenomAndCollateral env s nDenom txCollateral nMessageID
    if !a.1 then (false, a.2, s)
    else if s.nState != POOL_STATE_QUEUE then (false, ERR_MODE, s)
    else if nDenom != s.nSessionDenom then (false, ERR_DENOM, s)
    else (true, MSG_NOERR,
      { s with
        nTimeLastSuccessfulStep := amb.GetTimeMillis
        vecSessionCollaterals := s.vecSessionCollaterals ++ [txCollateral] })

/-- Modelled from the spec: `CPrivatepayQueue::IsExpired` is declared in
`privatepay.h`; an advertisement expires after the queue timeout. -/
def CPrivatepayQueue.IsExpired (amb : Ambient) (dsq : CPrivatepayQueue) : Bool :=
  decide (amb.GetTime - dsq.nTime > PRIVATEPAY_QUEUE_TIMEOUT)

/-- `CPrivatePayServer::CheckForCompleteQueue`. -/
def CheckForCompleteQueue (env : Env) (amb : Ambient) (s : CPrivatePayServer) :
    CPrivatePayServer × List NetMsg :=
  if !env.fMasterNode then (s, [])
  else if s.nState == POOL_STATE_QUEUE && IsSessionReady s then
    (SetState env s POOL_STATE_ACCEPTING_ENTRIES,
      [NetMsg.PPQUEUE (signedQueue env s.nSessionDenom amb.GetTime true)])
  else (s, [])

/-- `CPrivatePayServer::CheckTimeout`. -/
def CheckTimeout (env : Env) (amb : Ambient) (s : CPrivatePayServer) :
    CPrivatePayServer × List NetMsg :=
  if !amb.lockRecv then (s, [])
  else
    let s1 := { s with vecPrivatepayQueue := s.vecPrivatepayQueue.filter (fun q => !q.IsExpired amb) }
    if !env.fMasterNode then (s1, [])
    else
      let nLagTime : Int := if env.fMasterNode then 0 else 10000
      let nTimeout : Int :=
        if s1.nState == POOL_STATE_SIGNING then PRIVATEPAY_SIGNING_TIMEOUT else PRIVATEPAY_QUEUE_TIMEOUT
      let fTimeout := decide (amb.GetTimeMillis - s1.nTimeLastSuccessfulStep ≥ nTimeout * 1000 + nLagTime)
      if s1.nState != POOL_STATE_IDLE && fTimeout then
        (SetState env (SetNull amb s1) POOL_STATE_ERROR, ChargeFees env amb s1)
      else (s1, [])

/-! ## Coordinator: message dispatch -/

/-- The payloads `ProcessMessage` decodes, by command. -/
inductive Message where
  | PPACCEPT (nDenom : Int) (txCollateral : CTransaction)
  | PPQUEUE (dsq : CPrivatepayQueue)
  | PPVIN (entry : CPrivatePayEntry)
  | PPSIGNFINALTX (vecTxIn : List CTxIn)
  | other
deriving DecidableEq, Repr

/-- The output loop of the `PPVIN` check: sum the values, or stop with the
message id of the first output rejected. -/
def entryOutputs (env : Env) : List CTxOut → CAmount → Except PoolMessage CAmount
  | [], nValueOut => .ok nValueOut
  | txout :: rest, nValueOut =>
    if txout.scriptPubKey.length != 25 then .error ERR_NON_STANDARD_PUBKEY
    else if !env.IsNormalPaymentScript txout.scriptPubKey then .error ERR_INVALID_SCRIPT
    else entryOutputs env rest (nValueOut + txout.nValue)

/-- The input loop of the `PPVIN` check: sum the values of the previous outputs,
or stop at the first input whose transaction is unknown. -/
def entryInputs (env : Env) : List CTxIn → CAmount → Except PoolMessage CAmount
  | [], nValueIn => .ok nValueIn
  | txin :: rest, nValueIn =>
    match env.GetTransaction txin.prevout.hash with
    | some txPrev =>
      if txPrev.vout.length > txin.prevout.n then
        entryInputs env rest (nValueIn + (txPrev.vout.getD txin.prevout.n ⟨0, []⟩).nValue)
      else entryInputs env rest nValueIn
    | none => .error ERR_MISSING_TX

/-- The block "check it like a transaction" of the `PPVIN` branch: `none` when
the entry passes, otherwise the message id of the rejection. -/
def checkEntryLikeTransaction (env : Env) (entry : CPrivatePayEntry) : Option PoolMessage :=
  match entryOutputs env entry.vecTxDSOut 0 with
  | .error e => some e
  | .ok nValueOut =>
    match entryInputs env (entry.vecTxDSIn.map CTxDSIn.toCTxIn) 0 with
    | .error e => some e
    | .ok nValueIn =>
      let nFee := nValueIn - nValueOut
      if nFee != 0 then some ERR_FEES
      else if !env.AcceptToMemoryPool ⟨entry.vecTxDSIn.map CTxDSIn.toCTxIn, entry.vecTxDSOut, 0⟩ then
        some ERR_INVALID_TX
      else none

/-- The `PPVIN` branch of `CPrivatePayServer::ProcessMessage`. -/
def ProcessPPVIN (env : Env) (amb : Ambient) (s : CPrivatePayServer) (pfrom : CNode)
    (entry : CPrivatePayEntry) : CPrivatePayServer × List NetMsg :=
  if pfrom.nVersion < env.MIN_PRIVATEPAY_PEER_PROTO_VERSION then
    (s, [PushStatus s pfrom.addr STATUS_REJECTED ERR_VERSION])
  else if !IsSessionReady s then (s, [PushStatus s pfrom.addr STATUS_REJECTED ERR_SESSION])
  else if entry.vecTxDSIn.length > PRIVATEPAY_ENTRY_MAX_SIZE then
    (s, [PushStatus s pfrom.addr STATUS_REJECTED ERR_MAXIMUM])
  else if entry.vecTxDSOut.length > PRIVATEPAY_ENTRY_MAX_SIZE then
    (s, [PushStatus s pfrom.addr STATUS_REJECTED ERR_MAXIMUM])
  else if !IsOutputsCompatibleWithSessionDenom s entry.vecTxDSOut then
    (s, [PushStatus s pfrom.addr STATUS_REJECTED ERR_EXISTING_TX])
  else
    match checkEntryLikeTransaction env entry with
    | some e => (s, [PushStatus s pfrom.addr STATUS_REJECTED e])
    | none =>
      let r := AddEntry env amb s { entry with addr := pfrom.addr } MSG_NOERR
      if r.1 then
        let s1 := r.2.2
        let c := CheckPool env amb s1
        let q := RelayStatus env amb c.1 STATUS_ACCEPTED MSG_NOERR
        (q.1, PushStatus s1 pfrom.addr STATUS_ACCEPTED r.2.1 :: c.2 ++ q.2)
      else (SetNull amb r.2.2, [PushStatus r.2.2 pfrom.addr STATUS_REJECTED r.2.1])

/-- The `PPACCEPT` branch of `CPrivatePayServer::ProcessMessage`. -/
def ProcessPPACCEPT (env : Env) (amb : Ambient) (mn : CMasternodeMan) (s : CPrivatePayServer)
    (pfrom : CNode) (nDenom : Int) (txCollateral : CTransaction) : CPrivatePayServer × List NetMsg :=
  if pfrom.nVersion < env.MIN_PRIVATEPAY_PEER_PROTO_VERSION then
    (s, [PushStatus s pfrom.addr STATUS_REJECTED ERR_VERSION])
  else if IsSessionReady s then (s, [PushStatus s pfrom.addr STATUS_ACCEPTED ERR_QUEUE_FULL])
  else
    match mn.Find env.activeMasternodeVin with
    | none => (s, [PushStatus s pfrom.addr STATUS_REJECTED ERR_MN_LIST])
    | some pmn =>
      if s.vecSessionCollaterals.length == 0 && pmn.nLastDsq != 0 &&
          decide (pmn.nLastDsq + Int.tdiv mn.CountEnabled 5 > mn.nDsqCount) then
        (s, [PushStatus s pfrom.addr STATUS_REJECTED ERR_RECENT])
      else if s.nSessionID == 0 then
        let r := CreateNewSession env amb s nDenom txCollateral MSG_NOERR
        (r.2.2.1, r.2.2.2 ++
          [PushStatus r.2.2.1 pfrom.addr (if r.1 then STATUS_ACCEPTED else STATUS_REJECTED) r.2.1])
      else
        let r := AddUserToExistingSession env amb s nDenom txCollateral MSG_NOERR
        (r.2.2, [PushStatus r.2.2 pfrom.addr (if r.1 then STATUS_ACCEPTED else STATUS_REJECTED) r.2.1])

/-- The `PPQUEUE` branch of `CPrivatePayServer::ProcessMessage`; it also updates
the masternode registry.  `nThreshold` is an `int`. -/
def ProcessPPQUEUE (env : Env) (amb : Ambient) (mn : CMasternodeMan) (s : CPrivatePayServer)
    (pfrom : CNode) (dsq : CPrivatepayQueue) : CPrivatePayServer × CMasternodeMan × List NetMsg :=
  if !amb.lockRecv then (s, mn, [])
  else if pfrom.nVersion < env.MIN_PRIVATEPAY_PEER_PROTO_VERSION then (s, mn, [])
  else if s.vecPrivatepayQueue.any (fun q => q.sameAs dsq) then (s, mn, [])
  else if dsq.IsExpired amb || decide (dsq.nTime > amb.GetTime + PRIVATEPAY_QUEUE_TIMEOUT) then (s, mn, [])
  else
    match mn.Find dsq.vin with
    | none => (s, mn, [])
    | some pmn =>
      if !env.VerifyMessage pmn.pubKeyMasternode dsq.vchSig dsq.vin dsq.nDenom dsq.nTime dsq.fReady then
        (s, mn, [NetMsg.AskForMN pfrom.addr dsq.vin])
      else if !dsq.fReady then
        if s.vecPrivatepayQueue.any (fun q => q.vin == dsq.vin) then (s, mn, [])
        else if pmn.nLastDsq != 0 &&
            decide (toInt32 (pmn.nLastDsq + Int.tdiv mn.CountEnabled 5) > mn.nDsqCount) then (s, mn, [])
        else
          let nDsqCount := mn.nDsqCount + 1
          let i := mn.vMasternodes.findIdx (fun m => m.vin == dsq.vin)
          let mn1 : CMasternodeMan :=
            { mn with
              nDsqCount := nDsqCount
              vMasternodes := mn.vMasternodes.modify
                (fun m => { m with nLastDsq := nDsqCount, fAllowMixingTx := true }) i }
          ({ s with vecPrivatepayQueue := s.vecPrivatepayQueue ++ [dsq] }, mn1, [NetMsg.PPQUEUE dsq])
      else (s, mn, [])

/-- The loop of the `PPSIGNFINALTX` branch over the submitted inputs. -/
def addScriptSigs (env : Env) (amb : Ambient) : List CTxIn → CPrivatePayServer →
    CPrivatePayServer × List NetMsg
  | [], s => CheckPool env amb s
  | txin :: rest, s =>
    let r := AddScriptSig env s txin
    if !r.1 then RelayStatus env amb r.2 STATUS_REJECTED MSG_NOERR
    else addScriptSigs env amb rest r.2

/-- `CPrivatePayServer::ProcessMessage`. -/
def ProcessMessage (env : Env) (amb : Ambient) (mn : CMasternodeMan) (s : CPrivatePayServer)
    (pfrom : CNode) (msg : Message) : CPrivatePayServer × CMasternodeMan × List NetMsg :=
  if !env.fMasterNode then (s, mn, [])
  else if env.fLiteMode then (s, mn, [])
  else if !env.IsBlockchainSynced then (s, mn, [])
  else
    match msg with
    | .PPACCEPT nDenom txCollateral =>
      let r := ProcessPPACCEPT env amb mn s pfrom nDenom txCollateral
      (r.1, mn, r.2)
    | .PPQUEUE dsq => ProcessPPQUEUE env amb mn s pfrom dsq
    | .PPVIN entry =>
      let r := ProcessPPVIN env amb s pfrom entry
      (r.1, mn, r.2)
    | .PPSIGNFINALTX vecTxIn =>
      if pfrom.nVersion < env.MIN_PRIVATEPAY_PEER_PROTO_VERSION then (s, mn, [])
      else
        let r := addScriptSigs env amb vecTxIn s
        (r.1, mn, r.2)
    | .other => (s, mn, [])

/-! ## Reachable coordinator states -/

/-- The coordinator as constructed: everything null, empty queue. -/
def initialServer : CPrivatePayServer :=
  { nState := POOL_STATE_IDLE
    nSessionID := 0
    nSessionDenom := 0
    vecEntries := []
    finalMutableTransaction := ⟨[], [], 0⟩
    nTimeLastSuccessfulStep := 0
    vecSessionCollaterals := []
    vecPrivatepayQueue := []
    fUnitTest := false }

/-- What can happen to the coordinator: a message arrives from a peer, or one
of the two periodic checks of `ThreadCheckPrivatePayServer` runs. -/
inductive Event where
  | message (pfrom : CNode) (msg : Message)
  | checkTimeout
  | checkForCompleteQueue
deriving DecidableEq, Repr

/-- One step of the coordinator under the surroundings `amb` and registry `mn`. -/
def step (env : Env) (amb : Ambient) (mn : CMasternodeMan) (s : CPrivatePayServer) :
    Event → CPrivatePayServer × List NetMsg
  | .message pfrom msg =>
    let r := ProcessMessage env amb mn s pfrom msg
    (r.1, r.2.2)
  | .checkTimeout => CheckTimeout env amb s
  | .checkForCompleteQueue => CheckForCompleteQueue env amb s

/-- The states the coordinator can be in: the initial one and every state a
step leads to, whatever the clocks, draws and registry content at that step. -/
inductive Reachable (env : Env) : CPrivatePayServer → Prop where
  | init (nTime : Int) : Reachable env { initialServer with nTimeLastSuccessfulStep := nTime }
  | step {s : CPrivatePayServer} (amb : Ambient) (mn : CMasternodeMan) (ev : Event) :
      Reachable env s → Reachable env (step env amb mn s ev).1

/-! ## Orders and sums used to state the session properties -/

/-- Ascending order of inputs by `(prevHash, prevIndex)`. -/
def inputOrder (a b : CTxIn) : Prop :=
  a.prevout.hash < b.prevout.hash ∨ (a.prevout.hash = b.prevout.hash ∧ a.prevout.n ≤ b.prevout.n)

/-- Ascending order of outputs by `(value, scriptPubKey)`, scripts being
compared as byte strings. -/
def outputOrder (a b : CTxOut) : Prop :=
  a.nValue < b.nValue ∨ (a.nValue = b.nValue ∧ scriptLess b.scriptPubKey a.scriptPubKey = false)

/-- All inputs of all entries, in pool order, as plain transaction inputs. -/
def poolInputs (vecEntries : List CPrivatePayEntry) : List CTxIn :=
  vecEntries.flatMap (fun entry => entry.vecTxDSIn.map CTxDSIn.toCTxIn)

/-- All outputs of all entries, in pool order. -/
def poolOutputs (vecEntries : List CPrivatePayEntry) : List CTxOut :=
  vecEntries.flatMap (fun entry => entry.vecTxDSOut)

/-- The states generated from the initial one by the elementary updates the
coordinator's handlers are composed of.  Every reachable state is of this kind
(`Reachable.built`), so a property kept by each elementary update holds in
every reachable state. -/
inductive Built (env : Env) : CPrivatePayServer → Prop where
  | init (nTime : Int) : Built env { initialServer with nTimeLastSuccessfulStep := nTime }
  | setNull {s : CPrivatePayServer} (amb : Ambient) : Built env s → Built env (SetNull amb s)
  | setState {s : CPrivatePayServer} (st : PoolState) :
      Built env s → st ≠ POOL_STATE_IDLE → Built env (SetState env s st)
  | setQueue {s : CPrivatePayServer} (q : List CPrivatepayQueue) :
      Built env s → Built env { s with vecPrivatepayQueue := q }
  | createNewSession {s : CPrivatePayServer} (amb : Ambient) (nDenom : Int) (tx : CTransaction)
      (m : PoolMessage) : Built env s → Built env (CreateNewSession env amb s nDenom tx m).2.2.1
  | addUser {s : CPrivatePayServer} (amb : Ambient) (nDenom : Int) (tx : CTransaction)
      (m : PoolMessage) : Built env s → Built env (AddUserToExistingSession env amb s nDenom tx m).2.2
  | addEntry {s : CPrivatePayServer} (amb : Ambient) (entry : CPrivatePayEntry) :
      Built env s → IsSessionReady s = true →
      entry.vecTxDSIn.length ≤ PRIVATEPAY_ENTRY_MAX_SIZE →
      entry.vecTxDSOut.length ≤ PRIVATEPAY_ENTRY_MAX_SIZE →
      IsOutputsCompatibleWithSessionDenom s entry.vecTxDSOut = true →
      checkEntryLikeTransaction env entry = none →
      Built env (AddEntry env amb s entry MSG_NOERR).2.2
  | setFinal {s : CPrivatePayServer} :
      Built env s → Built env { s with finalMutableTransaction := buildFinalTransaction s.vecEntries }
  | addScriptSig {s : CPrivatePayServer} (txin : CTxIn) :
      Built env s → Built env (AddScriptSig env s txin).2

/-- Total of the previous-output values of a list of inputs, as the input loops
of the coordinator add it up. -/
def valueIn (env : Env) (vin : List CTxIn) : CAmount := (vin.map (prevOutValue env)).sum

/-- Total of the values of a list of outputs. -/
def valueOut (vout : List CTxOut) : CAmount := (vout.map (fun o => o.nValue)).sum

/-- What an entry spends and pays: the outpoints of its inputs and its outputs. -/
def entryShape (entry : CPrivatePayEntry) : List COutPoint × List CTxOut :=
  (entry.vecTxDSIn.map (fun txdsin => txdsin.prevout), entry.vecTxDSOut)

/-! ## A concrete coordinator run, used to exercise the statements -/

/-- Run a sequence of events from state `s`, all under the same surroundings. -/
def run (env : Env) (amb : Ambient) (mn : CMasternodeMan) (s : CPrivatePayServer) :
    List Event → CPrivatePayServer
  | [] => s
  | ev :: rest => run env amb mn (step env amb mn s ev).1 rest

/-- A 25-byte pay-to-pubkey-hash script (with a null key hash). -/
def demoScript : CScript := [118, 169, 20] ++ List.replicate 20 0 ++ [136, 172]

/-- A confirmed transaction with three outputs of 1.00001, three of 10.0001 and
three of 0.002 coins. -/
def demoFunding : CTransaction :=
  ⟨[], [⟨100001000, demoScript⟩, ⟨100001000, demoScript⟩, ⟨100001000, demoScript⟩,
        ⟨1000010000, demoScript⟩, ⟨1000010000, demoScript⟩, ⟨1000010000, demoScript⟩,
        ⟨200000, demoScript⟩, ⟨200000, demoScript⟩, ⟨200000, demoScript⟩], 0⟩

/-- A coordinator environment: the chain knows `demoFunding` under hash 1, the
mempool accepts transactions that have outputs and spend each outpoint once,
and every peer is connected. -/
def demoEnv : Env :=
  { fMasterNode := true
    fLiteMode := false
    IsBlockchainSynced := true
    MIN_PRIVATEPAY_PEER_PROTO_VERSION := 70206
    CollateralAmount := 100000
    GetTransaction := fun h => if h = 1 then some demoFunding else none
    AcceptToMemoryPool := fun tx =>
      !tx.vout.isEmpty && decide ((tx.vin.map (fun t => t.prevout)).Nodup)
    IsNormalPaymentScript := fun sc => sc.length == 25
    ForNode := fun _ => true
    VerifyScript := fun _ _ _ _ => true
    SignMessage := fun _ _ _ _ => some [1]
    VerifyMessage := fun _ _ _ _ _ _ => true
    activeMasternodeVin := ⟨7, 0⟩ }

/-- Clocks at one second, all draws 0, locks obtained. -/
def demoAmbient : Ambient := ⟨1000, 1, 1, fun _ => 0, true, true⟩

/-- A registry that knows the active masternode, which has not advertised yet. -/
def demoRegistry : CMasternodeMan := ⟨[⟨⟨7, 0⟩, 100, 5, 0, false⟩], 0, 10⟩

/-- The peer at address `a`, with a current protocol version. -/
def demoPeer (a : Nat) : CNode := ⟨a, 70206⟩

/-- The collateral of participant `k`: it spends a 0.002 output of `demoFunding`
and pays 0.001, leaving a fee equal to the collateral amount. -/
def demoCollateral (k : Nat) : CTransaction :=
  ⟨[⟨⟨1, 6 + k⟩, [], 4294967295, []⟩], [⟨100000, demoScript⟩], 0⟩

/-- The entry of participant `k` mixing output `n` of `demoFunding` into an
output of `nValue`. -/
def demoEntry (k n : Nat) (nValue : CAmount) : CPrivatePayEntry :=
  ⟨[⟨⟨⟨1, n⟩, [], 4294967295, []⟩, false⟩], [⟨nValue, demoScript⟩], demoCollateral k, 0⟩

/-- Participant `k` asks to join a session of denomination mask `nDenom`. -/
def demoAccept (k : Nat) (nDenom : Int) : Event :=
  .message (demoPeer (10 + k)) (.PPACCEPT nDenom (demoCollateral k))

/-- Participant `k` submits `demoEntry k n nValue`. -/
def demoSubmit (k n : Nat) (nValue : CAmount) : Event :=
  .message (demoPeer (10 + k)) (.PPVIN (demoEntry k n nValue))

/-- The coordinator after three participants joined a session for the 10.0001
denomination (mask `0b0001`): state `QUEUE`, session ready. -/
def demoQueueFull : CPrivatePayServer :=
  run demoEnv demoAmbient demoRegistry { initialServer with nTimeLastSuccessfulStep := 0 }
    [demoAccept 0 1, demoAccept 1 1, demoAccept 2 1]

/-- The same session once `CheckForCompleteQueue` has run: `ACCEPTING_ENTRIES`. -/
def demoAccepting : CPrivatePayServer :=
  run demoEnv demoAmbient demoRegistry demoQueueFull [.checkForCompleteQueue]

/-- Whether a message is a status update that carries `ERR_MAXIMUM`. -/
def NetMsg.isMaximumReject : NetMsg → Bool
  | .PPSTATUSUPDATE _ _ _ _ _ .ERR_MAXIMUM => true
  | _ => false

/-- The coordinator once the three participants have submitted entries of the
1.00001 denomination (mask `0b0010`) to the session opened for mask `0b0001`. -/
def demoSigning : CPrivatePayServer :=
  run demoEnv demoAmbient demoRegistry demoAccepting
    [demoSubmit 0 0 100001000, demoSubmit 1 1 100001000, demoSubmit 2 2 100001000]

/-- The demonstration session with the entries of the first two participants. -/
def demoTwoEntries : CPrivatePayServer :=
  run demoEnv demoAmbient demoRegistry demoAccepting
    [demoSubmit 0 0 100001000, demoSubmit 1 1 100001000]

/-- An environment like `demoEnv` whose mempool refuses transactions with three
or more inputs, as it does a joint transaction that has become invalid. -/
def demoEnvRefusing : Env :=
  { demoEnv with
    AcceptToMemoryPool := fun tx => demoEnv.AcceptToMemoryPool tx && decide (tx.vin.length < 3) }

/-- Participant `k` returns the signature of its input `n` of `demoFunding`. -/
def demoSign (k n : Nat) : Event :=
  .message (demoPeer (10 + k)) (.PPSIGNFINALTX [⟨⟨1, n⟩, [48, k + 1], 4294967295, demoScript⟩])

/-- Under `demoEnvRefusing`: three participants joined, submitted their entries
(each mixing one 10.0001 output), and two of them have signed. -/
def demoTwoSigned : CPrivatePayServer :=
  run demoEnvRefusing demoAmbient demoRegistry { initialServer with nTimeLastSuccessfulStep := 0 }
    [demoAccept 0 1, demoAccept 1 1, demoAccept 2 1, .checkForCompleteQueue,
      demoSubmit 0 3 1000010000, demoSubmit 1 4 1000010000, demoSubmit 2 5 1000010000,
      demoSign 0 3, demoSign 1 4]

/-- A confirmed transaction with five outputs of 10.0001 coins. -/
def demoFundingWide : CTransaction :=
  ⟨[], [⟨1000010000, demoScript⟩, ⟨1000010000, demoScript⟩, ⟨1000010000, demoScript⟩,
        ⟨1000010000, demoScript⟩, ⟨1000010000, demoScript⟩], 0⟩

/-- The environment `demoEnv` with `demoFundingWide` known under hash 2. -/
def demoEnvWide : Env :=
  { demoEnv with
    GetTransaction := fun h =>
      if h = 1 then some demoFunding else if h = 2 then some demoFundingWide else none }

/-- Participant `k` submits an entry mixing output `n` of `demoFundingWide`. -/
def demoSubmitWide (k n : Nat) : Event :=
  .message (demoPeer (10 + k))
    (.PPVIN ⟨[⟨⟨⟨2, n⟩, [], 4294967295, []⟩, false⟩], [⟨1000010000, demoScript⟩], demoCollateral k, 0⟩)

/-- Participant `k` submits an entry mixing outputs 2, 3 and 4 of `demoFundingWide`. -/
def demoSubmitThree (k : Nat) : Event :=
  .message (demoPeer (10 + k))
    (.PPVIN ⟨[⟨⟨⟨2, 2⟩, [], 4294967295, []⟩, false⟩, ⟨⟨⟨2, 3⟩, [], 4294967295, []⟩, false⟩,
        ⟨⟨⟨2, 4⟩, [], 4294967295, []⟩, false⟩],
      [⟨1000010000, demoScript⟩, ⟨1000010000, demoScript⟩, ⟨1000010000, demoScript⟩],
      demoCollateral k, 0⟩)

/-- Participant `k` returns the signature of its input `n` of `demoFundingWide`. -/
def demoSignWide (k n : Nat) : Event :=
  .message (demoPeer (10 + k)) (.PPSIGNFINALTX [⟨⟨2, n⟩, [48, k + 1], 4294967295, demoScript⟩])

/-- Under `demoEnvWide`: participants 0 and 1 mix one input each and have
signed; participant 2 mixes three inputs and has signed none of them. -/
def demoOneNonSigner : CPrivatePayServer :=
  run demoEnvWide demoAmbient demoRegistry { initialServer with nTimeLastSuccessfulStep := 0 }
    [demoAccept 0 1, demoAccept 1 1, demoAccept 2 1, .checkForCompleteQueue,
      demoSubmitWide 0 0, demoSubmitWide 1 1, demoSubmitThree 2,
      demoSignWide 0 0, demoSignWide 1 1]

/-- The surroundings `demoAmbient` one minute later. -/
def demoAmbientLate : Ambient := { demoAmbient with GetTimeMillis := 61000, GetTime := 61 }

/-- Surroundings in which the first draw is 50 and all later draws are 0. -/
def demoAmbientStop : Ambient := { demoAmbient with rand := fun k => if k = 0 then 50 else 0 }

/-- A registry in which the active masternode advertised at count 100, with 25
masternodes enabled and the counter at 104. -/
def demoRegistryRecent : CMasternodeMan := ⟨[⟨⟨7, 0⟩, 100, 5, 100, false⟩], 104, 25⟩

/-- The coordinator after the first participant joined. -/
def demoOneJoined : CPrivatePayServer :=
  run demoEnv demoAmbient demoRegistry { initialServer with nTimeLastSuccessfulStep := 0 }
    [demoAccept 0 1]

/-! ## Client (`privatepay-client.cpp`) -/

/-- What the client keeps of a masternode (`masternode_info_t`). -/
structure masternode_info_t where
  fInfoValid : Bool
  vin : COutPoint
  addr : Nat
  pubKeyMasternode : Nat
  nLastDsq : Int
deriving DecidableEq, Repr

/-- The default-constructed `masternode_info_t()`. -/
def masternode_info_t.null : masternode_info_t := ⟨false, ⟨0, 4294967295⟩, 0, 0, 0⟩

/-- Modelled from the spec: `mnodeman.GetMasternodeInfo(vin)` is defined outside the
sources; it returns the registry's data on the masternode, valid when it is known. -/
def CMasternodeMan.GetMasternodeInfo (mn : CMasternodeMan) (vin : COutPoint) : masternode_info_t :=
  match mn.Find vin with
  | some m => ⟨true, m.vin, m.addr, m.pubKeyMasternode, m.nLastDsq⟩
  | none => masternode_info_t.null

/-- Modelled from the spec: `mnodeman.UpdateLastDsq(vin)` is defined outside the
sources; it records the current `nDsqCount` as the masternode's `nLastDsq` and
fails (`none`) when the masternode is not known. -/
def CMasternodeMan.UpdateLastDsq (mn : CMasternodeMan) (vin : COutPoint) : Option CMasternodeMan :=
  match mn.Find vin with
  | some _ =>
    some { mn with
      vMasternodes := mn.vMasternodes.modify
        (fun m => { m with nLastDsq := mn.nDsqCount, fAllowMixingTx := true })
        (mn.vMasternodes.findIdx (fun m => m.vin == vin)) }
  | none => none

/-- The wallet as far as the mixing client touches it here: its locked coins. -/
structure CWallet where
  setLockedCoins : List COutPoint
deriving DecidableEq, Repr

/-- The wallet call `UnlockCoin(outpoint)`. -/
def CWallet.UnlockCoin (w : CWallet) (outpoint : COutPoint) : CWallet :=
  { w with setLockedCoins := w.setLockedCoins.filter (fun o => o != outpoint) }

/-- The client object (`CPrivatePayClient` with its `CPrivatePayBase` part), as
far as the functions embedded here use it, together with the global
`fEnablePrivatePay`.  The status text `strAutoDenomResult` is left out, and so
are `nCachedLastSuccessBlock` and `vecMasternodesUsed`: what the code decides
from them is an input of the call that decides it. -/
structure CPrivatePayClient where
  nState : PoolState
  nSessionID : Int
  nSessionDenom : Int
  vecEntries : List CPrivatePayEntry
  finalMutableTransaction : CTransaction
  nTimeLastSuccessfulStep : Int
  nEntriesCount : Int
  fLastEntryAccepted : Bool
  infoMixingMasternode : masternode_info_t
  vecOutPointLocked : List COutPoint
  vecPrivatepayQueue : List CPrivatepayQueue
  strLastMessage : String := ""
  txMyCollateral : CTransaction := ⟨[], [], 0⟩
  fEnablePrivatePay : Bool := true
deriving DecidableEq, Repr

/-- Collaborators of the client: the process flags, signature checking of
advertisements and the wallet's signing. -/
structure ClientEnv where
  /-- Global `fMasterNode`. -/
  fMasterNode : Bool
  /-- Global `fLiteMode`. -/
  fLiteMode : Bool
  /-- The answer of `masternodeSync.IsBlockchainSynced()`. -/
  IsBlockchainSynced : Bool
  /-- The constant `MIN_PRIVATEPAY_PEER_PROTO_VERSION`. -/
  MIN_PRIVATEPAY_PEER_PROTO_VERSION : Int
  /-- Verification of a queue signature against a masternode public key. -/
  VerifyMessage : Nat → List Nat → COutPoint → Int → Int → Bool → Bool
  /-- The `scriptSig` that `SignSignature(keystore, prevPubKey, tx, nIn, hashType)`
  leaves on input `nIn`. -/
  SignSignature : CScript → CTransaction → Nat → CScript

namespace CPrivatePayClient

/-- `CPrivatePayClient::SetNull` (which ends in `CPrivatePayBase::SetNull`). -/
def SetNull (amb : Ambient) (c : CPrivatePayClient) : CPrivatePayClient :=
  { c with
    nEntriesCount := 0
    fLastEntryAccepted := false
    infoMixingMasternode := masternode_info_t.null
    nState := POOL_STATE_IDLE
    nSessionID := 0
    nSessionDenom := 0
    vecEntries := []
    finalMutableTransaction := { c.finalMutableTransaction with vin := [], vout := [] }
    nTimeLastSuccessfulStep := amb.GetTimeMillis }

/-- `CPrivatePayClient::SetState`. -/
def SetState (c : CPrivatePayClient) (nStateNew : PoolState) : CPrivatePayClient :=
  { c with nState := nStateNew }

/-- `CPrivatePayClient::UnlockCoins`, the wallet lock being obtained: every
outpoint of `vecOutPointLocked` is unlocked in the wallet and the vector cleared. -/
def UnlockCoins (c : CPrivatePayClient) (w : CWallet) : CPrivatePayClient × CWallet :=
  ({ c with vecOutPointLocked := [] }, c.vecOutPointLocked.foldl CWallet.UnlockCoin w)

end CPrivatePayClient

/-- Modelled from the spec: `operator==` of `CTxIn` is declared in a header that
is not among the sources; an input is present in a transaction when outpoint,
`scriptSig` and `nSequence` agree (`prevPubKey` is kept in memory only). -/
def CTxIn.sameAs (a b : CTxIn) : Bool :=
  a.prevout == b.prevout && a.scriptSig == b.scriptSig && a.nSequence == b.nSequence

/-- The search of `SignFinalTransaction` for `txdsin` among the inputs of the
final transaction: the last position that holds it, counting from `i`. -/
def findMyInput (txdsin : CTxDSIn) : List CTxIn → Nat → Option Nat → Option Nat
  | [], _, found => found
  | txin :: rest, i, found =>
    findMyInput txdsin rest (i + 1) (if txin.sameAs txdsin.toCTxIn then some i else found)

/-- The nested loops of `SignFinalTransaction` over the outputs of the final
transaction and the outputs of the entry: `nFoundOutputsCount` and `nValue1`. -/
def countFoundOutputs (vecTxDSOut : List CTxOut) : List CTxOut → Nat × CAmount → Nat × CAmount
  | [], found => found
  | o :: rest, found =>
    countFoundOutputs vecTxDSOut rest
      (vecTxDSOut.foldl (fun f txout => if o == txout then (f.1 + 1, f.2 + o.nValue) else f) found)

/-- The loop of `SignFinalTransaction` over the inputs of one entry.  The result
is false when the client refuses to sign; it carries the final transaction as
signed so far and the signatures collected. -/
def signEntryInputs (cenv : ClientEnv) (entry : CPrivatePayEntry) :
    List CTxDSIn → CTransaction → List CTxIn → Bool × CTransaction × List CTxIn
  | [], tx, sigs => (true, tx, sigs)
  | txdsin :: rest, tx, sigs =>
    match findMyInput txdsin tx.vin 0 none with
    | some nMyInputIndex =>
      let found := countFoundOutputs entry.vecTxDSOut tx.vout (0, 0)
      let nValue2 := (entry.vecTxDSOut.map (fun txout => txout.nValue)).sum
      if found.1 < entry.vecTxDSOut.length || found.2 != nValue2 then (false, tx, sigs)
      else
        let tx1 := { tx with
          vin := tx.vin.modify
            (fun t => { t with scriptSig := cenv.SignSignature txdsin.prevPubKey tx nMyInputIndex })
            nMyInputIndex }
        match tx1.vin.get? nMyInputIndex with
        | some txin => signEntryInputs cenv entry rest tx1 (sigs ++ [txin])
        | none => signEntryInputs cenv entry rest tx1 sigs
    | none => signEntryInputs cenv entry rest tx sigs

/-- The loop of `SignFinalTransaction` over the client's entries. -/
def signEntries (cenv : ClientEnv) :
    List CPrivatePayEntry → CTransaction → List CTxIn → Bool × CTransaction × List CTxIn
  | [], tx, sigs => (true, tx, sigs)
  | entry :: rest, tx, sigs =>
    let r := signEntryInputs cenv entry entry.vecTxDSIn tx sigs
    if r.1 then signEntries cenv rest r.2.1 r.2.2 else r

/-- `CPrivatePayClient::SignFinalTransaction(finalTransactionNew, pnode)`; `pnode`
is `none` for a null pointer.  The result is the boolean returned, the client
and the wallet afterwards, and the messages pushed. -/
def CPrivatePayClient.SignFinalTransaction (cenv : ClientEnv) (amb : Ambient)
    (c : CPrivatePayClient) (w : CWallet) (finalTransactionNew : CTransaction)
    (pnode : Option CNode) : Bool × CPrivatePayClient × CWallet × List NetMsg :=
  match pnode with
  | none => (false, c, w, [])
  | some node =>
    if cenv.fMasterNode then (false, c, w, [])
    else
      let r := signEntries cenv c.vecEntries finalTransactionNew []
      let c1 := { c with finalMutableTransaction := r.2.1 }
      if !r.1 || r.2.2.isEmpty then
        let u := c1.UnlockCoins w
        (false, u.1.SetNull amb, u.2, [])
      else
        (true, { c1.SetState POOL_STATE_SIGNING with nTimeLastSuccessfulStep := amb.GetTimeMillis },
          w, [NetMsg.PPSIGNFINALTX node.addr r.2.2])

/-- A pay-to-pubkey-hash script of the owner numbered `k`. -/
def demoPay (k : Nat) : CScript := [118, 169, 20] ++ List.replicate 19 0 ++ [k] ++ [136, 172]

/-- A client environment: a wallet node whose keystore leaves the signature
`[48, nIn]` on the input `nIn` it signs. -/
def demoClientEnv : ClientEnv :=
  { fMasterNode := false
    fLiteMode := false
    IsBlockchainSynced := true
    MIN_PRIVATEPAY_PEER_PROTO_VERSION := 70206
    VerifyMessage := fun _ _ _ _ _ _ => true
    SignSignature := fun _ _ nIn => [48, nIn] }

/-- The entry of a client that mixes two 10.0001 outputs of transaction 3 into
two fresh outputs of its own. -/
def demoMixEntry : CPrivatePayEntry :=
  ⟨[⟨⟨⟨3, 0⟩, [], 4294967295, demoScript⟩, false⟩, ⟨⟨⟨3, 1⟩, [], 4294967295, demoScript⟩, false⟩],
    [⟨1000010000, demoPay 1⟩, ⟨1000010000, demoPay 2⟩], demoCollateral 0, 0⟩

/-- A client that has submitted `demoMixEntry` to the masternode at address 100
and has locked the two coins it mixes. -/
def demoClient : CPrivatePayClient :=
  { nState := POOL_STATE_ACCEPTING_ENTRIES
    nSessionID := 7
    nSessionDenom := 1
    vecEntries := [demoMixEntry]
    finalMutableTransaction := ⟨[], [], 0⟩
    nTimeLastSuccessfulStep := 0
    nEntriesCount := 1
    fLastEntryAccepted := true
    infoMixingMasternode := ⟨true, ⟨7, 0⟩, 100, 5, 0⟩
    vecOutPointLocked := [⟨3, 0⟩, ⟨3, 1⟩]
    vecPrivatepayQueue := [] }

/-- The wallet of `demoClient`: the two mixed coins and one other coin are locked. -/
def demoWallet : CWallet := ⟨[⟨3, 0⟩, ⟨3, 1⟩, ⟨9, 9⟩]⟩

/-- A final transaction that holds the first input of `demoMixEntry` but not the
second, with both outputs of the entry and two outputs of another participant. -/
def demoFinalMissingInput : CTransaction :=
  ⟨[⟨⟨3, 0⟩, [], 4294967295, []⟩, ⟨⟨4, 0⟩, [], 4294967295, []⟩],
    [⟨1000010000, demoPay 1⟩, ⟨1000010000, demoPay 2⟩, ⟨1000010000, demoPay 3⟩,
      ⟨1000010000, demoPay 4⟩], 0⟩

/-- A final transaction that holds both inputs of `demoMixEntry` and pays its
first output twice, its second output not at all. -/
def demoFinalDuplicateOutput : CTransaction :=
  ⟨[⟨⟨3, 0⟩, [], 4294967295, []⟩, ⟨⟨3, 1⟩, [], 4294967295, []⟩, ⟨⟨4, 0⟩, [], 4294967295, []⟩],
    [⟨1000010000, demoPay 1⟩, ⟨1000010000, demoPay 1⟩, ⟨1000010000, demoPay 3⟩], 0⟩

/-- A final transaction that holds both inputs of `demoMixEntry`, its first
output, and its second output with the value reduced by 1. -/
def demoFinalReduced : CTransaction :=
  ⟨[⟨⟨3, 0⟩, [], 4294967295, []⟩, ⟨⟨3, 1⟩, [], 4294967295, []⟩, ⟨⟨4, 0⟩, [], 4294967295, []⟩],
    [⟨1000010000, demoPay 1⟩, ⟨1000009999, demoPay 2⟩, ⟨1000010000, demoPay 3⟩], 0⟩

/-- A registry of 25 enabled masternodes, of which it lists the active one and
the masternode `(8, 0)` that advertised at count 100; the counter is at `nDsqCount`. -/
def demoRegistryAt (nDsqCount : Int) : CMasternodeMan :=
  ⟨[⟨⟨7, 0⟩, 100, 5, 0, false⟩, ⟨⟨8, 0⟩, 101, 6, 100, false⟩], nDsqCount, 25⟩

/-- A non-ready advertisement of the masternode `(8, 0)` made at time 1. -/
def demoQueue : CPrivatepayQueue := ⟨1, ⟨8, 0⟩, 1, false, [1], false⟩

/-- A client that mixes with nobody and has seen no advertisement. -/
def demoIdleClient : CPrivatePayClient :=
  { nState := POOL_STATE_IDLE
    nSessionID := 0
    nSessionDenom := 0
    vecEntries := []
    finalMutableTransaction := ⟨[], [], 0⟩
    nTimeLastSuccessfulStep := 0
    nEntriesCount := 0
    fLastEntryAccepted := false
    infoMixingMasternode := masternode_info_t.null
    vecOutPointLocked := []
    vecPrivatepayQueue := [] }

/-! ## Broadcast mixing transactions and single random masks (`privatepay.cpp`) -/

/-- A broadcast mixing transaction (`CPrivatepayBroadcastTx`); `nConfirmedHeight`
is `-1` while the transaction is not confirmed. -/
structure CPrivatepayBroadcastTx where
  tx : CTransaction
  vin : COutPoint
  vchSig : List Nat
  sigTime : Int
  nConfirmedHeight : Int
deriving DecidableEq, Repr

/-- `CPrivatepayBroadcastTx::IsExpired(nHeight)`. -/
def CPrivatepayBroadcastTx.IsExpired (pptx : CPrivatepayBroadcastTx) (nHeight : Int) : Bool :=
  pptx.nConfirmedHeight != -1 && decide (nHeight - pptx.nConfirmedHeight > 24)

/-- `CPrivatePay::CheckPPTXes(nHeight)` on the content of `mapPPTX`, given as
the list of its `(hash, record)` pairs in key order; the result is the content
afterwards. -/
def CheckPPTXes : List (Nat × CPrivatepayBroadcastTx) → Int → List (Nat × CPrivatepayBroadcastTx)
  | [], _ => []
  | it :: rest, nHeight =>
    if it.2.IsExpired nHeight then CheckPPTXes rest nHeight
    else it :: CheckPPTXes rest nHeight

/-- `CPrivatePay::GetDenominationsByAmounts(vecAmount)`; `rand k` is the value
drawn by the `k`-th call of `GetRandInt(2)`. -/
def GetDenominationsByAmounts (vecAmount : List CAmount) (rand : Nat → Nat) : Int :=
  let scriptTmp : CScript := []
  let vecTxOut : List CTxOut := vecAmount.reverse.map (fun nAmount => ⟨nAmount, scriptTmp⟩)
  GetDenominations vecTxOut true rand

/-! ## Client: submitting to a session -/

/-- The wallet call `LockCoin(outpoint)`; the locked coins are a set. -/
def CWallet.LockCoin (w : CWallet) (outpoint : COutPoint) : CWallet :=
  if w.setLockedCoins.contains outpoint then w
  else { w with setLockedCoins := w.setLockedCoins ++ [outpoint] }

/-- `CPrivatePay::GetMessageByID`, the translation `_()` being the identity. -/
def GetMessageByID : PoolMessage → String
  | ERR_ALREADY_HAVE => "Already have that input."
  | ERR_DENOM => "No matching denominations found for mixing."
  | ERR_ENTRIES_FULL => "Entries are full."
  | ERR_EXISTING_TX => "Not compatible with existing transactions."
  | ERR_FEES => "Transaction fees are too high."
  | ERR_INVALID_COLLATERAL => "Collateral not valid."
  | ERR_INVALID_INPUT => "Input is not valid."
  | ERR_INVALID_SCRIPT => "Invalid script detected."
  | ERR_INVALID_TX => "Transaction not valid."
  | ERR_MAXIMUM => "Entry exceeds maximum size."
  | ERR_MN_LIST => "Not in the Masternode list."
  | ERR_MODE => "Incompatible mode."
  | ERR_NON_STANDARD_PUBKEY => "Non-standard public key detected."
  | ERR_NOT_A_MN => "This is not a Masternode."
  | ERR_QUEUE_FULL => "Masternode queue is full."
  | ERR_RECENT => "Last PrivatePay was too recent."
  | ERR_SESSION => "Session not complete!"
  | ERR_MISSING_TX => "Missing input transaction information."
  | ERR_VERSION => "Incompatible version."
  | MSG_NOERR => "No errors detected."
  | MSG_SUCCESS => "Transaction created successfully."
  | MSG_ENTRIES_ADDED => "Your entries added successfully."

/-- What a call of the client learns, while it runs, from the wallet, the
settings, the disk, the mempool, the chain and the network. -/
structure ClientCalls where
  /-- Whether `pwalletMain` is set. -/
  fWallet : Bool
  /-- The answer of `pwalletMain->IsLocked(true)`. -/
  IsLocked : Bool
  /-- The setting `nPrivatePayRounds`. -/
  nPrivatePayRounds : Nat
  /-- The wallet's `SelectCoinsByDenominations` for a mask, a smallest value, a
  largest total and a range of rounds: the boolean result, the inputs selected,
  each with the value of the coin it spends (`vecTxIn` and `vCoins`), and the
  total `nValueIn`. -/
  SelectCoinsByDenominations : Int → CAmount → CAmount → Int → Int →
    Bool × List (CTxIn × CAmount) × CAmount
  /-- The constant `CPrivatePay::GetMaxPoolAmount()`. -/
  GetMaxPoolAmount : CAmount
  /-- The script paying to the `k`-th key reserved from the key pool. -/
  GetReservedKey : Nat → CScript
  /-- The answer of `CheckDiskSpace()`. -/
  CheckDiskSpace : Bool
  /-- Mempool acceptance of the client's partial transaction. -/
  AcceptToMemoryPool : CTransaction → Bool
  /-- Whether `g_connman->ForNode(addr, ...)` finds the node. -/
  ForNode : Nat → Bool
  /-- Whether `pCurrentBlockIndex` is set. -/
  fHaveTip : Bool
  /-- The answer of `masternodeSync.IsMasternodeListSynced()`. -/
  IsMasternodeListSynced : Bool
  /-- `nWalletBackups` as `CheckAutomaticBackup` reads it. -/
  nWalletBackups : Int
  /-- Whether `nKeysLeftSinceAutoBackup < PRIVATEPAY_KEYS_THRESHOLD_STOP`. -/
  fKeysBelowStop : Bool
  /-- Whether `nKeysLeftSinceAutoBackup < PRIVATEPAY_KEYS_THRESHOLD_WARNING`. -/
  fKeysBelowWarning : Bool
  /-- The setting `fCreateAutoBackups`. -/
  fCreateAutoBackups : Bool
  /-- Whether `AutoBackupWallet` fails with a non-empty error text. -/
  fAutoBackupError : Bool
  /-- The `fDryRun` argument of `DoAutomaticDenominating`. -/
  fDryRun : Bool
  /-- The setting `fPrivatePayMultiSession`. -/
  fPrivatePayMultiSession : Bool
  /-- Whether `nHeight - nCachedLastSuccessBlock < nMinBlockSpacing` at the tip. -/
  fLastSuccessTooRecent : Bool
  /-- `CPrivatePay::GetSmallestDenomination()`. -/
  GetSmallestDenomination : CAmount
  /-- `CPrivatePay::GetMaxCollateralAmount()`. -/
  GetMaxCollateralAmount : CAmount
  /-- `CPrivatePay::GetCollateralAmount()`. -/
  GetCollateralAmount : CAmount
  /-- `pwalletMain->HasCollateralInputs(fOnlyConfirmed)`. -/
  HasCollateralInputs : Bool → Bool
  /-- `pwalletMain->GetNeedsToBeAnonymizedBalance(nValueMin)`. -/
  GetNeedsToBeAnonymizedBalance : CAmount → CAmount
  /-- `pwalletMain->GetAnonymizableBalance(true)`. -/
  GetAnonymizableBalance : CAmount
  /-- `pwalletMain->GetDenominatedBalance(fUnconfirmed)`. -/
  GetDenominatedBalance : Bool → CAmount
  /-- The setting `nPrivatePayAmount`. -/
  nPrivatePayAmount : Int
  /-- The result of `CreateDenominated(connman)`. -/
  CreateDenominated : Bool
  /-- The result of `MakeCollateralAmounts(connman)`. -/
  MakeCollateralAmounts : Bool
  /-- The wallet's `CreateCollateralTransaction`: the boolean result and the
  transaction it leaves in `txMyCollateral`. -/
  CreateCollateralTransaction : Bool × CTransaction
  /-- The answer of `CPrivatePay::IsCollateralValid` for the client's collateral. -/
  IsCollateralValid : CTransaction → Bool
  /-- The setting `nLiquidityProvider`, as a boolean. -/
  nLiquidityProvider : Bool
  /-- The protocol version the registry holds for a masternode. -/
  nProtocolVersion : COutPoint → Int
  /-- Whether the node found at an address is marked `fDisconnect`. -/
  fDisconnect : Nat → Bool
  /-- Whether a masternode connection to an address is at hand or can be made
  (`pnodeFound` or `ConnectNode`). -/
  ConnectNode : Nat → Bool
  /-- The wallet's `SelectCoinsDark`: the boolean result and the amounts of the
  inputs selected (`ConvertList`). -/
  SelectCoinsDark : CAmount → CAmount → Bool × List CAmount
  /-- The answer of `mnodeman.FindRandomNotInVec` in the `k`-th attempt. -/
  FindRandomNotInVec : Nat → masternode_info_t
  /-- The draws of `GetRandInt(2)` in the `k`-th call of `GetDenominationsByAmounts`. -/
  randDenom : Nat → Nat → Nat
  /-- How many calls of `GetDenominationsByAmounts` are followed before the
  call is given up as not returning. -/
  nDenomCalls : Nat

/-- State of the selection loop of `PrepareDenominate`: the candidate inputs
left (`vecTxIn` with `vCoins`), the two result vectors, `nValueLeft`, and the
number of keys taken from the key pool. -/
structure DenomLoop where
  coins : List (CTxIn × CAmount)
  vecTxInRet : List CTxIn
  vecTxOutRet : List CTxOut
  nValueLeft : CAmount
  nKeys : Nat

/-- The innermost loop of `PrepareDenominate`: the first candidate worth
`nValueDenom` and the candidates without it. -/
def takeCoin (nValueDenom : CAmount) : List (CTxIn × CAmount) → Option (CTxIn × List (CTxIn × CAmount))
  | [] => none
  | coin :: rest =>
    if coin.2 = nValueDenom then some (coin.1, rest)
    else
      match takeCoin nValueDenom rest with
      | some r => some (r.1, coin :: r.2)
      | none => none

/-- The loop of `PrepareDenominate` over the bits of the session mask. -/
def denomBits (calls : ClientCalls) : List Nat → DenomLoop → DenomLoop
  | [], st => st
  | nBit :: rest, st =>
    let nValueDenom := vecStandardDenominations.getD nBit 0
    if st.nValueLeft - nValueDenom < 0 then denomBits calls rest st
    else
      match takeCoin nValueDenom st.coins with
      | some r =>
        denomBits calls rest
          { coins := r.2
            vecTxInRet := st.vecTxInRet ++ [r.1]
            vecTxOutRet := st.vecTxOutRet ++ [⟨nValueDenom, calls.GetReservedKey st.nKeys⟩]
            nValueLeft := st.nValueLeft - nValueDenom
            nKeys := st.nKeys + 1 }
      | none => denomBits calls rest st

/-- The `while (nStep < nStepsMax)` loop of `PrepareDenominate`, with the number
of steps left. -/
def denomSteps (calls : ClientCalls) (vecBits : List Nat) : Nat → DenomLoop → DenomLoop
  | 0, st => st
  | n + 1, st =>
    let st1 := denomBits calls vecBits st
    if st1.nValueLeft = 0 then st1 else denomSteps calls vecBits n st1

namespace CPrivatePayClient

/-- `CPrivatePayClient::PrepareDenominate(nMinRounds, nMaxRounds, ...)`; `k` is
the number of the draw it makes.  The result is the boolean returned, the
wallet afterwards and the content of the two out-vectors, which the call clears
before it selects coins (the three returns made before that leave them as the
caller passed them, empty in `SubmitDenominate`, and are given `[]` here); the
error text, which goes to the log and the status text only, is left out. -/
def PrepareDenominate (amb : Ambient) (calls : ClientCalls) (c : CPrivatePayClient) (w : CWallet)
    (nMinRounds nMaxRounds : Int) (k : Nat) : Bool × CWallet × List CTxIn × List CTxOut :=
  if !calls.fWallet then (false, w, [], [])
  else if calls.IsLocked then (false, w, [], [])
  else if c.vecEntries.length > 0 then (false, w, [], [])
  else
    let bits := GetDenominationsBits c.nSessionDenom []
    if !bits.1 then (false, w, [], [])
    else
      let sel := calls.SelectCoinsByDenominations c.nSessionDenom
        (vecStandardDenominations.getD (bits.2.headD 0) 0) calls.GetMaxPoolAmount nMinRounds nMaxRounds
      if decide (nMinRounds ≥ 0) && !sel.1 then (false, w, [], [])
      else
        let w1 := (sel.2.1.map (fun coin => coin.1.prevout)).foldl CWallet.LockCoin w
        let nStepsMax := 5 + GetRandInt amb k (PRIVATEPAY_ENTRY_MAX_SIZE - 5 + 1)
        let st := denomSteps calls bits.2 nStepsMax
          { coins := sel.2.1, vecTxInRet := [], vecTxOutRet := [], nValueLeft := sel.2.2, nKeys := 0 }
        let w2 := (st.coins.map (fun coin => coin.1.prevout)).foldl CWallet.UnlockCoin w1
        if GetDenominations st.vecTxOutRet false amb.rand != c.nSessionDenom then
          (false, (st.vecTxInRet.map (fun txin => txin.prevout)).foldl CWallet.UnlockCoin w2,
            st.vecTxInRet, st.vecTxOutRet)
        else (true, w2, st.vecTxInRet, st.vecTxOutRet)

/-- `CPrivatePayClient::RelayIn(entry)`: the entry goes to the mixing masternode
when the client has one and the node is found. -/
def RelayIn (calls : ClientCalls) (c : CPrivatePayClient) (entry : CPrivatePayEntry) : List NetMsg :=
  if !c.infoMixingMasternode.fInfoValid then []
  else if calls.ForNode c.infoMixingMasternode.addr then
    [NetMsg.PPVIN c.infoMixingMasternode.addr entry]
  else []

/-- `CPrivatePayClient::SendDenominate(vecTxIn, vecTxOut)`.  The result is the
boolean returned, the client and the wallet afterwards, and the messages
pushed; the priority given to the partial transaction in the mempool is left out. -/
def SendDenominate (cenv : ClientEnv) (amb : Ambient) (calls : ClientCalls) (c : CPrivatePayClient)
    (w : CWallet) (vecTxIn : List CTxIn) (vecTxOut : List CTxOut) :
    Bool × CPrivatePayClient × CWallet × List NetMsg :=
  if cenv.fMasterNode then (false, c, w, [])
  else if c.txMyCollateral == ⟨[], [], 0⟩ then (false, c, w, [])
  else
    let c1 : CPrivatePayClient := { c with
      vecOutPointLocked := c.vecOutPointLocked ++
        c.txMyCollateral.vin.map (fun txin => txin.prevout) ++ vecTxIn.map (fun txin => txin.prevout) }
    if c1.nSessionID == 0 then
      let u := c1.UnlockCoins w
      (false, u.1.SetNull amb, u.2, [])
    else if !calls.CheckDiskSpace then
      let u := c1.UnlockCoins w
      (false, { u.1.SetNull amb with fEnablePrivatePay := false }, u.2, [])
    else
      let c2 : CPrivatePayClient :=
        { c1.SetState POOL_STATE_ACCEPTING_ENTRIES with strLastMessage := "" }
      let tx : CTransaction := ⟨vecTxIn, vecTxOut, 0⟩
      if !amb.lockMain || !calls.AcceptToMemoryPool tx then
        let u := c2.UnlockCoins w
        (false, u.1.SetNull amb, u.2, [])
      else
        let entry : CPrivatePayEntry :=
          ⟨vecTxIn.map (fun txin => ⟨txin, false⟩), vecTxOut, c2.txMyCollateral, 0⟩
        let c3 : CPrivatePayClient := { c2 with vecEntries := c2.vecEntries ++ [entry] }
        (true, { c3 with nTimeLastSuccessfulStep := amb.GetTimeMillis }, w, c3.RelayIn calls entry)

/-- The loop of `SubmitDenominate` over the numbers of rounds `i`, `i - 1`, ...,
1: the outcome of the first `PrepareDenominate(i - 1, i)` that succeeds. -/
def prepareByRounds (amb : Ambient) (calls : ClientCalls) (c : CPrivatePayClient) :
    Nat → CWallet → Bool × CWallet × List CTxIn × List CTxOut
  | 0, w => (false, w, [], [])
  | i + 1, w =>
    let r := c.PrepareDenominate amb calls w i (i + 1) (i + 1)
    if r.1 then r else prepareByRounds amb calls c i r.2.1

/-- `CPrivatePayClient::SubmitDenominate()`. -/
def SubmitDenominate (cenv : ClientEnv) (amb : Ambient) (calls : ClientCalls) (c : CPrivatePayClient)
    (w : CWallet) : Bool × CPrivatePayClient × CWallet × List NetMsg :=
  let r := prepareByRounds amb calls c calls.nPrivatePayRounds w
  if r.1 then c.SendDenominate cenv amb calls r.2.1 r.2.2.1 r.2.2.2
  else
    let r1 := c.PrepareDenominate amb calls r.2.1 0 calls.nPrivatePayRounds 0
    if r1.1 then c.SendDenominate cenv amb calls r1.2.1 r1.2.2.1 r1.2.2.2
    else (false, c, r1.2.1, [])

/-- `CPrivatePayClient::CheckPool`. -/
def CheckPool (amb : Ambient) (c : CPrivatePayClient) (w : CWallet) : CPrivatePayClient × CWallet :=
  if (c.nState == POOL_STATE_ERROR || c.nState == POOL_STATE_SUCCESS) &&
      decide (amb.GetTimeMillis - c.nTimeLastSuccessfulStep ≥ 10000) then
    let u := c.UnlockCoins w
    (u.1.SetNull amb, u.2)
  else (c, w)

/-- `CPrivatePayClient::CheckTimeout`. -/
def CheckTimeout (cenv : ClientEnv) (amb : Ambient) (c : CPrivatePayClient) (w : CWallet) :
    CPrivatePayClient × CWallet :=
  if !amb.lockRecv then (c, w)
  else
    let c1 : CPrivatePayClient :=
      { c with vecPrivatepayQueue := c.vecPrivatepayQueue.filter (fun q => !q.IsExpired amb) }
    if !c1.fEnablePrivatePay && !cenv.fMasterNode then (c1, w)
    else
      let r : CPrivatePayClient × CWallet :=
        if !cenv.fMasterNode then
          match c1.nState with
          | POOL_STATE_ERROR => c1.CheckPool amb w
          | POOL_STATE_SUCCESS => c1.CheckPool amb w
          | _ => (c1, w)
        else (c1, w)
      let nLagTime : Int := if cenv.fMasterNode then 0 else 10000
      let nTimeout : Int :=
        if r.1.nState == POOL_STATE_SIGNING then PRIVATEPAY_SIGNING_TIMEOUT else PRIVATEPAY_QUEUE_TIMEOUT
      let fTimeout := decide (amb.GetTimeMillis - r.1.nTimeLastSuccessfulStep ≥ nTimeout * 1000 + nLagTime)
      if r.1.nState != POOL_STATE_IDLE && fTimeout then
        let u := r.1.UnlockCoins r.2
        ({ (u.1.SetNull amb).SetState POOL_STATE_ERROR with strLastMessage := "Session timed out." }, u.2)
      else r

/-- `CPrivatePayClient::CheckPoolStateUpdate`. -/
def CheckPoolStateUpdate (cenv : ClientEnv) (amb : Ambient) (c : CPrivatePayClient) (w : CWallet)
    (nStateNew : PoolState) (nEntriesCountNew : Int) (nStatusUpdate : PoolStatusUpdate)
    (nMessageID : PoolMessage) (nSessionIDNew : Int) : Bool × CPrivatePayClient × CWallet :=
  if cenv.fMasterNode then (false, c, w)
  else if c.nState == POOL_STATE_IDLE || c.nState == POOL_STATE_ERROR ||
      c.nState == POOL_STATE_SUCCESS then (false, c, w)
  else if nStatusUpdate == STATUS_REJECTED then
    let u := c.UnlockCoins w
    (true,
      { (u.1.SetNull amb).SetState POOL_STATE_ERROR with strLastMessage := GetMessageByID nMessageID },
      u.2)
  else if nStatusUpdate == STATUS_ACCEPTED && c.nState == nStateNew then
    if nStateNew == POOL_STATE_QUEUE && c.nSessionID == 0 && nSessionIDNew != 0 then
      (true, { c with nSessionID := nSessionIDNew, nTimeLastSuccessfulStep := amb.GetTimeMillis }, w)
    else if nStateNew == POOL_STATE_ACCEPTING_ENTRIES && c.nEntriesCount != nEntriesCountNew then
      (true,
        { c with
          nEntriesCount := nEntriesCountNew
          nTimeLastSuccessfulStep := amb.GetTimeMillis
          fLastEntryAccepted := true }, w)
    else (false, c, w)
  else (false, c, w)

/-- `CPrivatePayClient::CompletedTransaction(nMessageID)`. -/
def CompletedTransaction (cenv : ClientEnv) (amb : Ambient) (c : CPrivatePayClient) (w : CWallet)
    (nMessageID : PoolMessage) : CPrivatePayClient × CWallet :=
  if cenv.fMasterNode then (c, w)
  else
    let u := c.UnlockCoins w
    ({ u.1.SetNull amb with strLastMessage := GetMessageByID nMessageID }, u.2)

/-- `CPrivatePayClient::ResetPool`. -/
def ResetPool (amb : Ambient) (c : CPrivatePayClient) (w : CWallet) : CPrivatePayClient × CWallet :=
  let c1 : CPrivatePayClient := { c with txMyCollateral := ⟨[], [], 0⟩ }
  let u := c1.UnlockCoins w
  (u.1.SetNull amb, u.2)

end CPrivatePayClient

/-! ## Client: looking for a session -/

namespace CPrivatePayClient

/-- `CPrivatePayClient::CheckAutomaticBackup`; where the source switches
`fEnablePrivatePay` off, so does the client returned. -/
def CheckAutomaticBackup (calls : ClientCalls) (c : CPrivatePayClient) : Bool × CPrivatePayClient :=
  if calls.nWalletBackups == 0 then (false, { c with fEnablePrivatePay := false })
  else if calls.nWalletBackups == -1 then (false, c)
  else if calls.nWalletBackups == -2 then (false, c)
  else if calls.fKeysBelowStop then (false, { c with fEnablePrivatePay := false })
  else if calls.fKeysBelowWarning then
    if calls.fCreateAutoBackups then
      if calls.fAutoBackupError then (false, c) else (true, c)
    else (false, c)
  else (true, c)

/-- The loop of `JoinExistingQueue` over `vecPrivatepayQueue`: `done` holds the
advertisements already passed, with their `fTried` flags as the loop left them. -/
def joinQueueLoop (cenv : ClientEnv) (amb : Ambient) (calls : ClientCalls) (mn : CMasternodeMan)
    (c : CPrivatePayClient) (nBalanceNeedsAnonymized : CAmount) :
    List CPrivatepayQueue → List CPrivatepayQueue → Bool × CPrivatePayClient × List NetMsg
  | done, [] => (false, { c with vecPrivatepayQueue := done }, [])
  | done, dsq :: rest =>
    if dsq.fTried then joinQueueLoop cenv amb calls mn c nBalanceNeedsAnonymized (done ++ [dsq]) rest
    else
      let dsq1 : CPrivatepayQueue := { dsq with fTried := true }
      let infoMn := mn.GetMasternodeInfo dsq1.vin
      let bits := GetDenominationsBits dsq1.nDenom []
      if dsq1.IsExpired amb then
        joinQueueLoop cenv amb calls mn c nBalanceNeedsAnonymized (done ++ [dsq1]) rest
      else if !infoMn.fInfoValid then
        joinQueueLoop cenv amb calls mn c nBalanceNeedsAnonymized (done ++ [dsq1]) rest
      else if calls.nProtocolVersion dsq1.vin < cenv.MIN_PRIVATEPAY_PEER_PROTO_VERSION then
        joinQueueLoop cenv amb calls mn c nBalanceNeedsAnonymized (done ++ [dsq1]) rest
      else if !bits.1 then
        joinQueueLoop cenv amb calls mn c nBalanceNeedsAnonymized (done ++ [dsq1]) rest
      else if !(calls.SelectCoinsByDenominations dsq1.nDenom
          (vecStandardDenominations.getD (bits.2.headD 0) 0) nBalanceNeedsAnonymized 0
          calls.nPrivatePayRounds).1 then
        joinQueueLoop cenv amb calls mn c nBalanceNeedsAnonymized (done ++ [dsq1]) rest
      else if calls.fDisconnect infoMn.addr then
        joinQueueLoop cenv amb calls mn c nBalanceNeedsAnonymized (done ++ [dsq1]) rest
      else if calls.ConnectNode infoMn.addr then
        (true,
          { c with
            vecPrivatepayQueue := done ++ dsq1 :: rest
            infoMixingMasternode := infoMn
            nSessionDenom := dsq1.nDenom
            nState := POOL_STATE_QUEUE
            nTimeLastSuccessfulStep := amb.GetTimeMillis },
          [NetMsg.PPACCEPT infoMn.addr dsq1.nDenom c.txMyCollateral])
      else joinQueueLoop cenv amb calls mn c nBalanceNeedsAnonymized (done ++ [dsq1]) rest

/-- `CPrivatePayClient::JoinExistingQueue(nBalanceNeedsAnonymized)`. -/
def JoinExistingQueue (cenv : ClientEnv) (amb : Ambient) (calls : ClientCalls) (mn : CMasternodeMan)
    (c : CPrivatePayClient) (nBalanceNeedsAnonymized : CAmount) :
    Bool × CPrivatePayClient × List NetMsg :=
  joinQueueLoop cenv amb calls mn c nBalanceNeedsAnonymized [] c.vecPrivatepayQueue

/-- The loop `while(nSessionDenom == 0)` of `StartNewQueue`, which calls
`GetDenominationsByAmounts` until the mask is not 0; `none` when it is still 0
after the calls followed. -/
def pickSessionDenom (calls : ClientCalls) (vecAmounts : List CAmount) : Nat → Nat → Int → Option Int
  | 0, _, nSessionDenom => if nSessionDenom != 0 then some nSessionDenom else none
  | n + 1, k, nSessionDenom =>
    if nSessionDenom != 0 then some nSessionDenom
    else pickSessionDenom calls vecAmounts n (k + 1)
      (GetDenominationsByAmounts vecAmounts (calls.randDenom k))

/-- The loop `while(nTries < 10)` of `StartNewQueue`, with the number of tries
left and the number of the attempt; `none` when the call does not return. -/
def startQueueTries (amb : Ambient) (calls : ClientCalls) (mn : CMasternodeMan)
    (c : CPrivatePayClient) (vecAmounts : List CAmount) :
    Nat → Nat → Option (Bool × CPrivatePayClient × List NetMsg)
  | 0, _ => some (false, c, [])
  | n + 1, k =>
    let infoMn := calls.FindRandomNotInVec k
    if !infoMn.fInfoValid then some (false, c, [])
    else if infoMn.nLastDsq != 0 &&
        decide (infoMn.nLastDsq + Int.tdiv mn.CountEnabled 5 > mn.nDsqCount) then
      startQueueTries amb calls mn c vecAmounts n (k + 1)
    else if calls.fDisconnect infoMn.addr then startQueueTries amb calls mn c vecAmounts n (k + 1)
    else if calls.ConnectNode infoMn.addr then
      match pickSessionDenom calls vecAmounts calls.nDenomCalls 0 c.nSessionDenom with
      | none => none
      | some nSessionDenom =>
        some (true,
          { c with
            infoMixingMasternode := infoMn
            nSessionDenom := nSessionDenom
            nState := POOL_STATE_QUEUE
            nTimeLastSuccessfulStep := amb.GetTimeMillis },
          [NetMsg.PPACCEPT infoMn.addr nSessionDenom c.txMyCollateral])
    else startQueueTries amb calls mn c vecAmounts n (k + 1)

/-- `CPrivatePayClient::StartNewQueue(nValueMin, nBalanceNeedsAnonymized)`. -/
def StartNewQueue (amb : Ambient) (calls : ClientCalls) (mn : CMasternodeMan)
    (c : CPrivatePayClient) (nValueMin nBalanceNeedsAnonymized : CAmount) :
    Option (Bool × CPrivatePayClient × List NetMsg) :=
  let sel := calls.SelectCoinsDark nValueMin nBalanceNeedsAnonymized
  if !sel.1 then some (false, c, [])
  else startQueueTries amb calls mn c sel.2 10 0

/-- `CPrivatePayClient::DoAutomaticDenominating(connman, fDryRun)`: the boolean
returned, the client and the wallet afterwards and the messages pushed; `none`
when the call does not return. -/
def DoAutomaticDenominating (cenv : ClientEnv) (amb : Ambient) (calls : ClientCalls)
    (mn : CMasternodeMan) (c : CPrivatePayClient) (w : CWallet) :
    Option (Bool × CPrivatePayClient × CWallet × List NetMsg) :=
  if !c.fEnablePrivatePay || cenv.fMasterNode || !calls.fHaveTip then some (false, c, w, [])
  else if !calls.fWallet || calls.IsLocked then some (false, c, w, [])
  else if c.nState != POOL_STATE_IDLE then some (false, c, w, [])
  else if !calls.IsMasternodeListSynced then some (false, c, w, [])
  else
    let b := c.CheckAutomaticBackup calls
    let c0 := b.2
    let nValueMin : CAmount := calls.GetSmallestDenomination +
      (if !calls.HasCollateralInputs true then calls.GetMaxCollateralAmount else 0)
    let nBalanceNeedsAnonymized := calls.GetNeedsToBeAnonymizedBalance nValueMin
    let nBalanceAnonimizableNonDenom := calls.GetAnonymizableBalance
    let nBalanceDenominatedConf := calls.GetDenominatedBalance false
    let nBalanceDenominatedUnconf := calls.GetDenominatedBalance true
    let nBalanceDenominated := nBalanceDenominatedConf + nBalanceDenominatedUnconf
    if !b.1 then some (false, b.2, w, [])
    else if c0.vecEntries.length > 0 then some (false, c0, w, [])
    else if !amb.lockRecv then some (false, c0, w, [])
    else if !calls.fDryRun && calls.IsLocked then some (false, c0, w, [])
    else if !calls.fPrivatePayMultiSession && calls.fLastSuccessTooRecent then some (false, c0, w, [])
    else if mn.vMasternodes.length == 0 then some (false, c0, w, [])
    else if nBalanceNeedsAnonymized < nValueMin then some (false, c0, w, [])
    else if calls.fDryRun then some (true, c0, w, [])
    else if decide (nBalanceAnonimizableNonDenom ≥ nValueMin + calls.GetCollateralAmount) &&
        decide (nBalanceDenominated < calls.nPrivatePayAmount * COIN) then
      some (calls.CreateDenominated, c0, w, [])
    else if !calls.HasCollateralInputs true then
      some (!calls.HasCollateralInputs false && calls.MakeCollateralAmounts, c0, w, [])
    else if c0.nSessionID != 0 then some (false, c0, w, [])
    else
      let u := c0.UnlockCoins w
      let c1 := u.1.SetNull amb
      if !calls.fPrivatePayMultiSession && decide (nBalanceDenominatedUnconf > 0) then
        some (false, c1, u.2, [])
      else
        let fCreate : Bool :=
          c1.txMyCollateral == ⟨[], [], 0⟩ || !calls.IsCollateralValid c1.txMyCollateral
        let c2 : CPrivatePayClient :=
          if fCreate then { c1 with txMyCollateral := calls.CreateCollateralTransaction.2 } else c1
        if fCreate && !calls.CreateCollateralTransaction.1 then some (false, c2, u.2, [])
        else
          let fUseQueue := decide (GetRandInt amb 0 100 > 33)
          let j : Bool × CPrivatePayClient × List NetMsg :=
            if calls.nLiquidityProvider || fUseQueue then
              c2.JoinExistingQueue cenv amb calls mn nBalanceNeedsAnonymized
            else (false, c2, [])
          if j.1 then some (true, j.2.1, u.2, j.2.2)
          else if calls.nLiquidityProvider then some (false, j.2.1, u.2, j.2.2)
          else
            match j.2.1.StartNewQueue amb calls mn nValueMin nBalanceNeedsAnonymized with
            | none => none
            | some r => some (r.1, r.2.1, u.2, j.2.2 ++ r.2.2)

/-- The `PPQUEUE` branch of `CPrivatePayClient::ProcessMessage`; it also updates
the masternode registry.  `nThreshold` is an `int`. -/
def ProcessPPQUEUE (cenv : ClientEnv) (amb : Ambient) (calls : ClientCalls) (mn : CMasternodeMan)
    (c : CPrivatePayClient) (w : CWallet) (pfrom : CNode) (dsq : CPrivatepayQueue) :
    CPrivatePayClient × CWallet × CMasternodeMan × List NetMsg :=
  if !amb.lockRecv then (c, w, mn, [])
  else if pfrom.nVersion < cenv.MIN_PRIVATEPAY_PEER_PROTO_VERSION then (c, w, mn, [])
  else if c.vecPrivatepayQueue.any (fun q => q.sameAs dsq) then (c, w, mn, [])
  else if dsq.IsExpired amb || decide (dsq.nTime > amb.GetTime + PRIVATEPAY_QUEUE_TIMEOUT) then
    (c, w, mn, [])
  else
    let infoMn := mn.GetMasternodeInfo dsq.vin
    if !infoMn.fInfoValid then (c, w, mn, [])
    else if !cenv.VerifyMessage infoMn.pubKeyMasternode dsq.vchSig dsq.vin dsq.nDenom dsq.nTime
        dsq.fReady then
      (c, w, mn, [NetMsg.AskForMN pfrom.addr dsq.vin])
    else if dsq.fReady then
      if !c.infoMixingMasternode.fInfoValid then (c, w, mn, [])
      else if c.infoMixingMasternode.addr != infoMn.addr then (c, w, mn, [])
      else if c.nState == POOL_STATE_QUEUE then
        let r := c.SubmitDenominate cenv amb calls w
        (r.2.1, r.2.2.1, mn, r.2.2.2)
      else (c, w, mn, [])
    else if c.vecPrivatepayQueue.any (fun q => q.vin == dsq.vin) then (c, w, mn, [])
    else if infoMn.nLastDsq != 0 &&
        decide (toInt32 (infoMn.nLastDsq + Int.tdiv mn.CountEnabled 5) > mn.nDsqCount) then
      (c, w, mn, [])
    else
      let mn1 : CMasternodeMan := { mn with nDsqCount := mn.nDsqCount + 1 }
      match mn1.UpdateLastDsq dsq.vin with
      | none => (c, w, mn1, [])
      | some mn2 =>
        let dsq1 : CPrivatepayQueue :=
          if c.infoMixingMasternode.fInfoValid && c.infoMixingMasternode.vin == dsq.vin then
            { dsq with fTried := true }
          else dsq
        ({ c with vecPrivatepayQueue := c.vecPrivatepayQueue ++ [dsq1] }, w, mn2,
          [NetMsg.PPQUEUE dsq1])

end CPrivatePayClient

/-- The payloads the client's `ProcessMessage` decodes, by command.  The
integers of a status update and of a completion arrive checked against the
bounds of their enumerations; a payload here is one that passes these checks. -/
inductive ClientMessage where
  | PPQUEUE (dsq : CPrivatepayQueue)
  | PPSTATUSUPDATE (nMsgSessionID : Int) (nMsgState : PoolState) (nMsgEntriesCount : Int)
      (nMsgStatusUpdate : PoolStatusUpdate) (nMsgMessageID : PoolMessage)
  | PPFINALTX (nMsgSessionID : Int) (txNew : CTransaction)
  | PPCOMPLETE (nMsgSessionID : Int) (nMsgMessageID : PoolMessage)
  | other
deriving DecidableEq, Repr

/-- The client side of a wallet node: the mixing client and the wallet's locks. -/
structure ClientNode where
  client : CPrivatePayClient
  wallet : CWallet
deriving DecidableEq, Repr

/-- `CPrivatePayClient::ProcessMessage`. -/
def CPrivatePayClient.ProcessMessage (cenv : ClientEnv) (amb : Ambient) (calls : ClientCalls)
    (mn : CMasternodeMan) (node : ClientNode) (pfrom : CNode) (msg : ClientMessage) :
    ClientNode × List NetMsg :=
  if cenv.fMasterNode then (node, [])
  else if cenv.fLiteMode then (node, [])
  else if !cenv.IsBlockchainSynced then (node, [])
  else
    match msg with
    | .PPQUEUE dsq =>
      let r := node.client.ProcessPPQUEUE cenv amb calls mn node.wallet pfrom dsq
      (⟨r.1, r.2.1⟩, r.2.2.2)
    | .PPSTATUSUPDATE nMsgSessionID nMsgState nMsgEntriesCount nMsgStatusUpdate nMsgMessageID =>
      if pfrom.nVersion < cenv.MIN_PRIVATEPAY_PEER_PROTO_VERSION then (node, [])
      else if !node.client.infoMixingMasternode.fInfoValid then (node, [])
      else if node.client.infoMixingMasternode.addr != pfrom.addr then (node, [])
      else
        let r := node.client.CheckPoolStateUpdate cenv amb node.wallet nMsgState nMsgEntriesCount
          nMsgStatusUpdate nMsgMessageID nMsgSessionID
        (⟨r.2.1, r.2.2⟩, [])
    | .PPFINALTX nMsgSessionID txNew =>
      if pfrom.nVersion < cenv.MIN_PRIVATEPAY_PEER_PROTO_VERSION then (node, [])
      else if !node.client.infoMixingMasternode.fInfoValid then (node, [])
      else if node.client.infoMixingMasternode.addr != pfrom.addr then (node, [])
      else if node.client.nSessionID != nMsgSessionID then (node, [])
      else
        let r := node.client.SignFinalTransaction cenv amb node.wallet txNew (some pfrom)
        (⟨r.2.1, r.2.2.1⟩, r.2.2.2)
    | .PPCOMPLETE nMsgSessionID nMsgMessageID =>
      if pfrom.nVersion < cenv.MIN_PRIVATEPAY_PEER_PROTO_VERSION then (node, [])
      else if !node.client.infoMixingMasternode.fInfoValid then (node, [])
      else if node.client.infoMixingMasternode.addr != pfrom.addr then (node, [])
      else if node.client.nSessionID != nMsgSessionID then (node, [])
      else
        let r := node.client.CompletedTransaction cenv amb node.wallet nMsgMessageID
        (⟨r.1, r.2⟩, [])
    | .other => (node, [])

/-! ## Reachable client states -/

/-- The client as constructed: everything null, nothing locked by it, no
collateral made yet. -/
def initialClient : CPrivatePayClient :=
  { nState := POOL_STATE_IDLE
    nSessionID := 0
    nSessionDenom := 0
    vecEntries := []
    finalMutableTransaction := ⟨[], [], 0⟩
    nTimeLastSuccessfulStep := 0
    nEntriesCount := 0
    fLastEntryAccepted := false
    infoMixingMasternode := masternode_info_t.null
    vecOutPointLocked := []
    vecPrivatepayQueue := [] }

/-- What can happen to the client: a message arrives from a peer, the periodic
`CheckTimeout` or `DoAutomaticDenominating` of `ThreadCheckPrivatePayClient`
runs, the user resets the pool, or switches mixing on or off. -/
inductive ClientEvent where
  | message (pfrom : CNode) (msg : ClientMessage)
  | checkTimeout
  | doAutomaticDenominating
  | resetPool
  | enable (fEnable : Bool)
deriving DecidableEq, Repr

/-- One step of the client under the surroundings `amb`, the answers `calls`
and the registry `mn`; `none` when the call does not return. -/
def clientStep (cenv : ClientEnv) (amb : Ambient) (calls : ClientCalls) (mn : CMasternodeMan)
    (node : ClientNode) : ClientEvent → Option (ClientNode × List NetMsg)
  | .message pfrom msg => some (CPrivatePayClient.ProcessMessage cenv amb calls mn node pfrom msg)
  | .checkTimeout =>
    let r := node.client.CheckTimeout cenv amb node.wallet
    some (⟨r.1, r.2⟩, [])
  | .doAutomaticDenominating =>
    match node.client.DoAutomaticDenominating cenv amb calls mn node.wallet with
    | none => none
    | some r => some (⟨r.2.1, r.2.2.1⟩, r.2.2.2)
  | .resetPool =>
    let r := node.client.ResetPool amb node.wallet
    some (⟨r.1, r.2⟩, [])
  | .enable fEnable => some (⟨{ node.client with fEnablePrivatePay := fEnable }, node.wallet⟩, [])

/-- Modelled from the spec: the wallet's `CreateCollateralTransaction` is
defined outside the sources; when it succeeds the transaction it leaves spends
a collateral input. -/
def ClientCalls.CollateralMade (calls : ClientCalls) : Prop :=
  calls.CreateCollateralTransaction.1 = true → calls.CreateCollateralTransaction.2.vin ≠ []

/-- The states the client side can be in, starting with the wallet `w0`: the
initial one and every state a step leads to, whatever the clocks, draws,
answers and registry content at that step. -/
inductive ClientReachable (cenv : ClientEnv) (w0 : CWallet) : ClientNode → Prop where
  | init (nTime : Int) :
      ClientReachable cenv w0 ⟨{ initialClient with nTimeLastSuccessfulStep := nTime }, w0⟩
  | step {node node1 : ClientNode} {out : List NetMsg} (amb : Ambient) (calls : ClientCalls)
      (mn : CMasternodeMan) (ev : ClientEvent) :
      ClientReachable cenv w0 node → calls.CollateralMade →
      clientStep cenv amb calls mn node ev = some (node1, out) → ClientReachable cenv w0 node1

/-- Answers of a wallet that holds two mixable 10.0001 coins, the outputs 0 and
1 of transaction 3, and makes `demoCollateral 0` as collateral; the registry
offers the masternode `(8, 0)` at address 101, every draw for a mask is 1. -/
def demoCalls : ClientCalls :=
  { fWallet := true
    IsLocked := false
    nPrivatePayRounds := 2
    SelectCoinsByDenominations := fun _ _ _ _ _ =>
      (true, [(⟨⟨3, 0⟩, [], 4294967295, demoScript⟩, 1000010000),
        (⟨⟨3, 1⟩, [], 4294967295, demoScript⟩, 1000010000)], 2000020000)
    GetMaxPoolAmount := 3000030000
    GetReservedKey := fun k => demoPay (k + 1)
    CheckDiskSpace := true
    AcceptToMemoryPool := fun _ => true
    ForNode := fun _ => true
    fHaveTip := true
    IsMasternodeListSynced := true
    nWalletBackups := 10
    fKeysBelowStop := false
    fKeysBelowWarning := false
    fCreateAutoBackups := true
    fAutoBackupError := false
    fDryRun := false
    fPrivatePayMultiSession := false
    fLastSuccessTooRecent := false
    GetSmallestDenomination := 1000010
    GetMaxCollateralAmount := 400000
    GetCollateralAmount := 100000
    HasCollateralInputs := fun _ => true
    GetNeedsToBeAnonymizedBalance := fun _ => 2000020000
    GetAnonymizableBalance := 0
    GetDenominatedBalance := fun fUnconfirmed => if fUnconfirmed then 0 else 2000020000
    nPrivatePayAmount := 1000
    CreateDenominated := false
    MakeCollateralAmounts := false
    CreateCollateralTransaction := (true, demoCollateral 0)
    IsCollateralValid := fun _ => true
    nLiquidityProvider := false
    nProtocolVersion := fun _ => 70206
    fDisconnect := fun _ => false
    ConnectNode := fun _ => true
    SelectCoinsDark := fun _ _ => (true, [1000010000, 1000010000])
    FindRandomNotInVec := fun _ => ⟨true, ⟨8, 0⟩, 101, 6, 0⟩
    randDenom := fun _ _ => 1
    nDenomCalls := 5 }

/-- What holds of the client side in every reachable state (`ClientReachable.inv`),
`w0` being the wallet at the start: every coin locked in the wallet was locked
at the start or is recorded in `vecOutPointLocked`; outside the states
`ACCEPTING_ENTRIES` and `SIGNING` nothing is recorded; in state `QUEUE` the
collateral is made; the queue vector holds non-ready advertisements of
different masternodes. -/
def ClientInv (w0 : CWallet) (c : CPrivatePayClient) (w : CWallet) : Prop :=
  (∀ o ∈ w.setLockedCoins, o ∈ w0.setLockedCoins ∨ o ∈ c.vecOutPointLocked) ∧
  (c.nState ≠ POOL_STATE_ACCEPTING_ENTRIES → c.nState ≠ POOL_STATE_SIGNING →
    c.vecOutPointLocked = []) ∧
  (c.nState = POOL_STATE_QUEUE → c.txMyCollateral ≠ ⟨[], [], 0⟩) ∧
  (c.vecPrivatepayQueue.map (fun q => q.vin)).Nodup ∧
  (∀ q ∈ c.vecPrivatepayQueue, q.fReady = false)

/-- What a step of the client leaves of the locks recorded before it: unless the
client ends up in `ACCEPTING_ENTRIES` or `SIGNING`, none of the outpoints that
were recorded in `vecOutPointLocked` is locked in the wallet any more. -/
def ClientUnlocked (c c1 : CPrivatePayClient) (w1 : CWallet) : Prop :=
  c1.nState ≠ POOL_STATE_ACCEPTING_ENTRIES → c1.nState ≠ POOL_STATE_SIGNING →
    ∀ o ∈ c.vecOutPointLocked, o ∉ w1.setLockedCoins

/-- What the coordinator's queue vector keeps to: every advertisement stored is
a non-ready one, and among those of other masternodes no two have the same
outpoint. -/
def ServerQueueInv (env : Env) (l : List CPrivatepayQueue) : Prop :=
  (∀ q ∈ l, q.fReady = false) ∧
  ((l.filter (fun q => q.vin != env.activeMasternodeVin)).map (fun q => q.vin)).Nodup

/-- A ready advertisement of the masternode `(8, 0)` made at time 1. -/
def demoQueueReady : CPrivatepayQueue := ⟨1, ⟨8, 0⟩, 1, true, [1], false⟩

/-- The wallet of the client demonstrations before any mixing: one coin is locked. -/
def demoWalletStart : CWallet := ⟨[⟨9, 9⟩]⟩

/-- Run a sequence of client events from `node`, all under the same
surroundings, answers and registry; the run ends at a call that does not return. -/
def clientRun (cenv : ClientEnv) (amb : Ambient) (calls : ClientCalls) (mn : CMasternodeMan) :
    ClientNode → List ClientEvent → ClientNode
  | node, [] => node
  | node, ev :: rest =>
    match clientStep cenv amb calls mn node ev with
    | none => node
    | some r => clientRun cenv amb calls mn r.1 rest

/-- The client side, started with the wallet `demoWalletStart`, once it has
looked for a session and asked the masternode at address 101 to open one: state
`QUEUE`, no session id yet. -/
def demoClientQueue : ClientNode :=
  clientRun demoClientEnv demoAmbient demoCalls (demoRegistryAt 100)
    ⟨{ initialClient with nTimeLastSuccessfulStep := 0 }, demoWalletStart⟩
    [.doAutomaticDenominating]

/-- The same client once the masternode has accepted it and told the session id 7. -/
def demoClientJoined : ClientNode :=
  clientRun demoClientEnv demoAmbient demoCalls (demoRegistryAt 100) demoClientQueue
    [.message (demoPeer 101) (.PPSTATUSUPDATE 7 POOL_STATE_QUEUE 0 STATUS_ACCEPTED MSG_NOERR)]

/-- The same client once the masternode has advertised that the queue is ready,
upon which the client has locked two coins and submitted them. -/
def demoClientSubmitted : ClientNode :=
  clientRun demoClientEnv demoAmbient demoCalls (demoRegistryAt 100) demoClientJoined
    [.message (demoPeer 101) (.PPQUEUE demoQueueReady)]

/-- The client of `demoClientQueue` left without an answer until 61000 ms. -/
def demoClientTimedOut : ClientNode :=
  clientRun demoClientEnv demoAmbientLate demoCalls (demoRegistryAt 100) demoClientQueue
    [.checkTimeout]

/-- The coordinator after a complete session: three participants joined,
submitted one 10.0001 input each and signed; the joint transaction was
committed and the session reset, all within the same second. -/
def demoSessionDone : CPrivatePayServer :=
  run demoEnv demoAmbient demoRegistry { initialServer with nTimeLastSuccessfulStep := 0 }
    [demoAccept 0 1, demoAccept 1 1, demoAccept 2 1, .checkForCompleteQueue,
      demoSubmit 0 3 1000010000, demoSubmit 1 4 1000010000, demoSubmit 2 5 1000010000,
      demoSign 0 3, demoSign 1 4, demoSign 2 5]

/-- The coordinator of `demoSessionDone` after the next participant asked for a
session of the 1.00001 denomination (mask `0b0010`). -/
def demoSecondSession : CPrivatePayServer :=
  run demoEnv demoAmbient demoRegistry demoSessionDone [demoAccept 1 2]

/-- Clocks at 100 s (100000 ms), all draws 0, locks obtained. -/
def demoAmbientLater : Ambient := { demoAmbient with GetTimeMillis := 100000, GetTime := 100 }

/-- The demonstration session in state `SIGNING` (three participants, one
10.0001 input and output each) once the first participant has signed. -/
def demoOneSigned : CPrivatePayServer :=
  run demoEnv demoAmbient demoRegistry { initialServer with nTimeLastSuccessfulStep := 0 }
    [demoAccept 0 1, demoAccept 1 1, demoAccept 2 1, .checkForCompleteQueue,
      demoSubmit 0 3 1000010000, demoSubmit 1 4 1000010000, demoSubmit 2 5 1000010000,
      demoSign 0 3]
/-- The candidate coins, each with its value, that `SelectCoinsByDenominations`
hands to `PrepareDenominate(nMinRounds, nMaxRounds)` (`vecTxIn` with `vCoins`). -/
def selectedCoins (calls : ClientCalls) (c : CPrivatePayClient) (nMinRounds nMaxRounds : Int) :
    List (CTxIn × CAmount) :=
  (calls.SelectCoinsByDenominations c.nSessionDenom
    (vecStandardDenominations.getD ((GetDenominationsBits c.nSessionDenom []).2.headD 0) 0)
    calls.GetMaxPoolAmount nMinRounds nMaxRounds).2.1

/-- Whether `PrepareDenominate(nMinRounds, nMaxRounds)` gets as far as locking the
selected coins: the wallet is there and unlocked, the client has no entry, the
session mask is legitimate, and the selection did not fail with
`nMinRounds >= 0`. -/
def reachesSelection (calls : ClientCalls) (c : CPrivatePayClient) (nMinRounds nMaxRounds : Int) :
    Bool :=
  calls.fWallet && !calls.IsLocked && !decide (c.vecEntries.length > 0) &&
    (GetDenominationsBits c.nSessionDenom []).1 &&
    !(decide (nMinRounds ≥ 0) &&
      !(calls.SelectCoinsByDenominations c.nSessionDenom
        (vecStandardDenominations.getD ((GetDenominationsBits c.nSessionDenom []).2.headD 0) 0)
        calls.GetMaxPoolAmount nMinRounds nMaxRounds).1)

/-- The state in which the selection loop of `PrepareDenominate` ends, `k` being
the number of the draw for `nStepsMax`. -/
def selectionLoop (amb : Ambient) (calls : ClientCalls) (c : CPrivatePayClient)
    (nMinRounds nMaxRounds : Int) (k : Nat) : DenomLoop :=
  denomSteps calls (GetDenominationsBits c.nSessionDenom []).2
    (5 + GetRandInt amb k (PRIVATEPAY_ENTRY_MAX_SIZE - 5 + 1))
    { coins := selectedCoins calls c nMinRounds nMaxRounds, vecTxInRet := [], vecTxOutRet := [],
      nValueLeft := (calls.SelectCoinsByDenominations c.nSessionDenom
        (vecStandardDenominations.getD ((GetDenominationsBits c.nSessionDenom []).2.headD 0) 0)
        calls.GetMaxPoolAmount nMinRounds nMaxRounds).2.2,
      nKeys := 0 }
/-- `CRecipient` of the wallet: a script, an amount and whether the fee is taken
from the amount. -/
structure CRecipient where
  scriptPubKey : CScript
  nAmount : CAmount
  fSubtractFeeFromAmount : Bool
deriving DecidableEq, Repr

/-- `CompactTallyItem`: the inputs of one address with the sum of their values
(the address itself is left out). -/
structure CompactTallyItem where
  nAmount : CAmount
  vecTxIn : List CTxIn
deriving DecidableEq, Repr

/-- What `CreateDenominated(tallyItem, fCreateMixingCollaterals)` learns from the
wallet and the header besides the answers of `ClientCalls`. -/
structure DenominateCalls where
  /-- The answer of `pwalletMain->CountInputsWithAmount(nDenomValue)`. -/
  CountInputsWithAmount : CAmount → Int
  /-- The constant `DENOMS_COUNT_MAX`. -/
  DENOMS_COUNT_MAX : Int
  /-- Whether `pwalletMain->CreateTransaction` succeeds for the recipients, with
  the outpoints selected in `coinControl`. -/
  CreateTransaction : List CRecipient → List COutPoint → Bool
  /-- The answer of `pwalletMain->CommitTransaction`. -/
  CommitTransaction : Bool

/-- Modelled from the spec: `CPrivatePayClient::IsDenomSkipped` (declared in the
header `privatepay-client.h`, which is not among the sources) looks the value
up in `vecDenominationsSkipped`. -/
def IsDenomSkipped (vecDenominationsSkipped : List CAmount) (nDenomValue : CAmount) : Bool :=
  vecDenominationsSkipped.contains nDenomValue

/-- The variables of the `while` loop of `CreateDenominated` that adds the
outputs of one denomination: the recipients so far, the value left, the number
of reserve keys taken and `nOutputs`. -/
structure DenomOutputs where
  vecSend : List CRecipient
  nValueLeft : CAmount
  nKeys : Nat
  nOutputs : Int
deriving DecidableEq, Repr

/-- The loop `while(nValueLeft - nDenomValue >= 0 && nOutputs <= 10)` of
`CreateDenominated`; every output takes a fresh reserve key.  The first
argument bounds the number of tests of the loop condition, `none` meaning that
the bound was used up. -/
def addDenomOutputs (calls : ClientCalls) (nDenomValue : CAmount) :
    Nat → DenomOutputs → Option DenomOutputs
  | 0, _ => none
  | fuel + 1, st =>
    if st.nValueLeft - nDenomValue ≥ 0 ∧ st.nOutputs ≤ 10 then
      addDenomOutputs calls nDenomValue fuel
        { vecSend := st.vecSend ++ [⟨calls.GetReservedKey st.nKeys, nDenomValue, false⟩]
          nValueLeft := st.nValueLeft - nDenomValue
          nKeys := st.nKeys + 1
          nOutputs := st.nOutputs + 1 }
    else some st

/-- The variables of `CreateDenominated` while it builds the recipients:
`vecSend`, `nValueLeft`, the number of reserve keys taken (the collateral key
is the first), `nOutputsTotal` and the member `vecDenominationsSkipped`. -/
structure DenomSend where
  vecSend : List CRecipient
  nValueLeft : CAmount
  nKeys : Nat
  nOutputsTotal : Int
  vecDenominationsSkipped : List CAmount
deriving DecidableEq, Repr

/-- One pass of `BOOST_REVERSE_FOREACH(CAmount nDenomValue, vecStandardDenoms)`
in `CreateDenominated` over the denominations still to visit; `front` is
`vecStandardDenoms.front()`.  A `continue` goes on with the next denomination
without touching `nOutputsTotal`; the pass ends early once `nValueLeft == 0`. -/
def denominationPass (calls : ClientCalls) (dc : DenominateCalls) (fuel : Nat) (fSkip : Bool)
    (front : CAmount) : List CAmount → DenomSend → Option DenomSend
  | [], st => some st
  | nDenomValue :: rest, st =>
    if fSkip && IsDenomSkipped st.vecDenominationsSkipped nDenomValue then
      denominationPass calls dc fuel fSkip front rest st
    else if fSkip && (nDenomValue != front &&
        decide (dc.CountInputsWithAmount nDenomValue > dc.DENOMS_COUNT_MAX)) then
      denominationPass calls dc fuel fSkip front rest
        { st with vecDenominationsSkipped := st.vecDenominationsSkipped ++ [nDenomValue] }
    else
      match addDenomOutputs calls nDenomValue fuel ⟨st.vecSend, st.nValueLeft, st.nKeys, 0⟩ with
      | none => none
      | some r =>
        if r.nValueLeft = 0 then
          some { st with vecSend := r.vecSend, nValueLeft := r.nValueLeft, nKeys := r.nKeys,
                         nOutputsTotal := st.nOutputsTotal + r.nOutputs }
        else
          denominationPass calls dc fuel fSkip front rest
            { st with vecSend := r.vecSend, nValueLeft := r.nValueLeft, nKeys := r.nKeys,
                      nOutputsTotal := st.nOutputsTotal + r.nOutputs }

/-- The loop `do { ... fSkip = !fSkip; } while (nOutputsTotal == 0 && !fSkip)` of
`CreateDenominated`.  `fuelOutputs` bounds each inner `while` loop, the first
`Nat` argument the number of passes; `none` means that a bound was used up. -/
def denominationPasses (calls : ClientCalls) (dc : DenominateCalls) (fuelOutputs : Nat) :
    Nat → Bool → DenomSend → Option DenomSend
  | 0, _, _ => none
  | fuel + 1, fSkip, st =>
    match denominationPass calls dc fuelOutputs fSkip (vecStandardDenominations.headD 0)
        vecStandardDenominations.reverse st with
    | none => none
    | some st1 =>
      if st1.nOutputsTotal = 0 && !(!fSkip) then
        denominationPasses calls dc fuelOutputs fuel (!fSkip) st1
      else some st1

/-- `CPrivatePayClient::CreateDenominated(tallyItem, fCreateMixingCollaterals)`
with the member `vecDenominationsSkipped` passed in: the variables at the end
of the recipient loops together with the value returned.  `vecSend` is the
list handed to `CreateTransaction`; what is left over comes back as change.
Keeping or returning the reserve keys and `nCachedLastSuccessBlock` are left
out.  Amounts are far from the limits of `int64_t`, so `CAmount` arithmetic is
exact.  `none` means that a loop bound was used up. -/
def CreateDenominated (calls : ClientCalls) (dc : DenominateCalls) (fuelOutputs fuelPasses : Nat)
    (vecDenominationsSkipped : List CAmount) (tallyItem : CompactTallyItem)
    (fCreateMixingCollaterals : Bool) : Option (Bool × DenomSend) :=
  let nValueLeft := tallyItem.nAmount - calls.GetCollateralAmount
  let scriptCollateral := calls.GetReservedKey 0
  let st : DenomSend :=
    if fCreateMixingCollaterals then
      { vecSend := [⟨scriptCollateral, calls.GetMaxCollateralAmount, false⟩]
        nValueLeft := nValueLeft - calls.GetMaxCollateralAmount
        nKeys := 1, nOutputsTotal := 0, vecDenominationsSkipped := vecDenominationsSkipped }
    else
      { vecSend := [], nValueLeft := nValueLeft, nKeys := 1, nOutputsTotal := 0,
        vecDenominationsSkipped := vecDenominationsSkipped }
  match denominationPasses calls dc fuelOutputs fuelPasses true st with
  | none => none
  | some st1 =>
    if !dc.CreateTransaction st1.vecSend (tallyItem.vecTxIn.map (fun txin => txin.prevout)) then
      some (false, st1)
    else if !dc.CommitTransaction then some (false, st1)
    else some (true, st1)

/-- A wallet that holds no denominated inputs and whose transactions succeed;
`DENOMS_COUNT_MAX` is taken as 100. -/
def demoDenominateCalls : DenominateCalls :=
  { CountInputsWithAmount := fun _ => 0, DENOMS_COUNT_MAX := 100,
    CreateTransaction := fun _ _ => true, CommitTransaction := true }

/-- The tally item of an address holding a single input worth 15.0 coins. -/
def demoTallyItem : CompactTallyItem :=
  ⟨15 * COIN, [⟨⟨6, 0⟩, [], 4294967295, demoScript⟩]⟩

end PrivatePay

namespace PrivatePay

open PoolState PoolMessage PoolStatusUpdate

/-! ## Denomination masks -/

theorem markDenomUsed_fst (v : CAmount) (used : List (CAmount × Nat)) :
    (markDenomUsed v used).1 = used.map (fun s => if v = s.1 then (s.1, 1) else s) := by
  induction used with
  | nil => rfl
  | cons s rest ih =>
    by_cases h : v = s.1
    · simp only [markDenomUsed, List.map_cons, if_pos h, ih]
    · simp only [markDenomUsed, List.map_cons, if_neg h, ih]

theorem markDenomUsed_snd (v : CAmount) (used : List (CAmount × Nat)) :
    (markDenomUsed v used).2 = true ↔ v ∈ used.map Prod.fst := by
  induction used with
  | nil => simp [markDenomUsed]
  | cons s rest ih =>
    by_cases h : v = s.1
    · simp [markDenomUsed, h]
    · simp only [markDenomUsed, h, if_false, ih, List.map_cons, List.mem_cons, false_or]

theorem lookForDenominations_eq (L : List CTxOut) (used : List (CAmount × Nat)) :
    lookForDenominations L used =
      if (∀ o ∈ L, o.nValue ∈ used.map Prod.fst) then
        some (used.map (fun s => if (∃ o ∈ L, o.nValue = s.1) then (s.1, 1) else s))
      else none := by
  induction L generalizing used with
  | nil => simp [lookForDenominations]
  | cons o rest ih =>
    by_cases hin : o.nValue ∈ used.map Prod.fst
    · have hfound := (markDenomUsed_snd o.nValue used).2 hin
      have hkeys : ((markDenomUsed o.nValue used).1).map Prod.fst = used.map Prod.fst := by
        rw [markDenomUsed_fst, List.map_map]
        apply List.map_congr_left
        intro s _
        by_cases h : o.nValue = s.1 <;> simp [h]
      simp only [lookForDenominations, hfound, if_true, ih, hkeys, List.forall_mem_cons, hin,
        true_and]
      by_cases hall : ∀ o ∈ rest, o.nValue ∈ used.map Prod.fst
      · rw [if_pos hall, if_pos hall]
        simp only [markDenomUsed_fst, List.map_map, Option.some.injEq]
        apply List.map_congr_left
        intro s _
        by_cases h : o.nValue = s.1
        · simp [h]
        · by_cases h2 : ∃ o ∈ rest, o.nValue = s.1
          · simp [h, h2]
          · simp [h, h2]
      · rw [if_neg hall, if_neg hall]
    · have hfound : (markDenomUsed o.nValue used).2 = false := by
        cases hb : (markDenomUsed o.nValue used).2
        · rfl
        · exact absurd ((markDenomUsed_snd o.nValue used).1 hb) hin
      have hall : ¬ ∀ o1 ∈ o :: rest, o1.nValue ∈ used.map Prod.fst :=
        fun hc => hin (hc o (List.mem_cons_self _ _))
      rw [if_neg hall]
      simp [lookForDenominations, hfound]

theorem shiftDenomBits_testBit (rand : Nat → Nat) (used : List (CAmount × Nat))
    (h : ∀ s ∈ used, s.2 = 0 ∨ s.2 = 1) (nDenom c j : Nat) :
    (shiftDenomBits false rand used nDenom c).testBit j =
      (nDenom.testBit j || (decide (c ≤ j) && ((used.get? (j - c)).map Prod.snd == some 1))) := by
  induction used generalizing nDenom c with
  | nil => simp [shiftDenomBits]
  | cons s rest ih =>
    have hs := h s (List.mem_cons_self _ _)
    have hrest : ∀ t ∈ rest, t.2 = 0 ∨ t.2 = 1 := fun t ht => h t (List.mem_cons_of_mem _ ht)
    simp only [shiftDenomBits, Bool.false_and, if_false, Bool.false_eq_true]
    rw [ih hrest, Nat.testBit_or, Nat.testBit_shiftLeft]
    rcases Nat.lt_trichotomy j c with hlt | heq | hgt
    · have h1 : ¬ c ≤ j := by omega
      have h2 : ¬ c + 1 ≤ j := by omega
      simp [h1, h2]
    · subst heq
      have h2 : ¬ j + 1 ≤ j := by omega
      rcases hs with h0 | h0 <;> simp [h2, h0]
    · have h1 : c ≤ j := by omega
      have h2 : c + 1 ≤ j := by omega
      have h3 : j - c = (j - (c + 1)) + 1 := by omega
      have h4 : (1 &&& s.2).testBit (j - c) = false := by
        rw [h3]
        rcases hs with h0 | h0 <;> simp [h0, Nat.testBit_succ]
      rw [h4, h3]
      simp [h1, h2]

/-- The mask the non-random `GetDenominations` builds from denominated outputs. -/
theorem GetDenominations_eq (L : List CTxOut) (rand : Nat → Nat) :
    GetDenominations L false rand =
      if (∀ o ∈ L, o.nValue ∈ vecStandardDenominations) then
        ((shiftDenomBits false rand
          (vecStandardDenominations.map
            (fun d => if (∃ o ∈ L, o.nValue = d) then (d, 1) else (d, 0))) 0 0 : Nat) : Int)
      else 0 := by
  have hkeys : (vecStandardDenominations.map (fun d => ((d, 0) : CAmount × Nat))).map Prod.fst
      = vecStandardDenominations := by
    rw [List.map_map]; exact List.map_id _
  unfold GetDenominations
  simp only [lookForDenominations_eq, hkeys]
  by_cases hall : ∀ o ∈ L, o.nValue ∈ vecStandardDenominations
  · rw [if_pos hall, if_pos hall]
    simp only [List.map_map]
    rfl
  · rw [if_neg hall, if_neg hall]

theorem usedBits_testBit (D : List CAmount) (L : List CTxOut) (rand : Nat → Nat) (j : Nat) :
    (shiftDenomBits false rand
      (D.map (fun d => if (∃ o ∈ L, o.nValue = d) then (d, 1) else (d, 0))) 0 0).testBit j = true ↔
      ∃ o ∈ L, D[j]? = some o.nValue := by
  rw [shiftDenomBits_testBit]
  · simp only [Nat.zero_testBit, Bool.false_or, Nat.zero_le, decide_True, Bool.true_and,
      Nat.sub_zero, List.get?_eq_getElem?, List.getElem?_map]
    cases hD : D[j]? with
    | none => simp
    | some d =>
      by_cases hd : ∃ o ∈ L, o.nValue = d
      · simp only [Option.map_some', if_pos hd, beq_self_eq_true, true_iff, Option.some.injEq]
        obtain ⟨o, ho, hv⟩ := hd
        exact ⟨o, ho, hv.symm⟩
      · simp only [Option.map_some', if_neg hd, Option.some.injEq]
        constructor
        · intro h; simp at h
        · rintro ⟨o, ho, hv⟩
          exact absurd ⟨o, ho, hv.symm⟩ hd
  · intro s hs
    simp only [List.mem_map] at hs
    obtain ⟨d, _, rfl⟩ := hs
    by_cases hd : ∃ o ∈ L, o.nValue = d
    · right; rw [if_pos hd]
    · left; rw [if_neg hd]

theorem GetDenominations_bits (vecTxOut : List CTxOut) (rand : Nat → Nat) :
    ((∃ o ∈ vecTxOut, o.nValue ∉ vecStandardDenominations) →
      GetDenominations vecTxOut false rand = 0) ∧
    ((∀ o ∈ vecTxOut, o.nValue ∈ vecStandardDenominations) →
      ∃ m : Nat, GetDenominations vecTxOut false rand = (m : Int) ∧
        ∀ i : Nat, m.testBit i = true ↔
          ∃ o ∈ vecTxOut, vecStandardDenominations[i]? = some o.nValue) := by
  constructor
  · rintro ⟨o, ho, hno⟩
    rw [GetDenominations_eq, if_neg]
    exact fun hall => hno (hall o ho)
  · intro hall
    rw [GetDenominations_eq, if_pos hall]
    exact ⟨_, rfl, fun i => usedBits_testBit vecStandardDenominations vecTxOut rand i⟩

/-- C1: the non-random `GetDenominations` returns 0 as soon as one output's
value is not a standard denomination; when all are, the result is a mask whose
bit `i` is set exactly when some output's value is the `i`-th standard
denomination (so no bit beyond the list of denominations is set). -/
theorem GetDenominations_mask (vecTxOut : List CTxOut) (rand : Nat → Nat) :
    ((∃ o ∈ vecTxOut, o.nValue ∉ vecStandardDenominations) →
      GetDenominations vecTxOut false rand = 0) ∧
    ((∀ o ∈ vecTxOut, o.nValue ∈ vecStandardDenominations) →
      ∃ m : Nat, GetDenominations vecTxOut false rand = (m : Int) ∧
        ∀ i : Nat, m.testBit i = true ↔
          ∃ o ∈ vecTxOut, vecStandardDenominations[i]? = some o.nValue) :=
  GetDenominations_bits vecTxOut rand

theorem and_one_shiftLeft_ne_zero (x i : Nat) : (x &&& (1 <<< i) != 0) = x.testBit i := by
  rw [Nat.one_shiftLeft]
  cases hb : x.testBit i
  · have hz : x &&& 2 ^ i = 0 := by
      apply Nat.eq_of_testBit_eq
      intro j
      rw [Nat.testBit_and, Nat.testBit_two_pow, Nat.zero_testBit]
      by_cases hij : i = j
      · subst hij; simp [hb]
      · simp [hij]
    simp [hz]
  · have hne : x &&& 2 ^ i ≠ 0 := by
      intro hz
      have ht : (x &&& 2 ^ i).testBit i = true := by
        rw [Nat.testBit_and, Nat.testBit_two_pow, hb]; simp
      rw [hz, Nat.zero_testBit] at ht
      exact Bool.noConfusion ht
    simp [hne]

theorem collectDenomBits_eq (nDenom : Int) (k i : Nat) (acc : List Nat) :
    collectDenomBits nDenom k i acc =
      acc ++ (List.range' i k).filter (fun j => (intBits nDenom).testBit j) := by
  induction k generalizing i acc with
  | zero => simp [collectDenomBits]
  | succ k ih =>
    simp only [collectDenomBits, and_one_shiftLeft_ne_zero, List.range'_succ, List.filter_cons]
    cases hb : (intBits nDenom).testBit i
    · simp [ih]
    · simp [ih]

theorem intBits_natCast (m : Nat) (h : m < 4294967296) : intBits (m : Int) = m := by
  unfold intBits
  have : ((m : Int) % 4294967296) = (m : Int) := Int.emod_eq_of_lt (by omega) (by omega)
  rw [this]
  simp

/-- C2: for outputs whose values are all standard denominations,
`GetDenominationsBits` applied to their mask leaves in its out-parameter exactly
the indices of the denominations present among them, in ascending order and
each once (whatever the out-parameter held before). -/
theorem GetDenominationsBits_roundtrip (L : List CTxOut) (rand : Nat → Nat) (vecBitsRet : List Nat)
    (hall : ∀ o ∈ L, o.nValue ∈ vecStandardDenominations) :
    (GetDenominationsBits (GetDenominations L false rand) vecBitsRet).2 =
        (List.range vecStandardDenominations.length).filter
          (fun i => decide (∃ o ∈ L, vecStandardDenominations[i]? = some o.nValue)) ∧
      List.Sorted (· < ·) (GetDenominationsBits (GetDenominations L false rand) vecBitsRet).2 := by
  obtain ⟨m, hm, hbits⟩ := (GetDenominations_bits L rand).2 hall
  have hlt : m < 2 ^ vecStandardDenominations.length := by
    apply Nat.lt_pow_two_of_testBit
    intro i hi
    cases hb : m.testBit i
    · rfl
    · obtain ⟨o, _, ho⟩ := (hbits i).1 hb
      have := (List.getElem?_eq_some_iff.1 ho).1
      omega
  have hlen : vecStandardDenominations.length = 4 := rfl
  have hm32 : m < 4294967296 := by rw [hlen] at hlt; omega
  have hge : ¬ ((m : Int) ≥ ((1 <<< vecStandardDenominations.length : Nat) : Int)) := by
    rw [Nat.one_shiftLeft]
    exact_mod_cast Nat.not_le.2 hlt
  have heq : (GetDenominationsBits (GetDenominations L false rand) vecBitsRet).2 =
      (List.range vecStandardDenominations.length).filter
        (fun i => decide (∃ o ∈ L, vecStandardDenominations[i]? = some o.nValue)) := by
    rw [hm]
    unfold GetDenominationsBits
    simp only [if_neg hge, collectDenomBits_eq, List.nil_append, intBits_natCast m hm32,
      ← List.range_eq_range']
    apply List.filter_congr
    intro i _
    cases hb : m.testBit i
    · symm
      rw [decide_eq_false_iff_not]
      intro hex
      rw [(hbits i).2 hex] at hb
      exact Bool.noConfusion hb
    · symm
      exact decide_eq_true ((hbits i).1 hb)
  refine ⟨heq, ?_⟩
  rw [heq]
  exact List.Pairwise.sublist (List.filter_sublist _) (List.pairwise_lt_range _)

/-- Witness for C2: outputs of 10.0001, 0.100001 and again 10.0001 give bits 0 and 2. -/
theorem GetDenominationsBits_roundtrip_witness :
    (∀ o ∈ [(⟨1000010000, []⟩ : CTxOut), ⟨10000100, []⟩, ⟨1000010000, []⟩],
        o.nValue ∈ vecStandardDenominations) ∧
      ((GetDenominationsBits
          (GetDenominations [(⟨1000010000, []⟩ : CTxOut), ⟨10000100, []⟩, ⟨1000010000, []⟩]
            false (fun _ => 0)) [7]).2 =
        (List.range vecStandardDenominations.length).filter
          (fun i => decide (∃ o ∈ [(⟨1000010000, []⟩ : CTxOut), ⟨10000100, []⟩, ⟨1000010000, []⟩],
            vecStandardDenominations[i]? = some o.nValue)) ∧
      List.Sorted (· < ·) (GetDenominationsBits
          (GetDenominations [(⟨1000010000, []⟩ : CTxOut), ⟨10000100, []⟩, ⟨1000010000, []⟩]
            false (fun _ => 0)) [7]).2) :=
  ⟨by decide, GetDenominationsBits_roundtrip _ _ _ (by decide)⟩

/-! ## Collateral validity -/

theorem collateralOutputs_eq (env : Env) (outs : List CTxOut) (acc : CAmount) :
    collateralOutputs env outs acc =
      if outs.all (fun o => env.IsNormalPaymentScript o.scriptPubKey) then
        some (acc + (outs.map (fun o => o.nValue)).sum)
      else none := by
  induction outs generalizing acc with
  | nil => simp [collateralOutputs]
  | cons o rest ih =>
    cases hb : env.IsNormalPaymentScript o.scriptPubKey
    · simp [collateralOutputs, hb]
    · simp [collateralOutputs, hb, ih, add_assoc]

theorem collateralInputs_eq (env : Env) (ins : List CTxIn) (acc : CAmount) (f : Bool) :
    collateralInputs env ins acc f =
      (acc + (ins.map (prevOutValue env)).sum,
        f || ins.any (fun i => (env.GetTransaction i.prevout.hash).isNone)) := by
  induction ins generalizing acc f with
  | nil => simp [collateralInputs]
  | cons i rest ih =>
    cases hg : env.GetTransaction i.prevout.hash with
    | none => simp [collateralInputs, hg, ih, prevOutValue]
    | some txPrev =>
      by_cases hlen : txPrev.vout.length > i.prevout.n
      · simp [collateralInputs, hg, ih, prevOutValue, hlen, add_assoc]
      · simp [collateralInputs, hg, ih, prevOutValue, hlen]

/-- C3: with chain lookup and mempool acceptance as oracles, `IsCollateralValid`
accepts a transaction exactly when it has an output, its lock time is 0, every
output script is a normal payment script, the previous transaction of every
input is found, the resolved input values exceed the output values by at least
the collateral amount, and the mempool accepts it.  So, the other conditions
holding, a fee of exactly the collateral amount passes and one unit less fails. -/
theorem IsCollateralValid_iff (env : Env) (txCollateral : CTransaction) :
    (IsCollateralValid env txCollateral = true ↔
      (txCollateral.vout ≠ [] ∧ txCollateral.nLockTime = 0 ∧
        (∀ o ∈ txCollateral.vout, env.IsNormalPaymentScript o.scriptPubKey = true) ∧
        (∀ i ∈ txCollateral.vin, (env.GetTransaction i.prevout.hash).isSome = true) ∧
        (txCollateral.vin.map (prevOutValue env)).sum
            - (txCollateral.vout.map (fun o => o.nValue)).sum ≥ env.CollateralAmount ∧
        env.AcceptToMemoryPool txCollateral = true)) ∧
    ((txCollateral.vout ≠ [] ∧ txCollateral.nLockTime = 0 ∧
        (∀ o ∈ txCollateral.vout, env.IsNormalPaymentScript o.scriptPubKey = true) ∧
        (∀ i ∈ txCollateral.vin, (env.GetTransaction i.prevout.hash).isSome = true) ∧
        env.AcceptToMemoryPool txCollateral = true) →
      ((txCollateral.vin.map (prevOutValue env)).sum
            - (txCollateral.vout.map (fun o => o.nValue)).sum = env.CollateralAmount →
          IsCollateralValid env txCollateral = true) ∧
      ((txCollateral.vin.map (prevOutValue env)).sum
            - (txCollateral.vout.map (fun o => o.nValue)).sum = env.CollateralAmount - 1 →
          IsCollateralValid env txCollateral = false)) := by
  have key : IsCollateralValid env txCollateral = true ↔
      (txCollateral.vout ≠ [] ∧ txCollateral.nLockTime = 0 ∧
        (∀ o ∈ txCollateral.vout, env.IsNormalPaymentScript o.scriptPubKey = true) ∧
        (∀ i ∈ txCollateral.vin, (env.GetTransaction i.prevout.hash).isSome = true) ∧
        (txCollateral.vin.map (prevOutValue env)).sum
            - (txCollateral.vout.map (fun o => o.nValue)).sum ≥ env.CollateralAmount ∧
        env.AcceptToMemoryPool txCollateral = true) := by
    constructor
    · intro hv
      unfold IsCollateralValid at hv
      rw [collateralOutputs_eq, collateralInputs_eq] at hv
      by_cases h1 : txCollateral.vout = []
      · simp [h1] at hv
      have e1 : txCollateral.vout.isEmpty = false := by
        cases hh : txCollateral.vout with
        | nil => exact absurd hh h1
        | cons _ _ => rfl
      by_cases h2 : txCollateral.nLockTime = 0
      swap
      · simp [e1, h2] at hv
      cases h3b : txCollateral.vout.all (fun o => env.IsNormalPaymentScript o.scriptPubKey)
      · simp [e1, h2, h3b] at hv
      cases h4b : txCollateral.vin.any (fun i => (env.GetTransaction i.prevout.hash).isNone)
      swap
      · simp [e1, h2, h3b, h4b] at hv
      by_cases h5 : (txCollateral.vin.map (prevOutValue env)).sum
            - (txCollateral.vout.map (fun o => o.nValue)).sum < env.CollateralAmount
      · simp [e1, h2, h3b, h4b, h5] at hv
      cases h6 : env.AcceptToMemoryPool txCollateral
      · simp [e1, h2, h3b, h4b, h5, h6] at hv
      refine ⟨h1, h2, List.all_eq_true.1 h3b, ?_, not_lt.1 h5, rfl⟩
      intro i hi
      cases hg : env.GetTransaction i.prevout.hash with
      | some t => rfl
      | none =>
        have : txCollateral.vin.any (fun i => (env.GetTransaction i.prevout.hash).isNone) = true :=
          List.any_eq_true.2 ⟨i, hi, by simp [hg]⟩
        rw [h4b] at this
        exact Bool.noConfusion this
    · rintro ⟨h1, h2, h3, h4, h5, h6⟩
      have e1 : txCollateral.vout.isEmpty = false := by
        cases hh : txCollateral.vout with
        | nil => exact absurd hh h1
        | cons _ _ => rfl
      have h3b : txCollateral.vout.all (fun o => env.IsNormalPaymentScript o.scriptPubKey) = true :=
        List.all_eq_true.2 h3
      have h4b : txCollateral.vin.any (fun i => (env.GetTransaction i.prevout.hash).isNone) = false := by
        rw [Bool.eq_false_iff]
        intro hc
        obtain ⟨i, hi, hn⟩ := List.any_eq_true.1 hc
        have hsome := h4 i hi
        cases hg : env.GetTransaction i.prevout.hash with
        | none => rw [hg] at hsome; exact Bool.noConfusion hsome
        | some t => rw [hg] at hn; exact Bool.noConfusion hn
      unfold IsCollateralValid
      rw [collateralOutputs_eq, collateralInputs_eq]
      simp [e1, h2, h3b, h4b, not_lt.2 h5, h6]
  refine ⟨key, ?_⟩
  rintro ⟨h1, h2, h3, h4, h6⟩
  constructor
  · intro hfee
    exact key.2 ⟨h1, h2, h3, h4, by rw [hfee], h6⟩
  · intro hfee
    cases hv : IsCollateralValid env txCollateral
    · rfl
    · have := (key.1 hv).2.2.2.2.1
      rw [hfee] at this
      have h7 : env.CollateralAmount - 1 < env.CollateralAmount := sub_one_lt _
      exact absurd this (not_le.2 h7)

/-! ## The final transaction -/

theorem scriptLess_asymm (a b : CScript) : scriptLess a b = true → scriptLess b a = false := by
  induction a generalizing b with
  | nil => cases b <;> simp [scriptLess]
  | cons x xs ih =>
    cases b with
    | nil => simp [scriptLess]
    | cons y ys =>
      simp only [scriptLess]
      by_cases h1 : x < y
      · have h2 : ¬ y < x := by omega
        simp [h1, h2]
      · by_cases h2 : y < x
        · simp [h1, h2]
        · simp only [h1, h2, if_false]
          exact ih ys

theorem scriptLess_le_trans (a b c : CScript) :
    scriptLess b a = false → scriptLess c b = false → scriptLess c a = false := by
  induction a generalizing b c with
  | nil =>
    cases b with
    | nil => intro _ h; exact h
    | cons y ys => simp [scriptLess]
  | cons x xs ih =>
    cases b with
    | nil =>
      cases c with
      | nil => simp [scriptLess]
      | cons z zs => simp [scriptLess]
    | cons y ys =>
      cases c with
      | nil => simp [scriptLess]
      | cons z zs =>
        simp only [scriptLess]
        by_cases h1 : y < x
        · simp [h1]
        · by_cases h2 : x < y
          · by_cases h3 : z < y
            · simp [h1, h2, h3]
            · by_cases h4 : y < z
              · have h5 : ¬ z < x := by omega
                have h6 : x < z := by omega
                simp [h1, h2, h3, h4, h5, h6]
              · have h5 : ¬ z < x := by omega
                have h6 : x < z := by omega
                simp [h1, h2, h3, h4, h5, h6]
          · have hxy : x = y := by omega
            subst hxy
            by_cases h3 : z < x
            · simp [h1, h3]
            · by_cases h4 : x < z
              · simp [h1, h3, h4]
              · simp only [h1, h3, h4, if_false]
                exact ih ys zs

theorem CompareInputBIP69_false_iff (a b : CTxIn) :
    CompareInputBIP69 b a = false ↔ inputOrder a b := by
  unfold CompareInputBIP69 inputOrder
  by_cases h : b.prevout.hash = a.prevout.hash
  · simp [h]
  · have h2 : ¬ a.prevout.hash = b.prevout.hash := fun e => h e.symm
    simp [h, h2]
    omega

theorem CompareOutputBIP69_false_iff (a b : CTxOut) :
    CompareOutputBIP69 b a = false ↔ outputOrder a b := by
  unfold CompareOutputBIP69 outputOrder
  rcases lt_trichotomy a.nValue b.nValue with h | h | h
  · have h1 : ¬ b.nValue < a.nValue := not_lt.2 (le_of_lt h)
    have h2 : ¬ b.nValue = a.nValue := fun e => absurd (e ▸ h) (lt_irrefl _)
    simp [h, h1, h2]
  · simp [h]
  · have h1 : ¬ a.nValue < b.nValue := not_lt.2 (le_of_lt h)
    have h2 : ¬ a.nValue = b.nValue := fun e => absurd (e ▸ h) (lt_irrefl _)
    simp [h, h1, h2]

theorem stdSort_perm {α : Type} (comp : α → α → Bool) (l : List α) : (stdSort comp l).Perm l :=
  List.perm_insertionSort _ l

theorem stdSort_inputs_sorted (l : List CTxIn) :
    List.Sorted inputOrder (stdSort CompareInputBIP69 l) := by
  have htotal : IsTotal CTxIn (fun a b => CompareInputBIP69 b a = false) :=
    ⟨fun a b => by
      simp only [CompareInputBIP69_false_iff, inputOrder]
      omega⟩
  have htrans : IsTrans CTxIn (fun a b => CompareInputBIP69 b a = false) :=
    ⟨fun a b c => by
      simp only [CompareInputBIP69_false_iff, inputOrder]
      omega⟩
  have hs := @List.sorted_insertionSort CTxIn (fun a b => CompareInputBIP69 b a = false) _ htotal htrans l
  exact List.Pairwise.imp (fun h => (CompareInputBIP69_false_iff _ _).1 h) hs

theorem stdSort_outputs_sorted (l : List CTxOut) :
    List.Sorted outputOrder (stdSort CompareOutputBIP69 l) := by
  have htotal : IsTotal CTxOut (fun a b => CompareOutputBIP69 b a = false) :=
    ⟨fun a b => by
      simp only [CompareOutputBIP69_false_iff, outputOrder]
      rcases lt_trichotomy a.nValue b.nValue with h | h | h
      · exact Or.inl (Or.inl h)
      · cases hs : scriptLess b.scriptPubKey a.scriptPubKey
        · exact Or.inl (Or.inr ⟨h, rfl⟩)
        · exact Or.inr (Or.inr ⟨h.symm, scriptLess_asymm _ _ hs⟩)
      · exact Or.inr (Or.inl h)⟩
  have htrans : IsTrans CTxOut (fun a b => CompareOutputBIP69 b a = false) :=
    ⟨fun a b c => by
      simp only [CompareOutputBIP69_false_iff, outputOrder]
      rintro (h1 | ⟨h1, s1⟩) (h2 | ⟨h2, s2⟩)
      · exact Or.inl (lt_trans h1 h2)
      · exact Or.inl (h2 ▸ h1)
      · exact Or.inl (h1 ▸ h2)
      · exact Or.inr ⟨h1.trans h2, scriptLess_le_trans _ _ _ s1 s2⟩⟩
  have hs := @List.sorted_insertionSort CTxOut (fun a b => CompareOutputBIP69 b a = false) _ htotal htrans l
  exact List.Pairwise.imp (fun h => (CompareOutputBIP69_false_iff _ _).1 h) hs

theorem collectEntries_vin (es : List CPrivatePayEntry) (tx : CTransaction) :
    (collectEntries es tx).vin = tx.vin ++ poolInputs es := by
  induction es generalizing tx with
  | nil => simp [collectEntries, poolInputs]
  | cons e rest ih => simp [collectEntries, ih, poolInputs, List.flatMap_cons]

theorem collectEntries_vout (es : List CPrivatePayEntry) (tx : CTransaction) :
    (collectEntries es tx).vout = tx.vout ++ poolOutputs es := by
  induction es generalizing tx with
  | nil => simp [collectEntries, poolOutputs]
  | cons e rest ih => simp [collectEntries, ih, poolOutputs, List.flatMap_cons]

theorem buildFinalTransaction_vin (es : List CPrivatePayEntry) :
    (buildFinalTransaction es).vin = stdSort CompareInputBIP69 (poolInputs es) := by
  simp [buildFinalTransaction, collectEntries_vin]

theorem buildFinalTransaction_vout (es : List CPrivatePayEntry) :
    (buildFinalTransaction es).vout = stdSort CompareOutputBIP69 (poolOutputs es) := by
  simp [buildFinalTransaction, collectEntries_vout]

theorem RelayStatus_state (env : Env) (amb : Ambient) (s : CPrivatePayServer)
    (st : PoolStatusUpdate) (m : PoolMessage) :
    (RelayStatus env amb s st m).1 = s ∨
      ((RelayStatus env amb s st m).1 = SetNull amb s ∧ ∀ e ∈ s.vecEntries, env.ForNode e.addr = false) := by
  unfold RelayStatus
  by_cases h0 : ((s.vecEntries.filter (fun entry => !env.ForNode entry.addr)).length == 0) = true
  · left; rw [if_pos h0]
  · by_cases h1 : ((s.vecEntries.filter (fun entry => !env.ForNode entry.addr)).length
        == s.vecEntries.length) = true
    · right
      rw [if_neg h0, if_pos h1]
      refine ⟨rfl, ?_⟩
      intro e he
      have hlen := beq_iff_eq.1 h1
      have hall := List.filter_length_eq_length.1 hlen e he
      simpa using hall
    · left; rw [if_neg h0, if_neg h1]

theorem RelayStatus_msgs (env : Env) (amb : Ambient) (s : CPrivatePayServer)
    (st : PoolStatusUpdate) (m : PoolMessage) :
    ∀ msg ∈ (RelayStatus env amb s st m).2, ∃ a i q n u v, msg = NetMsg.PPSTATUSUPDATE a i q n u v := by
  intro msg hmsg
  unfold RelayStatus at hmsg
  simp only [PushStatus] at hmsg
  split_ifs at hmsg <;> simp only [List.mem_append, List.mem_map] at hmsg
  · obtain ⟨e, _, rfl⟩ := hmsg; exact ⟨_, _, _, _, _, _, rfl⟩
  · rcases hmsg with ⟨e, _, rfl⟩ | ⟨e, _, rfl⟩ <;> exact ⟨_, _, _, _, _, _, rfl⟩
  · rcases hmsg with ⟨e, _, rfl⟩ | ⟨e, _, rfl⟩ <;> exact ⟨_, _, _, _, _, _, rfl⟩

theorem relayFinalLoop_state (env : Env) (amb : Ambient) (s : CPrivatePayServer)
    (tx : CTransaction) (es : List CPrivatePayEntry) :
    (relayFinalLoop env amb s tx es).1 = s ∨
      ((relayFinalLoop env amb s tx es).1 = SetNull amb s ∧
        ∀ e ∈ s.vecEntries, env.ForNode e.addr = false) := by
  induction es with
  | nil => left; rfl
  | cons e rest ih =>
    simp only [relayFinalLoop]
    cases hf : env.ForNode e.addr
    · simp only [Bool.false_eq_true, if_false]
      exact RelayStatus_state env amb s _ _
    · simp only [if_true]
      exact ih

theorem relayFinalLoop_msgs (env : Env) (amb : Ambient) (s : CPrivatePayServer)
    (tx : CTransaction) (es : List CPrivatePayEntry) :
    ∀ msg ∈ (relayFinalLoop env amb s tx es).2, ∀ a i t, msg = NetMsg.PPFINALTX a i t →
      t = tx ∧ i = s.nSessionID := by
  induction es with
  | nil => intro msg hmsg; simp [relayFinalLoop] at hmsg
  | cons e rest ih =>
    intro msg hmsg a i t heq
    simp only [relayFinalLoop] at hmsg
    cases hf : env.ForNode e.addr
    · simp only [hf, Bool.false_eq_true, if_false] at hmsg
      obtain ⟨a1, i1, q, n, u, v, h⟩ := RelayStatus_msgs env amb s _ _ msg hmsg
      rw [h] at heq
      exact NetMsg.noConfusion heq
    · simp only [hf, if_true, List.mem_cons] at hmsg
      rcases hmsg with h | h
      · rw [h] at heq
        injection heq with _ h2 h3
        exact ⟨h3.symm, h2.symm⟩
      · exact ih msg h a i t heq

theorem SetState_fields (env : Env) (s : CPrivatePayServer) (st : PoolState) :
    (SetState env s st).vecEntries = s.vecEntries ∧
    (SetState env s st).finalMutableTransaction = s.finalMutableTransaction ∧
    (SetState env s st).vecSessionCollaterals = s.vecSessionCollaterals ∧
    (SetState env s st).nSessionDenom = s.nSessionDenom ∧
    (SetState env s st).nSessionID = s.nSessionID := by
  unfold SetState
  split_ifs <;> exact ⟨rfl, rfl, rfl, rfl, rfl⟩

/-- C4: the transaction `CreateFinalTransaction` builds, stores and relays has
as `vin` a permutation of all entries' inputs, ascending by `(prevHash,
prevIndex)`, and as `vout` a permutation of all entries' outputs, ascending by
`(value, scriptPubKey)`.  It is the transaction every `PPFINALTX` message
carries, and it is what `finalMutableTransaction` holds afterwards, unless no
participant could be reached and the session was reset, entries and final
transaction being empty then. -/
theorem CreateFinalTransaction_sorted_perm (env : Env) (amb : Ambient) (s : CPrivatePayServer) :
    ((buildFinalTransaction s.vecEntries).vin.Perm (poolInputs s.vecEntries) ∧
      List.Sorted inputOrder (buildFinalTransaction s.vecEntries).vin ∧
      (buildFinalTransaction s.vecEntries).vout.Perm (poolOutputs s.vecEntries) ∧
      List.Sorted outputOrder (buildFinalTransaction s.vecEntries).vout) ∧
    (∀ msg ∈ (CreateFinalTransaction env amb s).2, ∀ a i t, msg = NetMsg.PPFINALTX a i t →
      t = buildFinalTransaction s.vecEntries) ∧
    (((CreateFinalTransaction env amb s).1.finalMutableTransaction = buildFinalTransaction s.vecEntries ∧
        (CreateFinalTransaction env amb s).1.vecEntries = s.vecEntries) ∨
      ((CreateFinalTransaction env amb s).1.finalMutableTransaction.vin = [] ∧
        (CreateFinalTransaction env amb s).1.finalMutableTransaction.vout = [] ∧
        (CreateFinalTransaction env amb s).1.vecEntries = [] ∧
        ∀ e ∈ s.vecEntries, env.ForNode e.addr = false)) ∧
    ((CreateFinalTransaction env amb s).1.finalMutableTransaction.vin.Perm
        (poolInputs (CreateFinalTransaction env amb s).1.vecEntries) ∧
      List.Sorted inputOrder (CreateFinalTransaction env amb s).1.finalMutableTransaction.vin ∧
      (CreateFinalTransaction env amb s).1.finalMutableTransaction.vout.Perm
        (poolOutputs (CreateFinalTransaction env amb s).1.vecEntries) ∧
      List.Sorted outputOrder (CreateFinalTransaction env amb s).1.finalMutableTransaction.vout) := by
  have hbuilt : (buildFinalTransaction s.vecEntries).vin.Perm (poolInputs s.vecEntries) ∧
      List.Sorted inputOrder (buildFinalTransaction s.vecEntries).vin ∧
      (buildFinalTransaction s.vecEntries).vout.Perm (poolOutputs s.vecEntries) ∧
      List.Sorted outputOrder (buildFinalTransaction s.vecEntries).vout := by
    rw [buildFinalTransaction_vin, buildFinalTransaction_vout]
    exact ⟨stdSort_perm _ _, stdSort_inputs_sorted _, stdSort_perm _ _, stdSort_outputs_sorted _⟩
  have hmsgs : ∀ msg ∈ (CreateFinalTransaction env amb s).2, ∀ a i t,
      msg = NetMsg.PPFINALTX a i t → t = buildFinalTransaction s.vecEntries := by
    intro msg hmsg a i t heq
    exact (relayFinalLoop_msgs env amb _ _ _ msg hmsg a i t heq).1
  have hpost : ((CreateFinalTransaction env amb s).1.finalMutableTransaction
        = buildFinalTransaction s.vecEntries ∧
        (CreateFinalTransaction env amb s).1.vecEntries = s.vecEntries) ∨
      ((CreateFinalTransaction env amb s).1.finalMutableTransaction.vin = [] ∧
        (CreateFinalTransaction env amb s).1.finalMutableTransaction.vout = [] ∧
        (CreateFinalTransaction env amb s).1.vecEntries = [] ∧
        ∀ e ∈ s.vecEntries, env.ForNode e.addr = false) := by
    simp only [CreateFinalTransaction, RelayFinalTransaction]
    obtain ⟨h1, h2, _⟩ := SetState_fields env
      (relayFinalLoop env amb { s with finalMutableTransaction := buildFinalTransaction s.vecEntries }
        (buildFinalTransaction s.vecEntries) s.vecEntries).1 POOL_STATE_SIGNING
    rw [h1, h2]
    rcases relayFinalLoop_state env amb
      { s with finalMutableTransaction := buildFinalTransaction s.vecEntries }
      (buildFinalTransaction s.vecEntries) s.vecEntries with h | ⟨h, hd⟩
    · left; rw [h]; exact ⟨rfl, rfl⟩
    · right; rw [h]; exact ⟨rfl, rfl, rfl, hd⟩
  refine ⟨hbuilt, hmsgs, hpost, ?_⟩
  rcases hpost with ⟨h1, h2⟩ | ⟨h1, h2, h3, _⟩
  · rw [h1, h2]; exact hbuilt
  · rw [h1, h2, h3]
    exact ⟨List.Perm.refl _, List.sorted_nil, List.Perm.refl _, List.sorted_nil⟩

/-! ## Every reachable state is generated by the elementary updates -/

theorem Built.relayStatus {env : Env} {s : CPrivatePayServer} (amb : Ambient)
    (st : PoolStatusUpdate) (m : PoolMessage) (h : Built env s) :
    Built env (RelayStatus env amb s st m).1 := by
  rcases RelayStatus_state env amb s st m with e | ⟨e, _⟩
  · rw [e]; exact h
  · rw [e]; exact h.setNull amb

theorem Built.relayFinalLoop {env : Env} {s : CPrivatePayServer} (amb : Ambient)
    (tx : CTransaction) (es : List CPrivatePayEntry) (h : Built env s) :
    Built env (relayFinalLoop env amb s tx es).1 := by
  rcases relayFinalLoop_state env amb s tx es with e | ⟨e, _⟩
  · rw [e]; exact h
  · rw [e]; exact h.setNull amb

theorem Built.relayCompletedLoop {env : Env} {s : CPrivatePayServer} (amb : Ambient)
    (m : PoolMessage) (es : List CPrivatePayEntry) (h : Built env s) :
    Built env (relayCompletedLoop env amb s m es).1 := by
  induction es with
  | nil => exact h
  | cons e rest ih =>
    simp only [PrivatePay.relayCompletedLoop]
    cases hf : env.ForNode e.addr
    · simp only [Bool.false_eq_true, if_false]
      exact h.relayStatus amb _ _
    · simp only [if_true]
      exact ih

theorem Built.createFinalTransaction {env : Env} {s : CPrivatePayServer} (amb : Ambient)
    (h : Built env s) : Built env (CreateFinalTransaction env amb s).1 := by
  simp only [CreateFinalTransaction, RelayFinalTransaction]
  exact (h.setFinal.relayFinalLoop amb _ _).setState _ (by decide)

theorem Built.commitFinalTransaction {env : Env} {s : CPrivatePayServer} (amb : Ambient)
    (h : Built env s) : Built env (CommitFinalTransaction env amb s).1 := by
  unfold CommitFinalTransaction
  split_ifs
  · exact h
  · exact (h.setNull amb).relayCompletedLoop amb _ _
  · exact (h.relayCompletedLoop amb _ _).setNull amb

theorem Built.checkPool {env : Env} {s : CPrivatePayServer} (amb : Ambient)
    (h : Built env s) : Built env (CheckPool env amb s).1 := by
  unfold CheckPool
  split_ifs
  · exact h.createFinalTransaction amb
  · exact h.commitFinalTransaction amb
  · exact h.setNull amb
  · exact h

theorem Built.processPPVIN {env : Env} {s : CPrivatePayServer} (amb : Ambient) (pfrom : CNode)
    (entry : CPrivatePayEntry) (h : Built env s) :
    Built env (ProcessPPVIN env amb s pfrom entry).1 := by
  unfold ProcessPPVIN
  split_ifs with h1 h2 h3 h4 h5
  · exact h
  · exact h
  · exact h
  · exact h
  · exact h
  · cases hc : checkEntryLikeTransaction env entry with
    | some e => exact h
    | none =>
      have hready : IsSessionReady s = true := by simpa using h2
      have hcompat : IsOutputsCompatibleWithSessionDenom s entry.vecTxDSOut = true := by simpa using h5
      have hb : Built env (AddEntry env amb s { entry with addr := pfrom.addr } MSG_NOERR).2.2 :=
        h.addEntry amb { entry with addr := pfrom.addr } hready (not_lt.1 h3) (not_lt.1 h4) hcompat hc
      simp only
      split_ifs
      · exact (hb.checkPool amb).relayStatus amb _ _
      · exact hb.setNull amb

theorem Built.processPPACCEPT {env : Env} {s : CPrivatePayServer} (amb : Ambient)
    (mn : CMasternodeMan) (pfrom : CNode) (nDenom : Int) (tx : CTransaction) (h : Built env s) :
    Built env (ProcessPPACCEPT env amb mn s pfrom nDenom tx).1 := by
  unfold ProcessPPACCEPT
  repeat' split
  all_goals first
    | exact h
    | exact h.createNewSession amb nDenom tx _
    | exact h.addUser amb nDenom tx _

theorem Built.processPPQUEUE {env : Env} {s : CPrivatePayServer} (amb : Ambient)
    (mn : CMasternodeMan) (pfrom : CNode) (dsq : CPrivatepayQueue) (h : Built env s) :
    Built env (ProcessPPQUEUE env amb mn s pfrom dsq).1 := by
  unfold ProcessPPQUEUE
  repeat' split
  all_goals first
    | exact h
    | exact h.setQueue _

theorem Built.addScriptSigs {env : Env} (amb : Ambient) (vecTxIn : List CTxIn)
    {s : CPrivatePayServer} (h : Built env s) : Built env (addScriptSigs env amb vecTxIn s).1 := by
  induction vecTxIn generalizing s with
  | nil => exact h.checkPool amb
  | cons txin rest ih =>
    simp only [PrivatePay.addScriptSigs]
    split_ifs
    · exact (h.addScriptSig txin).relayStatus amb _ _
    · exact ih (h.addScriptSig txin)

theorem Built.processMessage {env : Env} {s : CPrivatePayServer} (amb : Ambient)
    (mn : CMasternodeMan) (pfrom : CNode) (msg : Message) (h : Built env s) :
    Built env (ProcessMessage env amb mn s pfrom msg).1 := by
  unfold ProcessMessage
  repeat' split
  all_goals first
    | exact h
    | exact h.processPPACCEPT amb mn pfrom _ _
    | exact h.processPPQUEUE amb mn pfrom _
    | exact h.processPPVIN amb pfrom _
    | exact h.addScriptSigs amb _

theorem Built.checkTimeout {env : Env} {s : CPrivatePayServer} (amb : Ambient)
    (h : Built env s) : Built env (CheckTimeout env amb s).1 := by
  unfold CheckTimeout
  dsimp only
  split_ifs
  all_goals first
    | exact h
    | exact h.setQueue _
    | exact ((h.setQueue _).setNull amb).setState _ (by decide)

theorem Built.checkForCompleteQueue {env : Env} {s : CPrivatePayServer} (amb : Ambient)
    (h : Built env s) : Built env (CheckForCompleteQueue env amb s).1 := by
  unfold CheckForCompleteQueue
  split_ifs
  · exact h
  · exact h.setState _ (by decide)
  · exact h

theorem Reachable.built {env : Env} {s : CPrivatePayServer} (h : Reachable env s) : Built env s := by
  induction h with
  | init nTime => exact Built.init nTime
  | step amb mn ev _ ih =>
    cases ev with
    | message pfrom msg => exact ih.processMessage amb mn pfrom msg
    | checkTimeout => exact ih.checkTimeout amb
    | checkForCompleteQueue => exact ih.checkForCompleteQueue amb

/-! ## Effect of the elementary updates on entries and final transaction -/

theorem prevOutValue_congr (env : Env) (a b : CTxIn) (h : a.prevout = b.prevout) :
    prevOutValue env a = prevOutValue env b := by
  unfold prevOutValue
  rw [h]

theorem valueIn_congr (env : Env) (l1 l2 : List CTxIn)
    (h : l1.map (fun t => t.prevout) = l2.map (fun t => t.prevout)) :
    valueIn env l1 = valueIn env l2 := by
  unfold valueIn
  induction l1 generalizing l2 with
  | nil =>
    cases l2 with
    | nil => rfl
    | cons b l2 => simp at h
  | cons a l1 ih =>
    cases l2 with
    | nil => simp at h
    | cons b l2 =>
      simp only [List.map_cons, List.cons.injEq] at h
      simp only [List.map_cons, List.sum_cons, ih l2 h.2, prevOutValue_congr env a b h.1]

theorem valueIn_append (env : Env) (l1 l2 : List CTxIn) :
    valueIn env (l1 ++ l2) = valueIn env l1 + valueIn env l2 := by
  simp [valueIn]

theorem valueOut_append (l1 l2 : List CTxOut) :
    valueOut (l1 ++ l2) = valueOut l1 + valueOut l2 := by
  simp [valueOut]

theorem valueIn_perm (env : Env) {l1 l2 : List CTxIn} (h : l1.Perm l2) :
    valueIn env l1 = valueIn env l2 :=
  (h.map _).sum_eq

theorem valueOut_perm {l1 l2 : List CTxOut} (h : l1.Perm l2) : valueOut l1 = valueOut l2 :=
  (h.map _).sum_eq

theorem entryAddScriptSig_prevouts (txin : CTxIn) (ins : List CTxDSIn) :
    (entryAddScriptSig txin ins).2.map (fun t => t.prevout) = ins.map (fun t => t.prevout) := by
  induction ins with
  | nil => rfl
  | cons a rest ih =>
    simp only [entryAddScriptSig]
    split_ifs <;> simp [ih]

theorem entriesAddScriptSig_shape (txin : CTxIn) (es : List CPrivatePayEntry) :
    (entriesAddScriptSig txin es).2.map entryShape = es.map entryShape := by
  induction es with
  | nil => rfl
  | cons e rest ih =>
    simp only [entriesAddScriptSig]
    split_ifs
    · simp [entryShape, entryAddScriptSig_prevouts]
    · simp [ih]

theorem AddScriptSig_fields (env : Env) (s : CPrivatePayServer) (txin : CTxIn) :
    (AddScriptSig env s txin).2.vecEntries.map entryShape = s.vecEntries.map entryShape ∧
    (AddScriptSig env s txin).2.finalMutableTransaction.vout = s.finalMutableTransaction.vout ∧
    (AddScriptSig env s txin).2.finalMutableTransaction.vin.map (fun t => t.prevout)
      = s.finalMutableTransaction.vin.map (fun t => t.prevout) ∧
    (AddScriptSig env s txin).2.nSessionDenom = s.nSessionDenom ∧
    (AddScriptSig env s txin).2.vecSessionCollaterals = s.vecSessionCollaterals := by
  unfold AddScriptSig
  split_ifs
  · exact ⟨rfl, rfl, rfl, rfl, rfl⟩
  · exact ⟨rfl, rfl, rfl, rfl, rfl⟩
  · refine ⟨entriesAddScriptSig_shape _ _, rfl, ?_, rfl, rfl⟩
    simp only [List.map_map]
    apply List.map_congr_left
    intro t _
    simp only [Function.comp]
    split_ifs <;> rfl

theorem CreateNewSession_fields (env : Env) (amb : Ambient) (s : CPrivatePayServer) (nDenom : Int)
    (tx : CTransaction) (m : PoolMessage) :
    (CreateNewSession env amb s nDenom tx m).2.2.1.vecEntries = s.vecEntries ∧
    (CreateNewSession env amb s nDenom tx m).2.2.1.finalMutableTransaction
      = s.finalMutableTransaction := by
  unfold CreateNewSession
  dsimp only
  split_ifs <;> simp [SetState]

theorem AddUserToExistingSession_fields (env : Env) (amb : Ambient) (s : CPrivatePayServer)
    (nDenom : Int) (tx : CTransaction) (m : PoolMessage) :
    (AddUserToExistingSession env amb s nDenom tx m).2.2.vecEntries = s.vecEntries ∧
    (AddUserToExistingSession env amb s nDenom tx m).2.2.finalMutableTransaction
      = s.finalMutableTransaction := by
  unfold AddUserToExistingSession
  dsimp only
  split_ifs <;> exact ⟨rfl, rfl⟩

theorem AddEntry_fields (env : Env) (amb : Ambient) (s : CPrivatePayServer)
    (entry : CPrivatePayEntry) (m : PoolMessage) :
    (AddEntry env amb s entry m).2.2.finalMutableTransaction = s.finalMutableTransaction ∧
    ((AddEntry env amb s entry m).2.2.vecEntries = s.vecEntries ∨
      ((AddEntry env amb s entry m).2.2.vecEntries = s.vecEntries ++ [entry] ∧
        hasInputInPool s entry = false ∧ (AddEntry env amb s entry m).1 = true)) := by
  unfold AddEntry
  split_ifs with h1 h2 h3 h4 h5
  · exact ⟨rfl, Or.inl rfl⟩
  · exact ⟨rfl, Or.inl rfl⟩
  · exact ⟨rfl, Or.inl rfl⟩
  · exact ⟨rfl, Or.inl rfl⟩
  · exact ⟨rfl, Or.inl rfl⟩
  · exact ⟨rfl, Or.inr ⟨rfl, by simpa using h5, rfl⟩⟩

theorem entryOutputs_ok (env : Env) (outs : List CTxOut) (acc v : CAmount)
    (h : entryOutputs env outs acc = .ok v) : v = acc + valueOut outs := by
  induction outs generalizing acc with
  | nil =>
    simp only [entryOutputs, Except.ok.injEq] at h
    simp [valueOut, h]
  | cons o rest ih =>
    simp only [entryOutputs] at h
    split_ifs at h
    rw [ih _ h]
    simp [valueOut, add_assoc]

theorem entryInputs_ok (env : Env) (ins : List CTxIn) (acc v : CAmount)
    (h : entryInputs env ins acc = .ok v) : v = acc + valueIn env ins := by
  induction ins generalizing acc with
  | nil =>
    simp only [entryInputs, Except.ok.injEq] at h
    simp [valueIn, h]
  | cons i rest ih =>
    simp only [entryInputs] at h
    cases hg : env.GetTransaction i.prevout.hash with
    | none => simp [hg] at h
    | some txPrev =>
      simp only [hg] at h
      split_ifs at h with hlen
      · rw [ih _ h]
        simp [valueIn, prevOutValue, hg, hlen, add_assoc]
      · rw [ih _ h]
        simp [valueIn, prevOutValue, hg, hlen]

theorem checkEntryLikeTransaction_none (env : Env) (entry : CPrivatePayEntry)
    (h : checkEntryLikeTransaction env entry = none) :
    valueIn env (entry.vecTxDSIn.map CTxDSIn.toCTxIn) = valueOut entry.vecTxDSOut ∧
    env.AcceptToMemoryPool ⟨entry.vecTxDSIn.map CTxDSIn.toCTxIn, entry.vecTxDSOut, 0⟩ = true := by
  unfold checkEntryLikeTransaction at h
  cases ho : entryOutputs env entry.vecTxDSOut 0 with
  | error e => simp [ho] at h
  | ok nValueOut =>
    cases hi : entryInputs env (entry.vecTxDSIn.map CTxDSIn.toCTxIn) 0 with
    | error e => simp [ho, hi] at h
    | ok nValueIn =>
      simp only [ho, hi] at h
      have h1 := entryOutputs_ok env _ _ _ ho
      have h2 := entryInputs_ok env _ _ _ hi
      split_ifs at h with hfee hacc
      constructor
      · have hz : nValueIn - nValueOut = 0 := by simpa using hfee
        rw [h1, h2] at hz
        have : valueIn env (entry.vecTxDSIn.map CTxDSIn.toCTxIn) - valueOut entry.vecTxDSOut = 0 := by
          simpa using hz
        exact sub_eq_zero.1 this
      · simpa using hacc

/-! ## Zero fee -/

theorem valueIn_poolInputs (env : Env) (es : List CPrivatePayEntry)
    (h : ∀ e ∈ es, valueIn env (e.vecTxDSIn.map CTxDSIn.toCTxIn) = valueOut e.vecTxDSOut) :
    valueIn env (poolInputs es) = valueOut (poolOutputs es) := by
  induction es with
  | nil => rfl
  | cons e rest ih =>
    have he := h e (List.mem_cons_self _ _)
    have hrest := ih (fun x hx => h x (List.mem_cons_of_mem _ hx))
    simp only [poolInputs, poolOutputs, List.flatMap_cons] at hrest ⊢
    rw [valueIn_append, valueOut_append, he, hrest]

theorem entryShape_zero_fee (env : Env) (e1 e2 : CPrivatePayEntry) (h : entryShape e1 = entryShape e2)
    (hz : valueIn env (e2.vecTxDSIn.map CTxDSIn.toCTxIn) = valueOut e2.vecTxDSOut) :
    valueIn env (e1.vecTxDSIn.map CTxDSIn.toCTxIn) = valueOut e1.vecTxDSOut := by
  simp only [entryShape, Prod.mk.injEq] at h
  rw [h.2, ← hz]
  apply valueIn_congr
  simpa [List.map_map, Function.comp] using h.1

/-- In every state generated by the elementary updates each entry pays out
exactly what it spends, and so does the final transaction. -/
theorem Built.zero_fee {env : Env} {s : CPrivatePayServer} (h : Built env s) :
    (∀ e ∈ s.vecEntries, valueIn env (e.vecTxDSIn.map CTxDSIn.toCTxIn) = valueOut e.vecTxDSOut) ∧
    valueIn env s.finalMutableTransaction.vin = valueOut s.finalMutableTransaction.vout := by
  induction h with
  | init nTime => exact ⟨fun e he => absurd he (List.not_mem_nil _), rfl⟩
  | setNull amb _ ih => exact ⟨fun e he => absurd he (List.not_mem_nil _), rfl⟩
  | @setState s st _ _ ih =>
    obtain ⟨h1, h2, _⟩ := SetState_fields env s st
    rw [h1, h2]; exact ih
  | setQueue q _ ih => exact ih
  | @createNewSession s amb nDenom tx m _ ih =>
    obtain ⟨h1, h2⟩ := CreateNewSession_fields env amb s nDenom tx m
    rw [h1, h2]; exact ih
  | @addUser s amb nDenom tx m _ ih =>
    obtain ⟨h1, h2⟩ := AddUserToExistingSession_fields env amb s nDenom tx m
    rw [h1, h2]; exact ih
  | @addEntry s amb entry _ _ _ _ _ hcheck ih =>
    obtain ⟨h1, h2⟩ := AddEntry_fields env amb s entry MSG_NOERR
    rw [h1]
    refine ⟨?_, ih.2⟩
    rcases h2 with h2 | ⟨h2, _, _⟩
    · rw [h2]; exact ih.1
    · rw [h2]
      intro e he
      rcases List.mem_append.1 he with he | he
      · exact ih.1 e he
      · rw [List.mem_singleton.1 he]
        exact (checkEntryLikeTransaction_none env entry hcheck).1
  | @setFinal s _ ih =>
    refine ⟨ih.1, ?_⟩
    show valueIn env (buildFinalTransaction s.vecEntries).vin
      = valueOut (buildFinalTransaction s.vecEntries).vout
    rw [buildFinalTransaction_vin, buildFinalTransaction_vout,
      valueIn_perm env (stdSort_perm _ _), valueOut_perm (stdSort_perm _ _)]
    exact valueIn_poolInputs env _ ih.1
  | @addScriptSig s txin _ ih =>
    obtain ⟨h1, h2, h3, _⟩ := AddScriptSig_fields env s txin
    constructor
    · intro e he
      obtain ⟨e2, he2, heq⟩ : ∃ e2 ∈ s.vecEntries, entryShape e2 = entryShape e := by
        have hm : entryShape e ∈ (AddScriptSig env s txin).2.vecEntries.map entryShape :=
          List.mem_map_of_mem _ he
        rw [h1] at hm
        exact List.mem_map.1 hm
      exact entryShape_zero_fee env e e2 heq.symm (ih.1 e2 he2)
    · rw [h2, valueIn_congr env _ _ h3]
      exact ih.2

/-- C5: in every reachable coordinator state every entry has been admitted with
input total equal to output total; hence the transaction `CreateFinalTransaction`
builds from the entries - and `finalMutableTransaction`, both as it stands and
after `CreateFinalTransaction` - spends in previous-output values exactly what
it pays in outputs: zero fee. -/
theorem final_transaction_zero_fee (env : Env) (amb : Ambient) (s : CPrivatePayServer)
    (h : Reachable env s) :
    (∀ e ∈ s.vecEntries, valueIn env (e.vecTxDSIn.map CTxDSIn.toCTxIn) = valueOut e.vecTxDSOut) ∧
    valueIn env (buildFinalTransaction s.vecEntries).vin
      = valueOut (buildFinalTransaction s.vecEntries).vout ∧
    valueIn env (CreateFinalTransaction env amb s).1.finalMutableTransaction.vin
      = valueOut (CreateFinalTransaction env amb s).1.finalMutableTransaction.vout ∧
    valueIn env s.finalMutableTransaction.vin = valueOut s.finalMutableTransaction.vout :=
  ⟨h.built.zero_fee.1, h.built.setFinal.zero_fee.2, (h.built.createFinalTransaction amb).zero_fee.2,
    h.built.zero_fee.2⟩

/-! ## The concrete run -/

theorem Reachable.run {env : Env} (amb : Ambient) (mn : CMasternodeMan) (evs : List Event)
    {s : CPrivatePayServer} (h : Reachable env s) : Reachable env (run env amb mn s evs) := by
  induction evs generalizing s with
  | nil => exact h
  | cons ev rest ih => exact ih (Reachable.step amb mn ev h)

theorem demoQueueFull_reachable : Reachable demoEnv demoQueueFull :=
  Reachable.run _ _ _ (Reachable.init 0)

theorem demoAccepting_reachable : Reachable demoEnv demoAccepting :=
  Reachable.run _ _ _ demoQueueFull_reachable

theorem demoSigning_reachable : Reachable demoEnv demoSigning :=
  Reachable.run _ _ _ demoAccepting_reachable

theorem demoEnv_mempool (tx : CTransaction) (h : demoEnv.AcceptToMemoryPool tx = true) :
    (tx.vin.map (fun t => t.prevout)).Nodup := by
  simp only [demoEnv, Bool.and_eq_true, decide_eq_true_eq] at h
  exact h.2

/-- Witness for C5: the demonstration session in state `SIGNING`, three entries. -/
theorem final_transaction_zero_fee_witness :
    Reachable demoEnv demoSigning ∧ demoSigning.finalMutableTransaction.vin.length = 3 ∧
    ((∀ e ∈ demoSigning.vecEntries,
        valueIn demoEnv (e.vecTxDSIn.map CTxDSIn.toCTxIn) = valueOut e.vecTxDSOut) ∧
      valueIn demoEnv (buildFinalTransaction demoSigning.vecEntries).vin
        = valueOut (buildFinalTransaction demoSigning.vecEntries).vout ∧
      valueIn demoEnv (CreateFinalTransaction demoEnv demoAmbient demoSigning).1.finalMutableTransaction.vin
        = valueOut (CreateFinalTransaction demoEnv demoAmbient demoSigning).1.finalMutableTransaction.vout ∧
      valueIn demoEnv demoSigning.finalMutableTransaction.vin
        = valueOut demoSigning.finalMutableTransaction.vout) :=
  ⟨demoSigning_reachable, by decide,
    final_transaction_zero_fee demoEnv demoAmbient demoSigning demoSigning_reachable⟩

/-! ## No outpoint twice -/

theorem poolInputs_append (es1 es2 : List CPrivatePayEntry) :
    poolInputs (es1 ++ es2) = poolInputs es1 ++ poolInputs es2 := by
  simp [poolInputs]

theorem poolInputs_prevouts (es : List CPrivatePayEntry) :
    (poolInputs es).map (fun t => t.prevout) = (es.map entryShape).flatMap (fun sh => sh.1) := by
  induction es with
  | nil => rfl
  | cons e rest ih =>
    simp only [poolInputs, List.flatMap_cons, List.map_append, List.map_cons] at ih ⊢
    rw [ih]
    simp [entryShape, List.map_map, Function.comp]

theorem hasInputInPool_false (s : CPrivatePayServer) (entry : CPrivatePayEntry)
    (h : hasInputInPool s entry = false) :
    ∀ p ∈ entry.vecTxDSIn.map (fun t => t.prevout),
      p ∉ (poolInputs s.vecEntries).map (fun t => t.prevout) := by
  intro p hp hq
  obtain ⟨txin, htxin, rfl⟩ := List.mem_map.1 hp
  obtain ⟨t, ht, hteq⟩ := List.mem_map.1 hq
  simp only [poolInputs, List.mem_flatMap, List.mem_map] at ht
  obtain ⟨e, he, d, hd, rfl⟩ := ht
  have : hasInputInPool s entry = true := by
    simp only [hasInputInPool, List.any_eq_true, beq_iff_eq]
    exact ⟨txin, htxin, e, he, d, hd, hteq⟩
  rw [h] at this
  exact Bool.noConfusion this

/-- Outpoints of different entries are disjoint in every generated state, and
no outpoint occurs twice at all when the mempool refuses transactions that
spend an outpoint twice. -/
theorem Built.outpoints {env : Env} {s : CPrivatePayServer} (h : Built env s) :
    (s.vecEntries.map entryShape).Pairwise (fun a b => ∀ p ∈ a.1, p ∉ b.1) ∧
    ((∀ tx, env.AcceptToMemoryPool tx = true → (tx.vin.map (fun t => t.prevout)).Nodup) →
      ((poolInputs s.vecEntries).map (fun t => t.prevout)).Nodup) := by
  induction h with
  | init nTime => exact ⟨List.Pairwise.nil, fun _ => List.nodup_nil⟩
  | setNull amb _ ih => exact ⟨List.Pairwise.nil, fun _ => List.nodup_nil⟩
  | @setState s st _ _ ih =>
    obtain ⟨h1, _⟩ := SetState_fields env s st
    rw [h1]; exact ih
  | setQueue q _ ih => exact ih
  | @createNewSession s amb nDenom tx m _ ih =>
    obtain ⟨h1, _⟩ := CreateNewSession_fields env amb s nDenom tx m
    rw [h1]; exact ih
  | @addUser s amb nDenom tx m _ ih =>
    obtain ⟨h1, _⟩ := AddUserToExistingSession_fields env amb s nDenom tx m
    rw [h1]; exact ih
  | @addEntry s amb entry _ _ _ _ _ hcheck ih =>
    obtain ⟨_, h2⟩ := AddEntry_fields env amb s entry MSG_NOERR
    rcases h2 with h2 | ⟨h2, hpool, _⟩
    · rw [h2]; exact ih
    · rw [h2]
      have hdisj := hasInputInPool_false s entry hpool
      constructor
      · rw [List.map_append, List.pairwise_append]
        refine ⟨ih.1, List.pairwise_singleton _ _, ?_⟩
        intro a ha b hb p hp hq
        rw [List.map_singleton, List.mem_singleton] at hb
        subst hb
        apply hdisj p hq
        rw [poolInputs_prevouts]
        exact List.mem_flatMap.2 ⟨a, ha, hp⟩
      · intro hmem
        rw [poolInputs_append, List.map_append]
        have hentry : (poolInputs [entry]).map (fun t => t.prevout)
            = entry.vecTxDSIn.map (fun t => t.prevout) := by
          simp [poolInputs, List.map_map, Function.comp]
        rw [hentry]
        refine List.Nodup.append (ih.2 hmem) ?_ ?_
        · have := hmem _ (checkEntryLikeTransaction_none env entry hcheck).2
          simpa [List.map_map, Function.comp] using this
        · intro p hp hq
          exact hdisj p hq hp
  | setFinal _ ih => exact ih
  | @addScriptSig s txin _ ih =>
    obtain ⟨h1, _⟩ := AddScriptSig_fields env s txin
    rw [poolInputs_prevouts, h1, ← poolInputs_prevouts]
    exact ih

/-- C6: in every reachable coordinator state no outpoint is spent by two
different entries of `vecEntries`; and since an entry is admitted only after
the mempool accepted its inputs and outputs as a transaction, no outpoint occurs
twice among all inputs of all entries whenever the mempool refuses transactions
that spend an outpoint twice. -/
theorem no_duplicate_outpoints (env : Env) (s : CPrivatePayServer) (h : Reachable env s) :
    (s.vecEntries.map entryShape).Pairwise (fun a b => ∀ p ∈ a.1, p ∉ b.1) ∧
    ((∀ tx, env.AcceptToMemoryPool tx = true → (tx.vin.map (fun t => t.prevout)).Nodup) →
      ((poolInputs s.vecEntries).map (fun t => t.prevout)).Nodup) :=
  h.built.outpoints

/-- Witness for C6: the demonstration session with its three entries. -/
theorem no_duplicate_outpoints_witness :
    Reachable demoEnv demoSigning ∧ demoSigning.vecEntries.length = 3 ∧
    ((poolInputs demoSigning.vecEntries).map (fun t => t.prevout)).Nodup :=
  ⟨demoSigning_reachable, by decide,
    (no_duplicate_outpoints demoEnv demoSigning demoSigning_reachable).2 demoEnv_mempool⟩

/-! ## ENTRY handling: gates -/

theorem Built.idle_collaterals {env : Env} {s : CPrivatePayServer} (h : Built env s) :
    s.nState = POOL_STATE_IDLE → s.vecSessionCollaterals = [] := by
  induction h with
  | init nTime => intro _; rfl
  | setNull amb _ ih => intro _; rfl
  | @setState s st _ hst ih =>
    unfold SetState
    split_ifs
    · exact ih
    · intro hc; exact absurd hc hst
  | setQueue q _ ih => exact ih
  | @createNewSession s amb nDenom tx m _ ih =>
    unfold CreateNewSession
    dsimp only
    split_ifs <;> first
      | exact ih
      | (intro hc; simp [SetState] at hc)
  | @addUser s amb nDenom tx m _ ih =>
    unfold AddUserToExistingSession
    dsimp only
    split_ifs with h1 h2 h3 h4 <;> first
      | exact ih
      | (intro hc
         have hq : s.nState = POOL_STATE_QUEUE := by simpa using h3
         rw [hq] at hc
         exact PoolState.noConfusion hc)
  | @addEntry s amb entry _ _ _ _ _ _ ih =>
    unfold AddEntry
    split_ifs <;> exact ih
  | setFinal _ ih => exact ih
  | @addScriptSig s txin _ ih =>
    unfold AddScriptSig
    split_ifs <;> exact ih

/-- C9 (as amended): an `ENTRY` that arrives while the session is not ready -
fewer than `GetMaxPoolTransactions()` collaterals, which is always so in state
`IDLE` - is rejected with `ERR_SESSION` (`ERR_VERSION` for an outdated peer)
and the coordinator's state is left exactly as it was. -/
theorem entry_rejected_when_not_ready (env : Env) (amb : Ambient) (s : CPrivatePayServer)
    (pfrom : CNode) (entry : CPrivatePayEntry) (h : Reachable env s)
    (hn : IsSessionReady s = false ∨ s.nState = POOL_STATE_IDLE) :
    (ProcessPPVIN env amb s pfrom entry).1 = s ∧
    (ProcessPPVIN env amb s pfrom entry).2 =
      [PushStatus s pfrom.addr STATUS_REJECTED
        (if pfrom.nVersion < env.MIN_PRIVATEPAY_PEER_PROTO_VERSION then ERR_VERSION else ERR_SESSION)] := by
  have hready : IsSessionReady s = false := by
    rcases hn with hn | hn
    · exact hn
    · simp [IsSessionReady, h.built.idle_collaterals hn, GetMaxPoolTransactions]
  unfold ProcessPPVIN
  by_cases hv : pfrom.nVersion < env.MIN_PRIVATEPAY_PEER_PROTO_VERSION
  · simp [hv]
  · simp [hv, hready]

/-- Witness for C9 (as amended): an `ENTRY` sent to the idle coordinator. -/
theorem entry_rejected_when_not_ready_witness :
    Reachable demoEnv { initialServer with nTimeLastSuccessfulStep := 0 } ∧
    ((ProcessPPVIN demoEnv demoAmbient { initialServer with nTimeLastSuccessfulStep := 0 }
        (demoPeer 10) (demoEntry 0 3 1000010000)).1
        = { initialServer with nTimeLastSuccessfulStep := 0 } ∧
      (ProcessPPVIN demoEnv demoAmbient { initialServer with nTimeLastSuccessfulStep := 0 }
        (demoPeer 10) (demoEntry 0 3 1000010000)).2 =
        [PushStatus { initialServer with nTimeLastSuccessfulStep := 0 } (demoPeer 10).addr
          STATUS_REJECTED
          (if (demoPeer 10).nVersion < demoEnv.MIN_PRIVATEPAY_PEER_PROTO_VERSION then ERR_VERSION
            else ERR_SESSION)]) :=
  ⟨Reachable.init 0,
    entry_rejected_when_not_ready demoEnv demoAmbient _ (demoPeer 10) (demoEntry 0 3 1000010000)
      (Reachable.init 0) (Or.inr rfl)⟩

/-- C9 fails as stated: in state `QUEUE`, once the third participant has joined
and before `CheckForCompleteQueue` runs, a valid `ENTRY` is accepted and added;
and in state `SIGNING` an `ENTRY` that reaches `AddEntry` is rejected with
`ERR_ENTRIES_FULL` but the whole session is reset to `IDLE`. -/
theorem entry_outside_accepting_entries :
    (Reachable demoEnv demoQueueFull ∧ demoQueueFull.nState = POOL_STATE_QUEUE ∧
      demoQueueFull.vecEntries = [] ∧
      (step demoEnv demoAmbient demoRegistry demoQueueFull (demoSubmit 0 3 1000010000)).1.vecEntries
        = [{ demoEntry 0 3 1000010000 with addr := 10 }] ∧
      (step demoEnv demoAmbient demoRegistry demoQueueFull (demoSubmit 0 3 1000010000)).2.head?
        = some (NetMsg.PPSTATUSUPDATE 10 1 POOL_STATE_QUEUE 1 STATUS_ACCEPTED MSG_ENTRIES_ADDED)) ∧
    (Reachable demoEnv demoSigning ∧ demoSigning.nState = POOL_STATE_SIGNING ∧
      demoSigning.vecEntries.length = 3 ∧
      (step demoEnv demoAmbient demoRegistry demoSigning (demoSubmit 0 0 100001000)).2
        = [NetMsg.PPSTATUSUPDATE 10 1 POOL_STATE_SIGNING 3 STATUS_REJECTED ERR_ENTRIES_FULL] ∧
      (step demoEnv demoAmbient demoRegistry demoSigning (demoSubmit 0 0 100001000)).1.nState
        = POOL_STATE_IDLE ∧
      (step demoEnv demoAmbient demoRegistry demoSigning (demoSubmit 0 0 100001000)).1.vecEntries = [] ∧
      (step demoEnv demoAmbient demoRegistry demoSigning
        (demoSubmit 0 0 100001000)).1.vecSessionCollaterals = []) :=
  ⟨⟨demoQueueFull_reachable, by decide, by decide, by decide, by decide⟩,
    ⟨demoSigning_reachable, by decide, by decide, by decide, by decide, by decide, by decide⟩⟩

theorem RelayStatus_noMax (env : Env) (amb : Ambient) (s : CPrivatePayServer)
    (st : PoolStatusUpdate) (m : PoolMessage) (hm : m ≠ ERR_MAXIMUM) :
    ∀ msg ∈ (RelayStatus env amb s st m).2, msg.isMaximumReject = false := by
  intro msg hmsg
  unfold RelayStatus at hmsg
  simp only [PushStatus] at hmsg
  split_ifs at hmsg <;> simp only [List.mem_append, List.mem_map] at hmsg
  · obtain ⟨e, _, rfl⟩ := hmsg
    cases m <;> first | rfl | exact absurd rfl hm
  · rcases hmsg with ⟨e, _, rfl⟩ | ⟨e, _, rfl⟩
    · cases m <;> first | rfl | exact absurd rfl hm
    · rfl
  · rcases hmsg with ⟨e, _, rfl⟩ | ⟨e, _, rfl⟩
    · cases m <;> first | rfl | exact absurd rfl hm
    · rfl

theorem relayFinalLoop_noMax (env : Env) (amb : Ambient) (s : CPrivatePayServer)
    (tx : CTransaction) (es : List CPrivatePayEntry) :
    ∀ msg ∈ (relayFinalLoop env amb s tx es).2, msg.isMaximumReject = false := by
  induction es with
  | nil => intro msg hmsg; simp [relayFinalLoop] at hmsg
  | cons e rest ih =>
    intro msg hmsg
    simp only [relayFinalLoop] at hmsg
    cases hf : env.ForNode e.addr
    · simp only [hf, Bool.false_eq_true, if_false] at hmsg
      exact RelayStatus_noMax env amb s _ _ (by decide) msg hmsg
    · simp only [hf, if_true, List.mem_cons] at hmsg
      rcases hmsg with h | h
      · rw [h]; rfl
      · exact ih msg h

theorem relayCompletedLoop_noMax (env : Env) (amb : Ambient) (s : CPrivatePayServer)
    (m : PoolMessage) (es : List CPrivatePayEntry) :
    ∀ msg ∈ (relayCompletedLoop env amb s m es).2, msg.isMaximumReject = false := by
  induction es with
  | nil => intro msg hmsg; simp [relayCompletedLoop] at hmsg
  | cons e rest ih =>
    intro msg hmsg
    simp only [relayCompletedLoop] at hmsg
    cases hf : env.ForNode e.addr
    · simp only [hf, Bool.false_eq_true, if_false] at hmsg
      exact RelayStatus_noMax env amb s _ _ (by decide) msg hmsg
    · simp only [hf, if_true, List.mem_cons] at hmsg
      rcases hmsg with h | h
      · rw [h]; rfl
      · exact ih msg h

theorem chargeRandomLoop_noMax (env : Env) (amb : Ambient) (txs : List CTransaction) (k : Nat) :
    ∀ msg ∈ chargeRandomLoop env amb txs k, msg.isMaximumReject = false := by
  induction txs generalizing k with
  | nil => intro msg hmsg; simp [chargeRandomLoop] at hmsg
  | cons tx rest ih =>
    intro msg hmsg
    simp only [chargeRandomLoop] at hmsg
    split_ifs at hmsg
    · simp at hmsg
    · rcases List.mem_append.1 hmsg with h | h
      · unfold submitToMempool at h
        split_ifs at h
        · simp only [List.mem_cons, List.mem_singleton, List.not_mem_nil, or_false] at h
          rcases h with h | h <;> rw [h] <;> rfl
        · rw [List.mem_singleton.1 h]; rfl
      · exact ih _ msg h

theorem CheckPool_noMax (env : Env) (amb : Ambient) (s : CPrivatePayServer) :
    ∀ msg ∈ (CheckPool env amb s).2, msg.isMaximumReject = false := by
  intro msg hmsg
  unfold CheckPool at hmsg
  split_ifs at hmsg
  · exact relayFinalLoop_noMax env amb _ _ _ msg hmsg
  · unfold CommitFinalTransaction at hmsg
    split_ifs at hmsg
    · simp at hmsg
    · exact relayCompletedLoop_noMax env amb _ _ _ msg hmsg
    · dsimp only at hmsg
      simp only [List.mem_cons, List.mem_append] at hmsg
      rcases hmsg with (h | h) | h
      · rw [h]; rfl
      · exact relayCompletedLoop_noMax env amb _ _ _ msg h
      · unfold ChargeRandomFees at h
        split_ifs at h
        exact chargeRandomLoop_noMax env amb _ _ msg h
  · simp at hmsg
  · simp at hmsg

theorem entryOutputs_ne_max (env : Env) (outs : List CTxOut) (acc : CAmount) :
    entryOutputs env outs acc ≠ .error ERR_MAXIMUM := by
  induction outs generalizing acc with
  | nil => simp [entryOutputs]
  | cons o rest ih =>
    simp only [entryOutputs]
    split_ifs
    · simp
    · simp
    · exact ih _

theorem entryInputs_ne_max (env : Env) (ins : List CTxIn) (acc : CAmount) :
    entryInputs env ins acc ≠ .error ERR_MAXIMUM := by
  induction ins generalizing acc with
  | nil => simp [entryInputs]
  | cons i rest ih =>
    simp only [entryInputs]
    cases hg : env.GetTransaction i.prevout.hash with
    | none => simp
    | some txPrev =>
      simp only
      split_ifs
      · exact ih _
      · exact ih _

theorem checkEntryLikeTransaction_ne_max (env : Env) (entry : CPrivatePayEntry) :
    checkEntryLikeTransaction env entry ≠ some ERR_MAXIMUM := by
  unfold checkEntryLikeTransaction
  cases ho : entryOutputs env entry.vecTxDSOut 0 with
  | error e =>
    intro he
    exact entryOutputs_ne_max env _ _ (Option.some.inj he ▸ ho)
  | ok nValueOut =>
    cases hi : entryInputs env (entry.vecTxDSIn.map CTxDSIn.toCTxIn) 0 with
    | error e =>
      intro he
      exact entryInputs_ne_max env _ _ (Option.some.inj he ▸ hi)
    | ok nValueIn =>
      simp only
      split_ifs <;> simp

theorem AddEntry_ne_max (env : Env) (amb : Ambient) (s : CPrivatePayServer)
    (entry : CPrivatePayEntry) : (AddEntry env amb s entry MSG_NOERR).2.1 ≠ ERR_MAXIMUM := by
  unfold AddEntry
  split_ifs <;> simp

/-- C10: in `ENTRY` handling an entry with more than `PRIVATEPAY_ENTRY_MAX_SIZE`
inputs or outputs never changes the session and is answered with one
`STATUS(REJECTED, ..)`, which carries `ERR_MAXIMUM` as soon as the size check is
reached (peer version accepted, session ready); an entry within the limit - in
particular one with exactly `PRIVATEPAY_ENTRY_MAX_SIZE` inputs and outputs -
never gets `ERR_MAXIMUM`, whatever else happens to it. -/
theorem entry_size_check (env : Env) (amb : Ambient) (s : CPrivatePayServer) (pfrom : CNode)
    (entry : CPrivatePayEntry) :
    ((entry.vecTxDSIn.length > PRIVATEPAY_ENTRY_MAX_SIZE ∨
        entry.vecTxDSOut.length > PRIVATEPAY_ENTRY_MAX_SIZE) →
      (ProcessPPVIN env amb s pfrom entry).1 = s ∧
      (ProcessPPVIN env amb s pfrom entry).2 =
        [PushStatus s pfrom.addr STATUS_REJECTED
          (if pfrom.nVersion < env.MIN_PRIVATEPAY_PEER_PROTO_VERSION then ERR_VERSION
            else if IsSessionReady s then ERR_MAXIMUM else ERR_SESSION)]) ∧
    ((entry.vecTxDSIn.length ≤ PRIVATEPAY_ENTRY_MAX_SIZE ∧
        entry.vecTxDSOut.length ≤ PRIVATEPAY_ENTRY_MAX_SIZE) →
      ∀ msg ∈ (ProcessPPVIN env amb s pfrom entry).2, msg.isMaximumReject = false) := by
  constructor
  · intro hbig
    unfold ProcessPPVIN
    by_cases hv : pfrom.nVersion < env.MIN_PRIVATEPAY_PEER_PROTO_VERSION
    · simp [hv]
    · cases hr : IsSessionReady s
      · simp [hv, hr]
      · by_cases h1 : entry.vecTxDSIn.length > PRIVATEPAY_ENTRY_MAX_SIZE
        · simp [hv, hr, h1]
        · have h2 : entry.vecTxDSOut.length > PRIVATEPAY_ENTRY_MAX_SIZE := by
            rcases hbig with h | h
            · exact absurd h h1
            · exact h
          simp [hv, hr, h1, h2]
  · rintro ⟨h1, h2⟩ msg hmsg
    unfold ProcessPPVIN at hmsg
    rw [if_neg (not_lt.2 h1), if_neg (not_lt.2 h2)] at hmsg
    split_ifs at hmsg with hv hr hc
    · rw [List.mem_singleton.1 hmsg]; rfl
    · rw [List.mem_singleton.1 hmsg]; rfl
    · rw [List.mem_singleton.1 hmsg]; rfl
    · cases hchk : checkEntryLikeTransaction env entry with
      | some e =>
        rw [hchk] at hmsg
        rw [List.mem_singleton.1 hmsg]
        have hne : e ≠ ERR_MAXIMUM := fun he => checkEntryLikeTransaction_ne_max env entry (he ▸ hchk)
        simp only [PushStatus]
        cases e <;> first | rfl | exact absurd rfl hne
      | none =>
        rw [hchk] at hmsg
        have hne := AddEntry_ne_max env amb s { entry with addr := pfrom.addr }
        simp only at hmsg
        split_ifs at hmsg
        · dsimp only at hmsg
          simp only [List.mem_cons, List.mem_append] at hmsg
          rcases hmsg with (h | h) | h
          · rw [h]
            simp only [PushStatus]
            cases hcode : (AddEntry env amb s { entry with addr := pfrom.addr } MSG_NOERR).2.1 <;>
              first | rfl | exact absurd hcode hne
          · exact CheckPool_noMax env amb _ msg h
          · exact RelayStatus_noMax env amb _ _ _ (by decide) msg h
        · rw [List.mem_singleton.1 hmsg]
          simp only [PushStatus]
          cases hcode : (AddEntry env amb s { entry with addr := pfrom.addr } MSG_NOERR).2.1 <;>
            first | rfl | exact absurd hcode hne

/-! ## The session denomination is not compared with the entries -/

/-- C7, the code at the failing input: the session was opened for mask `0b0001`
and accepts entries; an otherwise valid `ENTRY` whose outputs have mask `0b0010`
is answered `STATUS(ACCEPTED, MSG_ENTRIES_ADDED)` and added.  The check
`IsOutputsCompatibleWithSessionDenom` does not depend on `nSessionDenom` at all. -/
theorem entry_denom_mismatch_accepted :
    (∀ (s : CPrivatePayServer) (d : Int) (vecTxDSOut : List CTxDSOut),
      IsOutputsCompatibleWithSessionDenom { s with nSessionDenom := d } vecTxDSOut
        = IsOutputsCompatibleWithSessionDenom s vecTxDSOut) ∧
    Reachable demoEnv demoAccepting ∧
    demoAccepting.nState = POOL_STATE_ACCEPTING_ENTRIES ∧
    demoAccepting.nSessionDenom = 1 ∧
    GetDenominations (demoEntry 0 0 100001000).vecTxDSOut false (fun _ => 0) = 2 ∧
    (step demoEnv demoAmbient demoRegistry demoAccepting (demoSubmit 0 0 100001000)).2 =
      [NetMsg.PPSTATUSUPDATE 10 1 POOL_STATE_ACCEPTING_ENTRIES 1 STATUS_ACCEPTED MSG_ENTRIES_ADDED,
        NetMsg.PPSTATUSUPDATE 10 1 POOL_STATE_ACCEPTING_ENTRIES 1 STATUS_ACCEPTED MSG_NOERR] ∧
    (step demoEnv demoAmbient demoRegistry demoAccepting (demoSubmit 0 0 100001000)).1.vecEntries =
      [{ demoEntry 0 0 100001000 with addr := 10 }] :=
  ⟨fun _ _ _ => rfl, demoAccepting_reachable, by decide, by decide, by decide, by decide, by decide⟩

/-- C8, the code at the failing input: a reachable session in state `SIGNING`
whose `nSessionDenom` is `0b0001` while every accepted entry, and the final
transaction built from them, has denomination mask `0b0010`. -/
theorem session_denom_not_kept :
    Reachable demoEnv demoSigning ∧
    demoSigning.nState = POOL_STATE_SIGNING ∧
    demoSigning.nSessionDenom = 1 ∧
    demoSigning.vecEntries.length = 3 ∧
    (∀ e ∈ demoSigning.vecEntries, GetDenominations e.vecTxDSOut false (fun _ => 0) = 2) ∧
    demoSigning.finalMutableTransaction.vout.length = 3 ∧
    GetDenominations demoSigning.finalMutableTransaction.vout false (fun _ => 0) = 2 :=
  ⟨demoSigning_reachable, by decide, by decide, by decide, by decide, by decide, by decide⟩

/-! ## CheckPool after an entry -/

theorem AddEntry_true (env : Env) (amb : Ambient) (s : CPrivatePayServer)
    (entry : CPrivatePayEntry) (m : PoolMessage) (h : (AddEntry env amb s entry m).1 = true) :
    env.fMasterNode = true ∧
    (AddEntry env amb s entry m).2.2 =
      { s with vecEntries := s.vecEntries ++ [entry], nTimeLastSuccessfulStep := amb.GetTimeMillis } := by
  unfold AddEntry at h ⊢
  split_ifs at h ⊢ with h1
  exact ⟨by simpa using h1, rfl⟩

theorem SetState_signing (env : Env) (s : CPrivatePayServer) :
    SetState env s POOL_STATE_SIGNING = { s with nState := POOL_STATE_SIGNING } := by
  simp [SetState]

theorem CreateFinalTransaction_post (env : Env) (amb : Ambient) (s : CPrivatePayServer) :
    (CreateFinalTransaction env amb s).1.nState = POOL_STATE_SIGNING ∧
    (((CreateFinalTransaction env amb s).1.finalMutableTransaction = buildFinalTransaction s.vecEntries ∧
        (CreateFinalTransaction env amb s).1.vecEntries = s.vecEntries ∧
        (CreateFinalTransaction env amb s).1.nSessionID = s.nSessionID ∧
        (CreateFinalTransaction env amb s).1.vecSessionCollaterals = s.vecSessionCollaterals) ∨
      ((CreateFinalTransaction env amb s).1.finalMutableTransaction.vin = [] ∧
        (CreateFinalTransaction env amb s).1.finalMutableTransaction.vout = [] ∧
        (CreateFinalTransaction env amb s).1.vecEntries = [] ∧
        (CreateFinalTransaction env amb s).1.nSessionID = 0 ∧
        (CreateFinalTransaction env amb s).1.vecSessionCollaterals = [] ∧
        ∀ e ∈ s.vecEntries, env.ForNode e.addr = false)) := by
  simp only [CreateFinalTransaction, RelayFinalTransaction, SetState_signing]
  rcases relayFinalLoop_state env amb
    { s with finalMutableTransaction := buildFinalTransaction s.vecEntries }
    (buildFinalTransaction s.vecEntries) s.vecEntries with h | ⟨h, hd⟩
  · rw [h]
    exact ⟨trivial, Or.inl ⟨rfl, rfl, rfl, rfl⟩⟩
  · rw [h]
    exact ⟨trivial, Or.inr ⟨rfl, rfl, rfl, rfl, rfl, hd⟩⟩

/-- C11: once `AddEntry` has succeeded on a coordinator in state
`ACCEPTING_ENTRIES`, `CheckPool` changes nothing and sends nothing when the pool
then holds 2 entries, and puts the state to `SIGNING` when it holds 3: the final
transaction is built from the three entries, every `PPFINALTX` message carries
it, and `finalMutableTransaction` holds it - unless no participant at all can be
reached, in which case the session data are reset while the state still becomes
`SIGNING`. -/
theorem CheckPool_after_entry (env : Env) (amb : Ambient) (s : CPrivatePayServer)
    (entry : CPrivatePayEntry) (m : PoolMessage)
    (hs : s.nState = POOL_STATE_ACCEPTING_ENTRIES)
    (hadd : (AddEntry env amb s entry m).1 = true) :
    (GetEntriesCount (AddEntry env amb s entry m).2.2 = 2 →
      CheckPool env amb (AddEntry env amb s entry m).2.2 = ((AddEntry env amb s entry m).2.2, []) ∧
      (AddEntry env amb s entry m).2.2.nState = POOL_STATE_ACCEPTING_ENTRIES) ∧
    (GetEntriesCount (AddEntry env amb s entry m).2.2 = 3 →
      (CheckPool env amb (AddEntry env amb s entry m).2.2).1.nState = POOL_STATE_SIGNING ∧
      (∀ msg ∈ (CheckPool env amb (AddEntry env amb s entry m).2.2).2, ∀ a i t,
        msg = NetMsg.PPFINALTX a i t → t = buildFinalTransaction (s.vecEntries ++ [entry])) ∧
      (((CheckPool env amb (AddEntry env amb s entry m).2.2).1.finalMutableTransaction
            = buildFinalTransaction (s.vecEntries ++ [entry]) ∧
          (CheckPool env amb (AddEntry env amb s entry m).2.2).1.vecEntries = s.vecEntries ++ [entry]) ∨
        ((CheckPool env amb (AddEntry env amb s entry m).2.2).1.finalMutableTransaction.vin = [] ∧
          (CheckPool env amb (AddEntry env amb s entry m).2.2).1.finalMutableTransaction.vout = [] ∧
          (CheckPool env amb (AddEntry env amb s entry m).2.2).1.vecEntries = [] ∧
          ∀ e ∈ s.vecEntries ++ [entry], env.ForNode e.addr = false))) := by
  obtain ⟨hm, heq⟩ := AddEntry_true env amb s entry m hadd
  rw [heq]
  constructor
  · intro hc
    simp only [GetEntriesCount] at hc
    refine ⟨?_, hs⟩
    unfold CheckPool
    simp [hm, hs, GetEntriesCount, hc, GetMaxPoolTransactions]
  · intro hc
    simp only [GetEntriesCount] at hc
    have hcp : CheckPool env amb
        { s with vecEntries := s.vecEntries ++ [entry], nTimeLastSuccessfulStep := amb.GetTimeMillis }
        = CreateFinalTransaction env amb
          { s with vecEntries := s.vecEntries ++ [entry], nTimeLastSuccessfulStep := amb.GetTimeMillis } := by
      unfold CheckPool
      simp [hm, hs, GetEntriesCount, hc, GetMaxPoolTransactions]
    rw [hcp]
    obtain ⟨h1, h2⟩ := CreateFinalTransaction_post env amb
      { s with vecEntries := s.vecEntries ++ [entry], nTimeLastSuccessfulStep := amb.GetTimeMillis }
    refine ⟨h1, ?_, ?_⟩
    · intro msg hmsg a i t hft
      exact (relayFinalLoop_msgs env amb _ _ _ msg hmsg a i t hft).1
    · rcases h2 with ⟨a, b, _, _⟩ | ⟨a, b, c, _, _, d⟩
      · exact Or.inl ⟨a, b⟩
      · exact Or.inr ⟨a, b, c, d⟩

/-- Witness for C11: the third entry of the demonstration session. -/
theorem CheckPool_after_entry_witness :
    demoTwoEntries.nState = POOL_STATE_ACCEPTING_ENTRIES ∧
    (AddEntry demoEnv demoAmbient demoTwoEntries
      { demoEntry 2 2 100001000 with addr := 12 } MSG_NOERR).1 = true ∧
    GetEntriesCount (AddEntry demoEnv demoAmbient demoTwoEntries
      { demoEntry 2 2 100001000 with addr := 12 } MSG_NOERR).2.2 = 3 ∧
    (CheckPool demoEnv demoAmbient (AddEntry demoEnv demoAmbient demoTwoEntries
      { demoEntry 2 2 100001000 with addr := 12 } MSG_NOERR).2.2).1.nState = POOL_STATE_SIGNING :=
  ⟨by decide, by decide, by decide,
    ((CheckPool_after_entry demoEnv demoAmbient demoTwoEntries
      { demoEntry 2 2 100001000 with addr := 12 } MSG_NOERR (by decide) (by decide)).2 (by decide)).1⟩

/-! ## Coordinator AddScriptSig -/

theorem entryAddScriptSig_false (txin : CTxIn) (ins : List CTxDSIn)
    (h : (entryAddScriptSig txin ins).1 = false) : (entryAddScriptSig txin ins).2 = ins := by
  induction ins with
  | nil => rfl
  | cons d rest ih =>
    simp only [entryAddScriptSig] at h ⊢
    split_ifs at h ⊢ with h1 h2
    · rfl
    · rw [ih h]

theorem entryAddScriptSig_true (txin : CTxIn) (ins : List CTxDSIn)
    (h : (entryAddScriptSig txin ins).1 = true) :
    ∃ a d b, ins = a ++ d :: b ∧ d.prevout = txin.prevout ∧ d.nSequence = txin.nSequence ∧
      d.fHasSig = false ∧
      (entryAddScriptSig txin ins).2 =
        a ++ { d with scriptSig := txin.scriptSig, prevPubKey := txin.prevPubKey, fHasSig := true } :: b := by
  induction ins with
  | nil => simp [entryAddScriptSig] at h
  | cons d rest ih =>
    simp only [entryAddScriptSig] at h ⊢
    split_ifs at h ⊢ with h1 h2
    · have hp : d.prevout = txin.prevout ∧ d.nSequence = txin.nSequence := by simpa using h1
      have hf : d.fHasSig = false := by simpa using h2
      exact ⟨[], d, rest, rfl, hp.1, hp.2, hf, rfl⟩
    · obtain ⟨a, x, b, e1, e2, e3, e4, e5⟩ := ih h
      refine ⟨d :: a, x, b, ?_, e2, e3, e4, ?_⟩
      · rw [e1]; rfl
      · rw [e5]; rfl

theorem entriesAddScriptSig_false (txin : CTxIn) (es : List CPrivatePayEntry)
    (h : (entriesAddScriptSig txin es).1 = false) : (entriesAddScriptSig txin es).2 = es := by
  induction es with
  | nil => rfl
  | cons e rest ih =>
    simp only [entriesAddScriptSig] at h ⊢
    split_ifs at h ⊢ with h1
    rw [ih h]

theorem entriesAddScriptSig_true (txin : CTxIn) (es : List CPrivatePayEntry)
    (h : (entriesAddScriptSig txin es).1 = true) :
    ∃ pre e post a d b, es = pre ++ e :: post ∧ e.vecTxDSIn = a ++ d :: b ∧
      d.prevout = txin.prevout ∧ d.nSequence = txin.nSequence ∧ d.fHasSig = false ∧
      (entriesAddScriptSig txin es).2 =
        pre ++ { e with vecTxDSIn := a ++
          { d with scriptSig := txin.scriptSig, prevPubKey := txin.prevPubKey, fHasSig := true } :: b }
          :: post := by
  induction es with
  | nil => simp [entriesAddScriptSig] at h
  | cons e rest ih =>
    simp only [entriesAddScriptSig] at h ⊢
    split_ifs at h ⊢ with h1
    · obtain ⟨a, d, b, e1, e2, e3, e4, e5⟩ := entryAddScriptSig_true txin e.vecTxDSIn h1
      exact ⟨[], e, rest, a, d, b, rfl, e1, e2, e3, e4, by rw [e5]; rfl⟩
    · obtain ⟨pre, x, post, a, d, b, e1, e2, e3, e4, e5, e6⟩ := ih h
      refine ⟨e :: pre, x, post, a, d, b, ?_, e2, e3, e4, e5, ?_⟩
      · rw [e1]; rfl
      · rw [e6]; rfl

theorem findPoolInput_none (prevout : COutPoint) (ins : List CTxDSIn) (i : Nat)
    (h : ∀ d ∈ ins, d.prevout ≠ prevout) : findPoolInput prevout ins i none = none := by
  induction ins generalizing i with
  | nil => rfl
  | cons d rest ih =>
    have hd : ¬ d.prevout = prevout := h d (List.mem_cons_self _ _)
    simp only [findPoolInput, beq_iff_eq, hd, if_false]
    exact ih _ (fun x hx => h x (List.mem_cons_of_mem _ hx))

/-- C14: the coordinator's `AddScriptSig` returns false and leaves the session
untouched when the submitted `scriptSig` equals one stored on an entry input, and
when the submitted outpoint is the outpoint of no entry input.  Whenever it
returns false no entry has changed.  When it returns true exactly one entry
input has changed: it has the submitted `prevout` and `nSequence`, had
`fHasSig = false`, and now carries the submitted `scriptSig` and `prevPubKey`
with `fHasSig = true`; all other inputs, in particular every input that already
had `fHasSig = true`, are as before. -/
theorem AddScriptSig_spec (env : Env) (s : CPrivatePayServer) (txinNew : CTxIn) :
    ((∃ e ∈ s.vecEntries, ∃ d ∈ e.vecTxDSIn, d.scriptSig = txinNew.scriptSig) →
      AddScriptSig env s txinNew = (false, s)) ∧
    ((∀ e ∈ s.vecEntries, ∀ d ∈ e.vecTxDSIn, d.prevout ≠ txinNew.prevout) →
      AddScriptSig env s txinNew = (false, s)) ∧
    ((AddScriptSig env s txinNew).1 = false →
      (AddScriptSig env s txinNew).2.vecEntries = s.vecEntries) ∧
    ((AddScriptSig env s txinNew).1 = true →
      ∃ pre e post a d b, s.vecEntries = pre ++ e :: post ∧ e.vecTxDSIn = a ++ d :: b ∧
        d.prevout = txinNew.prevout ∧ d.nSequence = txinNew.nSequence ∧ d.fHasSig = false ∧
        (AddScriptSig env s txinNew).2.vecEntries =
          pre ++ { e with vecTxDSIn := a ++
            { d with scriptSig := txinNew.scriptSig, prevPubKey := txinNew.prevPubKey,
                     fHasSig := true } :: b } :: post) := by
  refine ⟨?_, ?_, ?_, ?_⟩
  · rintro ⟨e, he, d, hd, hsig⟩
    have hany : s.vecEntries.any (fun entry =>
        entry.vecTxDSIn.any (fun txdsin => txdsin.scriptSig == txinNew.scriptSig)) = true := by
      simp only [List.any_eq_true, beq_iff_eq]
      exact ⟨e, he, d, hd, hsig⟩
    unfold AddScriptSig
    rw [if_pos hany]
  · intro hno
    unfold AddScriptSig
    split_ifs with h1 h2
    · rfl
    · rfl
    · exfalso
      have hnone : findPoolInput txinNew.prevout
          (s.vecEntries.flatMap (fun entry => entry.vecTxDSIn)) 0 none = none := by
        apply findPoolInput_none
        intro d hd
        obtain ⟨e, he, hde⟩ := List.mem_flatMap.1 hd
        exact hno e he d hde
      have : IsInputScriptSigValid env s txinNew = false := by
        unfold IsInputScriptSigValid
        rw [hnone]
      rw [this] at h2
      exact h2 rfl
  · intro hfalse
    unfold AddScriptSig at hfalse ⊢
    split_ifs at hfalse ⊢ with h1 h2
    · rfl
    · rfl
    · exact entriesAddScriptSig_false txinNew s.vecEntries hfalse
  · intro htrue
    unfold AddScriptSig at htrue ⊢
    split_ifs at htrue ⊢ with h1 h2
    exact entriesAddScriptSig_true txinNew s.vecEntries htrue

theorem demoTwoSigned_reachable : Reachable demoEnvRefusing demoTwoSigned :=
  Reachable.run _ _ _ (Reachable.init 0)

/-! ## Commit, and charging -/

theorem demoOneNonSigner_reachable : Reachable demoEnvWide demoOneNonSigner :=
  Reachable.run _ _ _ (Reachable.init 0)

theorem demoOneJoined_reachable : Reachable demoEnv demoOneJoined :=
  Reachable.run _ _ _ (Reachable.init 0)

/-- C15, the code at the failing input: when mempool acceptance fails (or the
main lock is not obtained) `CommitFinalTransaction` calls `SetNull` before
`RelayCompletedTransaction`, which then finds no entry: nothing is sent.  In the
demonstration session the third signature triggers the commit, the mempool
refuses the joint transaction, and none of the participants 10, 11, 12 gets a
`PPCOMPLETE`. -/
theorem commit_failure_not_relayed :
    (∀ (env : Env) (amb : Ambient) (s : CPrivatePayServer), env.fMasterNode = true →
      (amb.lockMain = false ∨ env.AcceptToMemoryPool s.finalMutableTransaction = false) →
      CommitFinalTransaction env amb s = (SetNull amb s, [])) ∧
    Reachable demoEnvRefusing demoTwoSigned ∧
    demoTwoSigned.nState = POOL_STATE_SIGNING ∧
    demoTwoSigned.nSessionID = 1 ∧
    demoTwoSigned.vecEntries.map (fun e => e.addr) = [10, 11, 12] ∧
    (step demoEnvRefusing demoAmbient demoRegistry demoTwoSigned (demoSign 2 5)).2 = [] ∧
    (step demoEnvRefusing demoAmbient demoRegistry demoTwoSigned (demoSign 2 5)).1.nState
      = POOL_STATE_IDLE ∧
    (step demoEnvRefusing demoAmbient demoRegistry demoTwoSigned (demoSign 2 5)).1.vecEntries = [] := by
  refine ⟨?_, demoTwoSigned_reachable, by decide, by decide, by decide, by decide, by decide,
    by decide⟩
  intro env amb s hm hfail
  unfold CommitFinalTransaction
  have hc : (!amb.lockMain || !env.AcceptToMemoryPool s.finalMutableTransaction) = true := by
    rcases hfail with h | h <;> simp [h]
  simp only [hm, Bool.not_true, Bool.false_eq_true, if_false, hc, if_true]
  rfl

/-- C16, the code at the failing input: in state `SIGNING` two participants have
signed and the third has three unsigned inputs; `ChargeFees` lists that one
participant's collateral three times, takes the three offences for "everyone",
and submits nothing although both random gates are passed - also when it is run
by `CheckTimeout`. -/
theorem single_non_signer_not_charged :
    Reachable demoEnvWide demoOneNonSigner ∧
    demoOneNonSigner.nState = POOL_STATE_SIGNING ∧
    demoOneNonSigner.vecEntries.map
        (fun e => (e.vecTxDSIn.filter (fun d => !d.fHasSig)).length) = [0, 0, 3] ∧
    GetRandInt demoAmbient 0 100 ≤ 33 ∧ GetRandInt demoAmbient 1 100 ≤ 33 ∧
    vecOffendersCollaterals demoOneNonSigner = [demoCollateral 2, demoCollateral 2, demoCollateral 2] ∧
    ChargeFees demoEnvWide demoAmbient demoOneNonSigner = [] ∧
    (CheckTimeout demoEnvWide demoAmbientLate demoOneNonSigner).2 = [] :=
  ⟨demoOneNonSigner_reachable, by decide, by decide, by decide, by decide, by decide, by decide,
    by decide⟩

theorem chargeRandomLoop_prefix (env : Env) (amb : Ambient) (txs : List CTransaction) (k : Nat) :
    ∃ n, n ≤ txs.length ∧ (∀ j, j < n → GetRandInt amb (k + j) 100 ≤ 10) ∧
      (n < txs.length → GetRandInt amb (k + n) 100 > 10) ∧
      chargeRandomLoop env amb txs k = (txs.take n).flatMap (submitToMempool env) := by
  induction txs generalizing k with
  | nil => exact ⟨0, le_refl _, fun j hj => absurd hj (Nat.not_lt_zero _), fun h => absurd h (Nat.lt_irrefl _), rfl⟩
  | cons tx rest ih =>
    by_cases hd : GetRandInt amb k 100 > 10
    · refine ⟨0, Nat.zero_le _, fun j hj => absurd hj (Nat.not_lt_zero _), fun _ => hd, ?_⟩
      simp [chargeRandomLoop, hd]
    · obtain ⟨n, hn, hlt, hstop, heq⟩ := ih (k + 1)
      refine ⟨n + 1, by simpa using hn, ?_, ?_, ?_⟩
      · intro j hj
        cases j with
        | zero => exact Nat.le_of_not_lt hd
        | succ j =>
          have := hlt j (by omega)
          rwa [show k + (j + 1) = k + 1 + j by omega]
      · intro h
        have := hstop (by simpa using h)
        rwa [show k + (n + 1) = k + 1 + n by omega]
      · simp [chargeRandomLoop, hd, heq, List.flatMap_cons]

/-- C17 (as amended): `ChargeRandomFees` goes through `vecSessionCollaterals` in
order, making one draw per collateral, and stops for good at the first draw that
is not a charging outcome: the collaterals handed to the mempool are exactly
those before that point, each one's own draw and all earlier draws being
charging outcomes. -/
theorem ChargeRandomFees_prefix (env : Env) (amb : Ambient) (s : CPrivatePayServer)
    (hm : env.fMasterNode = true) :
    ∃ n, n ≤ s.vecSessionCollaterals.length ∧ (∀ j, j < n → GetRandInt amb j 100 ≤ 10) ∧
      (n < s.vecSessionCollaterals.length → GetRandInt amb n 100 > 10) ∧
      ChargeRandomFees env amb s = (s.vecSessionCollaterals.take n).flatMap (submitToMempool env) := by
  obtain ⟨n, h1, h2, h3, h4⟩ := chargeRandomLoop_prefix env amb s.vecSessionCollaterals 0
  refine ⟨n, h1, ?_, ?_, ?_⟩
  · intro j hj; simpa using h2 j hj
  · intro h; simpa using h3 h
  · unfold ChargeRandomFees
    simp [hm, h4]

/-- Witness for C17 (as amended): the demonstration session, all draws charging. -/
theorem ChargeRandomFees_prefix_witness :
    demoEnv.fMasterNode = true ∧ demoSigning.vecSessionCollaterals.length = 3 ∧
    ∃ n, n ≤ demoSigning.vecSessionCollaterals.length ∧
      (∀ j, j < n → GetRandInt demoAmbient j 100 ≤ 10) ∧
      (n < demoSigning.vecSessionCollaterals.length → GetRandInt demoAmbient n 100 > 10) ∧
      ChargeRandomFees demoEnv demoAmbient demoSigning
        = (demoSigning.vecSessionCollaterals.take n).flatMap (submitToMempool demoEnv) :=
  ⟨rfl, by decide, ChargeRandomFees_prefix demoEnv demoAmbient demoSigning rfl⟩

/-- C17 fails as stated: with the same draw 0 - a charging outcome - at the
second and third collateral, all three collaterals are submitted when the first
draw is 0 and none is when the first draw is 50; after a draw that does not
charge no further draw is made. -/
theorem charge_random_fees_stops :
    demoSigning.vecSessionCollaterals = [demoCollateral 0, demoCollateral 1, demoCollateral 2] ∧
    (∀ k, 1 ≤ k → demoAmbientStop.rand k = demoAmbient.rand k) ∧
    GetRandInt demoAmbientStop 1 100 = 0 ∧ GetRandInt demoAmbientStop 2 100 = 0 ∧
    ChargeRandomFees demoEnv demoAmbient demoSigning =
      [NetMsg.SubmitToMempool (demoCollateral 0), NetMsg.RelayTransaction (demoCollateral 0),
        NetMsg.SubmitToMempool (demoCollateral 1), NetMsg.RelayTransaction (demoCollateral 1),
        NetMsg.SubmitToMempool (demoCollateral 2), NetMsg.RelayTransaction (demoCollateral 2)] ∧
    ChargeRandomFees demoEnv demoAmbientStop demoSigning = [] := by
  refine ⟨by decide, ?_, by decide, by decide, by decide, by decide⟩
  intro k hk
  have : ¬ k = 0 := by omega
  simp [demoAmbientStop, demoAmbient, this]

/-! ## ACCEPT: the rate limit -/

/-- C20 (as amended): on `ACCEPT` from an up-to-date peer, the session not being
ready and the active masternode being in the registry, the rate-limit check is
made only while the session has no collateral, that is for the request of its
first participant: the reply is then `STATUS(REJECTED, ERR_RECENT)`, nothing
changing, when `nLastDsq ≠ 0` and `nLastDsq + CountEnabled/5 > nDsqCount`.  Once
the session holds a collateral the outcome does not depend on `nLastDsq`,
`CountEnabled` or `nDsqCount` at all. -/
theorem accept_rate_limit (env : Env) (amb : Ambient) (mn : CMasternodeMan)
    (s : CPrivatePayServer) (pfrom : CNode) (nDenom : Int) (txCollateral : CTransaction)
    (pmn : CMasternode)
    (hv : ¬ pfrom.nVersion < env.MIN_PRIVATEPAY_PEER_PROTO_VERSION)
    (hr : IsSessionReady s = false)
    (hf : mn.Find env.activeMasternodeVin = some pmn) :
    (s.vecSessionCollaterals = [] → pmn.nLastDsq ≠ 0 →
      pmn.nLastDsq + Int.tdiv mn.CountEnabled 5 > mn.nDsqCount →
      ProcessPPACCEPT env amb mn s pfrom nDenom txCollateral
        = (s, [PushStatus s pfrom.addr STATUS_REJECTED ERR_RECENT])) ∧
    (s.vecSessionCollaterals ≠ [] →
      ∀ (mn2 : CMasternodeMan) (pmn2 : CMasternode), mn2.Find env.activeMasternodeVin = some pmn2 →
        ProcessPPACCEPT env amb mn s pfrom nDenom txCollateral
          = ProcessPPACCEPT env amb mn2 s pfrom nDenom txCollateral) := by
  constructor
  · intro hc h0 hgt
    unfold ProcessPPACCEPT
    simp [hv, hr, hf, hc, h0, hgt]
  · intro hc mn2 pmn2 hf2
    have hlen : (s.vecSessionCollaterals.length == 0) = false := by
      cases hl : s.vecSessionCollaterals with
      | nil => exact absurd hl hc
      | cons _ _ => rfl
    unfold ProcessPPACCEPT
    simp only [hv, hr, hf, hf2, hlen, if_false, Bool.false_and, Bool.false_eq_true]

/-- Witness for C20 (as amended): the recently advertising masternode, asked by
a second participant. -/
theorem accept_rate_limit_witness :
    (¬ (demoPeer 11).nVersion < demoEnv.MIN_PRIVATEPAY_PEER_PROTO_VERSION) ∧
    IsSessionReady demoOneJoined = false ∧
    demoOneJoined.vecSessionCollaterals ≠ [] ∧
    ProcessPPACCEPT demoEnv demoAmbient demoRegistryRecent demoOneJoined (demoPeer 11) 1
        (demoCollateral 1)
      = ProcessPPACCEPT demoEnv demoAmbient demoRegistry demoOneJoined (demoPeer 11) 1
        (demoCollateral 1) :=
  ⟨by decide, by decide, by decide,
    (accept_rate_limit demoEnv demoAmbient demoRegistryRecent demoOneJoined (demoPeer 11) 1
      (demoCollateral 1) ⟨⟨7, 0⟩, 100, 5, 100, false⟩ (by decide) (by decide) (by decide)).2
      (by decide) demoRegistry ⟨⟨7, 0⟩, 100, 5, 0, false⟩ (by decide)⟩

/-- C20 fails as stated: with `nLastDsq = 100`, 25 masternodes enabled and
`nDsqCount = 104`, the request of the first participant (no collateral yet) is
answered `STATUS(REJECTED, ERR_RECENT)`, and the request of a second participant
(one collateral held) is accepted without the check. -/
theorem accept_rate_limit_first_only :
    Reachable demoEnv { initialServer with nTimeLastSuccessfulStep := 0 } ∧
    (step demoEnv demoAmbient demoRegistryRecent { initialServer with nTimeLastSuccessfulStep := 0 }
        (demoAccept 0 1)).2
      = [NetMsg.PPSTATUSUPDATE 10 0 POOL_STATE_IDLE 0 STATUS_REJECTED ERR_RECENT] ∧
    Reachable demoEnv demoOneJoined ∧
    demoOneJoined.vecSessionCollaterals = [demoCollateral 0] ∧
    (step demoEnv demoAmbient demoRegistryRecent demoOneJoined (demoAccept 1 1)).2
      = [NetMsg.PPSTATUSUPDATE 11 1 POOL_STATE_QUEUE 0 STATUS_ACCEPTED MSG_NOERR] ∧
    (step demoEnv demoAmbient demoRegistryRecent demoOneJoined
        (demoAccept 1 1)).1.vecSessionCollaterals = [demoCollateral 0, demoCollateral 1] :=
  ⟨Reachable.init 0, by decide, demoOneJoined_reachable, by decide, by decide, by decide⟩

/-! ## C12: what the client checks before it signs -/

/-- C12 (evaluation at the failing inputs): `SignFinalTransaction` signs and
pushes `PPSIGNFINALTX` for a final transaction that lacks the second input of
the client's entry, and for one that lacks its second output (the first output
being paid twice). -/
theorem sign_with_missing_input :
    ((demoClient.SignFinalTransaction demoClientEnv demoAmbient demoWallet demoFinalMissingInput
          (some (demoPeer 100))).1 = true ∧
      (demoClient.SignFinalTransaction demoClientEnv demoAmbient demoWallet demoFinalMissingInput
          (some (demoPeer 100))).2.2.2 =
        [NetMsg.PPSIGNFINALTX 100 [⟨⟨3, 0⟩, [48, 0], 4294967295, []⟩]] ∧
      (∃ txdsin ∈ demoMixEntry.vecTxDSIn, txdsin.prevout = ⟨3, 1⟩ ∧
        ∀ txin ∈ demoFinalMissingInput.vin, txin.prevout ≠ txdsin.prevout)) ∧
    ((demoClient.SignFinalTransaction demoClientEnv demoAmbient demoWallet demoFinalDuplicateOutput
          (some (demoPeer 100))).1 = true ∧
      (demoClient.SignFinalTransaction demoClientEnv demoAmbient demoWallet demoFinalDuplicateOutput
          (some (demoPeer 100))).2.2.2 =
        [NetMsg.PPSIGNFINALTX 100
          [⟨⟨3, 0⟩, [48, 0], 4294967295, []⟩, ⟨⟨3, 1⟩, [48, 1], 4294967295, []⟩]] ∧
      (∃ txout ∈ demoMixEntry.vecTxDSOut, txout ∉ demoFinalDuplicateOutput.vout)) := by
  decide

/-! ## C13: the client refuses a final transaction that pays it less -/

/-- The inner loop of `countFoundOutputs` adds the number of entry outputs equal to `o`. -/
theorem countFound_inner (o : CTxOut) (outs : List CTxOut) (found : Nat × CAmount) :
    (outs.foldl (fun f txout => if o == txout then (f.1 + 1, f.2 + o.nValue) else f) found).1 =
      found.1 + outs.countP (fun txout => o == txout) := by
  induction outs generalizing found with
  | nil => simp
  | cons x rest ih =>
    rw [List.foldl_cons, ih, List.countP_cons]
    by_cases h : (o == x) = true
    · simp [h]; omega
    · simp [h]

/-- `nFoundOutputsCount` is the number of pairs of equal outputs. -/
theorem countFoundOutputs_fst (outs vout : List CTxOut) (found : Nat × CAmount) :
    (countFoundOutputs outs vout found).1 =
      found.1 + (vout.map (fun o => outs.countP (fun txout => o == txout))).sum := by
  induction vout generalizing found with
  | nil => simp [countFoundOutputs]
  | cons o rest ih =>
    rw [countFoundOutputs, ih, countFound_inner, List.map_cons, List.sum_cons]
    omega

/-- An output that the entry does not hold is never counted. -/
theorem countP_eq_zero_of_not_mem (o : CTxOut) (outs : List CTxOut) (h : o ∉ outs) :
    outs.countP (fun txout => o == txout) = 0 := by
  rw [List.countP_eq_zero]
  intro x hx hox
  exact h (by rw [eq_of_beq hox]; exact hx)

/-- Among distinct outputs each output is counted at most once. -/
theorem countP_le_one_of_nodup (o : CTxOut) (outs : List CTxOut) (h : outs.Nodup) :
    outs.countP (fun txout => o == txout) ≤ 1 := by
  induction outs with
  | nil => simp
  | cons x rest ih =>
    rw [List.nodup_cons] at h
    rw [List.countP_cons]
    by_cases hx : (o == x) = true
    · have : o = x := eq_of_beq hx
      subst this
      rw [countP_eq_zero_of_not_mem o rest h.1]
      simp
    · simp only [hx, Bool.false_eq_true, if_false, Nat.add_zero]
      exact ih h.2

/-- The pairs counted over a list of outputs are at most its length when the
entry outputs are distinct. -/
theorem sum_countP_le_length (outs l : List CTxOut) (h : outs.Nodup) :
    (l.map (fun o => outs.countP (fun txout => o == txout))).sum ≤ l.length := by
  induction l with
  | nil => simp
  | cons x rest ih =>
    rw [List.map_cons, List.sum_cons, List.length_cons]
    have := countP_le_one_of_nodup x outs h
    omega

/-- Outputs that the entry does not hold contribute no pair. -/
theorem sum_countP_eq_zero (outs l : List CTxOut) (h : ∀ x ∈ l, x ∉ outs) :
    (l.map (fun o => outs.countP (fun txout => o == txout))).sum = 0 := by
  induction l with
  | nil => simp
  | cons x rest ih =>
    rw [List.map_cons, List.sum_cons, countP_eq_zero_of_not_mem x outs (h x (List.mem_cons_self _ _)),
      ih (fun y hy => h y (List.mem_cons_of_mem _ hy))]

/-- When fewer outputs are found than the entry holds, the loop over the inputs
of the entry refuses, or it finds no input and collects no signature. -/
theorem signEntryInputs_short (cenv : ClientEnv) (entry : CPrivatePayEntry)
    (ins : List CTxDSIn) (tx : CTransaction) (sigs : List CTxIn)
    (h : (countFoundOutputs entry.vecTxDSOut tx.vout (0, 0)).1 < entry.vecTxDSOut.length) :
    (signEntryInputs cenv entry ins tx sigs).1 = false ∨
      (signEntryInputs cenv entry ins tx sigs).2.2 = sigs := by
  induction ins with
  | nil => right; rfl
  | cons txdsin rest ih =>
    rw [signEntryInputs]
    split
    · left
      simp only [h, decide_True, Bool.true_or, if_true]
    · exact ih

/-- The wallet after `UnlockCoin` was applied to each outpoint of a list. -/
theorem foldl_UnlockCoin_mem (l : List COutPoint) (w : CWallet) (o : COutPoint) :
    o ∈ (l.foldl CWallet.UnlockCoin w).setLockedCoins ↔ o ∈ w.setLockedCoins ∧ o ∉ l := by
  induction l generalizing w with
  | nil => simp
  | cons x rest ih =>
    rw [List.foldl_cons, ih]
    simp only [CWallet.UnlockCoin, List.mem_filter, bne_iff_ne, ne_eq, List.mem_cons, not_or]
    tauto

/-- No standard denomination is one less than a standard denomination. -/
theorem denomination_pred_not_standard (v : CAmount) (h : v ∈ vecStandardDenominations) :
    v - 1 ∉ vecStandardDenominations := by
  simp only [vecStandardDenominations, List.mem_cons, List.mem_singleton, List.not_mem_nil,
    or_false] at h ⊢
  rcases h with h | h | h | h <;> subst h <;> decide

/-- C13 (amended): when the client holds one entry, with distinct outputs of
standard denominations, and the final transaction carries the outputs of the
entry with the value of one of them reduced by 1 (next to outputs of others,
none of which the entry holds), `SignFinalTransaction` returns false, pushes no
message, unlocks in the wallet every coin of `vecOutPointLocked` and no other,
clears `vecOutPointLocked`, and resets the session: the state is `IDLE`. -/
theorem refuses_reduced_output (cenv : ClientEnv) (amb : Ambient) (c : CPrivatePayClient)
    (w : CWallet) (entry : CPrivatePayEntry) (tx : CTransaction) (pnode : Option CNode)
    (a b others : List CTxOut) (o : CTxOut)
    (hentries : c.vecEntries = [entry])
    (houts : entry.vecTxDSOut = a ++ o :: b)
    (hnodup : entry.vecTxDSOut.Nodup)
    (hdenom : ∀ x ∈ entry.vecTxDSOut, x.nValue ∈ vecStandardDenominations)
    (hothers : ∀ x ∈ others, x ∉ entry.vecTxDSOut)
    (hperm : tx.vout.Perm (others ++ (a ++ { o with nValue := o.nValue - 1 } :: b))) :
    (c.SignFinalTransaction cenv amb w tx pnode).1 = false ∧
    (c.SignFinalTransaction cenv amb w tx pnode).2.2.2 = [] ∧
    (pnode ≠ none → cenv.fMasterNode = false →
      (c.SignFinalTransaction cenv amb w tx pnode).2.1.nState = POOL_STATE_IDLE ∧
      (c.SignFinalTransaction cenv amb w tx pnode).2.1.vecOutPointLocked = [] ∧
      (c.SignFinalTransaction cenv amb w tx pnode).2.1.vecEntries = [] ∧
      ∀ outpoint, outpoint ∈ (c.SignFinalTransaction cenv amb w tx pnode).2.2.1.setLockedCoins ↔
        outpoint ∈ w.setLockedCoins ∧ outpoint ∉ c.vecOutPointLocked) := by
  have hred : ({ o with nValue := o.nValue - 1 } : CTxOut) ∉ entry.vecTxDSOut := by
    intro hmem
    have h1 := hdenom _ hmem
    have h2 := hdenom o (by rw [houts]; simp)
    exact denomination_pred_not_standard o.nValue h2 h1
  have hcount : (countFoundOutputs entry.vecTxDSOut tx.vout (0, 0)).1 < entry.vecTxDSOut.length := by
    rw [countFoundOutputs_fst, (hperm.map _).sum_eq]
    simp only [List.map_append, List.sum_append, List.map_cons, List.sum_cons, Nat.zero_add]
    rw [sum_countP_eq_zero _ _ hothers, countP_eq_zero_of_not_mem _ _ hred]
    have ha := sum_countP_le_length entry.vecTxDSOut a hnodup
    have hb := sum_countP_le_length entry.vecTxDSOut b hnodup
    have hlen : entry.vecTxDSOut.length = a.length + (b.length + 1) := by
      rw [houts]; simp
    omega
  have hsign : (signEntries cenv c.vecEntries tx []).1 = false ∨
      (signEntries cenv c.vecEntries tx []).2.2 = [] := by
    rw [hentries]
    simp only [signEntries]
    rcases signEntryInputs_short cenv entry entry.vecTxDSIn tx [] hcount with h | h
    · left; simp [h]
    · by_cases h1 : (signEntryInputs cenv entry entry.vecTxDSIn tx []).1 = true
      · right; simp [h1, h]
      · left; simp [h1]
  have hcond : (!(signEntries cenv c.vecEntries tx []).1 ||
      (signEntries cenv c.vecEntries tx []).2.2.isEmpty) = true := by
    rcases hsign with h | h
    · simp [h]
    · simp [h]
  cases pnode with
  | none => simp [CPrivatePayClient.SignFinalTransaction]
  | some node =>
    by_cases hm : cenv.fMasterNode = true
    · simp [CPrivatePayClient.SignFinalTransaction, hm]
    · have hres : c.SignFinalTransaction cenv amb w tx (some node) =
          (false,
            (({ c with finalMutableTransaction := (signEntries cenv c.vecEntries tx []).2.1 } :
              CPrivatePayClient).UnlockCoins w).1.SetNull amb,
            (({ c with finalMutableTransaction := (signEntries cenv c.vecEntries tx []).2.1 } :
              CPrivatePayClient).UnlockCoins w).2, []) := by
        simp only [CPrivatePayClient.SignFinalTransaction, hm, Bool.false_eq_true, if_false, hcond,
          if_true]
      rw [hres]
      exact ⟨rfl, rfl, fun _ _ => ⟨rfl, rfl, rfl, fun _ => foldl_UnlockCoin_mem _ _ _⟩⟩

/-- C13 (witness): `demoClient` receives `demoFinalReduced` from its masternode. -/
theorem refuses_reduced_output_witness :
    (demoClient.SignFinalTransaction demoClientEnv demoAmbient demoWallet demoFinalReduced
        (some (demoPeer 100))).1 = false ∧
    (demoClient.SignFinalTransaction demoClientEnv demoAmbient demoWallet demoFinalReduced
        (some (demoPeer 100))).2.2.2 = [] ∧
    (demoClient.SignFinalTransaction demoClientEnv demoAmbient demoWallet demoFinalReduced
        (some (demoPeer 100))).2.1.nState = POOL_STATE_IDLE ∧
    (demoClient.SignFinalTransaction demoClientEnv demoAmbient demoWallet demoFinalReduced
        (some (demoPeer 100))).2.1.vecOutPointLocked = [] ∧
    (demoClient.SignFinalTransaction demoClientEnv demoAmbient demoWallet demoFinalReduced
        (some (demoPeer 100))).2.1.vecEntries = [] ∧
    ∀ outpoint, outpoint ∈ (demoClient.SignFinalTransaction demoClientEnv demoAmbient demoWallet
        demoFinalReduced (some (demoPeer 100))).2.2.1.setLockedCoins ↔
      outpoint ∈ demoWallet.setLockedCoins ∧ outpoint ∉ demoClient.vecOutPointLocked :=
  have h := refuses_reduced_output demoClientEnv demoAmbient demoClient demoWallet demoMixEntry
    demoFinalReduced (some (demoPeer 100)) [⟨1000010000, demoPay 1⟩] [] [⟨1000010000, demoPay 3⟩]
    ⟨1000010000, demoPay 2⟩ rfl rfl (by decide) (by decide) (by decide) (by decide)
  ⟨h.1, h.2.1, h.2.2 (by decide) rfl⟩

/-- C13 (counterexample): after `demoClient` refused `demoFinalReduced`, with no
message pushed and its two coins unlocked, its state is `IDLE`, not `ERROR`. -/
theorem refusal_state_is_idle :
    (demoClient.SignFinalTransaction demoClientEnv demoAmbient demoWallet demoFinalReduced
        (some (demoPeer 100))).1 = false ∧
    (demoClient.SignFinalTransaction demoClientEnv demoAmbient demoWallet demoFinalReduced
        (some (demoPeer 100))).2.2.2 = [] ∧
    (demoClient.SignFinalTransaction demoClientEnv demoAmbient demoWallet demoFinalReduced
        (some (demoPeer 100))).2.2.1 = ⟨[⟨9, 9⟩]⟩ ∧
    (demoClient.SignFinalTransaction demoClientEnv demoAmbient demoWallet demoFinalReduced
        (some (demoPeer 100))).2.1.nState = POOL_STATE_IDLE ∧
    (demoClient.SignFinalTransaction demoClientEnv demoAmbient demoWallet demoFinalReduced
        (some (demoPeer 100))).2.1.nState ≠ POOL_STATE_ERROR := by
  decide

/-! ## C18, C19: the threshold on queue advertisements -/

/-- The `int` truncation leaves a value of the `int` range as it is. -/
theorem toInt32_of_range (x : Int) (hlo : -2147483648 ≤ x) (hhi : x < 2147483648) :
    toInt32 x = x := by
  unfold toInt32
  omega

/-- The registry's data on a masternode that `Find` returns. -/
theorem GetMasternodeInfo_of_find (mn : CMasternodeMan) (vin : COutPoint) (pmn : CMasternode)
    (h : mn.Find vin = some pmn) :
    mn.GetMasternodeInfo vin = ⟨true, pmn.vin, pmn.addr, pmn.pubKeyMasternode, pmn.nLastDsq⟩ := by
  simp [CMasternodeMan.GetMasternodeInfo, h]

/-- `UpdateLastDsq` succeeds for a masternode that `Find` returns. -/
theorem UpdateLastDsq_of_find (mn : CMasternodeMan) (vin : COutPoint) (pmn : CMasternode)
    (n : Int) (h : mn.Find vin = some pmn) :
    ∃ mn2, ({ mn with nDsqCount := n } : CMasternodeMan).UpdateLastDsq vin = some mn2 ∧
      mn2.nDsqCount = n := by
  have h1 : ({ mn with nDsqCount := n } : CMasternodeMan).Find vin = some pmn := h
  simp [CMasternodeMan.UpdateLastDsq, h1]

/-- An advertisement equal to a stored one comes from the same masternode. -/
theorem any_sameAs_false (l : List CPrivatepayQueue) (dsq : CPrivatepayQueue)
    (h : l.any (fun q => q.vin == dsq.vin) = false) : l.any (fun q => q.sameAs dsq) = false := by
  rw [List.any_eq_false] at h ⊢
  intro q hq hs
  apply h q hq
  simp only [CPrivatepayQueue.sameAs, Bool.and_eq_true] at hs
  exact hs.1.1.1.2

/-- The coordinator's handling of a non-ready advertisement that passes the
checks preceding the threshold. -/
theorem ProcessPPQUEUE_passed (env : Env) (amb : Ambient) (mn : CMasternodeMan)
    (s : CPrivatePayServer) (pfrom : CNode) (dsq : CPrivatepayQueue) (pmn : CMasternode)
    (hlock : amb.lockRecv = true)
    (hver : ¬ pfrom.nVersion < env.MIN_PRIVATEPAY_PEER_PROTO_VERSION)
    (hexp : (dsq.IsExpired amb || decide (dsq.nTime > amb.GetTime + PRIVATEPAY_QUEUE_TIMEOUT)) = false)
    (hfind : mn.Find dsq.vin = some pmn)
    (hsig : env.VerifyMessage pmn.pubKeyMasternode dsq.vchSig dsq.vin dsq.nDenom dsq.nTime
      dsq.fReady = true)
    (hfr : dsq.fReady = false)
    (hvin : s.vecPrivatepayQueue.any (fun q => q.vin == dsq.vin) = false)
    (hne : pmn.nLastDsq ≠ 0) :
    ProcessPPQUEUE env amb mn s pfrom dsq =
      if toInt32 (pmn.nLastDsq + Int.tdiv mn.CountEnabled 5) > mn.nDsqCount then (s, mn, [])
      else
        ({ s with vecPrivatepayQueue := s.vecPrivatepayQueue ++ [dsq] },
          { mn with
            nDsqCount := mn.nDsqCount + 1
            vMasternodes := mn.vMasternodes.modify
              (fun m => { m with nLastDsq := mn.nDsqCount + 1, fAllowMixingTx := true })
              (mn.vMasternodes.findIdx (fun m => m.vin == dsq.vin)) },
          [NetMsg.PPQUEUE dsq]) := by
  have hnew := any_sameAs_false _ _ hvin
  have hne1 : (pmn.nLastDsq != 0) = true := by simpa using hne
  rw [hfr] at hsig
  unfold ProcessPPQUEUE
  simp only [hlock, Bool.not_true, Bool.false_eq_true, if_false, hver, hnew, hexp, hfind, hsig,
    hfr, Bool.not_false, if_true, hvin, hne1,
    Bool.true_and, decide_eq_true_eq]

/-- The client's handling of a non-ready advertisement that passes the checks
preceding the threshold. -/
theorem ClientProcessPPQUEUE_passed (cenv : ClientEnv) (amb : Ambient) (mn : CMasternodeMan)
    (calls : ClientCalls) (c : CPrivatePayClient) (w : CWallet) (pfrom : CNode) (dsq : CPrivatepayQueue) (pmn : CMasternode)
    (hlock : amb.lockRecv = true)
    (hver : ¬ pfrom.nVersion < cenv.MIN_PRIVATEPAY_PEER_PROTO_VERSION)
    (hexp : (dsq.IsExpired amb || decide (dsq.nTime > amb.GetTime + PRIVATEPAY_QUEUE_TIMEOUT)) = false)
    (hfind : mn.Find dsq.vin = some pmn)
    (hsig : cenv.VerifyMessage pmn.pubKeyMasternode dsq.vchSig dsq.vin dsq.nDenom dsq.nTime
      dsq.fReady = true)
    (hfr : dsq.fReady = false)
    (hvin : c.vecPrivatepayQueue.any (fun q => q.vin == dsq.vin) = false)
    (hne : pmn.nLastDsq ≠ 0) :
    (toInt32 (pmn.nLastDsq + Int.tdiv mn.CountEnabled 5) > mn.nDsqCount →
      c.ProcessPPQUEUE cenv amb calls mn w pfrom dsq = (c, w, mn, [])) ∧
    (¬ toInt32 (pmn.nLastDsq + Int.tdiv mn.CountEnabled 5) > mn.nDsqCount →
      ∃ q mn2, q.sameAs dsq = true ∧ mn2.nDsqCount = mn.nDsqCount + 1 ∧
        c.ProcessPPQUEUE cenv amb calls mn w pfrom dsq =
          ({ c with vecPrivatepayQueue := c.vecPrivatepayQueue ++ [q] }, w, mn2, [NetMsg.PPQUEUE q])) := by
  have hnew := any_sameAs_false _ _ hvin
  have hne1 : (pmn.nLastDsq != 0) = true := by simpa using hne
  rw [hfr] at hsig
  have hinfo := GetMasternodeInfo_of_find mn dsq.vin pmn hfind
  obtain ⟨mn2, hupd, hcnt⟩ := UpdateLastDsq_of_find mn dsq.vin pmn (mn.nDsqCount + 1) hfind
  constructor
  · intro hth
    unfold CPrivatePayClient.ProcessPPQUEUE
    simp only [hlock, Bool.not_true, Bool.false_eq_true, if_false, hver, hnew, hexp, hinfo, hsig,
      hfr, Bool.not_false, if_true, hvin, hne1,
      Bool.true_and, decide_eq_true_eq, hth]
  · intro hth
    by_cases hmix : (c.infoMixingMasternode.fInfoValid && c.infoMixingMasternode.vin == dsq.vin) = true
    · refine ⟨{ dsq with fTried := true }, mn2, ?_, hcnt, ?_⟩
      · simp [CPrivatepayQueue.sameAs]
      · unfold CPrivatePayClient.ProcessPPQUEUE
        simp only [hlock, Bool.not_true, Bool.false_eq_true, if_false, hver, hnew, hexp, hinfo, hsig,
          hfr, Bool.not_false, if_true, hvin, hne1,
          Bool.true_and, decide_eq_true_eq, hth, hupd, hmix]
    · refine ⟨dsq, mn2, ?_, hcnt, ?_⟩
      · simp [CPrivatepayQueue.sameAs]
      · unfold CPrivatePayClient.ProcessPPQUEUE
        simp only [hlock, Bool.not_true, Bool.false_eq_true, if_false, hver, hnew, hexp, hinfo, hsig,
          hfr, Bool.not_false, if_true, hvin, hne1,
          Bool.true_and, decide_eq_true_eq, hth, hupd, hmix]

/-- The coordinator stores no non-ready advertisement of a masternode that has
advertised before while the threshold exceeds the counter. -/
theorem ProcessPPQUEUE_accepts_only (env : Env) (amb : Ambient) (mn : CMasternodeMan)
    (s : CPrivatePayServer) (pfrom : CNode) (dsq : CPrivatepayQueue) (pmn : CMasternode)
    (hfind : mn.Find dsq.vin = some pmn) (hfr : dsq.fReady = false) (hne : pmn.nLastDsq ≠ 0)
    (hacc : (ProcessPPQUEUE env amb mn s pfrom dsq).1.vecPrivatepayQueue ≠ s.vecPrivatepayQueue) :
    ¬ toInt32 (pmn.nLastDsq + Int.tdiv mn.CountEnabled 5) > mn.nDsqCount := by
  intro hth
  apply hacc
  have hne1 : (pmn.nLastDsq != 0) = true := by simpa using hne
  unfold ProcessPPQUEUE
  simp only [hfind, hfr, hne1, hth, decide_True, Bool.true_and, Bool.not_false, if_true]
  split_ifs <;> rfl

/-- The client stores no non-ready advertisement of a masternode that has
advertised before while the threshold exceeds the counter. -/
theorem ClientProcessPPQUEUE_accepts_only (cenv : ClientEnv) (amb : Ambient) (mn : CMasternodeMan)
    (calls : ClientCalls) (c : CPrivatePayClient) (w : CWallet) (pfrom : CNode) (dsq : CPrivatepayQueue) (pmn : CMasternode)
    (hfind : mn.Find dsq.vin = some pmn) (hfr : dsq.fReady = false) (hne : pmn.nLastDsq ≠ 0)
    (hacc : (c.ProcessPPQUEUE cenv amb calls mn w pfrom dsq).1.vecPrivatepayQueue ≠
      c.vecPrivatepayQueue) :
    ¬ toInt32 (pmn.nLastDsq + Int.tdiv mn.CountEnabled 5) > mn.nDsqCount := by
  intro hth
  apply hacc
  have hne1 : (pmn.nLastDsq != 0) = true := by simpa using hne
  have hinfo := GetMasternodeInfo_of_find mn dsq.vin pmn hfind
  unfold CPrivatePayClient.ProcessPPQUEUE
  simp only [hinfo, hfr, hne1, hth, decide_True, Bool.true_and, Bool.not_true, Bool.false_eq_true,
    if_false, if_true]
  split_ifs <;> rfl

/-- C18 (counterexample): at `nLastDsq = 100`, 25 enabled masternodes and
`nDsqCount = 105` the sum `nLastDsq + CountEnabled/5` is not less than
`nDsqCount`, and both the coordinator and the client accept the non-ready
advertisement `demoQueue`: they store it, relay it and advance the counter. -/
theorem queue_accepted_at_equality :
    ¬ ((100 : Int) + Int.tdiv 25 5 < 105) ∧
    (demoRegistryAt 105).Find demoQueue.vin = some ⟨⟨8, 0⟩, 101, 6, 100, false⟩ ∧
    demoQueue.fReady = false ∧
    ProcessPPQUEUE demoEnv demoAmbient (demoRegistryAt 105) initialServer (demoPeer 10) demoQueue =
      ({ initialServer with vecPrivatepayQueue := [demoQueue] },
        ⟨[⟨⟨7, 0⟩, 100, 5, 0, false⟩, ⟨⟨8, 0⟩, 101, 6, 106, true⟩], 106, 25⟩,
        [NetMsg.PPQUEUE demoQueue]) ∧
    demoIdleClient.ProcessPPQUEUE demoClientEnv demoAmbient demoCalls (demoRegistryAt 105) demoWallet
        (demoPeer 10) demoQueue =
      ({ demoIdleClient with vecPrivatepayQueue := [demoQueue] }, demoWallet,
        ⟨[⟨⟨7, 0⟩, 100, 5, 0, false⟩, ⟨⟨8, 0⟩, 101, 6, 106, true⟩], 106, 25⟩,
        [NetMsg.PPQUEUE demoQueue]) := by
  decide

/-- C18 (amended): in `PPQUEUE` handling of the coordinator and of the client, a
non-ready advertisement of a masternode that has advertised before
(`nLastDsq ≠ 0`) is stored in the queue vector only if
`nLastDsq + CountEnabled/5 ≤ nDsqCount`, the sum being in the range of `int`. -/
theorem queue_accepted_only_at_threshold (env : Env) (cenv : ClientEnv) (amb : Ambient)
    (calls : ClientCalls) (mn : CMasternodeMan) (s : CPrivatePayServer) (c : CPrivatePayClient)
    (w : CWallet)
    (pfrom : CNode) (dsq : CPrivatepayQueue) (pmn : CMasternode)
    (hfind : mn.Find dsq.vin = some pmn) (hfr : dsq.fReady = false) (hne : pmn.nLastDsq ≠ 0)
    (hlo : -2147483648 ≤ pmn.nLastDsq + Int.tdiv mn.CountEnabled 5)
    (hhi : pmn.nLastDsq + Int.tdiv mn.CountEnabled 5 < 2147483648) :
    ((ProcessPPQUEUE env amb mn s pfrom dsq).1.vecPrivatepayQueue ≠ s.vecPrivatepayQueue →
      pmn.nLastDsq + Int.tdiv mn.CountEnabled 5 ≤ mn.nDsqCount) ∧
    ((c.ProcessPPQUEUE cenv amb calls mn w pfrom dsq).1.vecPrivatepayQueue ≠
        c.vecPrivatepayQueue →
      pmn.nLastDsq + Int.tdiv mn.CountEnabled 5 ≤ mn.nDsqCount) := by
  constructor
  · intro hacc
    have h := ProcessPPQUEUE_accepts_only env amb mn s pfrom dsq pmn hfind hfr hne hacc
    rw [toInt32_of_range _ hlo hhi] at h
    exact not_lt.mp h
  · intro hacc
    have h := ClientProcessPPQUEUE_accepts_only cenv amb mn calls c w pfrom dsq pmn hfind
      hfr hne hacc
    rw [toInt32_of_range _ hlo hhi] at h
    exact not_lt.mp h

/-- C18 (witness): at `nLastDsq = 100`, 25 enabled masternodes and
`nDsqCount = 105` the coordinator and the client store `demoQueue`. -/
theorem queue_accepted_only_at_threshold_witness :
    ((ProcessPPQUEUE demoEnv demoAmbient (demoRegistryAt 105) initialServer (demoPeer 10)
          demoQueue).1.vecPrivatepayQueue ≠ initialServer.vecPrivatepayQueue ∧
      (demoIdleClient.ProcessPPQUEUE demoClientEnv demoAmbient demoCalls (demoRegistryAt 105) demoWallet (demoPeer 10) demoQueue).1.vecPrivatepayQueue ≠
        demoIdleClient.vecPrivatepayQueue) ∧
    (100 : Int) + Int.tdiv 25 5 ≤ 105 :=
  ⟨⟨by decide, by decide⟩,
    (queue_accepted_only_at_threshold demoEnv demoClientEnv demoAmbient demoCalls (demoRegistryAt 105)
      initialServer demoIdleClient demoWallet (demoPeer 10) demoQueue
      ⟨⟨8, 0⟩, 101, 6, 100, false⟩ rfl rfl (by decide) (by decide) (by decide)).1 (by decide)⟩

/-- C19: for a non-ready advertisement that passes the earlier checks (lock,
peer version, not expired, masternode known, signature valid, no stored
advertisement of the same masternode) and whose masternode has `nLastDsq ≠ 0`,
the sum `nLastDsq + CountEnabled/5` being in the range of `int`: when the sum
is greater than `nDsqCount`, coordinator and client change nothing and send
nothing; otherwise both append the advertisement to the queue vector, relay it
and leave `nDsqCount` increased by one. -/
theorem queue_threshold_exact (env : Env) (cenv : ClientEnv) (amb : Ambient)
    (calls : ClientCalls) (mn : CMasternodeMan) (s : CPrivatePayServer) (c : CPrivatePayClient)
    (w : CWallet)
    (pfrom : CNode) (dsq : CPrivatepayQueue) (pmn : CMasternode)
    (hlock : amb.lockRecv = true)
    (hver : ¬ pfrom.nVersion < env.MIN_PRIVATEPAY_PEER_PROTO_VERSION)
    (hverc : ¬ pfrom.nVersion < cenv.MIN_PRIVATEPAY_PEER_PROTO_VERSION)
    (hexp : (dsq.IsExpired amb || decide (dsq.nTime > amb.GetTime + PRIVATEPAY_QUEUE_TIMEOUT)) = false)
    (hfind : mn.Find dsq.vin = some pmn)
    (hsig : env.VerifyMessage pmn.pubKeyMasternode dsq.vchSig dsq.vin dsq.nDenom dsq.nTime
      dsq.fReady = true)
    (hsigc : cenv.VerifyMessage pmn.pubKeyMasternode dsq.vchSig dsq.vin dsq.nDenom dsq.nTime
      dsq.fReady = true)
    (hfr : dsq.fReady = false)
    (hvin : s.vecPrivatepayQueue.any (fun q => q.vin == dsq.vin) = false)
    (hvinc : c.vecPrivatepayQueue.any (fun q => q.vin == dsq.vin) = false)
    (hne : pmn.nLastDsq ≠ 0)
    (hlo : -2147483648 ≤ pmn.nLastDsq + Int.tdiv mn.CountEnabled 5)
    (hhi : pmn.nLastDsq + Int.tdiv mn.CountEnabled 5 < 2147483648) :
    (pmn.nLastDsq + Int.tdiv mn.CountEnabled 5 > mn.nDsqCount →
      ProcessPPQUEUE env amb mn s pfrom dsq = (s, mn, []) ∧
      c.ProcessPPQUEUE cenv amb calls mn w pfrom dsq = (c, w, mn, [])) ∧
    (¬ pmn.nLastDsq + Int.tdiv mn.CountEnabled 5 > mn.nDsqCount →
      ((ProcessPPQUEUE env amb mn s pfrom dsq).1.vecPrivatepayQueue = s.vecPrivatepayQueue ++ [dsq] ∧
        (ProcessPPQUEUE env amb mn s pfrom dsq).2.1.nDsqCount = mn.nDsqCount + 1 ∧
        (ProcessPPQUEUE env amb mn s pfrom dsq).2.2 = [NetMsg.PPQUEUE dsq]) ∧
      ∃ q, q.sameAs dsq = true ∧
        (c.ProcessPPQUEUE cenv amb calls mn w pfrom dsq).1.vecPrivatepayQueue =
          c.vecPrivatepayQueue ++ [q] ∧
        (c.ProcessPPQUEUE cenv amb calls mn w pfrom dsq).2.2.1.nDsqCount = mn.nDsqCount + 1 ∧
        (c.ProcessPPQUEUE cenv amb calls mn w pfrom dsq).2.2.2 = [NetMsg.PPQUEUE q]) := by
  have hs := ProcessPPQUEUE_passed env amb mn s pfrom dsq pmn hlock hver hexp hfind hsig hfr hvin hne
  have hc := ClientProcessPPQUEUE_passed cenv amb mn calls c w pfrom dsq pmn hlock hverc
    hexp hfind hsigc hfr hvinc hne
  rw [toInt32_of_range _ hlo hhi] at hs hc
  constructor
  · intro hth
    exact ⟨by rw [hs, if_pos hth], hc.1 hth⟩
  · intro hth
    obtain ⟨q, mn2, hq, hcnt, hres⟩ := hc.2 hth
    rw [hs, if_neg hth, hres]
    exact ⟨⟨rfl, rfl, rfl⟩, q, hq, rfl, hcnt, rfl⟩

/-- C19 (witness): with `nLastDsq = 100` and 25 enabled masternodes, `demoQueue`
is discarded by coordinator and client at `nDsqCount = 104`, and at
`nDsqCount = 106` it is appended to the empty queue vector of the coordinator,
which leaves `nDsqCount = 107`, and likewise by the client. -/
theorem queue_threshold_exact_witness :
    (ProcessPPQUEUE demoEnv demoAmbient (demoRegistryAt 104) initialServer (demoPeer 10) demoQueue =
        (initialServer, demoRegistryAt 104, []) ∧
      demoIdleClient.ProcessPPQUEUE demoClientEnv demoAmbient demoCalls (demoRegistryAt 104)
          demoWallet (demoPeer 10) demoQueue = (demoIdleClient, demoWallet, demoRegistryAt 104, [])) ∧
    ((ProcessPPQUEUE demoEnv demoAmbient (demoRegistryAt 106) initialServer (demoPeer 10)
          demoQueue).1.vecPrivatepayQueue = initialServer.vecPrivatepayQueue ++ [demoQueue] ∧
        (ProcessPPQUEUE demoEnv demoAmbient (demoRegistryAt 106) initialServer (demoPeer 10)
          demoQueue).2.1.nDsqCount = (demoRegistryAt 106).nDsqCount + 1 ∧
        (ProcessPPQUEUE demoEnv demoAmbient (demoRegistryAt 106) initialServer (demoPeer 10)
          demoQueue).2.2 = [NetMsg.PPQUEUE demoQueue]) ∧
      ∃ q, q.sameAs demoQueue = true ∧
        (demoIdleClient.ProcessPPQUEUE demoClientEnv demoAmbient demoCalls (demoRegistryAt 106)
          demoWallet (demoPeer 10) demoQueue).1.vecPrivatepayQueue =
          demoIdleClient.vecPrivatepayQueue ++ [q] ∧
        (demoIdleClient.ProcessPPQUEUE demoClientEnv demoAmbient demoCalls (demoRegistryAt 106)
          demoWallet (demoPeer 10) demoQueue).2.2.1.nDsqCount =
          (demoRegistryAt 106).nDsqCount + 1 ∧
        (demoIdleClient.ProcessPPQUEUE demoClientEnv demoAmbient demoCalls (demoRegistryAt 106)
          demoWallet (demoPeer 10) demoQueue).2.2.2 = [NetMsg.PPQUEUE q] :=
  ⟨(queue_threshold_exact demoEnv demoClientEnv demoAmbient demoCalls (demoRegistryAt 104)
      initialServer demoIdleClient demoWallet (demoPeer 10) demoQueue ⟨⟨8, 0⟩, 101, 6, 100, false⟩
      rfl (by decide) (by decide) (by decide) rfl rfl rfl rfl (by decide) (by decide) (by decide)
      (by decide) (by decide)).1 (by decide),
    (queue_threshold_exact demoEnv demoClientEnv demoAmbient demoCalls (demoRegistryAt 106)
      initialServer demoIdleClient demoWallet (demoPeer 10) demoQueue ⟨⟨8, 0⟩, 101, 6, 100, false⟩
      rfl (by decide) (by decide) (by decide) rfl rfl rfl rfl (by decide) (by decide) (by decide)
      (by decide) (by decide)).2 (by decide)⟩

/-! ## C21: ACCEPT to a session that is already ready -/

/-- C21, the code at the failing input: an `ACCEPT` from an up-to-date peer to a
session that already holds `MaxPoolTxns` collaterals leaves the session as it
is and is answered by a status update with message `ERR_QUEUE_FULL` whose
status field is `STATUS_ACCEPTED`, not `STATUS_REJECTED`.  In the demonstration
session, full with the participants 10, 11 and 12, the peer 13 gets
`STATUS(ACCEPTED, ERR_QUEUE_FULL)` with the session id 1 and state `QUEUE`. -/
theorem accept_when_ready_status :
    (∀ (env : Env) (amb : Ambient) (mn : CMasternodeMan) (s : CPrivatePayServer) (pfrom : CNode)
        (nDenom : Int) (txCollateral : CTransaction),
      ¬ pfrom.nVersion < env.MIN_PRIVATEPAY_PEER_PROTO_VERSION → IsSessionReady s = true →
      ProcessPPACCEPT env amb mn s pfrom nDenom txCollateral
        = (s, [PushStatus s pfrom.addr STATUS_ACCEPTED ERR_QUEUE_FULL])) ∧
    Reachable demoEnv demoQueueFull ∧
    IsSessionReady demoQueueFull = true ∧
    step demoEnv demoAmbient demoRegistry demoQueueFull (demoAccept 3 1) =
      (demoQueueFull,
        [NetMsg.PPSTATUSUPDATE 13 1 POOL_STATE_QUEUE 0 STATUS_ACCEPTED ERR_QUEUE_FULL]) := by
  refine ⟨?_, demoQueueFull_reachable, by decide, by decide⟩
  intro env amb mn s pfrom nDenom txCollateral hv hr
  unfold ProcessPPACCEPT
  simp only [hv, if_false, hr, if_true]

/-! ## C22, C23: opening and joining a session -/

/-- The three conditions under which `IsAcceptableDenomAndCollateral` accepts. -/
theorem IsAcceptableDenomAndCollateral_true (env : Env) (s : CPrivatePayServer) (nDenom : Int)
    (txCollateral : CTransaction) (m : PoolMessage) :
    (IsAcceptableDenomAndCollateral env s nDenom txCollateral m).1 = true ↔
      (env.fMasterNode = true ∧ (GetDenominationsBits nDenom []).1 = true ∧
        (s.fUnitTest = true ∨ IsCollateralValid env txCollateral = true)) := by
  unfold IsAcceptableDenomAndCollateral
  cases env.fMasterNode <;> cases (GetDenominationsBits nDenom []).1 <;> cases s.fUnitTest <;>
    cases IsCollateralValid env txCollateral <;> simp

/-- The message `IsAcceptableDenomAndCollateral` reports on a masternode. -/
theorem IsAcceptableDenomAndCollateral_msg (env : Env) (s : CPrivatePayServer) (nDenom : Int)
    (txCollateral : CTransaction) (m : PoolMessage) (hm : env.fMasterNode = true) :
    (IsAcceptableDenomAndCollateral env s nDenom txCollateral m).2 =
      if (GetDenominationsBits nDenom []).1 = false then ERR_DENOM
      else if s.fUnitTest = false ∧ IsCollateralValid env txCollateral = false then
        ERR_INVALID_COLLATERAL
      else m := by
  unfold IsAcceptableDenomAndCollateral
  cases (GetDenominationsBits nDenom []).1 <;> cases s.fUnitTest <;>
    cases IsCollateralValid env txCollateral <;> simp [hm]

/-- C22: `CreateNewSession` succeeds exactly in coordinator mode with
`nSessionID = 0`, state `IDLE`, a legitimate denomination mask and a valid
collateral (not checked in unit-test mode).  It then reports `MSG_NOERR`, the
new `nSessionID` lies in `1..999999`, `nSessionDenom` is the requested mask, the
state is `QUEUE`, and `vecSessionCollaterals` is the previous list with the
collateral of the request appended; entries and final transaction are as before. -/
theorem CreateNewSession_success (env : Env) (amb : Ambient) (s : CPrivatePayServer)
    (nDenom : Int) (txCollateral : CTransaction) (nMessageID : PoolMessage) :
    ((CreateNewSession env amb s nDenom txCollateral nMessageID).1 = true ↔
      (env.fMasterNode = true ∧ s.nSessionID = 0 ∧ s.nState = POOL_STATE_IDLE ∧
        (GetDenominationsBits nDenom []).1 = true ∧
        (s.fUnitTest = true ∨ IsCollateralValid env txCollateral = true))) ∧
    ((CreateNewSession env amb s nDenom txCollateral nMessageID).1 = true →
      (CreateNewSession env amb s nDenom txCollateral nMessageID).2.1 = MSG_NOERR ∧
      1 ≤ (CreateNewSession env amb s nDenom txCollateral nMessageID).2.2.1.nSessionID ∧
      (CreateNewSession env amb s nDenom txCollateral nMessageID).2.2.1.nSessionID ≤ 999999 ∧
      (CreateNewSession env amb s nDenom txCollateral nMessageID).2.2.1.nSessionDenom = nDenom ∧
      (CreateNewSession env amb s nDenom txCollateral nMessageID).2.2.1.nState = POOL_STATE_QUEUE ∧
      (CreateNewSession env amb s nDenom txCollateral nMessageID).2.2.1.vecSessionCollaterals =
        s.vecSessionCollaterals ++ [txCollateral] ∧
      (CreateNewSession env amb s nDenom txCollateral nMessageID).2.2.1.vecEntries = s.vecEntries ∧
      (CreateNewSession env amb s nDenom txCollateral nMessageID).2.2.1.finalMutableTransaction =
        s.finalMutableTransaction) := by
  have hacc := IsAcceptableDenomAndCollateral_true env s nDenom txCollateral nMessageID
  have hrand : (1 : Int) ≤ ((GetRandInt amb 0 999999 : Nat) : Int) + 1 ∧
      ((GetRandInt amb 0 999999 : Nat) : Int) + 1 ≤ 999999 := by
    have : GetRandInt amb 0 999999 < 999999 := by
      unfold GetRandInt
      exact Nat.mod_lt _ (by decide)
    omega
  by_cases hm : env.fMasterNode = true
  · by_cases hid : s.nSessionID = 0
    · by_cases hst : s.nState = POOL_STATE_IDLE
      · by_cases ha : (IsAcceptableDenomAndCollateral env s nDenom txCollateral nMessageID).1 = true
        · have hcond := hacc.1 ha
          constructor
          · unfold CreateNewSession
            simp only [hm, hid, hst, ha]
            simp [hcond.2.1, hcond.2.2]
          · intro _
            unfold CreateNewSession
            simp only [hm, hid, hst, ha, SetState]
            by_cases hu : s.fUnitTest = true
            · simp [hu, hrand.1, hrand.2]
            · simp [hu, hrand.1, hrand.2]
        · have hno : ¬ (env.fMasterNode = true ∧ (GetDenominationsBits nDenom []).1 = true ∧
              (s.fUnitTest = true ∨ IsCollateralValid env txCollateral = true)) :=
            fun h => ha (hacc.2 h)
          have hres : (CreateNewSession env amb s nDenom txCollateral nMessageID).1 = false := by
            unfold CreateNewSession
            simp [hm, hid, hst, ha]
          rw [hres]
          constructor
          · constructor
            · intro h; cases h
            · rintro ⟨h1, _, _, h4, h5⟩
              exact absurd ⟨h1, h4, h5⟩ hno
          · intro h; cases h
      · have hres : (CreateNewSession env amb s nDenom txCollateral nMessageID).1 = false := by
          unfold CreateNewSession
          simp [hm, hid, hst]
        rw [hres]
        exact ⟨⟨fun h => Bool.noConfusion h, fun h => absurd h.2.2.1 hst⟩, fun h => Bool.noConfusion h⟩
    · have hres : (CreateNewSession env amb s nDenom txCollateral nMessageID).1 = false := by
        unfold CreateNewSession
        simp [hm, hid]
      rw [hres]
      exact ⟨⟨fun h => Bool.noConfusion h, fun h => absurd h.2.1 hid⟩, fun h => Bool.noConfusion h⟩
  · have hres : (CreateNewSession env amb s nDenom txCollateral nMessageID).1 = false := by
      unfold CreateNewSession
      simp [hm]
    rw [hres]
    exact ⟨⟨fun h => Bool.noConfusion h, fun h => absurd h.1 hm⟩, fun h => Bool.noConfusion h⟩
/-- C23 (counterexample): in the reachable state `demoOneJoined` (state `QUEUE`,
session mask 1) a request with the legitimate mask 2, which differs from
`nSessionDenom`, and an invalid collateral is refused with
`ERR_INVALID_COLLATERAL`, not `ERR_DENOM`; and in the reachable state
`demoAccepting` (state `ACCEPTING_ENTRIES`, not the required `QUEUE`)
`AddUserToExistingSession` returns false and leaves the message as the caller
passed it, not `ERR_MODE`. -/
theorem join_failure_message_order :
    (Reachable demoEnv demoOneJoined ∧ demoOneJoined.nState = POOL_STATE_QUEUE ∧
      demoOneJoined.nSessionDenom = 1 ∧ (GetDenominationsBits 2 []).1 = true ∧
      IsCollateralValid demoEnv ⟨[], [], 0⟩ = false ∧
      AddUserToExistingSession demoEnv demoAmbient demoOneJoined 2 ⟨[], [], 0⟩ MSG_NOERR =
        (false, ERR_INVALID_COLLATERAL, demoOneJoined)) ∧
    (Reachable demoEnv demoAccepting ∧ demoAccepting.nState = POOL_STATE_ACCEPTING_ENTRIES ∧
      demoAccepting.nSessionDenom = 1 ∧ IsCollateralValid demoEnv (demoCollateral 2) = true ∧
      AddUserToExistingSession demoEnv demoAmbient demoAccepting 1 (demoCollateral 2) MSG_NOERR =
        (false, MSG_NOERR, demoAccepting)) :=
  ⟨⟨demoOneJoined_reachable, by decide, by decide, by decide, by decide, by decide⟩,
    ⟨demoAccepting_reachable, by decide, by decide, by decide, by decide⟩⟩

/-- C23 (amended): on a masternode, whenever `CreateNewSession` or
`AddUserToExistingSession` returns false the session is unchanged, and the
message reported is that of the first check that fails.  `CreateNewSession`
checks in this order: `nSessionID = 0` (else the message is left as passed in),
state `IDLE` (else `ERR_MODE`), legitimate mask (else `ERR_DENOM`), valid
collateral (else `ERR_INVALID_COLLATERAL`).  `AddUserToExistingSession` checks:
`nSessionID ≠ 0` and session not ready (else the message is left as passed in),
legitimate mask (else `ERR_DENOM`), valid collateral (else
`ERR_INVALID_COLLATERAL`), state `QUEUE` (else `ERR_MODE`), mask equal to
`nSessionDenom` (else `ERR_DENOM`); it succeeds only in state `QUEUE` with a mask
equal to `nSessionDenom`.  The collateral is not checked in unit-test mode. -/
theorem session_join_failure (env : Env) (amb : Ambient) (s : CPrivatePayServer)
    (nDenom : Int) (txCollateral : CTransaction) (m : PoolMessage)
    (hm : env.fMasterNode = true) :
    ((CreateNewSession env amb s nDenom txCollateral m).1 = false →
      (CreateNewSession env amb s nDenom txCollateral m).2.2 = (s, []) ∧
      (CreateNewSession env amb s nDenom txCollateral m).2.1 =
        if s.nSessionID ≠ 0 then m
        else if s.nState ≠ POOL_STATE_IDLE then ERR_MODE
        else if (GetDenominationsBits nDenom []).1 = false then ERR_DENOM
        else ERR_INVALID_COLLATERAL) ∧
    ((AddUserToExistingSession env amb s nDenom txCollateral m).1 = false →
      (AddUserToExistingSession env amb s nDenom txCollateral m).2.2 = s ∧
      (AddUserToExistingSession env amb s nDenom txCollateral m).2.1 =
        if s.nSessionID = 0 ∨ IsSessionReady s = true then m
        else if (GetDenominationsBits nDenom []).1 = false then ERR_DENOM
        else if s.fUnitTest = false ∧ IsCollateralValid env txCollateral = false then
          ERR_INVALID_COLLATERAL
        else if s.nState ≠ POOL_STATE_QUEUE then ERR_MODE
        else ERR_DENOM) ∧
    ((AddUserToExistingSession env amb s nDenom txCollateral m).1 = true →
      s.nState = POOL_STATE_QUEUE ∧ nDenom = s.nSessionDenom ∧ s.nSessionID ≠ 0 ∧
      IsSessionReady s = false ∧
      (AddUserToExistingSession env amb s nDenom txCollateral m).2.1 = MSG_NOERR ∧
      (AddUserToExistingSession env amb s nDenom txCollateral m).2.2.vecSessionCollaterals =
        s.vecSessionCollaterals ++ [txCollateral]) := by
  have hmsg := IsAcceptableDenomAndCollateral_msg env s nDenom txCollateral m hm
  have hacc := IsAcceptableDenomAndCollateral_true env s nDenom txCollateral m
  refine ⟨?_, ?_, ?_⟩
  · intro hfalse
    unfold CreateNewSession at hfalse ⊢
    by_cases hid : s.nSessionID = 0
    · by_cases hst : s.nState = POOL_STATE_IDLE
      · by_cases ha : (IsAcceptableDenomAndCollateral env s nDenom txCollateral m).1 = true
        · simp [hm, hid, hst, ha] at hfalse
        · have hno : ¬ ((GetDenominationsBits nDenom []).1 = true ∧
              (s.fUnitTest = true ∨ IsCollateralValid env txCollateral = true)) :=
            fun h => ha (hacc.2 ⟨hm, h⟩)
          simp only [hm, hid, hst, ha, hmsg]
          by_cases hd : (GetDenominationsBits nDenom []).1 = true
          · have hc : s.fUnitTest = false ∧ IsCollateralValid env txCollateral = false := by
              constructor
              · cases h : s.fUnitTest
                · rfl
                · exact absurd ⟨hd, Or.inl h⟩ hno
              · cases h : IsCollateralValid env txCollateral
                · rfl
                · exact absurd ⟨hd, Or.inr h⟩ hno
            simp [hd, hc.1, hc.2]
          · simp [hd]
      · simp [hm, hid, hst]
    · simp [hm, hid]
  · intro hfalse
    unfold AddUserToExistingSession at hfalse ⊢
    by_cases hid : s.nSessionID = 0
    · simp [hm, hid]
    · by_cases hr : IsSessionReady s = true
      · simp [hm, hid, hr]
      · by_cases ha : (IsAcceptableDenomAndCollateral env s nDenom txCollateral m).1 = true
        · have hcond := hacc.1 ha
          have hc : ¬ (s.fUnitTest = false ∧ IsCollateralValid env txCollateral = false) := by
            rintro ⟨h1, h2⟩
            rcases hcond.2.2 with h | h
            · rw [h1] at h; cases h
            · rw [h2] at h; cases h
          by_cases hst : s.nState = POOL_STATE_QUEUE
          · by_cases hd : nDenom = s.nSessionDenom
            · subst hd
              simp [hm, hid, hr, ha, hst] at hfalse
            · simp [hm, hid, hr, ha, hst, hd, hcond.2.1, hc]
          · simp [hm, hid, hr, ha, hst, hcond.2.1, hc]
        · have hno : ¬ ((GetDenominationsBits nDenom []).1 = true ∧
              (s.fUnitTest = true ∨ IsCollateralValid env txCollateral = true)) :=
            fun h => ha (hacc.2 ⟨hm, h⟩)
          simp only [hm, hid, hr, ha, hmsg]
          by_cases hd : (GetDenominationsBits nDenom []).1 = true
          · have hc : s.fUnitTest = false ∧ IsCollateralValid env txCollateral = false := by
              constructor
              · cases h : s.fUnitTest
                · rfl
                · exact absurd ⟨hd, Or.inl h⟩ hno
              · cases h : IsCollateralValid env txCollateral
                · rfl
                · exact absurd ⟨hd, Or.inr h⟩ hno
            simp [hd, hc.1, hc.2, hid, hr]
          · simp [hd, hid, hr]
  · intro htrue
    unfold AddUserToExistingSession at htrue ⊢
    by_cases hid : s.nSessionID = 0
    · simp [hm, hid] at htrue
    · by_cases hr : IsSessionReady s = true
      · simp [hm, hid, hr] at htrue
      · by_cases ha : (IsAcceptableDenomAndCollateral env s nDenom txCollateral m).1 = true
        · by_cases hst : s.nState = POOL_STATE_QUEUE
          · by_cases hd : nDenom = s.nSessionDenom
            · subst hd
              simp [hm, hid, hr, ha, hst]
            · simp [hm, hid, hr, ha, hst, hd] at htrue
          · simp [hm, hid, hr, ha, hst] at htrue
        · simp [hm, hid, hr, ha] at htrue

/-- C23 (witness): in `demoOneJoined` a request with the illegitimate mask 16 is
refused by both functions - `CreateNewSession` because a session is open, with
the message left as passed in, `AddUserToExistingSession` with `ERR_DENOM` - and
a request with mask 1 and a valid collateral joins the session. -/
theorem session_join_failure_witness :
    demoEnv.fMasterNode = true ∧
    CreateNewSession demoEnv demoAmbient demoOneJoined 16 (demoCollateral 1) MSG_NOERR =
      (false, MSG_NOERR, demoOneJoined, []) ∧
    AddUserToExistingSession demoEnv demoAmbient demoOneJoined 16 (demoCollateral 1) MSG_NOERR =
      (false, ERR_DENOM, demoOneJoined) ∧
    (AddUserToExistingSession demoEnv demoAmbient demoOneJoined 1 (demoCollateral 1) MSG_NOERR).1
      = true ∧
    (demoOneJoined.nState = POOL_STATE_QUEUE ∧ (1 : Int) = demoOneJoined.nSessionDenom ∧
      demoOneJoined.nSessionID ≠ 0 ∧ IsSessionReady demoOneJoined = false ∧
      (AddUserToExistingSession demoEnv demoAmbient demoOneJoined 1 (demoCollateral 1)
        MSG_NOERR).2.1 = MSG_NOERR ∧
      (AddUserToExistingSession demoEnv demoAmbient demoOneJoined 1 (demoCollateral 1)
        MSG_NOERR).2.2.vecSessionCollaterals =
        demoOneJoined.vecSessionCollaterals ++ [demoCollateral 1]) :=
  ⟨rfl, by decide, by decide, by decide,
    (session_join_failure demoEnv demoAmbient demoOneJoined 1 (demoCollateral 1) MSG_NOERR rfl).2.2
      (by decide)⟩

/-! ## C24: the coordinator's timeout -/

/-- C24 (counterexample): the demonstration session is in state `SIGNING`, last
step at 1000 ms; `CheckTimeout` at 61000 ms, past the signing timeout of 15 s,
leaves the state `IDLE`, not `ERROR`. -/
theorem timeout_state_is_idle :
    Reachable demoEnv demoSigning ∧
    demoSigning.nState = POOL_STATE_SIGNING ∧
    demoAmbientLate.GetTimeMillis - demoSigning.nTimeLastSuccessfulStep
      ≥ PRIVATEPAY_SIGNING_TIMEOUT * 1000 ∧
    (CheckTimeout demoEnv demoAmbientLate demoSigning).1.nState = POOL_STATE_IDLE ∧
    (CheckTimeout demoEnv demoAmbientLate demoSigning).1.nState ≠ POOL_STATE_ERROR :=
  ⟨demoSigning_reachable, by decide, by decide, by decide, by decide⟩

/-- C24 (amended): when the coordinator's `CheckTimeout` obtains the lock and
finds a session that is not `IDLE` and whose last successful step lies at least
the timeout back (15 s in state `SIGNING`, 30 s otherwise), it runs `ChargeFees`
and resets the session with `SetNull`; `SetState(ERROR)` is refused on a
masternode, so the state afterwards is `IDLE`, with session id and mask 0 and no
entries and collaterals. -/
theorem CheckTimeout_resets (env : Env) (amb : Ambient) (s : CPrivatePayServer)
    (hlock : amb.lockRecv = true) (hm : env.fMasterNode = true)
    (hs : s.nState ≠ POOL_STATE_IDLE)
    (ht : amb.GetTimeMillis - s.nTimeLastSuccessfulStep ≥
      (if s.nState = POOL_STATE_SIGNING then PRIVATEPAY_SIGNING_TIMEOUT
        else PRIVATEPAY_QUEUE_TIMEOUT) * 1000) :
    CheckTimeout env amb s =
      (SetNull amb
          { s with vecPrivatepayQueue := s.vecPrivatepayQueue.filter (fun q => !q.IsExpired amb) },
        ChargeFees env amb
          { s with vecPrivatepayQueue := s.vecPrivatepayQueue.filter (fun q => !q.IsExpired amb) }) ∧
    (CheckTimeout env amb s).1.nState = POOL_STATE_IDLE ∧
    (CheckTimeout env amb s).1.nSessionID = 0 ∧
    (CheckTimeout env amb s).1.nSessionDenom = 0 ∧
    (CheckTimeout env amb s).1.vecEntries = [] ∧
    (CheckTimeout env amb s).1.vecSessionCollaterals = [] := by
  have hres : CheckTimeout env amb s =
      (SetNull amb
          { s with vecPrivatepayQueue := s.vecPrivatepayQueue.filter (fun q => !q.IsExpired amb) },
        ChargeFees env amb
          { s with vecPrivatepayQueue := s.vecPrivatepayQueue.filter (fun q => !q.IsExpired amb) }) := by
    unfold CheckTimeout
    have hs1 : (s.nState != POOL_STATE_IDLE) = true := by simpa using hs
    by_cases hsig : s.nState = POOL_STATE_SIGNING
    · simp only [hsig, if_true] at ht
      simp [hlock, hm, hsig, ht, SetState]
    · simp only [hsig, if_false] at ht
      simp [hlock, hm, hsig, ht, hs1, SetState]
  rw [hres]
  exact ⟨rfl, rfl, rfl, rfl, rfl, rfl⟩

/-- C24 (witness): the demonstration session in state `SIGNING`, checked at 61000 ms. -/
theorem CheckTimeout_resets_witness :
    demoSigning.nState ≠ POOL_STATE_IDLE ∧
    (CheckTimeout demoEnv demoAmbientLate demoSigning).1.nState = POOL_STATE_IDLE ∧
    (CheckTimeout demoEnv demoAmbientLate demoSigning).1.vecSessionCollaterals = [] :=
  have h := CheckTimeout_resets demoEnv demoAmbientLate demoSigning rfl rfl (by decide) (by decide)
  ⟨by decide, h.2.1, h.2.2.2.2.2⟩

/-! ## C27: pruning of broadcast mixing transactions -/

/-- What `CheckPPTXes` keeps: the records that are not expired, in their order. -/
theorem CheckPPTXes_eq_filter (mapPPTX : List (Nat × CPrivatepayBroadcastTx)) (nHeight : Int) :
    CheckPPTXes mapPPTX nHeight = mapPPTX.filter (fun it => !it.2.IsExpired nHeight) := by
  induction mapPPTX with
  | nil => rfl
  | cons it rest ih =>
    by_cases h : it.2.IsExpired nHeight = true
    · simp [CheckPPTXes, h, ih]
    · simp [CheckPPTXes, h, ih]

/-- C27 (counterexample): a record that is not confirmed (`nConfirmedHeight = -1`)
is still in the map after `CheckPPTXes(100)`, although
`100 - nConfirmedHeight = 101 > 24`. -/
theorem unconfirmed_pptx_survives :
    CheckPPTXes [(5, ⟨demoFunding, ⟨7, 0⟩, [1], 1, -1⟩)] 100 =
      [(5, ⟨demoFunding, ⟨7, 0⟩, [1], 1, -1⟩)] ∧
    (100 : Int) - (⟨demoFunding, ⟨7, 0⟩, [1], 1, -1⟩ : CPrivatepayBroadcastTx).nConfirmedHeight > 24 := by
  decide

/-- C27 (amended): for every height `h` and every content of the map, after
`CheckPPTXes(h)` the map holds no confirmed record (`nConfirmedHeight ≠ -1`)
with `h - nConfirmedHeight > 24`; it holds exactly the other records of the
previous content, in the same order - every record that is not confirmed, and
every confirmed one with `h - nConfirmedHeight ≤ 24`. -/
theorem CheckPPTXes_spec (mapPPTX : List (Nat × CPrivatepayBroadcastTx)) (nHeight : Int) :
    (∀ it ∈ CheckPPTXes mapPPTX nHeight,
      it.2.nConfirmedHeight = -1 ∨ nHeight - it.2.nConfirmedHeight ≤ 24) ∧
    (∀ it, it ∈ CheckPPTXes mapPPTX nHeight ↔
      it ∈ mapPPTX ∧ (it.2.nConfirmedHeight = -1 ∨ nHeight - it.2.nConfirmedHeight ≤ 24)) ∧
    (CheckPPTXes mapPPTX nHeight).Sublist mapPPTX := by
  have hmem : ∀ it, it ∈ CheckPPTXes mapPPTX nHeight ↔
      it ∈ mapPPTX ∧ (it.2.nConfirmedHeight = -1 ∨ nHeight - it.2.nConfirmedHeight ≤ 24) := by
    intro it
    rw [CheckPPTXes_eq_filter, List.mem_filter]
    simp only [CPrivatepayBroadcastTx.IsExpired, Bool.not_and, Bool.or_eq_true, Bool.not_eq_true',
      bne_eq_false_iff_eq, decide_eq_false_iff_not, not_lt]
  refine ⟨fun it h => ((hmem it).1 h).2, hmem, ?_⟩
  rw [CheckPPTXes_eq_filter]
  exact List.filter_sublist _

/-! ## C30: the single random mask -/

/-- The last loop of `GetDenominations` in single-random mode: the result is 0
when no used denomination draws 1, and otherwise the bit of the first used
denomination that draws 1. -/
theorem shiftDenomBits_single (rand : Nat → Nat) (used : List (CAmount × Nat))
    (h : ∀ s ∈ used, s.2 = 0 ∨ s.2 = 1) (c : Nat) :
    (shiftDenomBits true rand used 0 c = 0 ∧
      ∀ j s, used[j]? = some s → s.2 = 1 → rand (c + j) % 2 = 0) ∨
    (∃ j s, used[j]? = some s ∧ s.2 = 1 ∧ rand (c + j) % 2 = 1 ∧
      shiftDenomBits true rand used 0 c = 2 ^ (c + j) ∧
      ∀ i t, i < j → used[i]? = some t → t.2 = 1 → rand (c + i) % 2 = 0) := by
  induction used generalizing c with
  | nil => left; simp [shiftDenomBits]
  | cons s rest ih =>
    have hs := h s (List.mem_cons_self _ _)
    have hrest : ∀ t ∈ rest, t.2 = 0 ∨ t.2 = 1 := fun t ht => h t (List.mem_cons_of_mem _ ht)
    have hr : rand c % 2 = 0 ∨ rand c % 2 = 1 := by omega
    by_cases hbit : rand c % 2 = 1 ∧ s.2 = 1
    · right
      refine ⟨0, s, by simp, hbit.2, by simpa using hbit.1, ?_, ?_⟩
      · simp [shiftDenomBits, hbit.1, hbit.2, Nat.shiftLeft_eq]
      · intro i t hi
        exact absurd hi (Nat.not_lt_zero _)
    · have hzero : (rand c % 2) &&& s.2 = 0 := by
        rcases hr with h0 | h1
        · rw [h0]; simp
        · rcases hs with s0 | s1
          · rw [s0]; simp
          · exact absurd ⟨h1, s1⟩ hbit
      have hstep : shiftDenomBits true rand (s :: rest) 0 c = shiftDenomBits true rand rest 0 (c + 1) := by
        simp [shiftDenomBits, hzero]
      rw [hstep]
      rcases ih hrest (c + 1) with ⟨h0, hall⟩ | ⟨j, t, hj, ht, hrj, hval, hbefore⟩
      · left
        refine ⟨h0, ?_⟩
        intro j t hj ht
        cases j with
        | zero =>
          simp only [List.getElem?_cons_zero, Option.some.injEq] at hj
          subst hj
          rcases hr with h0' | h1
          · simpa using h0'
          · exact absurd ⟨h1, ht⟩ hbit
        | succ j =>
          simp only [List.getElem?_cons_succ] at hj
          have := hall j t hj ht
          rwa [show c + 1 + j = c + (j + 1) by omega] at this
      · right
        refine ⟨j + 1, t, by simpa using hj, ht, ?_, ?_, ?_⟩
        · rwa [show c + 1 + j = c + (j + 1) by omega] at hrj
        · rw [hval]; congr 1; omega
        · intro i u hi hu hu1
          cases i with
          | zero =>
            simp only [List.getElem?_cons_zero, Option.some.injEq] at hu
            subst hu
            rcases hr with h0' | h1
            · simpa using h0'
            · exact absurd ⟨h1, hu1⟩ hbit
          | succ i =>
            simp only [List.getElem?_cons_succ] at hu
            have := hbefore i u (by omega) hu hu1
            rwa [show c + 1 + i = c + (i + 1) by omega] at this

/-- C30 (counterexample): when every draw of `GetRandInt(2)` is 0,
`GetDenominationsByAmounts` returns the mask 0 for a list that holds the
standard denomination 10.0001: no bit is set. -/
theorem single_random_mask_zero :
    ([1000010000] : List CAmount) ≠ [] ∧
    (∀ a ∈ ([1000010000] : List CAmount), a ∈ vecStandardDenominations) ∧
    GetDenominationsByAmounts [1000010000] (fun _ => 0) = 0 := by
  decide

/-- C30 (amended): for every list of amounts that are all standard
denominations, `GetDenominationsByAmounts` goes through the denominations in
their standard order, drawing `GetRandInt(2)` for each; it returns 0 when no
denomination present in the list draws 1, and otherwise the mask with exactly
one bit set, the index of the first present denomination that draws 1. -/
theorem GetDenominationsByAmounts_spec (vecAmount : List CAmount) (rand : Nat → Nat)
    (hall : ∀ a ∈ vecAmount, a ∈ vecStandardDenominations) :
    (GetDenominationsByAmounts vecAmount rand = 0 ∧
      ∀ j d, vecStandardDenominations[j]? = some d → d ∈ vecAmount → rand j % 2 = 0) ∨
    (∃ j d, vecStandardDenominations[j]? = some d ∧ d ∈ vecAmount ∧ rand j % 2 = 1 ∧
      GetDenominationsByAmounts vecAmount rand = 2 ^ j ∧
      ∀ i e, i < j → vecStandardDenominations[i]? = some e → e ∈ vecAmount → rand i % 2 = 0) := by
  have hkeys : (vecStandardDenominations.map (fun d => ((d, 0) : CAmount × Nat))).map Prod.fst
      = vecStandardDenominations := by
    rw [List.map_map]; exact List.map_id _
  have hall1 : ∀ o ∈ vecAmount.reverse.map (fun nAmount => (⟨nAmount, []⟩ : CTxOut)),
      o.nValue ∈ vecStandardDenominations := by
    intro o ho
    obtain ⟨a, ha, rfl⟩ := List.mem_map.1 ho
    exact hall a (List.mem_reverse.1 ha)
  have hpres : ∀ d : CAmount,
      (∃ o ∈ vecAmount.reverse.map (fun nAmount => (⟨nAmount, []⟩ : CTxOut)), o.nValue = d) ↔
        d ∈ vecAmount := by
    intro d
    constructor
    · rintro ⟨o, ho, rfl⟩
      obtain ⟨a, ha, rfl⟩ := List.mem_map.1 ho
      exact List.mem_reverse.1 ha
    · intro hd
      exact ⟨⟨d, []⟩, List.mem_map.2 ⟨d, List.mem_reverse.2 hd, rfl⟩, rfl⟩
  have hval : GetDenominationsByAmounts vecAmount rand =
      ((shiftDenomBits true rand
        (vecStandardDenominations.map
          (fun d => if d ∈ vecAmount then ((d, 1) : CAmount × Nat) else (d, 0))) 0 0 : Nat) : Int) := by
    unfold GetDenominationsByAmounts GetDenominations
    simp only [lookForDenominations_eq, hkeys, if_pos hall1, List.map_map]
    congr 2
    apply List.map_congr_left
    intro d _
    simp only [Function.comp]
    by_cases hd : d ∈ vecAmount
    · rw [if_pos ((hpres d).2 hd), if_pos hd]
    · rw [if_neg (fun h => hd ((hpres d).1 h)), if_neg hd]
  have h01 : ∀ s ∈ vecStandardDenominations.map
      (fun d => if d ∈ vecAmount then ((d, 1) : CAmount × Nat) else (d, 0)), s.2 = 0 ∨ s.2 = 1 := by
    intro s hs
    obtain ⟨d, _, rfl⟩ := List.mem_map.1 hs
    by_cases hd : d ∈ vecAmount
    · right; simp [hd]
    · left; simp [hd]
  have hget : ∀ (j : Nat) (s : CAmount × Nat), (vecStandardDenominations.map
      (fun d => if d ∈ vecAmount then ((d, 1) : CAmount × Nat) else (d, 0)))[j]? = some s →
      s.2 = 1 → ∃ d, vecStandardDenominations[j]? = some d ∧ d ∈ vecAmount := by
    intro j s hj hs
    rw [List.getElem?_map] at hj
    cases hd : vecStandardDenominations[j]? with
    | none => rw [hd] at hj; cases hj
    | some d =>
      rw [hd] at hj
      simp only [Option.map_some', Option.some.injEq] at hj
      subst hj
      by_cases hin : d ∈ vecAmount
      · exact ⟨d, rfl, hin⟩
      · simp [hin] at hs
  have hput : ∀ (j : Nat) (d : CAmount), vecStandardDenominations[j]? = some d → d ∈ vecAmount →
      (vecStandardDenominations.map
        (fun d => if d ∈ vecAmount then ((d, 1) : CAmount × Nat) else (d, 0)))[j]? = some (d, 1) := by
    intro j d hj hd
    rw [List.getElem?_map, hj]
    simp [hd]
  rcases shiftDenomBits_single rand _ h01 0 with ⟨h0, hno⟩ | ⟨j, s, hj, hs, hr, hv, hbefore⟩
  · left
    refine ⟨by rw [hval, h0]; rfl, ?_⟩
    intro j d hj hd
    simpa using hno j (d, 1) (hput j d hj hd) rfl
  · right
    obtain ⟨d, hd, hin⟩ := hget j s hj hs
    refine ⟨j, d, hd, hin, by simpa using hr, ?_, ?_⟩
    · rw [hval, hv]
      simp
    · intro i e hi he hein
      simpa using hbefore i (e, 1) hi (hput i e he hein) rfl

/-- C30 (witness): with every draw 1 the amounts 1.00001 and 10.0001 give the
mask `2 ^ 0`, the bit of 10.0001. -/
theorem GetDenominationsByAmounts_spec_witness :
    (∀ a ∈ ([100001000, 1000010000] : List CAmount), a ∈ vecStandardDenominations) ∧
    GetDenominationsByAmounts [100001000, 1000010000] (fun _ => 1) = 2 ^ 0 ∧
    ((GetDenominationsByAmounts [100001000, 1000010000] (fun _ => 1) = 0 ∧
        ∀ j d, vecStandardDenominations[j]? = some d →
          d ∈ ([100001000, 1000010000] : List CAmount) → (fun _ => 1 : Nat → Nat) j % 2 = 0) ∨
      (∃ j d, vecStandardDenominations[j]? = some d ∧
        d ∈ ([100001000, 1000010000] : List CAmount) ∧ (fun _ => 1 : Nat → Nat) j % 2 = 1 ∧
        GetDenominationsByAmounts [100001000, 1000010000] (fun _ => 1) = 2 ^ j ∧
        ∀ i e, i < j → vecStandardDenominations[i]? = some e →
          e ∈ ([100001000, 1000010000] : List CAmount) → (fun _ => 1 : Nat → Nat) i % 2 = 0)) :=
  ⟨by decide, by decide,
    GetDenominationsByAmounts_spec [100001000, 1000010000] (fun _ => 1) (by decide)⟩

/-! ## The client's locks and queue vector -/

theorem LockCoin_mem (w : CWallet) (x o : COutPoint) :
    o ∈ (w.LockCoin x).setLockedCoins ↔ o ∈ w.setLockedCoins ∨ o = x := by
  unfold CWallet.LockCoin
  by_cases h : w.setLockedCoins.contains x = true
  · rw [if_pos h]
    constructor
    · exact Or.inl
    · rintro (h1 | h1)
      · exact h1
      · subst h1
        simpa using h
  · rw [if_neg h]
    simp

theorem foldl_LockCoin_mem (l : List COutPoint) (w : CWallet) (o : COutPoint) :
    o ∈ (l.foldl CWallet.LockCoin w).setLockedCoins ↔ o ∈ w.setLockedCoins ∨ o ∈ l := by
  induction l generalizing w with
  | nil => simp
  | cons x rest ih =>
    rw [List.foldl_cons, ih, LockCoin_mem]
    simp only [List.mem_cons]
    tauto

theorem takeCoin_mem (v : CAmount) (coins : List (CTxIn × CAmount))
    (r : CTxIn × List (CTxIn × CAmount)) (h : takeCoin v coins = some r) :
    ∀ x ∈ coins, x.1 = r.1 ∨ x ∈ r.2 := by
  induction coins generalizing r with
  | nil => simp [takeCoin] at h
  | cons coin rest ih =>
    simp only [takeCoin] at h
    by_cases hv : coin.2 = v
    · rw [if_pos hv] at h
      cases h
      intro x hx
      rcases List.mem_cons.1 hx with e | e
      · left; rw [e]
      · right; exact e
    · rw [if_neg hv] at h
      cases ht : takeCoin v rest with
      | none => rw [ht] at h; cases h
      | some r1 =>
        rw [ht] at h
        cases h
        intro x hx
        rcases List.mem_cons.1 hx with e | e
        · right; rw [e]; exact List.mem_cons_self _ _
        · rcases ih r1 ht x e with e1 | e1
          · left; exact e1
          · right; exact List.mem_cons_of_mem _ e1

/-- Every candidate of the selection loop stays a candidate or has become an
input of the result. -/
theorem denomBits_keeps (calls : ClientCalls) (sel : List (CTxIn × CAmount)) (vecBits : List Nat)
    (st : DenomLoop) (h : ∀ x ∈ sel, x.1 ∈ st.vecTxInRet ∨ x ∈ st.coins) :
    ∀ x ∈ sel, x.1 ∈ (denomBits calls vecBits st).vecTxInRet ∨ x ∈ (denomBits calls vecBits st).coins := by
  induction vecBits generalizing st with
  | nil => exact h
  | cons nBit rest ih =>
    simp only [denomBits]
    split_ifs
    · exact ih st h
    · cases ht : takeCoin (vecStandardDenominations.getD nBit 0) st.coins with
      | none => exact ih st h
      | some r =>
        apply ih
        intro x hx
        rcases h x hx with e | e
        · left; exact List.mem_append_left _ e
        · rcases takeCoin_mem _ _ r ht x e with e1 | e1
          · left; simp [e1]
          · right; exact e1

theorem denomSteps_keeps (calls : ClientCalls) (sel : List (CTxIn × CAmount)) (vecBits : List Nat)
    (n : Nat) (st : DenomLoop) (h : ∀ x ∈ sel, x.1 ∈ st.vecTxInRet ∨ x ∈ st.coins) :
    ∀ x ∈ sel, x.1 ∈ (denomSteps calls vecBits n st).vecTxInRet ∨
      x ∈ (denomSteps calls vecBits n st).coins := by
  induction n generalizing st with
  | zero => exact h
  | succ n ih =>
    simp only [denomSteps]
    split_ifs
    · exact denomBits_keeps calls sel vecBits st h
    · exact ih _ (denomBits_keeps calls sel vecBits st h)

/-- What `PrepareDenominate` leaves locked: when it succeeds, nothing but what
was locked and the coins of the inputs it returns; when it fails, nothing but
what was locked. -/
theorem PrepareDenominate_locks (amb : Ambient) (calls : ClientCalls) (c : CPrivatePayClient)
    (w : CWallet) (nMinRounds nMaxRounds : Int) (k : Nat) :
    ∀ o ∈ (c.PrepareDenominate amb calls w nMinRounds nMaxRounds k).2.1.setLockedCoins,
      o ∈ w.setLockedCoins ∨
        ((c.PrepareDenominate amb calls w nMinRounds nMaxRounds k).1 = true ∧
          o ∈ (c.PrepareDenominate amb calls w nMinRounds nMaxRounds k).2.2.1.map
            (fun txin => txin.prevout)) := by
  intro o
  unfold CPrivatePayClient.PrepareDenominate
  dsimp only
  split_ifs with h1 h2 h3 h4 h5 h6
  · exact Or.inl
  · exact Or.inl
  · exact Or.inl
  · exact Or.inl
  · exact Or.inl
  · intro ho
    left
    rw [foldl_UnlockCoin_mem, foldl_UnlockCoin_mem, foldl_LockCoin_mem] at ho
    obtain ⟨⟨hlock, hunused⟩, hused⟩ := ho
    rcases hlock with e | e
    · exact e
    · exfalso
      obtain ⟨x, hx, rfl⟩ := List.mem_map.1 e
      rcases denomSteps_keeps calls _ _ _ ⟨_, [], [], _, 0⟩ (fun y hy => Or.inr hy) x hx with e1 | e1
      · exact hused (List.mem_map.2 ⟨x.1, e1, rfl⟩)
      · exact hunused (List.mem_map.2 ⟨x, e1, rfl⟩)
  · intro ho
    rw [foldl_UnlockCoin_mem, foldl_LockCoin_mem] at ho
    obtain ⟨hlock, hunused⟩ := ho
    rcases hlock with e | e
    · exact Or.inl e
    · right
      refine ⟨rfl, ?_⟩
      obtain ⟨x, hx, rfl⟩ := List.mem_map.1 e
      rcases denomSteps_keeps calls _ _ _ ⟨_, [], [], _, 0⟩ (fun y hy => Or.inr hy) x hx with e1 | e1
      · exact List.mem_map.2 ⟨x.1, e1, rfl⟩
      · exact absurd (List.mem_map.2 ⟨x, e1, rfl⟩) hunused

theorem prepareByRounds_locks (amb : Ambient) (calls : ClientCalls) (c : CPrivatePayClient)
    (n : Nat) (w : CWallet) :
    ∀ o ∈ (CPrivatePayClient.prepareByRounds amb calls c n w).2.1.setLockedCoins,
      o ∈ w.setLockedCoins ∨
        ((CPrivatePayClient.prepareByRounds amb calls c n w).1 = true ∧
          o ∈ (CPrivatePayClient.prepareByRounds amb calls c n w).2.2.1.map
            (fun txin => txin.prevout)) := by
  induction n generalizing w with
  | zero => intro o ho; exact Or.inl ho
  | succ i ih =>
    intro o
    simp only [CPrivatePayClient.prepareByRounds]
    by_cases hr : (c.PrepareDenominate amb calls w i (i + 1) (i + 1)).1 = true
    · rw [if_pos hr]
      exact PrepareDenominate_locks amb calls c w _ _ _ o
    · rw [if_neg hr]
      intro ho
      rcases ih _ o ho with e | e
      · rcases PrepareDenominate_locks amb calls c w _ _ _ o e with e1 | ⟨e1, _⟩
        · exact Or.inl e1
        · exact absurd e1 hr
      · exact Or.inr e

theorem ClientInv.frame {w0 : CWallet} {c : CPrivatePayClient} {w : CWallet}
    (c1 : CPrivatePayClient) (h : ClientInv w0 c w)
    (hs : c1.nState = c.nState) (hl : c1.vecOutPointLocked = c.vecOutPointLocked)
    (hc : c1.txMyCollateral = c.txMyCollateral)
    (hq : c1.vecPrivatepayQueue = c.vecPrivatepayQueue) : ClientInv w0 c1 w := by
  unfold ClientInv at h ⊢
  rw [hs, hl, hc, hq]
  exact h

theorem ClientInv.shrink {w0 : CWallet} {c : CPrivatePayClient} {w : CWallet}
    (w1 : CWallet) (h : ClientInv w0 c w)
    (hw : ∀ o ∈ w1.setLockedCoins, o ∈ w.setLockedCoins) : ClientInv w0 c w1 :=
  ⟨fun o ho => h.1 o (hw o ho), h.2⟩

/-- After `UnlockCoins` and `SetNull` the client side is in order, whatever was
recorded, and whatever else the reset does to the other members. -/
theorem ClientInv.reset (w0 w : CWallet) (c c1 : CPrivatePayClient)
    (hJ : ∀ o ∈ w.setLockedCoins, o ∈ w0.setLockedCoins ∨ o ∈ c.vecOutPointLocked)
    (hs : c1.nState = POOL_STATE_IDLE ∨ c1.nState = POOL_STATE_ERROR)
    (hl : c1.vecOutPointLocked = [])
    (hq : (c1.vecPrivatepayQueue.map (fun q => q.vin)).Nodup ∧
      ∀ q ∈ c1.vecPrivatepayQueue, q.fReady = false) :
    ClientInv w0 c1 (c.vecOutPointLocked.foldl CWallet.UnlockCoin w) := by
  refine ⟨?_, fun _ _ => hl, ?_, hq.1, hq.2⟩
  · intro o ho
    rw [foldl_UnlockCoin_mem] at ho
    rcases hJ o ho.1 with e | e
    · exact Or.inl e
    · exact absurd e ho.2
  · intro hst
    rcases hs with e | e <;> rw [e] at hst <;> cases hst

theorem SendDenominate_inv (cenv : ClientEnv) (amb : Ambient) (calls : ClientCalls)
    (c : CPrivatePayClient) (w w0 : CWallet) (vecTxIn : List CTxIn) (vecTxOut : List CTxOut)
    (hm : cenv.fMasterNode = false) (hcol : c.txMyCollateral ≠ ⟨[], [], 0⟩)
    (hJ : ∀ o ∈ w.setLockedCoins, o ∈ w0.setLockedCoins ∨ o ∈ c.vecOutPointLocked ∨
      o ∈ vecTxIn.map (fun txin => txin.prevout))
    (hq : (c.vecPrivatepayQueue.map (fun q => q.vin)).Nodup ∧
      ∀ q ∈ c.vecPrivatepayQueue, q.fReady = false) :
    ClientInv w0 (c.SendDenominate cenv amb calls w vecTxIn vecTxOut).2.1
      (c.SendDenominate cenv amb calls w vecTxIn vecTxOut).2.2.1 := by
  have hJ1 : ∀ o ∈ w.setLockedCoins, o ∈ w0.setLockedCoins ∨
      o ∈ c.vecOutPointLocked ++ c.txMyCollateral.vin.map (fun txin => txin.prevout) ++
        vecTxIn.map (fun txin => txin.prevout) := by
    intro o ho
    rcases hJ o ho with e | e | e
    · exact Or.inl e
    · exact Or.inr (List.mem_append_left _ (List.mem_append_left _ e))
    · exact Or.inr (List.mem_append_right _ e)
  have hcol1 : (c.txMyCollateral == ⟨[], [], 0⟩) = false := by
    simpa using hcol
  unfold CPrivatePayClient.SendDenominate
  simp only [hm, Bool.false_eq_true, if_false, hcol1]
  split_ifs
  · exact ClientInv.reset w0 w _ _ hJ1 (Or.inl rfl) rfl hq
  · exact ClientInv.reset w0 w _ _ hJ1 (Or.inl rfl) rfl hq
  · exact ClientInv.reset w0 w _ _ hJ1 (Or.inl rfl) rfl hq
  · refine ⟨hJ1, ?_, ?_, hq.1, hq.2⟩
    · intro h; exact absurd rfl h
    · intro h; cases h

theorem SubmitDenominate_inv (cenv : ClientEnv) (amb : Ambient) (calls : ClientCalls)
    (c : CPrivatePayClient) (w w0 : CWallet)
    (hm : cenv.fMasterNode = false) (hcol : c.txMyCollateral ≠ ⟨[], [], 0⟩)
    (h : ClientInv w0 c w) :
    ClientInv w0 (c.SubmitDenominate cenv amb calls w).2.1
      (c.SubmitDenominate cenv amb calls w).2.2.1 := by
  have h1 := prepareByRounds_locks amb calls c calls.nPrivatePayRounds w
  unfold CPrivatePayClient.SubmitDenominate
  dsimp only
  by_cases hr : (CPrivatePayClient.prepareByRounds amb calls c calls.nPrivatePayRounds w).1 = true
  · rw [if_pos hr]
    apply SendDenominate_inv cenv amb calls c _ w0 _ _ hm hcol _ ⟨h.2.2.2.1, h.2.2.2.2⟩
    intro o ho
    rcases h1 o ho with e | ⟨_, e⟩
    · rcases h.1 o e with e1 | e1
      · exact Or.inl e1
      · exact Or.inr (Or.inl e1)
    · exact Or.inr (Or.inr e)
  · rw [if_neg hr]
    have hw1 : ∀ o ∈ (CPrivatePayClient.prepareByRounds amb calls c calls.nPrivatePayRounds
        w).2.1.setLockedCoins, o ∈ w.setLockedCoins := by
      intro o ho
      rcases h1 o ho with e | ⟨e, _⟩
      · exact e
      · exact absurd e hr
    have h2 := PrepareDenominate_locks amb calls c
      (CPrivatePayClient.prepareByRounds amb calls c calls.nPrivatePayRounds w).2.1 0
      calls.nPrivatePayRounds 0
    by_cases hr1 : (c.PrepareDenominate amb calls
        (CPrivatePayClient.prepareByRounds amb calls c calls.nPrivatePayRounds w).2.1 0
        calls.nPrivatePayRounds 0).1 = true
    · rw [if_pos hr1]
      apply SendDenominate_inv cenv amb calls c _ w0 _ _ hm hcol _ ⟨h.2.2.2.1, h.2.2.2.2⟩
      intro o ho
      rcases h2 o ho with e | ⟨_, e⟩
      · rcases h.1 o (hw1 o e) with e1 | e1
        · exact Or.inl e1
        · exact Or.inr (Or.inl e1)
      · exact Or.inr (Or.inr e)
    · rw [if_neg hr1]
      apply h.shrink
      intro o ho
      rcases h2 o ho with e | ⟨e, _⟩
      · exact hw1 o e
      · exact absurd e hr1

theorem any_vin_false (l : List CPrivatepayQueue) (dsq : CPrivatepayQueue)
    (h : l.any (fun q => q.vin == dsq.vin) = false) : dsq.vin ∉ l.map (fun q => q.vin) := by
  rw [List.any_eq_false] at h
  intro hmem
  obtain ⟨q, hq, e⟩ := List.mem_map.1 hmem
  exact h q hq (by simp [e])

/-- Case analysis of the client's PPQUEUE handler: nothing changes, or the entry
is submitted (ready ad, client in QUEUE), or only the registry changes, or a
non-ready ad of a new outpoint is appended and relayed. -/
theorem ClientProcessPPQUEUE_cases (cenv : ClientEnv) (amb : Ambient) (calls : ClientCalls)
    (mn : CMasternodeMan) (c : CPrivatePayClient) (w : CWallet) (pfrom : CNode)
    (dsq : CPrivatepayQueue)
    (P : CPrivatePayClient × CWallet × CMasternodeMan × List NetMsg → Prop)
    (h0 : ∀ mn1 l, P (c, w, mn1, l))
    (hsub : c.nState = POOL_STATE_QUEUE → dsq.fReady = true →
      P ((c.SubmitDenominate cenv amb calls w).2.1, (c.SubmitDenominate cenv amb calls w).2.2.1,
        mn, (c.SubmitDenominate cenv amb calls w).2.2.2))
    (hadd : ∀ q mn2, q.vin = dsq.vin → q.fReady = false → dsq.fReady = false →
      c.vecPrivatepayQueue.any (fun q => q.vin == dsq.vin) = false →
      P ({ c with vecPrivatepayQueue := c.vecPrivatepayQueue ++ [q] }, w, mn2,
        [NetMsg.PPQUEUE q])) :
    P (c.ProcessPPQUEUE cenv amb calls mn w pfrom dsq) := by
  unfold CPrivatePayClient.ProcessPPQUEUE
  by_cases h1 : (!amb.lockRecv) = true
  · rw [if_pos h1]; exact h0 _ _
  rw [if_neg h1]
  by_cases h2 : pfrom.nVersion < cenv.MIN_PRIVATEPAY_PEER_PROTO_VERSION
  · rw [if_pos h2]; exact h0 _ _
  rw [if_neg h2]
  by_cases h3 : (c.vecPrivatepayQueue.any fun q => q.sameAs dsq) = true
  · rw [if_pos h3]; exact h0 _ _
  rw [if_neg h3]
  by_cases h4 : (CPrivatepayQueue.IsExpired amb dsq ||
      decide (dsq.nTime > amb.GetTime + PRIVATEPAY_QUEUE_TIMEOUT)) = true
  · rw [if_pos h4]; exact h0 _ _
  rw [if_neg h4]
  dsimp only
  by_cases h5 : (!(mn.GetMasternodeInfo dsq.vin).fInfoValid) = true
  · rw [if_pos h5]; exact h0 _ _
  rw [if_neg h5]
  by_cases h6 : (!cenv.VerifyMessage (mn.GetMasternodeInfo dsq.vin).pubKeyMasternode dsq.vchSig
      dsq.vin dsq.nDenom dsq.nTime dsq.fReady) = true
  · rw [if_pos h6]; exact h0 _ _
  rw [if_neg h6]
  by_cases h7 : dsq.fReady = true
  · rw [if_pos h7]
    by_cases h8 : (!c.infoMixingMasternode.fInfoValid) = true
    · rw [if_pos h8]; exact h0 _ _
    rw [if_neg h8]
    by_cases h9 : (c.infoMixingMasternode.addr != (mn.GetMasternodeInfo dsq.vin).addr) = true
    · rw [if_pos h9]; exact h0 _ _
    rw [if_neg h9]
    by_cases h10 : (c.nState == POOL_STATE_QUEUE) = true
    · rw [if_pos h10]; exact hsub (by simpa using h10) h7
    · rw [if_neg h10]; exact h0 _ _
  rw [if_neg h7]
  have hfr : dsq.fReady = false := by simpa using h7
  by_cases h11 : (c.vecPrivatepayQueue.any fun q => q.vin == dsq.vin) = true
  · rw [if_pos h11]; exact h0 _ _
  rw [if_neg h11]
  have hany : c.vecPrivatepayQueue.any (fun q => q.vin == dsq.vin) = false := by
    simpa using h11
  by_cases h12 : ((mn.GetMasternodeInfo dsq.vin).nLastDsq != 0 &&
      decide (toInt32 ((mn.GetMasternodeInfo dsq.vin).nLastDsq + Int.tdiv mn.CountEnabled 5) >
        mn.nDsqCount)) = true
  · rw [if_pos h12]; exact h0 _ _
  rw [if_neg h12]
  split
  · exact h0 _ _
  · by_cases h13 : (c.infoMixingMasternode.fInfoValid &&
        c.infoMixingMasternode.vin == dsq.vin) = true
    · rw [if_pos h13]; exact hadd _ _ rfl hfr hfr hany
    · rw [if_neg h13]; exact hadd _ _ rfl hfr hfr hany

theorem ClientProcessPPQUEUE_inv (cenv : ClientEnv) (amb : Ambient) (calls : ClientCalls)
    (mn : CMasternodeMan) (c : CPrivatePayClient) (w w0 : CWallet) (pfrom : CNode)
    (dsq : CPrivatepayQueue) (hm : cenv.fMasterNode = false) (h : ClientInv w0 c w) :
    ClientInv w0 (c.ProcessPPQUEUE cenv amb calls mn w pfrom dsq).1
      (c.ProcessPPQUEUE cenv amb calls mn w pfrom dsq).2.1 := by
  apply ClientProcessPPQUEUE_cases cenv amb calls mn c w pfrom dsq
    (fun r => ClientInv w0 r.1 r.2.1)
  · intro _ _; exact h
  · intro hq _
    exact SubmitDenominate_inv cenv amb calls c w w0 hm (h.2.2.1 hq) h
  · intro q mn2 hv hfr _ hany
    have hnot := any_vin_false _ _ hany
    refine ⟨h.1, h.2.1, h.2.2.1, ?_, ?_⟩
    · simp only [List.map_append, List.map_cons, List.map_nil]
      rw [List.nodup_append]
      refine ⟨h.2.2.2.1, List.nodup_singleton _, ?_⟩
      intro a ha hb
      have ha1 : a = dsq.vin := by
        rw [← hv]; simpa using hb
      rw [ha1] at ha
      exact hnot ha
    · intro q1 hq
      rcases List.mem_append.1 hq with e | e
      · exact h.2.2.2.2 q1 e
      · have e1 := List.mem_singleton.1 e
        rw [e1]
        exact hfr

theorem ClientUnlocked.of_state {w0 : CWallet} {c : CPrivatePayClient} {w : CWallet}
    (c1 : CPrivatePayClient) (w1 : CWallet) (h : ClientInv w0 c w)
    (hs : c1.nState = c.nState) : ClientUnlocked c c1 w1 := by
  intro h1 h2 o ho
  rw [hs] at h1 h2
  rw [h.2.1 h1 h2] at ho
  exact absurd ho (List.not_mem_nil o)

theorem ClientUnlocked.of_empty {c : CPrivatePayClient} (c1 : CPrivatePayClient) (w1 : CWallet)
    (hl : c.vecOutPointLocked = []) : ClientUnlocked c c1 w1 := by
  intro _ _ o ho
  rw [hl] at ho
  exact absurd ho (List.not_mem_nil o)

theorem ClientUnlocked.of_unlock (c c1 : CPrivatePayClient) (w : CWallet) (l : List COutPoint)
    (hsub : ∀ o ∈ c.vecOutPointLocked, o ∈ l) :
    ClientUnlocked c c1 (l.foldl CWallet.UnlockCoin w) := by
  intro _ _ o ho hmem
  rw [foldl_UnlockCoin_mem] at hmem
  exact hmem.2 (hsub o ho)

theorem ClientInv.filterQueue {w0 : CWallet} {c : CPrivatePayClient} {w : CWallet}
    (p : CPrivatepayQueue → Bool) (h : ClientInv w0 c w) :
    ClientInv w0 { c with vecPrivatepayQueue := c.vecPrivatepayQueue.filter p } w := by
  refine ⟨h.1, h.2.1, h.2.2.1, ?_, ?_⟩
  · exact List.Nodup.sublist ((List.filter_sublist _).map _) h.2.2.2.1
  · intro q hq
    exact h.2.2.2.2 q (List.mem_filter.1 hq).1

/-- The queue vector with other `fTried` flags is as good as the one before. -/
theorem queue_facts_of_map (l1 l2 : List CPrivatepayQueue)
    (hmap : l1.map (fun q => (q.vin, q.fReady)) = l2.map (fun q => (q.vin, q.fReady)))
    (h : (l2.map (fun q => q.vin)).Nodup ∧ ∀ q ∈ l2, q.fReady = false) :
    (l1.map (fun q => q.vin)).Nodup ∧ ∀ q ∈ l1, q.fReady = false := by
  have hv : l1.map (fun q => q.vin) = l2.map (fun q => q.vin) := by
    have := congrArg (List.map Prod.fst) hmap
    simpa [List.map_map, Function.comp] using this
  have hr : l1.map (fun q => q.fReady) = l2.map (fun q => q.fReady) := by
    have := congrArg (List.map Prod.snd) hmap
    simpa [List.map_map, Function.comp] using this
  refine ⟨hv ▸ h.1, ?_⟩
  intro q hq
  have hm : q.fReady ∈ l1.map (fun q => q.fReady) := List.mem_map.2 ⟨q, hq, rfl⟩
  rw [hr] at hm
  obtain ⟨q2, hq2, e⟩ := List.mem_map.1 hm
  rw [← e]
  exact h.2 q2 hq2

theorem joinQueueLoop_spec (cenv : ClientEnv) (amb : Ambient) (calls : ClientCalls)
    (mn : CMasternodeMan) (c : CPrivatePayClient) (n : CAmount)
    (rest done : List CPrivatepayQueue) :
    (CPrivatePayClient.joinQueueLoop cenv amb calls mn c n done rest).2.1.vecOutPointLocked =
        c.vecOutPointLocked ∧
      (CPrivatePayClient.joinQueueLoop cenv amb calls mn c n done rest).2.1.txMyCollateral =
        c.txMyCollateral ∧
      ((CPrivatePayClient.joinQueueLoop cenv amb calls mn c n done rest).2.1.nState = c.nState ∨
        (CPrivatePayClient.joinQueueLoop cenv amb calls mn c n done rest).2.1.nState =
          POOL_STATE_QUEUE) ∧
      (CPrivatePayClient.joinQueueLoop cenv amb calls mn c n done rest).2.1.vecPrivatepayQueue.map
          (fun q => (q.vin, q.fReady)) =
        (done ++ rest).map (fun q => (q.vin, q.fReady)) := by
  induction rest generalizing done with
  | nil =>
    rw [CPrivatePayClient.joinQueueLoop, List.append_nil]
    exact ⟨rfl, rfl, Or.inl rfl, rfl⟩
  | cons dsq rest ih =>
    have e1 : (done ++ dsq :: rest).map (fun q : CPrivatepayQueue => (q.vin, q.fReady)) =
        (done ++ [dsq] ++ rest).map (fun q => (q.vin, q.fReady)) := by simp
    have e2 : (done ++ dsq :: rest).map (fun q : CPrivatepayQueue => (q.vin, q.fReady)) =
        (done ++ [({ dsq with fTried := true } : CPrivatepayQueue)] ++ rest).map
          (fun q => (q.vin, q.fReady)) := by simp
    have e3 : (done ++ dsq :: rest).map (fun q : CPrivatepayQueue => (q.vin, q.fReady)) =
        (done ++ ({ dsq with fTried := true } : CPrivatepayQueue) :: rest).map
          (fun q => (q.vin, q.fReady)) := by simp
    have ih1 := ih (done ++ [dsq])
    have ih2 := ih (done ++ [{ dsq with fTried := true }])
    rw [← e1] at ih1
    rw [← e2] at ih2
    rw [CPrivatePayClient.joinQueueLoop]
    dsimp only
    split_ifs
    all_goals first
      | exact ih1
      | exact ih2
      | exact ⟨rfl, rfl, Or.inr rfl, e3.symm⟩

theorem startQueueTries_spec (amb : Ambient) (calls : ClientCalls) (mn : CMasternodeMan)
    (c : CPrivatePayClient) (vecAmounts : List CAmount) (n k : Nat)
    (r : Bool × CPrivatePayClient × List NetMsg)
    (h : CPrivatePayClient.startQueueTries amb calls mn c vecAmounts n k = some r) :
    r.2.1.vecOutPointLocked = c.vecOutPointLocked ∧ r.2.1.txMyCollateral = c.txMyCollateral ∧
      (r.2.1.nState = c.nState ∨ r.2.1.nState = POOL_STATE_QUEUE) ∧
      r.2.1.vecPrivatepayQueue = c.vecPrivatepayQueue := by
  induction n generalizing k with
  | zero =>
    rw [CPrivatePayClient.startQueueTries] at h
    cases h
    exact ⟨rfl, rfl, Or.inl rfl, rfl⟩
  | succ n ih =>
    rw [CPrivatePayClient.startQueueTries] at h
    split_ifs at h
    · cases h; exact ⟨rfl, rfl, Or.inl rfl, rfl⟩
    · exact ih _ h
    · exact ih _ h
    · split at h
      · cases h
      · cases h; exact ⟨rfl, rfl, Or.inr rfl, rfl⟩
    · exact ih _ h

theorem StartNewQueue_spec (amb : Ambient) (calls : ClientCalls) (mn : CMasternodeMan)
    (c : CPrivatePayClient) (nValueMin nBalance : CAmount)
    (r : Bool × CPrivatePayClient × List NetMsg)
    (h : c.StartNewQueue amb calls mn nValueMin nBalance = some r) :
    r.2.1.vecOutPointLocked = c.vecOutPointLocked ∧ r.2.1.txMyCollateral = c.txMyCollateral ∧
      (r.2.1.nState = c.nState ∨ r.2.1.nState = POOL_STATE_QUEUE) ∧
      r.2.1.vecPrivatepayQueue = c.vecPrivatepayQueue := by
  unfold CPrivatePayClient.StartNewQueue at h
  dsimp only at h
  split_ifs at h
  · cases h; exact ⟨rfl, rfl, Or.inl rfl, rfl⟩
  · exact startQueueTries_spec amb calls mn c _ _ _ r h

theorem CheckAutomaticBackup_frame (calls : ClientCalls) (c : CPrivatePayClient) :
    (c.CheckAutomaticBackup calls).2.nState = c.nState ∧
      (c.CheckAutomaticBackup calls).2.vecOutPointLocked = c.vecOutPointLocked ∧
      (c.CheckAutomaticBackup calls).2.txMyCollateral = c.txMyCollateral ∧
      (c.CheckAutomaticBackup calls).2.vecPrivatepayQueue = c.vecPrivatepayQueue ∧
      (c.CheckAutomaticBackup calls).2.nSessionID = c.nSessionID := by
  unfold CPrivatePayClient.CheckAutomaticBackup
  split_ifs <;> exact ⟨rfl, rfl, rfl, rfl, rfl⟩

/-- After `UnlockCoins` a client that records nothing is in order, provided it
has a collateral when in `QUEUE`. -/
theorem ClientInv.fresh (w0 w : CWallet) (c c1 : CPrivatePayClient)
    (hJ : ∀ o ∈ w.setLockedCoins, o ∈ w0.setLockedCoins ∨ o ∈ c.vecOutPointLocked)
    (hk : c1.nState = POOL_STATE_QUEUE → c1.txMyCollateral ≠ ⟨[], [], 0⟩)
    (hl : c1.vecOutPointLocked = [])
    (hq : (c1.vecPrivatepayQueue.map (fun q => q.vin)).Nodup ∧
      ∀ q ∈ c1.vecPrivatepayQueue, q.fReady = false) :
    ClientInv w0 c1 (c.vecOutPointLocked.foldl CWallet.UnlockCoin w) := by
  refine ⟨?_, fun _ _ => hl, hk, hq.1, hq.2⟩
  intro o ho
  rw [foldl_UnlockCoin_mem] at ho
  rcases hJ o ho.1 with e | e
  · exact Or.inl e
  · exact absurd e ho.2

theorem ite_eq_cases {α : Type} {p : Prop} [Decidable p] {a b x : α}
    (h : (if p then a else b) = x) : (p ∧ a = x) ∨ (¬ p ∧ b = x) := by
  by_cases hp : p
  · left; rw [if_pos hp] at h; exact ⟨hp, h⟩
  · right; rw [if_neg hp] at h; exact ⟨hp, h⟩

theorem DoAutomaticDenominating_inv (cenv : ClientEnv) (amb : Ambient) (calls : ClientCalls)
    (mn : CMasternodeMan) (c : CPrivatePayClient) (w w0 : CWallet)
    (hcm : calls.CollateralMade) (h : ClientInv w0 c w)
    (r : Bool × CPrivatePayClient × CWallet × List NetMsg)
    (hr : c.DoAutomaticDenominating cenv amb calls mn w = some r) :
    ClientInv w0 r.2.1 r.2.2.1 ∧ ClientUnlocked c r.2.1 r.2.2.1 := by
  obtain ⟨b1, b2, b3, b4, _⟩ := CheckAutomaticBackup_frame calls c
  have hc0 : ClientInv w0 (c.CheckAutomaticBackup calls).2 w := h.frame _ b1 b2 b3 b4
  have hu0 : ∀ w1, ClientUnlocked c (c.CheckAutomaticBackup calls).2 w1 :=
    fun w1 => ClientUnlocked.of_state _ w1 h b1
  unfold CPrivatePayClient.DoAutomaticDenominating at hr
  lift_lets at hr
  extract_lets b c0 nValueMin nBal nNonDenom nConf nUnconf nDenominated u c1 fCreate c2 fUseQueue j
    at hr
  rcases ite_eq_cases hr with ⟨_, hr⟩ | ⟨_, hr⟩
  · cases hr; exact ⟨h, ClientUnlocked.of_state _ _ h rfl⟩
  rcases ite_eq_cases hr with ⟨_, hr⟩ | ⟨_, hr⟩
  · cases hr; exact ⟨h, ClientUnlocked.of_state _ _ h rfl⟩
  rcases ite_eq_cases hr with ⟨_, hr⟩ | ⟨hidle, hr⟩
  · cases hr; exact ⟨h, ClientUnlocked.of_state _ _ h rfl⟩
  have hst : c.nState = POOL_STATE_IDLE := by simpa using hidle
  have hrec : c.vecOutPointLocked = [] := h.2.1 (by rw [hst]; decide) (by rw [hst]; decide)
  rcases ite_eq_cases hr with ⟨_, hr⟩ | ⟨_, hr⟩
  · cases hr; exact ⟨h, ClientUnlocked.of_state _ _ h rfl⟩
  rcases ite_eq_cases hr with ⟨_, hr⟩ | ⟨_, hr⟩
  · cases hr; exact ⟨hc0, hu0 _⟩
  rcases ite_eq_cases hr with ⟨_, hr⟩ | ⟨_, hr⟩
  · cases hr; exact ⟨hc0, hu0 _⟩
  rcases ite_eq_cases hr with ⟨_, hr⟩ | ⟨_, hr⟩
  · cases hr; exact ⟨hc0, hu0 _⟩
  rcases ite_eq_cases hr with ⟨_, hr⟩ | ⟨_, hr⟩
  · cases hr; exact ⟨hc0, hu0 _⟩
  rcases ite_eq_cases hr with ⟨_, hr⟩ | ⟨_, hr⟩
  · cases hr; exact ⟨hc0, hu0 _⟩
  rcases ite_eq_cases hr with ⟨_, hr⟩ | ⟨_, hr⟩
  · cases hr; exact ⟨hc0, hu0 _⟩
  rcases ite_eq_cases hr with ⟨_, hr⟩ | ⟨_, hr⟩
  · cases hr; exact ⟨hc0, hu0 _⟩
  rcases ite_eq_cases hr with ⟨_, hr⟩ | ⟨_, hr⟩
  · cases hr; exact ⟨hc0, hu0 _⟩
  rcases ite_eq_cases hr with ⟨_, hr⟩ | ⟨_, hr⟩
  · cases hr; exact ⟨hc0, hu0 _⟩
  rcases ite_eq_cases hr with ⟨_, hr⟩ | ⟨_, hr⟩
  · cases hr; exact ⟨hc0, hu0 _⟩
  rcases ite_eq_cases hr with ⟨_, hr⟩ | ⟨_, hr⟩
  · cases hr; exact ⟨hc0, hu0 _⟩
  have hJ0 : ∀ o ∈ w.setLockedCoins, o ∈ w0.setLockedCoins ∨ o ∈ c0.vecOutPointLocked := hc0.1
  have hq0 : ((c0.vecPrivatepayQueue).map (fun q => q.vin)).Nodup ∧
      ∀ q ∈ c0.vecPrivatepayQueue, q.fReady = false := ⟨hc0.2.2.2.1, hc0.2.2.2.2⟩
  have hfresh : ∀ cx : CPrivatePayClient,
      (cx.nState = POOL_STATE_QUEUE → cx.txMyCollateral ≠ ⟨[], [], 0⟩) →
      cx.vecOutPointLocked = [] →
      cx.vecPrivatepayQueue.map (fun q => (q.vin, q.fReady)) =
        c0.vecPrivatepayQueue.map (fun q => (q.vin, q.fReady)) →
      ClientInv w0 cx u.2 ∧ ClientUnlocked c cx u.2 := fun cx hk hl hq =>
    ⟨ClientInv.fresh w0 w c0 cx hJ0 hk hl (queue_facts_of_map _ _ hq hq0),
      ClientUnlocked.of_empty _ _ hrec⟩
  rcases ite_eq_cases hr with ⟨_, hr⟩ | ⟨_, hr⟩
  · cases hr; exact hfresh c1 (fun e => nomatch e) rfl rfl
  have hc2s : c2.nState = POOL_STATE_IDLE := by
    show (if fCreate = true then _ else c1).nState = _
    split_ifs <;> rfl
  have hc2l : c2.vecOutPointLocked = [] := by
    show (if fCreate = true then _ else c1).vecOutPointLocked = _
    split_ifs <;> rfl
  have hc2q : c2.vecPrivatepayQueue = c0.vecPrivatepayQueue := by
    show (if fCreate = true then _ else c1).vecPrivatepayQueue = _
    split_ifs <;> rfl
  rcases ite_eq_cases hr with ⟨_, hr⟩ | ⟨hmade, hr⟩
  · cases hr
    exact hfresh c2 (fun e => by rw [hc2s] at e; cases e) hc2l (by rw [hc2q])
  have hc2c : c2.txMyCollateral ≠ ⟨[], [], 0⟩ := by
    show (if fCreate = true then _ else c1).txMyCollateral ≠ _
    by_cases hf : fCreate = true
    · rw [if_pos hf]
      have hone : calls.CreateCollateralTransaction.1 = true := by
        rw [hf] at hmade; simpa using hmade
      intro e
      have hv : calls.CreateCollateralTransaction.2.vin = [] := by
        have := congrArg CTransaction.vin e
        exact this
      exact hcm hone hv
    · rw [if_neg hf]
      have hf1 : (c1.txMyCollateral == ⟨[], [], 0⟩ ||
          !calls.IsCollateralValid c1.txMyCollateral) = false := by
        have hff : fCreate = false := by simpa using hf
        exact hff
      intro e
      rw [e] at hf1
      simp at hf1
  have hj : j.2.1.vecOutPointLocked = [] ∧ j.2.1.txMyCollateral ≠ ⟨[], [], 0⟩ ∧
      j.2.1.vecPrivatepayQueue.map (fun q => (q.vin, q.fReady)) =
        c0.vecPrivatepayQueue.map (fun q => (q.vin, q.fReady)) := by
    show (if (calls.nLiquidityProvider || fUseQueue) = true then _ else (false, c2, [])).2.1.vecOutPointLocked = [] ∧
      (if (calls.nLiquidityProvider || fUseQueue) = true then _ else (false, c2, [])).2.1.txMyCollateral ≠ _ ∧
      (if (calls.nLiquidityProvider || fUseQueue) = true then _ else (false, c2, [])).2.1.vecPrivatepayQueue.map _ = _
    by_cases hu : (calls.nLiquidityProvider || fUseQueue) = true
    · simp only [if_pos hu]
      obtain ⟨j1, j2, _, j4⟩ := joinQueueLoop_spec cenv amb calls mn c2 nBal c2.vecPrivatepayQueue []
      refine ⟨j1.trans hc2l, ?_, ?_⟩
      · intro e; exact hc2c (j2.symm.trans e)
      · rw [← hc2q]; exact j4
    · simp only [if_neg hu]
      exact ⟨hc2l, hc2c, by rw [hc2q]⟩
  rcases ite_eq_cases hr with ⟨_, hr⟩ | ⟨_, hr⟩
  · cases hr
    exact hfresh j.2.1 (fun _ => hj.2.1) hj.1 hj.2.2
  rcases ite_eq_cases hr with ⟨_, hr⟩ | ⟨_, hr⟩
  · cases hr
    exact hfresh j.2.1 (fun _ => hj.2.1) hj.1 hj.2.2
  cases hs : j.2.1.StartNewQueue amb calls mn nValueMin nBal with
  | none => rw [hs] at hr; cases hr
  | some r1 =>
    rw [hs] at hr
    cases hr
    obtain ⟨s1, s2, _, s4⟩ := StartNewQueue_spec amb calls mn j.2.1 nValueMin nBal r1 hs
    refine hfresh r1.2.1 (fun _ => ?_) (s1.trans hj.1) (by rw [s4]; exact hj.2.2)
    intro e
    exact hj.2.1 (s2.symm.trans e)

theorem ClientCheckPool_inv (amb : Ambient) (c : CPrivatePayClient) (w w0 : CWallet)
    (h : ClientInv w0 c w) :
    ClientInv w0 (c.CheckPool amb w).1 (c.CheckPool amb w).2 ∧
      ClientUnlocked c (c.CheckPool amb w).1 (c.CheckPool amb w).2 := by
  unfold CPrivatePayClient.CheckPool
  split_ifs
  · exact ⟨ClientInv.reset w0 w c _ h.1 (Or.inl rfl) rfl ⟨h.2.2.2.1, h.2.2.2.2⟩,
      ClientUnlocked.of_unlock c _ w _ (fun _ ho => ho)⟩
  · exact ⟨h, ClientUnlocked.of_state _ _ h rfl⟩

theorem ClientCheckPoolStateUpdate_inv (cenv : ClientEnv) (amb : Ambient) (c : CPrivatePayClient)
    (w w0 : CWallet) (nStateNew : PoolState) (nEntriesCountNew : Int)
    (nStatusUpdate : PoolStatusUpdate) (nMessageID : PoolMessage) (nSessionIDNew : Int)
    (h : ClientInv w0 c w) :
    ClientInv w0
        (c.CheckPoolStateUpdate cenv amb w nStateNew nEntriesCountNew nStatusUpdate nMessageID
          nSessionIDNew).2.1
        (c.CheckPoolStateUpdate cenv amb w nStateNew nEntriesCountNew nStatusUpdate nMessageID
          nSessionIDNew).2.2 ∧
      ClientUnlocked c
        (c.CheckPoolStateUpdate cenv amb w nStateNew nEntriesCountNew nStatusUpdate nMessageID
          nSessionIDNew).2.1
        (c.CheckPoolStateUpdate cenv amb w nStateNew nEntriesCountNew nStatusUpdate nMessageID
          nSessionIDNew).2.2 := by
  unfold CPrivatePayClient.CheckPoolStateUpdate
  split_ifs
  · exact ⟨h, ClientUnlocked.of_state _ _ h rfl⟩
  · exact ⟨h, ClientUnlocked.of_state _ _ h rfl⟩
  · exact ⟨ClientInv.reset w0 w c _ h.1 (Or.inr rfl) rfl ⟨h.2.2.2.1, h.2.2.2.2⟩,
      ClientUnlocked.of_unlock c _ w _ (fun _ ho => ho)⟩
  · exact ⟨h.frame _ rfl rfl rfl rfl, ClientUnlocked.of_state _ _ h rfl⟩
  · exact ⟨h.frame _ rfl rfl rfl rfl, ClientUnlocked.of_state _ _ h rfl⟩
  · exact ⟨h, ClientUnlocked.of_state _ _ h rfl⟩
  · exact ⟨h, ClientUnlocked.of_state _ _ h rfl⟩

theorem ClientCompletedTransaction_inv (cenv : ClientEnv) (amb : Ambient) (c : CPrivatePayClient)
    (w w0 : CWallet) (nMessageID : PoolMessage) (h : ClientInv w0 c w) :
    ClientInv w0 (c.CompletedTransaction cenv amb w nMessageID).1
        (c.CompletedTransaction cenv amb w nMessageID).2 ∧
      ClientUnlocked c (c.CompletedTransaction cenv amb w nMessageID).1
        (c.CompletedTransaction cenv amb w nMessageID).2 := by
  unfold CPrivatePayClient.CompletedTransaction
  split_ifs
  · exact ⟨h, ClientUnlocked.of_state _ _ h rfl⟩
  · exact ⟨ClientInv.reset w0 w c _ h.1 (Or.inl rfl) rfl ⟨h.2.2.2.1, h.2.2.2.2⟩,
      ClientUnlocked.of_unlock c _ w _ (fun _ ho => ho)⟩

theorem ClientResetPool_inv (amb : Ambient) (c : CPrivatePayClient) (w w0 : CWallet)
    (h : ClientInv w0 c w) :
    ClientInv w0 (c.ResetPool amb w).1 (c.ResetPool amb w).2 ∧
      ClientUnlocked c (c.ResetPool amb w).1 (c.ResetPool amb w).2 :=
  ⟨ClientInv.reset w0 w c _ h.1 (Or.inl rfl) rfl ⟨h.2.2.2.1, h.2.2.2.2⟩,
    ClientUnlocked.of_unlock c _ w _ (fun _ ho => ho)⟩

theorem ClientSignFinalTransaction_inv (cenv : ClientEnv) (amb : Ambient) (c : CPrivatePayClient)
    (w w0 : CWallet) (tx : CTransaction) (pnode : Option CNode) (h : ClientInv w0 c w) :
    ClientInv w0 (c.SignFinalTransaction cenv amb w tx pnode).2.1
        (c.SignFinalTransaction cenv amb w tx pnode).2.2.1 ∧
      ClientUnlocked c (c.SignFinalTransaction cenv amb w tx pnode).2.1
        (c.SignFinalTransaction cenv amb w tx pnode).2.2.1 := by
  unfold CPrivatePayClient.SignFinalTransaction
  cases pnode with
  | none => exact ⟨h, ClientUnlocked.of_state _ _ h rfl⟩
  | some node =>
    dsimp only
    split_ifs
    · exact ⟨h, ClientUnlocked.of_state _ _ h rfl⟩
    · exact ⟨ClientInv.reset w0 w c _ h.1 (Or.inl rfl) rfl ⟨h.2.2.2.1, h.2.2.2.2⟩,
        ClientUnlocked.of_unlock c _ w _ (fun _ ho => ho)⟩
    · refine ⟨⟨h.1, ?_, ?_, h.2.2.2.1, h.2.2.2.2⟩, ?_⟩
      · intro _ e; exact absurd rfl e
      · intro e; exact absurd e (show POOL_STATE_SIGNING ≠ POOL_STATE_QUEUE by decide)
      · intro _ e; exact absurd rfl e

theorem ClientCheckPool_keeps (amb : Ambient) (c : CPrivatePayClient) (w : CWallet) :
    ∀ o ∈ c.vecOutPointLocked,
      o ∈ (c.CheckPool amb w).1.vecOutPointLocked ∨ o ∉ (c.CheckPool amb w).2.setLockedCoins := by
  intro o ho
  unfold CPrivatePayClient.CheckPool
  split_ifs
  · right
    intro hmem
    exact ((foldl_UnlockCoin_mem _ _ _).1 hmem).2 ho
  · left; exact ho

theorem ClientCheckTimeout_inv (cenv : ClientEnv) (amb : Ambient) (c : CPrivatePayClient)
    (w w0 : CWallet) (h : ClientInv w0 c w) :
    ClientInv w0 (c.CheckTimeout cenv amb w).1 (c.CheckTimeout cenv amb w).2 ∧
      ClientUnlocked c (c.CheckTimeout cenv amb w).1 (c.CheckTimeout cenv amb w).2 := by
  have h1 := h.filterQueue (fun q => !q.IsExpired amb)
  have hp := ClientCheckPool_inv amb _ w w0 h1
  have hk := ClientCheckPool_keeps amb
    { c with vecPrivatepayQueue := c.vecPrivatepayQueue.filter (fun q => !q.IsExpired amb) } w
  unfold CPrivatePayClient.CheckTimeout
  by_cases hl : (!amb.lockRecv) = true
  · rw [if_pos hl]; exact ⟨h, ClientUnlocked.of_state _ _ h rfl⟩
  rw [if_neg hl]
  lift_lets
  intro c1 r nLagTime nTimeout fTimeout u src
  by_cases he : (!c1.fEnablePrivatePay && !cenv.fMasterNode) = true
  · rw [if_pos he]; exact ⟨h1, ClientUnlocked.of_state _ _ h rfl⟩
  rw [if_neg he]
  have hr : (ClientInv w0 r.1 r.2 ∧ ClientUnlocked c r.1 r.2) ∧
      ∀ o ∈ c.vecOutPointLocked, o ∈ r.1.vecOutPointLocked ∨ o ∉ r.2.setLockedCoins := by
    show (ClientInv w0 (if (!cenv.fMasterNode) = true then _ else (c1, w)).1
        (if (!cenv.fMasterNode) = true then _ else (c1, w)).2 ∧
      ClientUnlocked c (if (!cenv.fMasterNode) = true then _ else (c1, w)).1
        (if (!cenv.fMasterNode) = true then _ else (c1, w)).2) ∧
      ∀ o ∈ c.vecOutPointLocked,
        o ∈ (if (!cenv.fMasterNode) = true then _ else (c1, w)).1.vecOutPointLocked ∨
        o ∉ (if (!cenv.fMasterNode) = true then _ else (c1, w)).2.setLockedCoins
    by_cases hm : (!cenv.fMasterNode) = true
    · simp only [if_pos hm]
      split
      · exact ⟨⟨hp.1, fun a b o ho => hp.2 a b o ho⟩, hk⟩
      · exact ⟨⟨hp.1, fun a b o ho => hp.2 a b o ho⟩, hk⟩
      · exact ⟨⟨h1, ClientUnlocked.of_state _ _ h rfl⟩, fun o ho => Or.inl ho⟩
    · simp only [if_neg hm]
      exact ⟨⟨h1, ClientUnlocked.of_state _ _ h rfl⟩, fun o ho => Or.inl ho⟩
  by_cases ht : (r.1.nState != POOL_STATE_IDLE && fTimeout) = true
  · rw [if_pos ht]
    refine ⟨ClientInv.reset w0 r.2 r.1 _ hr.1.1.1 (Or.inr rfl) rfl
      ⟨hr.1.1.2.2.2.1, hr.1.1.2.2.2.2⟩, ?_⟩
    intro _ _ o ho hmem
    have hm2 := (foldl_UnlockCoin_mem _ _ _).1 hmem
    rcases hr.2 o ho with e | e
    · exact hm2.2 e
    · exact e hm2.1
  · rw [if_neg ht]; exact hr.1

theorem ClientProcessPPQUEUE_unlocked (cenv : ClientEnv) (amb : Ambient) (calls : ClientCalls)
    (mn : CMasternodeMan) (c : CPrivatePayClient) (w w0 : CWallet) (pfrom : CNode)
    (dsq : CPrivatepayQueue) (h : ClientInv w0 c w) :
    ClientUnlocked c (c.ProcessPPQUEUE cenv amb calls mn w pfrom dsq).1
      (c.ProcessPPQUEUE cenv amb calls mn w pfrom dsq).2.1 := by
  apply ClientProcessPPQUEUE_cases cenv amb calls mn c w pfrom dsq
    (fun r => ClientUnlocked c r.1 r.2.1)
  · intro _ _; exact ClientUnlocked.of_state _ _ h rfl
  · intro hq _
    exact ClientUnlocked.of_empty _ _ (h.2.1 (by rw [hq]; decide) (by rw [hq]; decide))
  · intro q mn2 _ _ _ _
    exact ClientUnlocked.of_state _ _ h rfl

theorem ClientProcessMessage_inv (cenv : ClientEnv) (amb : Ambient) (calls : ClientCalls)
    (mn : CMasternodeMan) (node : ClientNode) (w0 : CWallet) (pfrom : CNode) (msg : ClientMessage)
    (h : ClientInv w0 node.client node.wallet) :
    ClientInv w0 (CPrivatePayClient.ProcessMessage cenv amb calls mn node pfrom msg).1.client
        (CPrivatePayClient.ProcessMessage cenv amb calls mn node pfrom msg).1.wallet ∧
      ClientUnlocked node.client
        (CPrivatePayClient.ProcessMessage cenv amb calls mn node pfrom msg).1.client
        (CPrivatePayClient.ProcessMessage cenv amb calls mn node pfrom msg).1.wallet := by
  have hsame : ClientInv w0 node.client node.wallet ∧
      ClientUnlocked node.client node.client node.wallet :=
    ⟨h, ClientUnlocked.of_state _ _ h rfl⟩
  unfold CPrivatePayClient.ProcessMessage
  by_cases hm : cenv.fMasterNode = true
  · rw [if_pos hm]; exact hsame
  rw [if_neg hm]
  have hm1 : cenv.fMasterNode = false := by simpa using hm
  by_cases h2 : cenv.fLiteMode = true
  · rw [if_pos h2]; exact hsame
  rw [if_neg h2]
  by_cases h3 : (!cenv.IsBlockchainSynced) = true
  · rw [if_pos h3]; exact hsame
  rw [if_neg h3]
  cases msg with
  | PPQUEUE dsq =>
    exact ⟨ClientProcessPPQUEUE_inv cenv amb calls mn node.client node.wallet w0 pfrom dsq hm1 h,
      ClientProcessPPQUEUE_unlocked cenv amb calls mn node.client node.wallet w0 pfrom dsq h⟩
  | PPSTATUSUPDATE a b c d e =>
    dsimp only
    split_ifs
    · exact hsame
    · exact hsame
    · exact hsame
    · exact ClientCheckPoolStateUpdate_inv cenv amb node.client node.wallet w0 b c d e a h
  | PPFINALTX a tx =>
    dsimp only
    split_ifs
    · exact hsame
    · exact hsame
    · exact hsame
    · exact hsame
    · exact ClientSignFinalTransaction_inv cenv amb node.client node.wallet w0 tx (some pfrom) h
  | PPCOMPLETE a m =>
    dsimp only
    split_ifs
    · exact hsame
    · exact hsame
    · exact hsame
    · exact hsame
    · exact ClientCompletedTransaction_inv cenv amb node.client node.wallet w0 m h
  | other => exact hsame

theorem clientStep_inv (cenv : ClientEnv) (amb : Ambient) (calls : ClientCalls)
    (mn : CMasternodeMan) (node node1 : ClientNode) (out : List NetMsg) (w0 : CWallet)
    (ev : ClientEvent) (hcm : calls.CollateralMade)
    (h : ClientInv w0 node.client node.wallet)
    (hstep : clientStep cenv amb calls mn node ev = some (node1, out)) :
    ClientInv w0 node1.client node1.wallet ∧
      ClientUnlocked node.client node1.client node1.wallet := by
  cases ev with
  | message pfrom msg =>
    simp only [clientStep, Option.some.injEq] at hstep
    have := ClientProcessMessage_inv cenv amb calls mn node w0 pfrom msg h
    rw [hstep] at this
    exact this
  | checkTimeout =>
    simp only [clientStep, Option.some.injEq, Prod.mk.injEq] at hstep
    rw [← hstep.1]
    exact ClientCheckTimeout_inv cenv amb node.client node.wallet w0 h
  | doAutomaticDenominating =>
    simp only [clientStep] at hstep
    cases hd : node.client.DoAutomaticDenominating cenv amb calls mn node.wallet with
    | none => rw [hd] at hstep; cases hstep
    | some r =>
      rw [hd] at hstep
      simp only [Option.some.injEq, Prod.mk.injEq] at hstep
      rw [← hstep.1]
      exact DoAutomaticDenominating_inv cenv amb calls mn node.client node.wallet w0 hcm h r hd
  | resetPool =>
    simp only [clientStep, Option.some.injEq, Prod.mk.injEq] at hstep
    rw [← hstep.1]
    exact ClientResetPool_inv amb node.client node.wallet w0 h
  | enable fEnable =>
    simp only [clientStep, Option.some.injEq, Prod.mk.injEq] at hstep
    rw [← hstep.1]
    exact ⟨h.frame _ rfl rfl rfl rfl, ClientUnlocked.of_state _ _ h rfl⟩

theorem ClientReachable.inv {cenv : ClientEnv} {w0 : CWallet} {node : ClientNode}
    (h : ClientReachable cenv w0 node) : ClientInv w0 node.client node.wallet := by
  induction h with
  | init nTime =>
    refine ⟨fun o ho => Or.inl ho, fun _ _ => rfl, ?_, List.nodup_nil, ?_⟩
    · intro e; exact absurd e (show POOL_STATE_IDLE ≠ POOL_STATE_QUEUE by decide)
    · intro q hq; exact absurd hq (List.not_mem_nil q)
  | step amb calls mn ev _ hcm hstep ih =>
    exact (clientStep_inv cenv amb calls mn _ _ _ w0 ev hcm ih hstep).1

/-! ## The queue vector of the coordinator -/

theorem ServerQueueInv.filter {env : Env} {l : List CPrivatepayQueue}
    (p : CPrivatepayQueue → Bool) (h : ServerQueueInv env l) : ServerQueueInv env (l.filter p) := by
  refine ⟨fun q hq => h.1 q (List.mem_filter.1 hq).1, ?_⟩
  refine List.Nodup.sublist ?_ h.2
  exact ((List.filter_sublist l).filter _).map _

theorem ServerQueueInv.push_own {env : Env} {l : List CPrivatepayQueue}
    (nDenom nTime : Int) (h : ServerQueueInv env l) :
    ServerQueueInv env (l ++ [signedQueue env nDenom nTime false]) := by
  refine ⟨?_, ?_⟩
  · intro q hq
    rcases List.mem_append.1 hq with e | e
    · exact h.1 q e
    · rw [List.mem_singleton.1 e]; rfl
  · have hv : (signedQueue env nDenom nTime false).vin = env.activeMasternodeVin := rfl
    rw [List.filter_append]
    simp only [List.filter_cons, List.filter_nil, hv, bne_self_eq_false, Bool.false_eq_true,
      if_false, List.append_nil]
    exact h.2

theorem ServerQueueInv.push_new {env : Env} {l : List CPrivatepayQueue}
    (dsq : CPrivatepayQueue) (h : ServerQueueInv env l) (hfr : dsq.fReady = false)
    (hany : l.any (fun q => q.vin == dsq.vin) = false) :
    ServerQueueInv env (l ++ [dsq]) := by
  refine ⟨?_, ?_⟩
  · intro q hq
    rcases List.mem_append.1 hq with e | e
    · exact h.1 q e
    · rw [List.mem_singleton.1 e]; exact hfr
  · rw [List.filter_append, List.map_append, List.nodup_append]
    refine ⟨h.2, ?_, ?_⟩
    · exact List.Nodup.sublist ((List.filter_sublist [dsq]).map _) (List.nodup_singleton _)
    · intro a ha hb
      obtain ⟨q1, hq1, e1⟩ := List.mem_map.1 ha
      obtain ⟨q2, hq2, e2⟩ := List.mem_map.1 hb
      have hq2m : q2 = dsq := List.mem_singleton.1 (List.mem_filter.1 hq2).1
      have hmem : dsq.vin ∈ l.map (fun q => q.vin) :=
        List.mem_map.2 ⟨q1, (List.mem_filter.1 hq1).1, by rw [e1, ← e2, hq2m]⟩
      exact any_vin_false l dsq hany hmem

theorem RelayStatus_queue (env : Env) (amb : Ambient) (s : CPrivatePayServer)
    (st : PoolStatusUpdate) (m : PoolMessage) :
    (RelayStatus env amb s st m).1.vecPrivatepayQueue = s.vecPrivatepayQueue := by
  rcases RelayStatus_state env amb s st m with e | ⟨e, _⟩ <;> rw [e]
  rfl

theorem relayFinalLoop_queue (env : Env) (amb : Ambient) (s : CPrivatePayServer)
    (tx : CTransaction) (es : List CPrivatePayEntry) :
    (relayFinalLoop env amb s tx es).1.vecPrivatepayQueue = s.vecPrivatepayQueue := by
  rcases relayFinalLoop_state env amb s tx es with e | ⟨e, _⟩ <;> rw [e]
  rfl

theorem relayCompletedLoop_queue (env : Env) (amb : Ambient) (s : CPrivatePayServer)
    (m : PoolMessage) (es : List CPrivatePayEntry) :
    (relayCompletedLoop env amb s m es).1.vecPrivatepayQueue = s.vecPrivatepayQueue := by
  induction es with
  | nil => rfl
  | cons e rest ih =>
    simp only [PrivatePay.relayCompletedLoop]
    cases hf : env.ForNode e.addr
    · simp only [Bool.false_eq_true, if_false]
      exact RelayStatus_queue env amb s _ _
    · simp only [if_true]
      exact ih

theorem SetState_queue (env : Env) (s : CPrivatePayServer) (st : PoolState) :
    (SetState env s st).vecPrivatepayQueue = s.vecPrivatepayQueue := by
  unfold SetState
  split_ifs <;> rfl

theorem CreateFinalTransaction_queue (env : Env) (amb : Ambient) (s : CPrivatePayServer) :
    (CreateFinalTransaction env amb s).1.vecPrivatepayQueue = s.vecPrivatepayQueue := by
  simp only [CreateFinalTransaction, RelayFinalTransaction]
  rw [SetState_queue, relayFinalLoop_queue]

theorem CommitFinalTransaction_queue (env : Env) (amb : Ambient) (s : CPrivatePayServer) :
    (CommitFinalTransaction env amb s).1.vecPrivatepayQueue = s.vecPrivatepayQueue := by
  unfold CommitFinalTransaction
  split_ifs
  · rfl
  · exact relayCompletedLoop_queue env amb (SetNull amb s) _ _
  · show (SetNull amb _).vecPrivatepayQueue = _
    unfold SetNull
    exact relayCompletedLoop_queue env amb s _ _

theorem CheckPool_queue (env : Env) (amb : Ambient) (s : CPrivatePayServer) :
    (CheckPool env amb s).1.vecPrivatepayQueue = s.vecPrivatepayQueue := by
  unfold CheckPool
  split_ifs
  · exact CreateFinalTransaction_queue env amb s
  · exact CommitFinalTransaction_queue env amb s
  · rfl
  · rfl

theorem AddEntry_queue (env : Env) (amb : Ambient) (s : CPrivatePayServer)
    (entry : CPrivatePayEntry) (m : PoolMessage) :
    (AddEntry env amb s entry m).2.2.vecPrivatepayQueue = s.vecPrivatepayQueue := by
  unfold AddEntry
  split_ifs <;> rfl

theorem AddScriptSig_queue (env : Env) (s : CPrivatePayServer) (txin : CTxIn) :
    (AddScriptSig env s txin).2.vecPrivatepayQueue = s.vecPrivatepayQueue := by
  unfold AddScriptSig
  split_ifs <;> rfl

theorem ProcessPPVIN_queue (env : Env) (amb : Ambient) (s : CPrivatePayServer) (pfrom : CNode)
    (entry : CPrivatePayEntry) :
    (ProcessPPVIN env amb s pfrom entry).1.vecPrivatepayQueue = s.vecPrivatepayQueue := by
  unfold ProcessPPVIN
  split_ifs
  · rfl
  · rfl
  · rfl
  · rfl
  · rfl
  · cases hc : checkEntryLikeTransaction env entry with
    | some e => rfl
    | none =>
      simp only
      split_ifs
      · rw [RelayStatus_queue, CheckPool_queue, AddEntry_queue]
      · show (SetNull amb _).vecPrivatepayQueue = _
        unfold SetNull
        exact AddEntry_queue env amb s _ _

theorem addScriptSigs_queue (env : Env) (amb : Ambient) (vecTxIn : List CTxIn)
    (s : CPrivatePayServer) :
    (addScriptSigs env amb vecTxIn s).1.vecPrivatepayQueue = s.vecPrivatepayQueue := by
  induction vecTxIn generalizing s with
  | nil => exact CheckPool_queue env amb s
  | cons txin rest ih =>
    simp only [PrivatePay.addScriptSigs]
    split_ifs
    · rw [RelayStatus_queue, AddScriptSig_queue]
    · rw [ih, AddScriptSig_queue]

theorem AddUserToExistingSession_queue (env : Env) (amb : Ambient) (s : CPrivatePayServer)
    (nDenom : Int) (tx : CTransaction) (m : PoolMessage) :
    (AddUserToExistingSession env amb s nDenom tx m).2.2.vecPrivatepayQueue =
      s.vecPrivatepayQueue := by
  unfold AddUserToExistingSession
  dsimp only
  split_ifs <;> rfl

theorem CheckForCompleteQueue_queue (env : Env) (amb : Ambient) (s : CPrivatePayServer) :
    (CheckForCompleteQueue env amb s).1.vecPrivatepayQueue = s.vecPrivatepayQueue := by
  unfold CheckForCompleteQueue
  split_ifs
  · rfl
  · exact SetState_queue env s _
  · rfl

theorem CreateNewSession_queue_inv (env : Env) (amb : Ambient) (s : CPrivatePayServer)
    (nDenom : Int) (tx : CTransaction) (m : PoolMessage)
    (h : ServerQueueInv env s.vecPrivatepayQueue) :
    ServerQueueInv env (CreateNewSession env amb s nDenom tx m).2.2.1.vecPrivatepayQueue := by
  unfold CreateNewSession
  dsimp only
  split_ifs
  all_goals first
    | exact h
    | (simp only [SetState_queue]; exact h)
    | (simp only [SetState_queue]; exact h.push_own _ _)

theorem ProcessPPACCEPT_queue_inv (env : Env) (amb : Ambient) (mn : CMasternodeMan)
    (s : CPrivatePayServer) (pfrom : CNode) (nDenom : Int) (tx : CTransaction)
    (h : ServerQueueInv env s.vecPrivatepayQueue) :
    ServerQueueInv env (ProcessPPACCEPT env amb mn s pfrom nDenom tx).1.vecPrivatepayQueue := by
  unfold ProcessPPACCEPT
  repeat' split
  all_goals first
    | exact h
    | exact CreateNewSession_queue_inv env amb s nDenom tx _ h
    | (rw [AddUserToExistingSession_queue]; exact h)

theorem ProcessPPQUEUE_queue_inv (env : Env) (amb : Ambient) (mn : CMasternodeMan)
    (s : CPrivatePayServer) (pfrom : CNode) (dsq : CPrivatepayQueue)
    (h : ServerQueueInv env s.vecPrivatepayQueue) :
    ServerQueueInv env (ProcessPPQUEUE env amb mn s pfrom dsq).1.vecPrivatepayQueue := by
  unfold ProcessPPQUEUE
  repeat' split
  all_goals first
    | exact h
    | skip
  rename_i h1 h2 h3
  exact h.push_new dsq (by simpa using h1) (by simpa using h2)

theorem ProcessMessage_queue_inv (env : Env) (amb : Ambient) (mn : CMasternodeMan)
    (s : CPrivatePayServer) (pfrom : CNode) (msg : Message)
    (h : ServerQueueInv env s.vecPrivatepayQueue) :
    ServerQueueInv env (ProcessMessage env amb mn s pfrom msg).1.vecPrivatepayQueue := by
  unfold ProcessMessage
  repeat' split
  all_goals first
    | exact h
    | exact ProcessPPACCEPT_queue_inv env amb mn s pfrom _ _ h
    | exact ProcessPPQUEUE_queue_inv env amb mn s pfrom _ h
    | (rw [ProcessPPVIN_queue]; exact h)
    | (rw [addScriptSigs_queue]; exact h)

theorem CheckTimeout_queue_inv (env : Env) (amb : Ambient) (s : CPrivatePayServer)
    (h : ServerQueueInv env s.vecPrivatepayQueue) :
    ServerQueueInv env (CheckTimeout env amb s).1.vecPrivatepayQueue := by
  unfold CheckTimeout
  dsimp only
  split_ifs
  all_goals first
    | exact h
    | exact h.filter _
    | (rw [SetState_queue]; exact h.filter _)

theorem Reachable.queue_inv {env : Env} {s : CPrivatePayServer} (h : Reachable env s) :
    ServerQueueInv env s.vecPrivatepayQueue := by
  induction h with
  | init nTime => exact ⟨fun q hq => absurd hq (List.not_mem_nil q), List.nodup_nil⟩
  | step amb mn ev _ ih =>
    cases ev with
    | message pfrom msg => exact ProcessMessage_queue_inv env amb mn _ pfrom msg ih
    | checkTimeout => exact CheckTimeout_queue_inv env amb _ ih
    | checkForCompleteQueue =>
      show ServerQueueInv env (CheckForCompleteQueue env amb _).1.vecPrivatepayQueue
      rw [CheckForCompleteQueue_queue]; exact ih

/-! ## The concrete client run -/

theorem ClientReachable.client_run {cenv : ClientEnv} {w0 : CWallet} (amb : Ambient)
    (calls : ClientCalls) (mn : CMasternodeMan) (hcm : calls.CollateralMade)
    (evs : List ClientEvent) {node : ClientNode} (h : ClientReachable cenv w0 node) :
    ClientReachable cenv w0 (clientRun cenv amb calls mn node evs) := by
  induction evs generalizing node with
  | nil => exact h
  | cons ev rest ih =>
    rw [clientRun]
    cases hs : clientStep cenv amb calls mn node ev with
    | none => exact h
    | some r => exact ih (ClientReachable.step amb calls mn ev h hcm hs)

theorem demoCalls_CollateralMade : demoCalls.CollateralMade := fun _ => by decide

theorem demoClientQueue_reachable : ClientReachable demoClientEnv demoWalletStart demoClientQueue :=
  ClientReachable.client_run _ _ _ demoCalls_CollateralMade _ (ClientReachable.init 0)

theorem demoClientJoined_reachable :
    ClientReachable demoClientEnv demoWalletStart demoClientJoined :=
  ClientReachable.client_run _ _ _ demoCalls_CollateralMade _ demoClientQueue_reachable

theorem demoClientSubmitted_reachable :
    ClientReachable demoClientEnv demoWalletStart demoClientSubmitted :=
  ClientReachable.client_run _ _ _ demoCalls_CollateralMade _ demoClientJoined_reachable

theorem demoClientTimedOut_reachable :
    ClientReachable demoClientEnv demoWalletStart demoClientTimedOut :=
  ClientReachable.client_run _ _ _ demoCalls_CollateralMade _ demoClientQueue_reachable

theorem demoSessionDone_reachable : Reachable demoEnv demoSessionDone :=
  Reachable.run _ _ _ (Reachable.init 0)

theorem demoSecondSession_reachable : Reachable demoEnv demoSecondSession :=
  Reachable.run _ _ _ demoSessionDone_reachable

/-! ## C25, C26: the client's grace period and status updates -/

/-- C25: the client's `CheckPool` resets a session in state `ERROR` or `SUCCESS`
exactly when at least 10000 ms have passed since `nTimeLastSuccessfulStep`: the
state becomes `IDLE`, session id and mask 0, entries and locked outpoints
cleared, the recorded outpoints unlocked in the wallet.  With less than
10000 ms passed, and in every other state, client and wallet are unchanged. -/
theorem client_CheckPool_spec (amb : Ambient) (c : CPrivatePayClient) (w : CWallet) :
    ((c.nState = POOL_STATE_ERROR ∨ c.nState = POOL_STATE_SUCCESS) →
      amb.GetTimeMillis - c.nTimeLastSuccessfulStep ≥ 10000 →
      (c.CheckPool amb w).1.nState = POOL_STATE_IDLE ∧
      (c.CheckPool amb w).1.nSessionID = 0 ∧
      (c.CheckPool amb w).1.nSessionDenom = 0 ∧
      (c.CheckPool amb w).1.vecEntries = [] ∧
      (c.CheckPool amb w).1.vecOutPointLocked = [] ∧
      ∀ outpoint, outpoint ∈ (c.CheckPool amb w).2.setLockedCoins ↔
        outpoint ∈ w.setLockedCoins ∧ outpoint ∉ c.vecOutPointLocked) ∧
    ((c.nState = POOL_STATE_ERROR ∨ c.nState = POOL_STATE_SUCCESS) →
      amb.GetTimeMillis - c.nTimeLastSuccessfulStep < 10000 → c.CheckPool amb w = (c, w)) ∧
    (c.nState ≠ POOL_STATE_ERROR → c.nState ≠ POOL_STATE_SUCCESS → c.CheckPool amb w = (c, w)) := by
  refine ⟨?_, ?_, ?_⟩
  · intro hs ht
    have hres : c.CheckPool amb w = ((c.UnlockCoins w).1.SetNull amb, (c.UnlockCoins w).2) := by
      unfold CPrivatePayClient.CheckPool
      rcases hs with h | h <;> simp [h, ht]
    rw [hres]
    exact ⟨rfl, rfl, rfl, rfl, rfl, fun _ => foldl_UnlockCoin_mem _ _ _⟩
  · intro _ ht
    have : ¬ amb.GetTimeMillis - c.nTimeLastSuccessfulStep ≥ 10000 := not_le.mpr ht
    unfold CPrivatePayClient.CheckPool
    simp [this]
  · intro h1 h2
    unfold CPrivatePayClient.CheckPool
    simp [h1, h2]

/-- C25 (witness): the client that timed out at 61000 ms is in state `ERROR`;
`CheckPool` at 100000 ms resets it to `IDLE`, at 61000 ms it changes nothing,
and it changes nothing for the client waiting in `QUEUE`. -/
theorem client_CheckPool_spec_witness :
    demoClientTimedOut.client.nState = POOL_STATE_ERROR ∧
    demoAmbientLater.GetTimeMillis - demoClientTimedOut.client.nTimeLastSuccessfulStep ≥ 10000 ∧
    (demoClientTimedOut.client.CheckPool demoAmbientLater demoClientTimedOut.wallet).1.nState =
      POOL_STATE_IDLE ∧
    demoClientTimedOut.client.CheckPool demoAmbientLate demoClientTimedOut.wallet =
      (demoClientTimedOut.client, demoClientTimedOut.wallet) ∧
    demoClientQueue.client.CheckPool demoAmbientLater demoClientQueue.wallet =
      (demoClientQueue.client, demoClientQueue.wallet) :=
  have h := client_CheckPool_spec demoAmbientLater demoClientTimedOut.client
    demoClientTimedOut.wallet
  have h1 := client_CheckPool_spec demoAmbientLate demoClientTimedOut.client
    demoClientTimedOut.wallet
  have h2 := client_CheckPool_spec demoAmbientLater demoClientQueue.client demoClientQueue.wallet
  ⟨by decide, by decide, (h.1 (Or.inl (by decide)) (by decide)).1,
    h1.2.1 (Or.inl (by decide)) (by decide), h2.2.2 (by decide) (by decide)⟩

/-- C26 (counterexample): two reachable client states in which the table of the
claim is not followed.  The client waiting in `QUEUE` with session id 0 receives
from its masternode a status update `STATUS_ACCEPTED` with the non-zero session
id 7 and the state `ACCEPTING_ENTRIES`: the id is not stored, nothing changes.
The client in state `ERROR` after a timeout is given `STATUS_REJECTED`:
`CheckPoolStateUpdate` returns false, the message is not recorded. -/
theorem status_update_table_gaps :
    ClientReachable demoClientEnv demoWalletStart demoClientQueue ∧
    demoClientQueue.client.nState = POOL_STATE_QUEUE ∧
    demoClientQueue.client.nSessionID = 0 ∧
    clientStep demoClientEnv demoAmbient demoCalls (demoRegistryAt 100) demoClientQueue
        (.message (demoPeer 101)
          (.PPSTATUSUPDATE 7 POOL_STATE_ACCEPTING_ENTRIES 0 STATUS_ACCEPTED MSG_NOERR)) =
      some (demoClientQueue, []) ∧
    demoClientQueue.client.CheckPoolStateUpdate demoClientEnv demoAmbient demoClientQueue.wallet
        POOL_STATE_ACCEPTING_ENTRIES 0 STATUS_ACCEPTED MSG_NOERR 7 =
      (false, demoClientQueue.client, demoClientQueue.wallet) ∧
    ClientReachable demoClientEnv demoWalletStart demoClientTimedOut ∧
    demoClientTimedOut.client.nState = POOL_STATE_ERROR ∧
    demoClientTimedOut.client.CheckPoolStateUpdate demoClientEnv demoAmbientLate
        demoClientTimedOut.wallet POOL_STATE_QUEUE 0 STATUS_REJECTED ERR_DENOM 0 =
      (false, demoClientTimedOut.client, demoClientTimedOut.wallet) ∧
    demoClientTimedOut.client.strLastMessage = "Session timed out." ∧
    GetMessageByID ERR_DENOM ≠ "Session timed out." :=
  ⟨demoClientQueue_reachable, by decide, by decide, by decide, by decide,
    demoClientTimedOut_reachable, by decide, by decide, by decide, by decide⟩
/-- C26 (amended): on a wallet node `CheckPoolStateUpdate` returns false and
changes nothing when the client is in state `IDLE`, `ERROR` or `SUCCESS`.  In
the other states: with `STATUS_REJECTED` it unlocks the recorded coins, resets
the session, sets the state to `ERROR`, records the message and returns true;
with `STATUS_ACCEPTED` and a state in the message equal to the client's own, it
stores the session id when that state is `QUEUE`, the client's id is 0 and the
new id is not, and else records the new entries count with
`fLastEntryAccepted = true` when that state is `ACCEPTING_ENTRIES` and the count
differs, returning true in both cases; in every other case it returns false
and changes nothing. -/
theorem CheckPoolStateUpdate_spec (cenv : ClientEnv) (amb : Ambient) (c : CPrivatePayClient)
    (w : CWallet) (nStateNew : PoolState) (nEntriesCountNew : Int)
    (nStatusUpdate : PoolStatusUpdate) (nMessageID : PoolMessage) (nSessionIDNew : Int)
    (hm : cenv.fMasterNode = false) :
    ((c.nState = POOL_STATE_IDLE ∨ c.nState = POOL_STATE_ERROR ∨ c.nState = POOL_STATE_SUCCESS) →
      c.CheckPoolStateUpdate cenv amb w nStateNew nEntriesCountNew nStatusUpdate nMessageID
        nSessionIDNew = (false, c, w)) ∧
    (c.nState ≠ POOL_STATE_IDLE → c.nState ≠ POOL_STATE_ERROR → c.nState ≠ POOL_STATE_SUCCESS →
      (nStatusUpdate = STATUS_REJECTED →
        c.CheckPoolStateUpdate cenv amb w nStateNew nEntriesCountNew nStatusUpdate nMessageID
            nSessionIDNew =
          (true,
            { (c.UnlockCoins w).1.SetNull amb with
              nState := POOL_STATE_ERROR, strLastMessage := GetMessageByID nMessageID },
            (c.UnlockCoins w).2) ∧
        ∀ outpoint, outpoint ∈ (c.UnlockCoins w).2.setLockedCoins ↔
          outpoint ∈ w.setLockedCoins ∧ outpoint ∉ c.vecOutPointLocked) ∧
      (nStatusUpdate = STATUS_ACCEPTED → nStateNew = c.nState →
        c.nState = POOL_STATE_QUEUE → c.nSessionID = 0 → nSessionIDNew ≠ 0 →
        c.CheckPoolStateUpdate cenv amb w nStateNew nEntriesCountNew nStatusUpdate nMessageID
            nSessionIDNew =
          (true,
            { c with nSessionID := nSessionIDNew, nTimeLastSuccessfulStep := amb.GetTimeMillis },
            w)) ∧
      (nStatusUpdate = STATUS_ACCEPTED → nStateNew = c.nState →
        c.nState = POOL_STATE_ACCEPTING_ENTRIES → c.nEntriesCount ≠ nEntriesCountNew →
        c.CheckPoolStateUpdate cenv amb w nStateNew nEntriesCountNew nStatusUpdate nMessageID
            nSessionIDNew =
          (true,
            { c with
              nEntriesCount := nEntriesCountNew
              nTimeLastSuccessfulStep := amb.GetTimeMillis
              fLastEntryAccepted := true }, w)) ∧
      (nStatusUpdate = STATUS_ACCEPTED →
        (nStateNew ≠ c.nState ∨
          (c.nState = POOL_STATE_QUEUE ∧ (c.nSessionID ≠ 0 ∨ nSessionIDNew = 0)) ∨
          (c.nState = POOL_STATE_ACCEPTING_ENTRIES ∧ c.nEntriesCount = nEntriesCountNew) ∨
          c.nState = POOL_STATE_SIGNING) →
        c.CheckPoolStateUpdate cenv amb w nStateNew nEntriesCountNew nStatusUpdate nMessageID
            nSessionIDNew = (false, c, w))) := by
  constructor
  · intro hs
    unfold CPrivatePayClient.CheckPoolStateUpdate
    rcases hs with h | h | h <;> simp [hm, h]
  · intro h1 h2 h3
    refine ⟨?_, ?_, ?_, ?_⟩
    · intro hr
      refine ⟨?_, fun _ => foldl_UnlockCoin_mem _ _ _⟩
      unfold CPrivatePayClient.CheckPoolStateUpdate
      simp [hm, h1, h2, h3, hr, CPrivatePayClient.SetState]
    · intro ha hst hq hid hnew
      unfold CPrivatePayClient.CheckPoolStateUpdate
      simp [hm, ha, hst, hq, hid, hnew]
    · intro ha hst hq hcnt
      unfold CPrivatePayClient.CheckPoolStateUpdate
      simp [hm, ha, hst, hq, hcnt]
    · intro ha hcase
      unfold CPrivatePayClient.CheckPoolStateUpdate
      rcases hcase with h | ⟨hq, h | h⟩ | ⟨hq, h⟩ | hq
      · have h' : ¬ c.nState = nStateNew := fun e => h e.symm
        simp [hm, h1, h2, h3, ha, h']
      · by_cases hst : c.nState = nStateNew
        · rw [← hst]; simp [hm, ha, hq, h]
        · simp [hm, h1, h2, h3, ha, hst]
      · by_cases hst : c.nState = nStateNew
        · rw [← hst]; simp [hm, ha, hq, h]
        · simp [hm, h1, h2, h3, ha, hst]
      · by_cases hst : c.nState = nStateNew
        · rw [← hst]; simp [hm, ha, hq, h]
        · simp [hm, h1, h2, h3, ha, hst]
      · by_cases hst : c.nState = nStateNew
        · rw [← hst]; simp [hm, ha, hq]
        · simp [hm, h1, h2, h3, ha, hst]

/-- C26 (witness): the client waiting in `QUEUE` with session id 0 is told
`STATUS_ACCEPTED` with the state `QUEUE` and the session id 7, and stores it. -/
theorem CheckPoolStateUpdate_spec_witness :
    demoClientEnv.fMasterNode = false ∧
    demoClientQueue.client.CheckPoolStateUpdate demoClientEnv demoAmbient demoClientQueue.wallet
        POOL_STATE_QUEUE 0 STATUS_ACCEPTED MSG_NOERR 7 =
      (true,
        { demoClientQueue.client with
          nSessionID := 7, nTimeLastSuccessfulStep := demoAmbient.GetTimeMillis },
        demoClientQueue.wallet) :=
  have h := CheckPoolStateUpdate_spec demoClientEnv demoAmbient demoClientQueue.client
    demoClientQueue.wallet POOL_STATE_QUEUE 0 STATUS_ACCEPTED MSG_NOERR 7 rfl
  ⟨rfl, (h.2 (by decide) (by decide) (by decide)).2.1 rfl (by decide) (by decide) (by decide)
    (by decide)⟩

/-! ## C28: the queue vector -/

theorem ProcessPPQUEUE_known (env : Env) (amb : Ambient) (mn : CMasternodeMan)
    (s : CPrivatePayServer) (pfrom : CNode) (dsq : CPrivatepayQueue)
    (h : s.vecPrivatepayQueue.any (fun q => q.sameAs dsq) = true) :
    ProcessPPQUEUE env amb mn s pfrom dsq = (s, mn, []) := by
  unfold ProcessPPQUEUE
  by_cases h1 : (!amb.lockRecv) = true
  · rw [if_pos h1]
  rw [if_neg h1]
  by_cases h2 : pfrom.nVersion < env.MIN_PRIVATEPAY_PEER_PROTO_VERSION
  · rw [if_pos h2]
  rw [if_neg h2, if_pos h]

theorem ClientProcessPPQUEUE_known (cenv : ClientEnv) (amb : Ambient) (calls : ClientCalls)
    (mn : CMasternodeMan) (c : CPrivatePayClient) (w : CWallet) (pfrom : CNode)
    (dsq : CPrivatepayQueue)
    (h : c.vecPrivatepayQueue.any (fun q => q.sameAs dsq) = true) :
    c.ProcessPPQUEUE cenv amb calls mn w pfrom dsq = (c, w, mn, []) := by
  unfold CPrivatePayClient.ProcessPPQUEUE
  by_cases h1 : (!amb.lockRecv) = true
  · rw [if_pos h1]
  rw [if_neg h1]
  by_cases h2 : pfrom.nVersion < cenv.MIN_PRIVATEPAY_PEER_PROTO_VERSION
  · rw [if_pos h2]
  rw [if_neg h2, if_pos h]

/-- C28 (counterexample): a reachable state of the coordinator whose queue vector
holds two non-ready advertisements of the same outpoint, its own.  A session
completes within the second in which it was opened; the next `PPACCEPT` opens a
new session, and `CreateNewSession` pushes a second advertisement while the
first one is still in the vector. -/
theorem coordinator_two_own_advertisements :
    Reachable demoEnv demoSecondSession ∧
    demoSecondSession.vecPrivatepayQueue =
      [⟨1, ⟨7, 0⟩, 1, false, [1], false⟩, ⟨2, ⟨7, 0⟩, 1, false, [1], false⟩] ∧
    demoEnv.activeMasternodeVin = ⟨7, 0⟩ ∧
    ¬ (demoSecondSession.vecPrivatepayQueue.map (fun q => q.vin)).Nodup :=
  ⟨demoSecondSession_reachable, by decide, by decide, by decide⟩

/-- C28 (amended): in every reachable state of the client the queue vector
holds non-ready advertisements only and no two of them have the same
coordinator outpoint.  In every reachable state of the coordinator the queue
vector holds non-ready advertisements only, and no two of those that are not of
the coordinator's own outpoint have the same outpoint.  On both sides a
`PPQUEUE` message equal to an advertisement in the vector changes nothing: not
the state, not the wallet, not the registry, and nothing is sent. -/
theorem queue_vector_invariant (env : Env) (s : CPrivatePayServer) (cenv : ClientEnv)
    (w0 : CWallet) (node : ClientNode)
    (hs : Reachable env s) (hc : ClientReachable cenv w0 node) :
    ((node.client.vecPrivatepayQueue.map (fun q => q.vin)).Nodup ∧
      ∀ q ∈ node.client.vecPrivatepayQueue, q.fReady = false) ∧
    (((s.vecPrivatepayQueue.filter (fun q => q.vin != env.activeMasternodeVin)).map
        (fun q => q.vin)).Nodup ∧
      ∀ q ∈ s.vecPrivatepayQueue, q.fReady = false) ∧
    (∀ (amb : Ambient) (mn : CMasternodeMan) (pfrom : CNode) (dsq : CPrivatepayQueue),
      s.vecPrivatepayQueue.any (fun q => q.sameAs dsq) = true →
      ProcessMessage env amb mn s pfrom (.PPQUEUE dsq) = (s, mn, []) ∧
      step env amb mn s (.message pfrom (.PPQUEUE dsq)) = (s, [])) ∧
    (∀ (amb : Ambient) (calls : ClientCalls) (mn : CMasternodeMan) (pfrom : CNode)
        (dsq : CPrivatepayQueue),
      node.client.vecPrivatepayQueue.any (fun q => q.sameAs dsq) = true →
      node.client.ProcessPPQUEUE cenv amb calls mn node.wallet pfrom dsq =
        (node.client, node.wallet, mn, []) ∧
      clientStep cenv amb calls mn node (.message pfrom (.PPQUEUE dsq)) = some (node, [])) := by
  have hci := hc.inv
  have hsi := hs.queue_inv
  refine ⟨⟨hci.2.2.2.1, hci.2.2.2.2⟩, ⟨hsi.2, hsi.1⟩, ?_, ?_⟩
  · intro amb mn pfrom dsq hk
    have hp := ProcessPPQUEUE_known env amb mn s pfrom dsq hk
    have hm : ProcessMessage env amb mn s pfrom (.PPQUEUE dsq) = (s, mn, []) := by
      unfold ProcessMessage
      by_cases h1 : (!env.fMasterNode) = true
      · rw [if_pos h1]
      rw [if_neg h1]
      by_cases h2 : env.fLiteMode = true
      · rw [if_pos h2]
      rw [if_neg h2]
      by_cases h3 : (!env.IsBlockchainSynced) = true
      · rw [if_pos h3]
      rw [if_neg h3]
      exact hp
    refine ⟨hm, ?_⟩
    show ((ProcessMessage env amb mn s pfrom (.PPQUEUE dsq)).1,
      (ProcessMessage env amb mn s pfrom (.PPQUEUE dsq)).2.2) = (s, [])
    rw [hm]
  · intro amb calls mn pfrom dsq hk
    have hp := ClientProcessPPQUEUE_known cenv amb calls mn node.client node.wallet pfrom dsq hk
    refine ⟨hp, ?_⟩
    show some (CPrivatePayClient.ProcessMessage cenv amb calls mn node pfrom (.PPQUEUE dsq)) = _
    unfold CPrivatePayClient.ProcessMessage
    by_cases h1 : cenv.fMasterNode = true
    · rw [if_pos h1]
    rw [if_neg h1]
    by_cases h2 : cenv.fLiteMode = true
    · rw [if_pos h2]
    rw [if_neg h2]
    by_cases h3 : (!cenv.IsBlockchainSynced) = true
    · rw [if_pos h3]
    rw [if_neg h3]
    simp only [hp]

/-- C28 (witness): the coordinator that advertised twice, and the client that
waits in `QUEUE`. -/
theorem queue_vector_invariant_witness :
    Reachable demoEnv demoSecondSession ∧
    ClientReachable demoClientEnv demoWalletStart demoClientQueue ∧
    (∀ q ∈ demoSecondSession.vecPrivatepayQueue, q.fReady = false) ∧
    step demoEnv demoAmbient demoRegistry demoSecondSession
        (.message (demoPeer 12) (.PPQUEUE ⟨2, ⟨7, 0⟩, 1, false, [1], true⟩)) =
      (demoSecondSession, []) :=
  have h := queue_vector_invariant demoEnv demoSecondSession demoClientEnv demoWalletStart
    demoClientQueue demoSecondSession_reachable demoClientQueue_reachable
  ⟨demoSecondSession_reachable, demoClientQueue_reachable, h.2.1.2,
    (h.2.2.1 demoAmbient demoRegistry (demoPeer 12) ⟨2, ⟨7, 0⟩, 1, false, [1], true⟩
      (by decide)).2⟩

/-! ## C29: locks are released when a session ends -/

/-- C29: take a step of the client from a reachable state, the wallet's
`CreateCollateralTransaction` leaving a transaction with an input when it
succeeds.  Afterwards every coin locked in the wallet was locked in the wallet
the client started with or is recorded in `vecOutPointLocked`.  When the step
ends outside `ACCEPTING_ENTRIES` and `SIGNING` (timeout, `STATUS_REJECTED`,
completion, refusal to sign, failed submission, reset after the grace period)
then `vecOutPointLocked` is empty, no outpoint that was recorded before the step
is locked any more, and nothing is locked that was not locked at the start. -/
theorem client_locks_released (cenv : ClientEnv) (w0 : CWallet) (amb : Ambient)
    (calls : ClientCalls) (mn : CMasternodeMan) (node node1 : ClientNode) (ev : ClientEvent)
    (out : List NetMsg)
    (hreach : ClientReachable cenv w0 node) (hcm : calls.CollateralMade)
    (hstep : clientStep cenv amb calls mn node ev = some (node1, out)) :
    (∀ outpoint ∈ node1.wallet.setLockedCoins,
      outpoint ∈ w0.setLockedCoins ∨ outpoint ∈ node1.client.vecOutPointLocked) ∧
    (node1.client.nState ≠ POOL_STATE_ACCEPTING_ENTRIES →
      node1.client.nState ≠ POOL_STATE_SIGNING →
      node1.client.vecOutPointLocked = [] ∧
      (∀ outpoint ∈ node.client.vecOutPointLocked, outpoint ∉ node1.wallet.setLockedCoins) ∧
      (∀ outpoint ∈ node1.wallet.setLockedCoins, outpoint ∈ w0.setLockedCoins)) := by
  have h := clientStep_inv cenv amb calls mn node node1 out w0 ev hcm hreach.inv hstep
  refine ⟨h.1.1, ?_⟩
  intro h1 h2
  have hl := h.1.2.1 h1 h2
  refine ⟨hl, h.2 h1 h2, ?_⟩
  intro o ho
  rcases h.1.1 o ho with e | e
  · exact e
  · rw [hl] at e; exact absurd e (List.not_mem_nil o)

/-- C29 (witness): the client that has locked the outputs 0 and 1 of transaction
3 and submitted them is rejected by its masternode; afterwards the wallet
holds the lock it started with and no other. -/
theorem client_locks_released_witness :
    ClientReachable demoClientEnv demoWalletStart demoClientSubmitted ∧
    demoClientSubmitted.wallet.setLockedCoins = [⟨9, 9⟩, ⟨3, 0⟩, ⟨3, 1⟩] ∧
    demoClientSubmitted.client.vecOutPointLocked = [⟨1, 6⟩, ⟨3, 0⟩, ⟨3, 1⟩] ∧
    (clientRun demoClientEnv demoAmbient demoCalls (demoRegistryAt 100) demoClientSubmitted
      [.message (demoPeer 101)
        (.PPSTATUSUPDATE 7 POOL_STATE_ACCEPTING_ENTRIES 0 STATUS_REJECTED
          ERR_DENOM)]).client.nState = POOL_STATE_ERROR ∧
    (clientRun demoClientEnv demoAmbient demoCalls (demoRegistryAt 100) demoClientSubmitted
      [.message (demoPeer 101)
        (.PPSTATUSUPDATE 7 POOL_STATE_ACCEPTING_ENTRIES 0 STATUS_REJECTED
          ERR_DENOM)]).client.vecOutPointLocked = [] ∧
    ∀ outpoint ∈ (clientRun demoClientEnv demoAmbient demoCalls (demoRegistryAt 100)
        demoClientSubmitted
        [.message (demoPeer 101)
          (.PPSTATUSUPDATE 7 POOL_STATE_ACCEPTING_ENTRIES 0 STATUS_REJECTED
            ERR_DENOM)]).wallet.setLockedCoins,
      outpoint ∈ demoWalletStart.setLockedCoins :=
  have h := client_locks_released demoClientEnv demoWalletStart demoAmbient demoCalls
    (demoRegistryAt 100) demoClientSubmitted
    (clientRun demoClientEnv demoAmbient demoCalls (demoRegistryAt 100) demoClientSubmitted
      [.message (demoPeer 101)
        (.PPSTATUSUPDATE 7 POOL_STATE_ACCEPTING_ENTRIES 0 STATUS_REJECTED ERR_DENOM)])
    (.message (demoPeer 101)
      (.PPSTATUSUPDATE 7 POOL_STATE_ACCEPTING_ENTRIES 0 STATUS_REJECTED ERR_DENOM))
    [] demoClientSubmitted_reachable demoCalls_CollateralMade (by decide)
  ⟨demoClientSubmitted_reachable, by decide, by decide, by decide,
    (h.2 (by decide) (by decide)).1, (h.2 (by decide) (by decide)).2.2⟩

/-! ## C31: the final transaction does not depend on the order of the entries -/

theorem sorted_perm_unique {α : Type} (r : α → α → Prop) (l1 l2 : List α) (hp : l1.Perm l2)
    (h1 : l1.Sorted r) (h2 : l2.Sorted r)
    (hanti : ∀ a ∈ l1, ∀ b ∈ l1, r a b → r b a → a = b) : l1 = l2 := by
  induction l1 generalizing l2 with
  | nil => exact (List.Perm.nil_eq hp)
  | cons a t ih =>
    cases l2 with
    | nil => exact absurd hp.length_eq (by simp)
    | cons b u =>
      have hab : a = b := by
        have ha : a ∈ b :: u := hp.subset (List.mem_cons_self _ _)
        have hb : b ∈ a :: t := hp.symm.subset (List.mem_cons_self _ _)
        rcases List.mem_cons.1 ha with e | ha1
        · exact e
        · rcases List.mem_cons.1 hb with e | hb1
          · exact e.symm
          · exact hanti a (List.mem_cons_self _ _) b hb
              (List.rel_of_sorted_cons h1 b hb1) (List.rel_of_sorted_cons h2 a ha1)
      subst hab
      have ht := ih u (List.Perm.cons_inv hp) h1.of_cons h2.of_cons
        (fun x hx y hy => hanti x (List.mem_cons_of_mem _ hx) y (List.mem_cons_of_mem _ hy))
      rw [ht]

theorem scriptLess_antisymm (a b : CScript) :
    scriptLess a b = false → scriptLess b a = false → a = b := by
  induction a generalizing b with
  | nil =>
    cases b with
    | nil => intro _ _; rfl
    | cons y ys => simp [scriptLess]
  | cons x xs ih =>
    cases b with
    | nil => simp [scriptLess]
    | cons y ys =>
      simp only [scriptLess]
      by_cases h1 : x < y
      · simp [h1]
      · by_cases h2 : y < x
        · simp [h1, h2]
        · have hxy : x = y := by omega
          simp only [h1, h2, if_false]
          intro ha hb
          rw [hxy, ih ys ha hb]

theorem outputOrder_antisymm (a b : CTxOut) (h1 : outputOrder a b) (h2 : outputOrder b a) :
    a = b := by
  unfold outputOrder at h1 h2
  have hv : a.nValue = b.nValue := by
    rcases h1 with h | ⟨h, _⟩
    · rcases h2 with g | ⟨g, _⟩
      · exact absurd (lt_trans h g) (lt_irrefl _)
      · rw [g] at h; exact absurd h (lt_irrefl _)
    · exact h
  have hs1 : scriptLess b.scriptPubKey a.scriptPubKey = false := by
    rcases h1 with h | ⟨_, h⟩
    · rw [hv] at h; exact absurd h (lt_irrefl _)
    · exact h
  have hs2 : scriptLess a.scriptPubKey b.scriptPubKey = false := by
    rcases h2 with h | ⟨_, h⟩
    · rw [hv] at h; exact absurd h (lt_irrefl _)
    · exact h
  have hsc := scriptLess_antisymm _ _ hs2 hs1
  cases a; cases b
  simp only at hv hsc
  rw [hv, hsc]

theorem inputOrder_antisymm (a b : CTxIn) (h1 : inputOrder a b) (h2 : inputOrder b a) :
    a.prevout = b.prevout := by
  unfold inputOrder at h1 h2
  have hh : a.prevout.hash = b.prevout.hash := by omega
  have hn : a.prevout.n = b.prevout.n := by omega
  cases ha : a.prevout
  cases hb : b.prevout
  rw [ha] at hh hn
  rw [hb] at hh hn
  simp only at hh hn
  rw [hh, hn]

theorem collectEntries_nLockTime (es : List CPrivatePayEntry) (tx : CTransaction) :
    (collectEntries es tx).nLockTime = tx.nLockTime := by
  induction es generalizing tx with
  | nil => rfl
  | cons e rest ih => simp [collectEntries, ih]

/-- The transaction built from the entries is the same for every order of the
entries, when no outpoint occurs twice among their inputs. -/
theorem buildFinalTransaction_perm (es1 es2 : List CPrivatePayEntry) (hperm : es1.Perm es2)
    (hnodup : ((poolInputs es1).map (fun t => t.prevout)).Nodup) :
    buildFinalTransaction es1 = buildFinalTransaction es2 := by
  have hin : (poolInputs es1).Perm (poolInputs es2) := List.Perm.flatMap_right _ hperm
  have hout : (poolOutputs es1).Perm (poolOutputs es2) := List.Perm.flatMap_right _ hperm
  have hvin : (buildFinalTransaction es1).vin = (buildFinalTransaction es2).vin := by
    rw [buildFinalTransaction_vin, buildFinalTransaction_vin]
    apply sorted_perm_unique inputOrder _ _
      (((stdSort_perm _ _).trans hin).trans (stdSort_perm _ _).symm)
      (stdSort_inputs_sorted _) (stdSort_inputs_sorted _)
    intro a ha b hb hab hba
    have ha1 : a ∈ poolInputs es1 := (stdSort_perm _ _).subset ha
    have hb1 : b ∈ poolInputs es1 := (stdSort_perm _ _).subset hb
    exact List.inj_on_of_nodup_map hnodup ha1 hb1 (inputOrder_antisymm a b hab hba)
  have hvout : (buildFinalTransaction es1).vout = (buildFinalTransaction es2).vout := by
    rw [buildFinalTransaction_vout, buildFinalTransaction_vout]
    apply sorted_perm_unique outputOrder _ _
      (((stdSort_perm _ _).trans hout).trans (stdSort_perm _ _).symm)
      (stdSort_outputs_sorted _) (stdSort_outputs_sorted _)
    intro a _ b _ hab hba
    exact outputOrder_antisymm a b hab hba
  have hlock : (buildFinalTransaction es1).nLockTime = (buildFinalTransaction es2).nLockTime := by
    simp [buildFinalTransaction, collectEntries_nLockTime]
  cases h1 : buildFinalTransaction es1
  cases h2 : buildFinalTransaction es2
  rw [h1, h2] at hvin hvout hlock
  simp only at hvin hvout hlock
  rw [hvin, hvout, hlock]

/-- C31: in every reachable coordinator state, the mempool refusing transactions
that spend an outpoint twice, the transaction `CreateFinalTransaction` builds
from the entries - `vin`, `vout` and lock time - is the same for every
reordering of `vecEntries`; and it is the same for any two lists of entries that
are reorderings of one another and spend no outpoint twice. -/
theorem final_transaction_order_independent (env : Env) (s : CPrivatePayServer)
    (es : List CPrivatePayEntry) (hreach : Reachable env s)
    (hmempool : ∀ tx, env.AcceptToMemoryPool tx = true →
      (tx.vin.map (fun t => t.prevout)).Nodup)
    (hperm : es.Perm s.vecEntries) :
    buildFinalTransaction es = buildFinalTransaction s.vecEntries ∧
    (∀ es1 es2 : List CPrivatePayEntry, es1.Perm es2 →
      ((poolInputs es1).map (fun t => t.prevout)).Nodup →
      (buildFinalTransaction es1).vin = (buildFinalTransaction es2).vin ∧
      (buildFinalTransaction es1).vout = (buildFinalTransaction es2).vout) := by
  have hnodup := hreach.built.outpoints.2 hmempool
  refine ⟨(buildFinalTransaction_perm _ _ hperm.symm hnodup).symm, ?_⟩
  intro es1 es2 hp hn
  rw [buildFinalTransaction_perm es1 es2 hp hn]
  exact ⟨rfl, rfl⟩

/-- C31 (witness): the three entries of the demonstration session taken in
reverse order give the same final transaction. -/
theorem final_transaction_order_independent_witness :
    Reachable demoEnv demoSigning ∧
    demoSigning.vecEntries.reverse ≠ demoSigning.vecEntries ∧
    buildFinalTransaction demoSigning.vecEntries.reverse =
      buildFinalTransaction demoSigning.vecEntries :=
  ⟨demoSigning_reachable, by decide,
    (final_transaction_order_independent demoEnv demoSigning demoSigning.vecEntries.reverse
      demoSigning_reachable demoEnv_mempool (List.reverse_perm _)).1⟩

/-! ## C35: whom `ChargeFees` charges -/

theorem mem_vecOffendersCollaterals (s : CPrivatePayServer) (tx : CTransaction) :
    tx ∈ vecOffendersCollaterals s ↔
      (s.nState = POOL_STATE_ACCEPTING_ENTRIES ∧ tx ∈ s.vecSessionCollaterals ∧
        ∀ e ∈ s.vecEntries, e.txCollateral ≠ tx) ∨
      (s.nState = POOL_STATE_SIGNING ∧
        ∃ e ∈ s.vecEntries, e.txCollateral = tx ∧ ∃ d ∈ e.vecTxDSIn, d.fHasSig = false) := by
  unfold vecOffendersCollaterals
  cases hs : s.nState <;>
    simp [List.mem_filter, List.mem_flatMap, List.mem_map]
  · constructor
    · rintro ⟨e, he, ⟨d, hd, hf⟩, rfl⟩
      exact ⟨e, he, rfl, d, hd, hf⟩
    · rintro ⟨e, he, rfl, d, hd, hf⟩
      exact ⟨e, he, ⟨d, hd, hf⟩, rfl⟩

theorem mem_submitToMempool (env : Env) (tx : CTransaction) (m : NetMsg)
    (h : m ∈ submitToMempool env tx) :
    m = NetMsg.SubmitToMempool tx ∨ m = NetMsg.RelayTransaction tx := by
  unfold submitToMempool at h
  split_ifs at h
  · simpa using h
  · left; simpa using h

theorem ChargeFees_cases (env : Env) (amb : Ambient) (s : CPrivatePayServer) :
    ChargeFees env amb s = [] ∨
      ∃ tx ∈ vecOffendersCollaterals s, ChargeFees env amb s = submitToMempool env tx := by
  unfold ChargeFees
  dsimp only
  split_ifs
  all_goals first
    | exact Or.inl rfl
    | skip
  cases hg : (vecOffendersCollaterals s).get?
      (GetRandInt amb 2 (vecOffendersCollaterals s).length) with
  | none => exact Or.inl rfl
  | some tx => exact Or.inr ⟨tx, List.get?_mem hg, rfl⟩

/-- C35: every transaction `ChargeFees` hands to the mempool or relays is, in
state `ACCEPTING_ENTRIES`, a collateral of `vecSessionCollaterals` that is the
collateral of no entry received, and in state `SIGNING` the collateral of an
entry that has an input without signature; `ChargeFees` produces nothing but
such submissions and relays, and nothing at all in any other state. -/
theorem ChargeFees_offenders_only (env : Env) (amb : Ambient) (s : CPrivatePayServer) :
    (∀ m ∈ ChargeFees env amb s, ∃ tx,
      (m = NetMsg.SubmitToMempool tx ∨ m = NetMsg.RelayTransaction tx) ∧
      ((s.nState = POOL_STATE_ACCEPTING_ENTRIES ∧ tx ∈ s.vecSessionCollaterals ∧
          ∀ e ∈ s.vecEntries, e.txCollateral ≠ tx) ∨
        (s.nState = POOL_STATE_SIGNING ∧
          ∃ e ∈ s.vecEntries, e.txCollateral = tx ∧ ∃ d ∈ e.vecTxDSIn, d.fHasSig = false))) ∧
    (s.nState ≠ POOL_STATE_ACCEPTING_ENTRIES → s.nState ≠ POOL_STATE_SIGNING →
      ChargeFees env amb s = []) := by
  constructor
  · intro m hm
    rcases ChargeFees_cases env amb s with h | ⟨tx, htx, h⟩
    · rw [h] at hm; exact absurd hm (List.not_mem_nil m)
    · rw [h] at hm
      exact ⟨tx, mem_submitToMempool env tx m hm, (mem_vecOffendersCollaterals s tx).1 htx⟩
  · intro h1 h2
    rcases ChargeFees_cases env amb s with h | ⟨tx, htx, _⟩
    · exact h
    · rcases (mem_vecOffendersCollaterals s tx).1 htx with ⟨e, _⟩ | ⟨e, _⟩
      · exact absurd e h1
      · exact absurd e h2

/-- C35 (witness): in the demonstration session in state `SIGNING` two of three
participants have signed; `ChargeFees` hands the collateral of the third to the
mempool, which is the collateral of the one entry with an unsigned input. -/
theorem ChargeFees_offenders_only_witness :
    Reachable demoEnvRefusing demoTwoSigned ∧
    ChargeFees demoEnvRefusing demoAmbient demoTwoSigned =
      [NetMsg.SubmitToMempool (demoCollateral 2), NetMsg.RelayTransaction (demoCollateral 2)] ∧
    ∃ tx, (NetMsg.SubmitToMempool (demoCollateral 2) = NetMsg.SubmitToMempool tx ∨
        NetMsg.SubmitToMempool (demoCollateral 2) = NetMsg.RelayTransaction tx) ∧
      ((demoTwoSigned.nState = POOL_STATE_ACCEPTING_ENTRIES ∧
          tx ∈ demoTwoSigned.vecSessionCollaterals ∧
          ∀ e ∈ demoTwoSigned.vecEntries, e.txCollateral ≠ tx) ∨
        (demoTwoSigned.nState = POOL_STATE_SIGNING ∧
          ∃ e ∈ demoTwoSigned.vecEntries, e.txCollateral = tx ∧
            ∃ d ∈ e.vecTxDSIn, d.fHasSig = false)) :=
  ⟨demoTwoSigned_reachable, by decide,
    (ChargeFees_offenders_only demoEnvRefusing demoAmbient demoTwoSigned).1
      (NetMsg.SubmitToMempool (demoCollateral 2)) (by decide)⟩

/-! ## C37, C38: what the admitted entries have in common -/

theorem GetDenominations_rand (vecTxOut : List CTxOut) (rand1 rand2 : Nat → Nat) :
    GetDenominations vecTxOut false rand1 = GetDenominations vecTxOut false rand2 := by
  rw [GetDenominations_eq, GetDenominations_eq]
  split_ifs
  · have h : ∀ (used : List (CAmount × Nat)) (c n : Nat),
        shiftDenomBits false rand1 used c n = shiftDenomBits false rand2 used c n := by
      intro used
      induction used with
      | nil => intro c n; rfl
      | cons u rest ih =>
        intro c n
        simp only [shiftDenomBits, Bool.false_eq_true, if_false, Bool.false_and]
        exact ih _ _
    rw [h]
  · rfl

theorem GetDenominations_nil (rand : Nat → Nat) : GetDenominations [] false rand = 0 := by
  rw [GetDenominations_rand [] rand (fun _ => 0)]
  decide

theorem standard_denomination_pos (v : CAmount) (h : v ∈ vecStandardDenominations) : 0 < v := by
  simp only [vecStandardDenominations, List.mem_cons, List.mem_singleton, List.not_mem_nil,
    or_false] at h
  rcases h with h | h | h | h <;> subst h <;> decide

theorem valueOut_pos_of_mask (vecTxOut : List CTxOut) (rand : Nat → Nat)
    (h : GetDenominations vecTxOut false rand ≠ 0) : 0 < valueOut vecTxOut := by
  have hall : ∀ o ∈ vecTxOut, o.nValue ∈ vecStandardDenominations := by
    by_contra hne
    push_neg at hne
    exact h ((GetDenominations_bits vecTxOut rand).1 hne)
  cases vecTxOut with
  | nil => exact absurd (GetDenominations_nil rand) h
  | cons o rest =>
    have hpos : ∀ l : List CTxOut, (∀ x ∈ l, x.nValue ∈ vecStandardDenominations) →
        0 ≤ valueOut l := by
      intro l
      induction l with
      | nil => intro _; simp [valueOut]
      | cons x xs ih =>
        intro hx
        have h1 := standard_denomination_pos x.nValue (hx x (List.mem_cons_self _ _))
        have h2 := ih (fun y hy => hx y (List.mem_cons_of_mem _ hy))
        simp only [valueOut, List.map_cons, List.sum_cons] at h2 ⊢
        exact add_nonneg (le_of_lt h1) h2
    have h1 := standard_denomination_pos o.nValue (hall o (List.mem_cons_self _ _))
    have h2 := hpos rest (fun y hy => hall y (List.mem_cons_of_mem _ hy))
    simp only [valueOut, List.map_cons, List.sum_cons] at h2 ⊢
    exact add_pos_of_pos_of_nonneg h1 h2

theorem IsOutputsCompatibleWithSessionDenom_true (s : CPrivatePayServer) (vecTxDSOut : List CTxDSOut)
    (h : IsOutputsCompatibleWithSessionDenom s vecTxDSOut = true) :
    GetDenominations vecTxDSOut false (fun _ => 0) ≠ 0 ∧
    ∀ e ∈ s.vecEntries, GetDenominations vecTxDSOut false (fun _ => 0) =
      GetDenominations e.vecTxDSOut false (fun _ => 0) := by
  unfold IsOutputsCompatibleWithSessionDenom at h
  split_ifs at h with h0
  refine ⟨by simpa using h0, ?_⟩
  intro e he
  have := List.all_eq_true.1 h e he
  simpa using this

/-- What every entry of a generated state has, as seen on its shape (outpoints
and outputs): an input, an output, a non-zero mask, and the mask of every other
entry. -/
theorem Built.entries_admitted {env : Env} {s : CPrivatePayServer} (h : Built env s) :
    ∀ a ∈ s.vecEntries.map entryShape,
      a.1 ≠ [] ∧ a.2 ≠ [] ∧ GetDenominations a.2 false (fun _ => 0) ≠ 0 ∧
      ∀ b ∈ s.vecEntries.map entryShape,
        GetDenominations a.2 false (fun _ => 0) = GetDenominations b.2 false (fun _ => 0) := by
  induction h with
  | init nTime => intro a ha; exact absurd ha (List.not_mem_nil _)
  | setNull amb _ ih => intro a ha; exact absurd ha (List.not_mem_nil _)
  | @setState s st _ _ ih =>
    obtain ⟨h1, _⟩ := SetState_fields env s st
    rw [h1]; exact ih
  | setQueue q _ ih => exact ih
  | @createNewSession s amb nDenom tx m _ ih =>
    obtain ⟨h1, _⟩ := CreateNewSession_fields env amb s nDenom tx m
    rw [h1]; exact ih
  | @addUser s amb nDenom tx m _ ih =>
    obtain ⟨h1, _⟩ := AddUserToExistingSession_fields env amb s nDenom tx m
    rw [h1]; exact ih
  | @addEntry s amb entry _ _ _ _ hcompat hcheck ih =>
    obtain ⟨_, h2⟩ := AddEntry_fields env amb s entry MSG_NOERR
    rcases h2 with h2 | ⟨h2, _, _⟩
    · rw [h2]; exact ih
    · rw [h2]
      obtain ⟨hne, hsame⟩ := IsOutputsCompatibleWithSessionDenom_true s entry.vecTxDSOut hcompat
      have hval := (checkEntryLikeTransaction_none env entry hcheck).1
      have hpos := valueOut_pos_of_mask entry.vecTxDSOut _ hne
      have hin : (entryShape entry).1 ≠ [] := by
        intro he
        have he1 : entry.vecTxDSIn = [] := by
          simpa [entryShape] using he
        rw [he1] at hval
        have hz : valueIn env (([] : List CTxDSIn).map CTxDSIn.toCTxIn) = 0 := rfl
        rw [hz] at hval
        rw [← hval] at hpos
        exact lt_irrefl _ hpos
      have hout : (entryShape entry).2 ≠ [] := by
        intro he
        have he1 : entry.vecTxDSOut = [] := he
        rw [he1] at hne
        exact hne (GetDenominations_nil _)
      have hold : ∀ b ∈ s.vecEntries.map entryShape,
          GetDenominations entry.vecTxDSOut false (fun _ => 0) =
            GetDenominations b.2 false (fun _ => 0) := by
        intro b hb
        obtain ⟨e, he, rfl⟩ := List.mem_map.1 hb
        exact hsame e he
      intro a ha
      rw [List.map_append, List.mem_append] at ha
      rcases ha with ha | ha
      · obtain ⟨i1, i2, i3, i4⟩ := ih a ha
        refine ⟨i1, i2, i3, ?_⟩
        intro b hb
        rw [List.map_append, List.mem_append] at hb
        rcases hb with hb | hb
        · exact i4 b hb
        · have hb1 : b = entryShape entry := by simpa using hb
          rw [hb1]
          exact (hold a ha).symm
      · have ha1 : a = entryShape entry := by simpa using ha
        rw [ha1]
        refine ⟨hin, hout, hne, ?_⟩
        intro b hb
        rw [List.map_append, List.mem_append] at hb
        rcases hb with hb | hb
        · exact hold b hb
        · have hb1 : b = entryShape entry := by simpa using hb
          rw [hb1]
  | setFinal _ ih => exact ih
  | @addScriptSig s txin _ ih =>
    obtain ⟨h1, _⟩ := AddScriptSig_fields env s txin
    rw [h1]; exact ih

/-- C37: in every reachable coordinator state the outputs of every entry have a
non-zero denomination mask, and it is the same mask for all entries. -/
theorem entries_share_one_mask (env : Env) (s : CPrivatePayServer) (rand : Nat → Nat)
    (h : Reachable env s) :
    ∀ e ∈ s.vecEntries,
      GetDenominations e.vecTxDSOut false rand ≠ 0 ∧
      ∀ e1 ∈ s.vecEntries,
        GetDenominations e.vecTxDSOut false rand = GetDenominations e1.vecTxDSOut false rand := by
  intro e he
  obtain ⟨_, _, h3, h4⟩ := h.built.entries_admitted (entryShape e) (List.mem_map_of_mem _ he)
  rw [GetDenominations_rand _ rand (fun _ => 0)]
  refine ⟨h3, ?_⟩
  intro e1 he1
  rw [GetDenominations_rand _ rand (fun _ => 0)]
  exact h4 (entryShape e1) (List.mem_map_of_mem _ he1)

/-- C37 (witness): the three entries of the demonstration session all have the
mask `0b0010`, although the session was opened for the mask `0b0001`. -/
theorem entries_share_one_mask_witness :
    Reachable demoEnv demoSigning ∧
    demoSigning.vecEntries.map (fun e => GetDenominations e.vecTxDSOut false (fun _ => 0)) =
      [2, 2, 2] ∧
    ∀ e ∈ demoSigning.vecEntries,
      GetDenominations e.vecTxDSOut false (fun _ => 0) ≠ 0 ∧
      ∀ e1 ∈ demoSigning.vecEntries,
        GetDenominations e.vecTxDSOut false (fun _ => 0) =
          GetDenominations e1.vecTxDSOut false (fun _ => 0) :=
  ⟨demoSigning_reachable, by decide,
    entries_share_one_mask demoEnv demoSigning (fun _ => 0) demoSigning_reachable⟩

theorem ProcessPPVIN_rejected (env : Env) (amb : Ambient) (s : CPrivatePayServer)
    (pfrom : CNode) (entry : CPrivatePayEntry)
    (h : IsOutputsCompatibleWithSessionDenom s entry.vecTxDSOut = false ∨
      checkEntryLikeTransaction env entry ≠ none) :
    ∃ m, ProcessPPVIN env amb s pfrom entry = (s, [PushStatus s pfrom.addr STATUS_REJECTED m]) := by
  unfold ProcessPPVIN
  split_ifs with h1 h2 h3 h4 h5
  · exact ⟨_, rfl⟩
  · exact ⟨_, rfl⟩
  · exact ⟨_, rfl⟩
  · exact ⟨_, rfl⟩
  · exact ⟨_, rfl⟩
  · cases hc : checkEntryLikeTransaction env entry with
    | some e => exact ⟨_, rfl⟩
    | none =>
      rcases h with h | h
      · rw [h] at h5; exact absurd rfl h5
      · exact absurd hc h

/-- C38: in every reachable coordinator state every entry has at least one
input and at least one output.  An entry without outputs fails the denomination
check (its mask is 0); an entry without inputs whose outputs pass that check
fails the check "like a transaction" - with `ERR_FEES` when its outputs have
acceptable scripts, since they pay a positive amount.  In both cases `PPVIN` is
answered `STATUS_REJECTED` and the session is unchanged. -/
theorem entries_have_inputs_and_outputs (env : Env) (s : CPrivatePayServer)
    (h : Reachable env s) :
    (∀ e ∈ s.vecEntries, e.vecTxDSIn ≠ [] ∧ e.vecTxDSOut ≠ []) ∧
    IsOutputsCompatibleWithSessionDenom s [] = false ∧
    (∀ (amb : Ambient) (pfrom : CNode) (entry : CPrivatePayEntry),
      entry.vecTxDSIn = [] ∨ entry.vecTxDSOut = [] →
      ∃ m, ProcessPPVIN env amb s pfrom entry =
        (s, [PushStatus s pfrom.addr STATUS_REJECTED m])) ∧
    (∀ entry : CPrivatePayEntry, entry.vecTxDSIn = [] →
      IsOutputsCompatibleWithSessionDenom s entry.vecTxDSOut = true →
      checkEntryLikeTransaction env entry ≠ none ∧
      ((∃ v, entryOutputs env entry.vecTxDSOut 0 = .ok v) →
        checkEntryLikeTransaction env entry = some ERR_FEES)) := by
  have hnil : ∀ s1 : CPrivatePayServer, IsOutputsCompatibleWithSessionDenom s1 [] = false := by
    intro s1
    unfold IsOutputsCompatibleWithSessionDenom
    rw [GetDenominations_nil]
    rfl
  have hnoin : ∀ (s1 : CPrivatePayServer) (entry : CPrivatePayEntry), entry.vecTxDSIn = [] →
      IsOutputsCompatibleWithSessionDenom s1 entry.vecTxDSOut = true →
      checkEntryLikeTransaction env entry ≠ none ∧
      ((∃ v, entryOutputs env entry.vecTxDSOut 0 = .ok v) →
        checkEntryLikeTransaction env entry = some ERR_FEES) := by
    intro s1 entry hin hcompat
    have hne := (IsOutputsCompatibleWithSessionDenom_true s1 entry.vecTxDSOut hcompat).1
    have hpos := valueOut_pos_of_mask entry.vecTxDSOut _ hne
    constructor
    · intro hc
      have hval := (checkEntryLikeTransaction_none env entry hc).1
      rw [hin] at hval
      have hz : valueIn env (([] : List CTxDSIn).map CTxDSIn.toCTxIn) = 0 := rfl
      rw [hz] at hval
      rw [← hval] at hpos
      exact lt_irrefl _ hpos
    · rintro ⟨v, hv⟩
      have hv1 := entryOutputs_ok env _ _ _ hv
      unfold checkEntryLikeTransaction
      rw [hv, hin]
      have hv2 : v = valueOut entry.vecTxDSOut := by rw [hv1]; exact zero_add _
      have hfee : ((0 : CAmount) - v != 0) = true := by
        simp only [bne_iff_ne, ne_eq]
        intro hz
        rw [hv2] at hz
        have hz1 : valueOut entry.vecTxDSOut = 0 := by linarith
        rw [hz1] at hpos
        exact lt_irrefl _ hpos
      simp only [List.map_nil, entryInputs, hfee, if_true]
  refine ⟨?_, hnil s, ?_, hnoin s⟩
  · intro e he
    obtain ⟨h1, h2, _, _⟩ := h.built.entries_admitted (entryShape e) (List.mem_map_of_mem _ he)
    constructor
    · intro hin
      apply h1
      simp [entryShape, hin]
    · intro hout
      exact h2 hout
  · intro amb pfrom entry hempty
    apply ProcessPPVIN_rejected
    rcases hempty with hin | hout
    · by_cases hcompat : IsOutputsCompatibleWithSessionDenom s entry.vecTxDSOut = true
      · exact Or.inr (hnoin s entry hin hcompat).1
      · left; simpa using hcompat
    · left; rw [hout]; exact hnil s

/-- C38 (witness): the demonstration session with its three entries; an
entry without inputs that pays one 10.0001 output is answered `ERR_FEES`. -/
theorem entries_have_inputs_and_outputs_witness :
    Reachable demoEnv demoAccepting ∧
    (∀ e ∈ demoSigning.vecEntries, e.vecTxDSIn ≠ [] ∧ e.vecTxDSOut ≠ []) ∧
    ProcessPPVIN demoEnv demoAmbient demoAccepting (demoPeer 10)
        ⟨[], [⟨1000010000, demoScript⟩], demoCollateral 0, 0⟩ =
      (demoAccepting, [PushStatus demoAccepting 10 STATUS_REJECTED ERR_FEES]) ∧
    ∃ m, ProcessPPVIN demoEnv demoAmbient demoAccepting (demoPeer 10)
        ⟨[⟨⟨⟨1, 3⟩, [], 4294967295, []⟩, false⟩], [], demoCollateral 0, 0⟩ =
      (demoAccepting, [PushStatus demoAccepting (demoPeer 10).addr STATUS_REJECTED m]) :=
  ⟨demoAccepting_reachable,
    (entries_have_inputs_and_outputs demoEnv demoSigning demoSigning_reachable).1,
    by decide,
    (entries_have_inputs_and_outputs demoEnv demoAccepting demoAccepting_reachable).2.2.1
      demoAmbient (demoPeer 10) ⟨[⟨⟨⟨1, 3⟩, [], 4294967295, []⟩, false⟩], [], demoCollateral 0, 0⟩
      (Or.inr rfl)⟩

/-! ## C34: a signature that is refused -/

theorem demoOneSigned_reachable : Reachable demoEnv demoOneSigned :=
  Reachable.run _ _ _ (Reachable.init 0)

/-- C34, the code at the failing input: in the demonstration session in state
`SIGNING` the first participant has signed its input `(1, 3)` with `[48, 1]`.  A
second, different signature `[48, 99]` for the same input passes the checks of
`AddScriptSig`, is written into `finalMutableTransaction`, and is then refused
by the entry, whose input is signed already: `AddScriptSig` returns false, the
entries are as before, but the input of the final transaction now carries
`[48, 99]` where the entry carries `[48, 1]`.  The same happens when the
signature arrives in a `PPSIGNFINALTX` message. -/
theorem refused_signature_changes_final_transaction :
    Reachable demoEnv demoOneSigned ∧
    demoOneSigned.nState = POOL_STATE_SIGNING ∧
    (demoOneSigned.finalMutableTransaction.vin.map (fun txin => txin.scriptSig)) =
      [[48, 1], [], []] ∧
    (AddScriptSig demoEnv demoOneSigned ⟨⟨1, 3⟩, [48, 99], 4294967295, demoScript⟩).1 = false ∧
    (AddScriptSig demoEnv demoOneSigned ⟨⟨1, 3⟩, [48, 99], 4294967295, demoScript⟩).2.vecEntries =
      demoOneSigned.vecEntries ∧
    ((AddScriptSig demoEnv demoOneSigned
        ⟨⟨1, 3⟩, [48, 99], 4294967295, demoScript⟩).2.finalMutableTransaction.vin.map
      (fun txin => txin.scriptSig)) = [[48, 99], [], []] ∧
    (AddScriptSig demoEnv demoOneSigned ⟨⟨1, 3⟩, [48, 99], 4294967295, demoScript⟩).2 ≠
      demoOneSigned ∧
    ((step demoEnv demoAmbient demoRegistry demoOneSigned
        (.message (demoPeer 10)
          (.PPSIGNFINALTX [⟨⟨1, 3⟩, [48, 99], 4294967295, demoScript⟩]))).1.finalMutableTransaction.vin.map
      (fun txin => txin.scriptSig)) = [[48, 99], [], []] ∧
    (step demoEnv demoAmbient demoRegistry demoOneSigned
        (.message (demoPeer 10)
          (.PPSIGNFINALTX [⟨⟨1, 3⟩, [48, 99], 4294967295, demoScript⟩]))).2 =
      [NetMsg.PPSTATUSUPDATE 10 1 POOL_STATE_SIGNING 3 STATUS_REJECTED MSG_NOERR,
        NetMsg.PPSTATUSUPDATE 11 1 POOL_STATE_SIGNING 3 STATUS_REJECTED MSG_NOERR,
        NetMsg.PPSTATUSUPDATE 12 1 POOL_STATE_SIGNING 3 STATUS_REJECTED MSG_NOERR] :=
  ⟨demoOneSigned_reachable, by decide, by decide, by decide, by decide, by decide, by decide,
    by decide, by decide⟩

/-! ## C36: which masks are legitimate -/

theorem exists_testBit_lt_iff (x k : Nat) : (∃ j, j < k ∧ x.testBit j = true) ↔ x % 2 ^ k ≠ 0 := by
  constructor
  · rintro ⟨j, hj, hb⟩ hz
    have := Nat.testBit_mod_two_pow x k j
    rw [hz] at this
    simp [hj, hb] at this
  · intro hne
    obtain ⟨j, hj⟩ := Nat.ne_zero_implies_bit_true hne
    rw [Nat.testBit_mod_two_pow] at hj
    simp only [Bool.and_eq_true, decide_eq_true_eq] at hj
    exact ⟨j, hj.1, hj.2⟩

/-- What `GetDenominationsBits` accepts: every `int` below 16 whose four low
bits are not all 0. -/
theorem GetDenominationsBits_true_iff (nDenom : Int) (vecBitsRet : List Nat) :
    (GetDenominationsBits nDenom vecBitsRet).1 = true ↔
      nDenom < 16 ∧ intBits nDenom % 16 ≠ 0 := by
  have hrange : ((List.range' 0 4).filter (fun j => (intBits nDenom).testBit j) ≠ []) ↔
      intBits nDenom % 16 ≠ 0 := by
    rw [show (16 : Nat) = 2 ^ 4 from rfl, ← exists_testBit_lt_iff]
    constructor
    · intro hne
      obtain ⟨j, hj⟩ := List.exists_mem_of_ne_nil _ hne
      rw [List.mem_filter, List.mem_range'_1] at hj
      exact ⟨j, by omega, hj.2⟩
    · rintro ⟨j, hj, hb⟩ hnil
      have hmem : j ∈ (List.range' 0 4).filter (fun j => (intBits nDenom).testBit j) := by
        rw [List.mem_filter, List.mem_range'_1]
        exact ⟨by omega, hb⟩
      rw [hnil] at hmem
      exact absurd hmem (List.not_mem_nil j)
  unfold GetDenominationsBits
  have hlen : vecStandardDenominations.length = 4 := rfl
  simp only [hlen]
  have h16 : (((1 <<< 4 : Nat)) : Int) = 16 := by decide
  rw [h16]
  by_cases hge : nDenom ≥ 16
  · rw [if_pos hge]
    constructor
    · intro h; exact absurd h Bool.false_ne_true
    · rintro ⟨hlt, _⟩; omega
  · rw [if_neg hge, collectDenomBits_eq]
    simp only [List.nil_append, Bool.not_eq_true', List.isEmpty_eq_false]
    rw [hrange]
    constructor
    · intro h; exact ⟨by omega, h⟩
    · intro h; exact h.2

/-- C36, the code at the failing input: `GetDenominationsBits` refuses 0 and every
mask from 16 on, but it accepts every negative `int` whose four low bits are not
all 0.  The request `PPACCEPT` with `nDenom = -1` and a valid collateral opens a
session on the idle coordinator: `IsAcceptableDenomAndCollateral` accepts, the
state becomes `QUEUE` with `nSessionDenom = -1`, the advertisement relayed
carries the mask -1 and the peer is answered `STATUS_ACCEPTED`. -/
theorem negative_denom_accepted :
    (∀ (env : Env) (s : CPrivatePayServer) (nDenom : Int) (txCollateral : CTransaction)
        (m : PoolMessage),
      nDenom < 0 → intBits nDenom % 16 ≠ 0 → env.fMasterNode = true →
      (s.fUnitTest = true ∨ IsCollateralValid env txCollateral = true) →
      IsAcceptableDenomAndCollateral env s nDenom txCollateral m = (true, m)) ∧
    (GetDenominationsBits (-1) []) = (true, [0, 1, 2, 3]) ∧
    IsAcceptableDenomAndCollateral demoEnv { initialServer with nTimeLastSuccessfulStep := 0 }
      (-1) (demoCollateral 0) MSG_NOERR = (true, MSG_NOERR) ∧
    Reachable demoEnv { initialServer with nTimeLastSuccessfulStep := 0 } ∧
    (step demoEnv demoAmbient demoRegistry { initialServer with nTimeLastSuccessfulStep := 0 }
        (demoAccept 0 (-1))).1.nSessionDenom = -1 ∧
    (step demoEnv demoAmbient demoRegistry { initialServer with nTimeLastSuccessfulStep := 0 }
        (demoAccept 0 (-1))).1.nState = POOL_STATE_QUEUE ∧
    (step demoEnv demoAmbient demoRegistry { initialServer with nTimeLastSuccessfulStep := 0 }
        (demoAccept 0 (-1))).2 =
      [NetMsg.PPQUEUE ⟨-1, ⟨7, 0⟩, 1, false, [1], false⟩,
        NetMsg.PPSTATUSUPDATE 10 1 POOL_STATE_QUEUE 0 STATUS_ACCEPTED MSG_NOERR] := by
  refine ⟨?_, by decide, by decide, Reachable.init 0, by decide, by decide, by decide⟩
  intro env s nDenom txCollateral m hneg hbits hm hcol
  have hb : (GetDenominationsBits nDenom []).1 = true :=
    (GetDenominationsBits_true_iff nDenom []).2 ⟨by omega, hbits⟩
  have h1 := (IsAcceptableDenomAndCollateral_true env s nDenom txCollateral m).2 ⟨hm, hb, hcol⟩
  have h2 := IsAcceptableDenomAndCollateral_msg env s nDenom txCollateral m hm
  rw [hb] at h2
  have hc : ¬ (s.fUnitTest = false ∧ IsCollateralValid env txCollateral = false) := by
    rintro ⟨a, b⟩
    rcases hcol with c | c
    · rw [a] at c; exact Bool.false_ne_true c
    · rw [b] at c; exact Bool.false_ne_true c
  simp only [Bool.true_eq_false, if_false, hc] at h2
  exact Prod.ext h1 h2

/-! ## C32, C39: what `PrepareDenominate` selects and locks -/

theorem takeCoin_perm (v : CAmount) (coins : List (CTxIn × CAmount))
    (r : CTxIn × List (CTxIn × CAmount)) (h : takeCoin v coins = some r) :
    coins.Perm ((r.1, v) :: r.2) := by
  induction coins generalizing r with
  | nil => simp [takeCoin] at h
  | cons coin rest ih =>
    simp only [takeCoin] at h
    by_cases hv : coin.2 = v
    · rw [if_pos hv] at h
      cases h
      rw [← hv]
    · rw [if_neg hv] at h
      cases ht : takeCoin v rest with
      | none => rw [ht] at h; cases h
      | some r1 =>
        rw [ht] at h
        cases h
        exact ((ih r1 ht).cons coin).trans (List.Perm.swap _ _ _)

/-- One pass of the selection loop over the bits: inputs and outputs stay paired,
each pair being a candidate with its value, taken from the candidates left; at
most one pair is added per bit, and each new output is worth the denomination of
a bit of the list. -/
theorem denomBits_inv (calls : ClientCalls) (sel : List (CTxIn × CAmount)) (vecBits : List Nat)
    (st : DenomLoop) (hlen : st.vecTxInRet.length = st.vecTxOutRet.length)
    (hperm : (List.zip st.vecTxInRet (st.vecTxOutRet.map (fun o => o.nValue)) ++ st.coins).Perm
      sel) :
    (denomBits calls vecBits st).vecTxInRet.length =
        (denomBits calls vecBits st).vecTxOutRet.length ∧
      (List.zip (denomBits calls vecBits st).vecTxInRet
          ((denomBits calls vecBits st).vecTxOutRet.map (fun o => o.nValue)) ++
        (denomBits calls vecBits st).coins).Perm sel ∧
      (denomBits calls vecBits st).vecTxInRet.length ≤ st.vecTxInRet.length + vecBits.length ∧
      ∀ o ∈ (denomBits calls vecBits st).vecTxOutRet,
        o ∈ st.vecTxOutRet ∨ ∃ nBit ∈ vecBits, o.nValue = vecStandardDenominations.getD nBit 0 := by
  induction vecBits generalizing st with
  | nil => exact ⟨hlen, hperm, le_refl _, fun o ho => Or.inl ho⟩
  | cons nBit rest ih =>
    have hskip : ∀ st1 : DenomLoop, st1 = st →
        (denomBits calls rest st1).vecTxInRet.length =
          (denomBits calls rest st1).vecTxOutRet.length ∧
        (List.zip (denomBits calls rest st1).vecTxInRet
            ((denomBits calls rest st1).vecTxOutRet.map (fun o => o.nValue)) ++
          (denomBits calls rest st1).coins).Perm sel ∧
        (denomBits calls rest st1).vecTxInRet.length ≤
          st.vecTxInRet.length + (nBit :: rest).length ∧
        ∀ o ∈ (denomBits calls rest st1).vecTxOutRet,
          o ∈ st.vecTxOutRet ∨
            ∃ b ∈ nBit :: rest, o.nValue = vecStandardDenominations.getD b 0 := by
      intro st1 e
      subst e
      obtain ⟨i1, i2, i3, i4⟩ := ih st1 hlen hperm
      refine ⟨i1, i2, ?_, ?_⟩
      · simp only [List.length_cons]; omega
      · intro o ho
        rcases i4 o ho with e | ⟨b, hb, e⟩
        · exact Or.inl e
        · exact Or.inr ⟨b, List.mem_cons_of_mem _ hb, e⟩
    simp only [denomBits]
    split_ifs
    · exact hskip st rfl
    · cases ht : takeCoin (vecStandardDenominations.getD nBit 0) st.coins with
      | none => exact hskip st rfl
      | some r =>
        have hp := takeCoin_perm _ _ r ht
        have hlen1 : (st.vecTxInRet ++ [r.1]).length =
            (st.vecTxOutRet ++
              [(⟨vecStandardDenominations.getD nBit 0, calls.GetReservedKey st.nKeys⟩ :
                CTxOut)]).length := by
          simp [hlen]
        have hperm1 : (List.zip (st.vecTxInRet ++ [r.1])
            ((st.vecTxOutRet ++
              [(⟨vecStandardDenominations.getD nBit 0, calls.GetReservedKey st.nKeys⟩ :
                CTxOut)]).map (fun o => o.nValue)) ++ r.2).Perm sel := by
          rw [List.map_append, List.zip_append (by simp [hlen])]
          simp only [List.map_cons, List.map_nil, List.zip_cons_cons, List.zip_nil_right,
            List.append_assoc, List.singleton_append]
          exact ((hp.symm).append_left _).trans hperm
        obtain ⟨i1, i2, i3, i4⟩ := ih
          ⟨r.2, st.vecTxInRet ++ [r.1],
            st.vecTxOutRet ++
              [⟨vecStandardDenominations.getD nBit 0, calls.GetReservedKey st.nKeys⟩],
            st.nValueLeft - vecStandardDenominations.getD nBit 0, st.nKeys + 1⟩ hlen1 hperm1
        refine ⟨i1, i2, ?_, ?_⟩
        · simp only [List.length_append, List.length_cons, List.length_nil] at i3 ⊢
          omega
        · intro o ho
          rcases i4 o ho with e | ⟨b, hb, e⟩
          · rcases List.mem_append.1 e with e1 | e1
            · exact Or.inl e1
            · right
              refine ⟨nBit, List.mem_cons_self _ _, ?_⟩
              rw [List.mem_singleton.1 e1]
          · exact Or.inr ⟨b, List.mem_cons_of_mem _ hb, e⟩

theorem denomSteps_inv (calls : ClientCalls) (sel : List (CTxIn × CAmount)) (vecBits : List Nat)
    (n : Nat) (st : DenomLoop) (hlen : st.vecTxInRet.length = st.vecTxOutRet.length)
    (hperm : (List.zip st.vecTxInRet (st.vecTxOutRet.map (fun o => o.nValue)) ++ st.coins).Perm
      sel) :
    (denomSteps calls vecBits n st).vecTxInRet.length =
        (denomSteps calls vecBits n st).vecTxOutRet.length ∧
      (List.zip (denomSteps calls vecBits n st).vecTxInRet
          ((denomSteps calls vecBits n st).vecTxOutRet.map (fun o => o.nValue)) ++
        (denomSteps calls vecBits n st).coins).Perm sel ∧
      (denomSteps calls vecBits n st).vecTxInRet.length ≤
        st.vecTxInRet.length + n * vecBits.length ∧
      ∀ o ∈ (denomSteps calls vecBits n st).vecTxOutRet,
        o ∈ st.vecTxOutRet ∨ ∃ nBit ∈ vecBits, o.nValue = vecStandardDenominations.getD nBit 0 := by
  induction n generalizing st with
  | zero =>
    refine ⟨hlen, hperm, ?_, fun o ho => Or.inl ho⟩
    simp [denomSteps]
  | succ n ih =>
    obtain ⟨b1, b2, b3, b4⟩ := denomBits_inv calls sel vecBits st hlen hperm
    simp only [denomSteps]
    split_ifs
    · refine ⟨b1, b2, ?_, b4⟩
      have : vecBits.length ≤ (n + 1) * vecBits.length := Nat.le_mul_of_pos_left _ (Nat.succ_pos n)
      omega
    · obtain ⟨i1, i2, i3, i4⟩ := ih _ b1 b2
      refine ⟨i1, i2, ?_, ?_⟩
      · have : (n + 1) * vecBits.length = n * vecBits.length + vecBits.length := by ring
        omega
      · intro o ho
        rcases i4 o ho with e | e
        · exact b4 o e
        · exact Or.inr e

theorem PrepareDenominate_not_reached (amb : Ambient) (calls : ClientCalls)
    (c : CPrivatePayClient) (w : CWallet) (nMinRounds nMaxRounds : Int) (k : Nat)
    (h : reachesSelection calls c nMinRounds nMaxRounds = false) :
    c.PrepareDenominate amb calls w nMinRounds nMaxRounds k = (false, w, [], []) := by
  unfold reachesSelection at h
  unfold CPrivatePayClient.PrepareDenominate
  dsimp only
  split_ifs with h1 h2 h3 h4 h5 h6
  · rfl
  · rfl
  · rfl
  · rfl
  · rfl
  · exfalso
    simp only [Bool.not_eq_true, Bool.not_eq_true', Bool.not_eq_false] at h1 h2 h4
    have hr : (calls.fWallet && !calls.IsLocked && !decide (c.vecEntries.length > 0) &&
        (GetDenominationsBits c.nSessionDenom []).1 &&
        !(decide (nMinRounds ≥ 0) &&
          !(calls.SelectCoinsByDenominations c.nSessionDenom
            (vecStandardDenominations.getD ((GetDenominationsBits c.nSessionDenom []).2.headD 0) 0)
            calls.GetMaxPoolAmount nMinRounds nMaxRounds).1)) = true := by
      simp only [Bool.and_eq_true, Bool.not_eq_true', decide_eq_false_iff_not]
      exact ⟨⟨⟨⟨h1, h2⟩, h3⟩, h4⟩, Bool.eq_false_iff.mpr h5⟩
    rw [hr] at h
    exact Bool.noConfusion h
  · exfalso
    simp only [Bool.not_eq_true, Bool.not_eq_true', Bool.not_eq_false] at h1 h2 h4
    have hr : (calls.fWallet && !calls.IsLocked && !decide (c.vecEntries.length > 0) &&
        (GetDenominationsBits c.nSessionDenom []).1 &&
        !(decide (nMinRounds ≥ 0) &&
          !(calls.SelectCoinsByDenominations c.nSessionDenom
            (vecStandardDenominations.getD ((GetDenominationsBits c.nSessionDenom []).2.headD 0) 0)
            calls.GetMaxPoolAmount nMinRounds nMaxRounds).1)) = true := by
      simp only [Bool.and_eq_true, Bool.not_eq_true', decide_eq_false_iff_not]
      exact ⟨⟨⟨⟨h1, h2⟩, h3⟩, h4⟩, Bool.eq_false_iff.mpr h5⟩
    rw [hr] at h
    exact Bool.noConfusion h

theorem PrepareDenominate_reached (amb : Ambient) (calls : ClientCalls)
    (c : CPrivatePayClient) (w : CWallet) (nMinRounds nMaxRounds : Int) (k : Nat)
    (h : reachesSelection calls c nMinRounds nMaxRounds = true) :
    c.PrepareDenominate amb calls w nMinRounds nMaxRounds k =
      if GetDenominations (selectionLoop amb calls c nMinRounds nMaxRounds k).vecTxOutRet false
          amb.rand != c.nSessionDenom then
        (false,
          ((selectionLoop amb calls c nMinRounds nMaxRounds k).vecTxInRet.map
            (fun txin => txin.prevout)).foldl CWallet.UnlockCoin
            (((selectionLoop amb calls c nMinRounds nMaxRounds k).coins.map
              (fun coin => coin.1.prevout)).foldl CWallet.UnlockCoin
              (((selectedCoins calls c nMinRounds nMaxRounds).map
                (fun coin => coin.1.prevout)).foldl CWallet.LockCoin w)),
          (selectionLoop amb calls c nMinRounds nMaxRounds k).vecTxInRet,
          (selectionLoop amb calls c nMinRounds nMaxRounds k).vecTxOutRet)
      else
        (true,
          ((selectionLoop amb calls c nMinRounds nMaxRounds k).coins.map
            (fun coin => coin.1.prevout)).foldl CWallet.UnlockCoin
            (((selectedCoins calls c nMinRounds nMaxRounds).map
              (fun coin => coin.1.prevout)).foldl CWallet.LockCoin w),
          (selectionLoop amb calls c nMinRounds nMaxRounds k).vecTxInRet,
          (selectionLoop amb calls c nMinRounds nMaxRounds k).vecTxOutRet) := by
  unfold reachesSelection at h
  simp only [Bool.and_eq_true, Bool.not_eq_true', decide_eq_false_iff_not] at h
  obtain ⟨⟨⟨⟨h1, h2⟩, h3⟩, h4⟩, h5⟩ := h
  unfold CPrivatePayClient.PrepareDenominate selectionLoop selectedCoins
  simp only [h1, h2, h3, h4, h5, Bool.not_true, Bool.not_false, Bool.false_eq_true, if_false]

theorem selectionLoop_inv (amb : Ambient) (calls : ClientCalls) (c : CPrivatePayClient)
    (nMinRounds nMaxRounds : Int) (k : Nat) :
    (selectionLoop amb calls c nMinRounds nMaxRounds k).vecTxInRet.length =
        (selectionLoop amb calls c nMinRounds nMaxRounds k).vecTxOutRet.length ∧
      (List.zip (selectionLoop amb calls c nMinRounds nMaxRounds k).vecTxInRet
          ((selectionLoop amb calls c nMinRounds nMaxRounds k).vecTxOutRet.map
            (fun o => o.nValue)) ++
        (selectionLoop amb calls c nMinRounds nMaxRounds k).coins).Perm
        (selectedCoins calls c nMinRounds nMaxRounds) ∧
      (selectionLoop amb calls c nMinRounds nMaxRounds k).vecTxInRet.length ≤
        (5 + GetRandInt amb k (PRIVATEPAY_ENTRY_MAX_SIZE - 5 + 1)) *
          (GetDenominationsBits c.nSessionDenom []).2.length := by
  obtain ⟨i1, i2, i3, _⟩ := denomSteps_inv calls (selectedCoins calls c nMinRounds nMaxRounds)
    (GetDenominationsBits c.nSessionDenom []).2
    (5 + GetRandInt amb k (PRIVATEPAY_ENTRY_MAX_SIZE - 5 + 1))
    ⟨selectedCoins calls c nMinRounds nMaxRounds, [], [],
      (calls.SelectCoinsByDenominations c.nSessionDenom
        (vecStandardDenominations.getD ((GetDenominationsBits c.nSessionDenom []).2.headD 0) 0)
        calls.GetMaxPoolAmount nMinRounds nMaxRounds).2.2, 0⟩ rfl (by simp)
  refine ⟨i1, i2, ?_⟩
  have h0 : ([] : List CTxIn).length + (5 + GetRandInt amb k (PRIVATEPAY_ENTRY_MAX_SIZE - 5 + 1)) *
      (GetDenominationsBits c.nSessionDenom []).2.length =
      (5 + GetRandInt amb k (PRIVATEPAY_ENTRY_MAX_SIZE - 5 + 1)) *
      (GetDenominationsBits c.nSessionDenom []).2.length := by
    rw [List.length_nil, Nat.zero_add]
  rw [← h0]
  exact i3

/-- C39: `PrepareDenominate` always returns equally many inputs and outputs;
input `i` paired with the value of output `i` is one of the coins
`SelectCoinsByDenominations` handed over, different positions using different
coins, so the outputs are worth what the coins spent are worth; the inputs are
at most `nStepsMax` (5 plus a draw below 5, so at most
`PRIVATEPAY_ENTRY_MAX_SIZE`) for each set bit of `nSessionDenom`, hence at most
`PRIVATEPAY_ENTRY_MAX_SIZE` when a single bit is set. -/
theorem PrepareDenominate_pairs (amb : Ambient) (calls : ClientCalls) (c : CPrivatePayClient)
    (w : CWallet) (nMinRounds nMaxRounds : Int) (k : Nat) :
    (c.PrepareDenominate amb calls w nMinRounds nMaxRounds k).2.2.1.length =
        (c.PrepareDenominate amb calls w nMinRounds nMaxRounds k).2.2.2.length ∧
      (List.zip (c.PrepareDenominate amb calls w nMinRounds nMaxRounds k).2.2.1
          ((c.PrepareDenominate amb calls w nMinRounds nMaxRounds k).2.2.2.map
            (fun o => o.nValue))).Subperm (selectedCoins calls c nMinRounds nMaxRounds) ∧
      (∀ (i : Nat) (txin : CTxIn) (txout : CTxOut),
        (c.PrepareDenominate amb calls w nMinRounds nMaxRounds k).2.2.1.get? i = some txin →
        (c.PrepareDenominate amb calls w nMinRounds nMaxRounds k).2.2.2.get? i = some txout →
        (txin, txout.nValue) ∈ selectedCoins calls c nMinRounds nMaxRounds) ∧
      ((List.zip (c.PrepareDenominate amb calls w nMinRounds nMaxRounds k).2.2.1
          ((c.PrepareDenominate amb calls w nMinRounds nMaxRounds k).2.2.2.map
            (fun o => o.nValue))).map Prod.snd).sum =
        valueOut (c.PrepareDenominate amb calls w nMinRounds nMaxRounds k).2.2.2 ∧
      (c.PrepareDenominate amb calls w nMinRounds nMaxRounds k).2.2.1.length ≤
        (5 + GetRandInt amb k (PRIVATEPAY_ENTRY_MAX_SIZE - 5 + 1)) *
          (GetDenominationsBits c.nSessionDenom []).2.length ∧
      5 + GetRandInt amb k (PRIVATEPAY_ENTRY_MAX_SIZE - 5 + 1) ≤ PRIVATEPAY_ENTRY_MAX_SIZE ∧
      ((GetDenominationsBits c.nSessionDenom []).2.length = 1 →
        (c.PrepareDenominate amb calls w nMinRounds nMaxRounds k).2.2.1.length ≤
          PRIVATEPAY_ENTRY_MAX_SIZE) ∧
      (c.nSessionDenom ∈ [1, 2, 4, 8] →
        (c.PrepareDenominate amb calls w nMinRounds nMaxRounds k).2.2.1.length ≤
          PRIVATEPAY_ENTRY_MAX_SIZE) := by
  have hsteps : 5 + GetRandInt amb k (PRIVATEPAY_ENTRY_MAX_SIZE - 5 + 1) ≤
      PRIVATEPAY_ENTRY_MAX_SIZE := by
    unfold GetRandInt PRIVATEPAY_ENTRY_MAX_SIZE
    have := Nat.mod_lt (amb.rand k) (show 9 - 5 + 1 > 0 by decide)
    omega
  have key : ∀ (ins : List CTxIn) (outs : List CTxOut),
      ins.length = outs.length →
      (List.zip ins (outs.map (fun o => o.nValue))).Subperm
        (selectedCoins calls c nMinRounds nMaxRounds) →
      ins.length ≤ (5 + GetRandInt amb k (PRIVATEPAY_ENTRY_MAX_SIZE - 5 + 1)) *
          (GetDenominationsBits c.nSessionDenom []).2.length →
      ins.length = outs.length ∧
      (List.zip ins (outs.map (fun o => o.nValue))).Subperm
        (selectedCoins calls c nMinRounds nMaxRounds) ∧
      (∀ (i : Nat) (txin : CTxIn) (txout : CTxOut),
        ins.get? i = some txin → outs.get? i = some txout →
        (txin, txout.nValue) ∈ selectedCoins calls c nMinRounds nMaxRounds) ∧
      ((List.zip ins (outs.map (fun o => o.nValue))).map Prod.snd).sum = valueOut outs ∧
      ins.length ≤ (5 + GetRandInt amb k (PRIVATEPAY_ENTRY_MAX_SIZE - 5 + 1)) *
          (GetDenominationsBits c.nSessionDenom []).2.length ∧
      5 + GetRandInt amb k (PRIVATEPAY_ENTRY_MAX_SIZE - 5 + 1) ≤ PRIVATEPAY_ENTRY_MAX_SIZE ∧
      ((GetDenominationsBits c.nSessionDenom []).2.length = 1 →
        ins.length ≤ PRIVATEPAY_ENTRY_MAX_SIZE) ∧
      (c.nSessionDenom ∈ [1, 2, 4, 8] → ins.length ≤ PRIVATEPAY_ENTRY_MAX_SIZE) := by
    intro ins outs hlen hsub hle
    have hone : (GetDenominationsBits c.nSessionDenom []).2.length = 1 →
        ins.length ≤ PRIVATEPAY_ENTRY_MAX_SIZE := by
      intro h1
      rw [h1, Nat.mul_one] at hle
      exact le_trans hle hsteps
    refine ⟨hlen, hsub, ?_, ?_, hle, hsteps, hone, ?_⟩
    · intro i txin txout hi ho
      apply hsub.subset
      rw [List.mem_iff_get?]
      refine ⟨i, ?_⟩
      simp only [List.get?_eq_getElem?, List.getElem?_zip_eq_some, List.getElem?_map] at hi ho ⊢
      simp [hi, ho]
    · rw [List.map_snd_zip]
      · rfl
      · rw [List.length_map, hlen]
    · intro hmem
      apply hone
      simp only [List.mem_cons, List.mem_singleton, List.not_mem_nil, or_false] at hmem
      rcases hmem with e | e | e | e <;> rw [e] <;> decide
  by_cases hr : reachesSelection calls c nMinRounds nMaxRounds = true
  · obtain ⟨i1, i2, i3⟩ := selectionLoop_inv amb calls c nMinRounds nMaxRounds k
    have hsub := (List.sublist_append_left _ _).subperm.trans i2.subperm
    rw [PrepareDenominate_reached amb calls c w nMinRounds nMaxRounds k hr]
    split_ifs
    · exact key _ _ i1 hsub i3
    · exact key _ _ i1 hsub i3
  · rw [PrepareDenominate_not_reached amb calls c w nMinRounds nMaxRounds k
      (by simpa using hr)]
    exact key [] [] rfl (List.nil_subperm) (Nat.zero_le _)

/-- C39 (witness): the client that joined a session of the 10.0001 denomination
prepares its two 10.0001 coins: two inputs, two outputs of 10.0001. -/
theorem PrepareDenominate_pairs_witness :
    (demoClientJoined.client.PrepareDenominate demoAmbient demoCalls demoWalletStart 0 2 0).2.2 =
        ([⟨⟨3, 0⟩, [], 4294967295, demoScript⟩, ⟨⟨3, 1⟩, [], 4294967295, demoScript⟩],
          [⟨1000010000, demoPay 1⟩, ⟨1000010000, demoPay 2⟩]) ∧
      selectedCoins demoCalls demoClientJoined.client 0 2 =
        [(⟨⟨3, 0⟩, [], 4294967295, demoScript⟩, 1000010000),
          (⟨⟨3, 1⟩, [], 4294967295, demoScript⟩, 1000010000)] ∧
      demoClientJoined.client.nSessionDenom ∈ [1, 2, 4, 8] ∧
      (demoClientJoined.client.PrepareDenominate demoAmbient demoCalls demoWalletStart
        0 2 0).2.2.1.length ≤ PRIVATEPAY_ENTRY_MAX_SIZE :=
  ⟨by decide, by decide, by decide,
    (PrepareDenominate_pairs demoAmbient demoCalls demoClientJoined.client demoWalletStart
      0 2 0).2.2.2.2.2.2.2 (by decide)⟩

/-- C32: when `PrepareDenominate` returns true, `GetDenominations` of the
returned outputs is `nSessionDenom` and, the coins handed over by
`SelectCoinsByDenominations` being different ones, a coin is locked afterwards
exactly when it is the coin of a returned input or was locked before and is
not among the selected ones: of the coins the call locked, the returned inputs
stay locked and no other.  When it returns false after it selected and locked
coins, none of the selected coins is locked any more and the other locks are
as before; when it returns before that, the wallet is as before. -/
theorem PrepareDenominate_mask_and_locks (amb : Ambient) (calls : ClientCalls)
    (c : CPrivatePayClient) (w : CWallet) (nMinRounds nMaxRounds : Int) (k : Nat)
    (hnodup : ((selectedCoins calls c nMinRounds nMaxRounds).map
      (fun coin => coin.1.prevout)).Nodup) :
    ((c.PrepareDenominate amb calls w nMinRounds nMaxRounds k).1 = true →
      GetDenominations (c.PrepareDenominate amb calls w nMinRounds nMaxRounds k).2.2.2 false
          amb.rand = c.nSessionDenom ∧
        (∀ o, o ∈ (c.PrepareDenominate amb calls w nMinRounds nMaxRounds k).2.1.setLockedCoins ↔
          o ∈ (c.PrepareDenominate amb calls w nMinRounds nMaxRounds k).2.2.1.map
              (fun txin => txin.prevout) ∨
            (o ∈ w.setLockedCoins ∧
              o ∉ (selectedCoins calls c nMinRounds nMaxRounds).map
                (fun coin => coin.1.prevout))) ∧
        (∀ o ∈ (selectedCoins calls c nMinRounds nMaxRounds).map (fun coin => coin.1.prevout),
          o ∈ (c.PrepareDenominate amb calls w nMinRounds nMaxRounds k).2.1.setLockedCoins ↔
            o ∈ (c.PrepareDenominate amb calls w nMinRounds nMaxRounds k).2.2.1.map
              (fun txin => txin.prevout))) ∧
      ((c.PrepareDenominate amb calls w nMinRounds nMaxRounds k).1 = false →
        reachesSelection calls c nMinRounds nMaxRounds = true →
        (∀ o, o ∈ (c.PrepareDenominate amb calls w nMinRounds nMaxRounds k).2.1.setLockedCoins ↔
          o ∈ w.setLockedCoins ∧
            o ∉ (selectedCoins calls c nMinRounds nMaxRounds).map
              (fun coin => coin.1.prevout)) ∧
        ∀ o ∈ (selectedCoins calls c nMinRounds nMaxRounds).map (fun coin => coin.1.prevout),
          o ∉ (c.PrepareDenominate amb calls w nMinRounds nMaxRounds k).2.1.setLockedCoins) ∧
      (reachesSelection calls c nMinRounds nMaxRounds = false →
        c.PrepareDenominate amb calls w nMinRounds nMaxRounds k = (false, w, [], [])) := by
  obtain ⟨i1, i2, _⟩ := selectionLoop_inv amb calls c nMinRounds nMaxRounds k
  have hp := i2.map (fun coin : CTxIn × CAmount => coin.1.prevout)
  rw [List.map_append] at hp
  have hfst : (List.zip (selectionLoop amb calls c nMinRounds nMaxRounds k).vecTxInRet
      ((selectionLoop amb calls c nMinRounds nMaxRounds k).vecTxOutRet.map
        (fun o => o.nValue))).map (fun coin : CTxIn × CAmount => coin.1.prevout) =
      (selectionLoop amb calls c nMinRounds nMaxRounds k).vecTxInRet.map
        (fun txin => txin.prevout) := by
    have h2 : (fun coin : CTxIn × CAmount => coin.1.prevout) =
        (fun txin : CTxIn => txin.prevout) ∘ Prod.fst := rfl
    rw [h2, ← List.map_map, List.map_fst_zip]
    rw [List.length_map, i1]
  rw [hfst] at hp
  have hmem : ∀ o, o ∈ (selectedCoins calls c nMinRounds nMaxRounds).map
      (fun coin => coin.1.prevout) ↔
      o ∈ (selectionLoop amb calls c nMinRounds nMaxRounds k).vecTxInRet.map
          (fun txin => txin.prevout) ∨
        o ∈ (selectionLoop amb calls c nMinRounds nMaxRounds k).coins.map
          (fun coin => coin.1.prevout) := by
    intro o
    rw [← hp.mem_iff, List.mem_append]
  have hdisj := List.disjoint_of_nodup_append (hp.nodup_iff.2 hnodup)
  refine ⟨?_, ?_, PrepareDenominate_not_reached amb calls c w nMinRounds nMaxRounds k⟩
  · intro hok
    by_cases hr : reachesSelection calls c nMinRounds nMaxRounds = true
    · rw [PrepareDenominate_reached amb calls c w nMinRounds nMaxRounds k hr] at hok ⊢
      by_cases hd : (GetDenominations
          (selectionLoop amb calls c nMinRounds nMaxRounds k).vecTxOutRet false amb.rand !=
            c.nSessionDenom) = true
      · rw [if_pos hd] at hok
        exact absurd hok (by simp)
      · rw [if_neg hd]
        have hall : ∀ o, o ∈ (((selectionLoop amb calls c nMinRounds nMaxRounds k).coins.map
            (fun coin => coin.1.prevout)).foldl CWallet.UnlockCoin
            (((selectedCoins calls c nMinRounds nMaxRounds).map
              (fun coin => coin.1.prevout)).foldl CWallet.LockCoin w)).setLockedCoins ↔
            o ∈ (selectionLoop amb calls c nMinRounds nMaxRounds k).vecTxInRet.map
                (fun txin => txin.prevout) ∨
              (o ∈ w.setLockedCoins ∧
                o ∉ (selectedCoins calls c nMinRounds nMaxRounds).map
                  (fun coin => coin.1.prevout)) := by
          intro o
          rw [foldl_UnlockCoin_mem, foldl_LockCoin_mem, hmem]
          have hd1 := @hdisj o
          tauto
        refine ⟨by simpa using hd, hall, ?_⟩
        intro o ho
        rw [hall]
        tauto
    · rw [PrepareDenominate_not_reached amb calls c w nMinRounds nMaxRounds k
        (by simpa using hr)] at hok
      exact absurd hok (by simp)
  · intro _ hr
    rw [PrepareDenominate_reached amb calls c w nMinRounds nMaxRounds k hr]
    have hall : ∀ o, o ∈ (((selectionLoop amb calls c nMinRounds nMaxRounds k).vecTxInRet.map
        (fun txin => txin.prevout)).foldl CWallet.UnlockCoin
        (((selectionLoop amb calls c nMinRounds nMaxRounds k).coins.map
          (fun coin => coin.1.prevout)).foldl CWallet.UnlockCoin
          (((selectedCoins calls c nMinRounds nMaxRounds).map
            (fun coin => coin.1.prevout)).foldl CWallet.LockCoin w))).setLockedCoins ↔
        o ∈ w.setLockedCoins ∧
          o ∉ (selectedCoins calls c nMinRounds nMaxRounds).map
            (fun coin => coin.1.prevout) := by
      intro o
      rw [foldl_UnlockCoin_mem, foldl_UnlockCoin_mem, foldl_LockCoin_mem, hmem]
      tauto
    by_cases hd : (GetDenominations
        (selectionLoop amb calls c nMinRounds nMaxRounds k).vecTxOutRet false amb.rand !=
          c.nSessionDenom) = true
    · rw [if_pos hd]
      refine ⟨hall, ?_⟩
      intro o ho
      rw [hall]
      tauto
    · rw [if_neg hd]
      rename_i hfalse
      rw [PrepareDenominate_reached amb calls c w nMinRounds nMaxRounds k hr, if_neg hd] at hfalse
      exact absurd hfalse (by simp)

/-- C32 (witness): the same client and wallet, in which `(9, 9)` was locked
before: the call succeeds and leaves locked `(9, 9)` and the two coins of the
returned inputs. -/
theorem PrepareDenominate_mask_and_locks_witness :
    ((selectedCoins demoCalls demoClientJoined.client 0 2).map
        (fun coin => coin.1.prevout)).Nodup ∧
      (demoClientJoined.client.PrepareDenominate demoAmbient demoCalls demoWalletStart 0 2 0).1 =
        true ∧
      (demoClientJoined.client.PrepareDenominate demoAmbient demoCalls demoWalletStart
        0 2 0).2.1.setLockedCoins = [⟨9, 9⟩, ⟨3, 0⟩, ⟨3, 1⟩] ∧
      GetDenominations (demoClientJoined.client.PrepareDenominate demoAmbient demoCalls
        demoWalletStart 0 2 0).2.2.2 false demoAmbient.rand =
        demoClientJoined.client.nSessionDenom :=
  ⟨by decide, by decide, by decide,
    ((PrepareDenominate_mask_and_locks demoAmbient demoCalls demoClientJoined.client
      demoWalletStart 0 2 0 (by decide)).1 (by decide)).1⟩

/-! ## Creating denominated inputs -/

/-- The `while` loop of `CreateDenominated` ends within `12 - nOutputs` tests of
its condition; what it appends are outputs of the denomination, at most 11
counting those made before, and it never leaves a negative value once it has
appended one. -/
theorem addDenomOutputs_spec (calls : ClientCalls) (d : CAmount) (fuel : Nat) (st : DenomOutputs)
    (hle : st.nOutputs ≤ 11) (hfuel : (12 : Int) ≤ fuel + st.nOutputs) :
    ∃ r added, addDenomOutputs calls d fuel st = some r ∧
      r.vecSend = st.vecSend ++ added ∧ (∀ x ∈ added, x.nAmount = d) ∧
      r.nOutputs = st.nOutputs + added.length ∧ r.nOutputs ≤ 11 ∧
      r.nValueLeft = st.nValueLeft - added.length * d ∧
      (added ≠ [] → 0 ≤ r.nValueLeft) ∧ r.nKeys = st.nKeys + added.length := by
  induction fuel generalizing st with
  | zero => exfalso; simp at hfuel; omega
  | succ fuel ih =>
    rw [addDenomOutputs]
    by_cases hc : st.nValueLeft - d ≥ 0 ∧ st.nOutputs ≤ 10
    · rw [if_pos hc]
      obtain ⟨r, added, hr, hsend, hall, hout, hout11, hleft, hpos, hkeys⟩ :=
        ih ⟨st.vecSend ++ [⟨calls.GetReservedKey st.nKeys, d, false⟩], st.nValueLeft - d,
          st.nKeys + 1, st.nOutputs + 1⟩ (by show st.nOutputs + 1 ≤ 11; omega)
          (by show (12 : Int) ≤ fuel + (st.nOutputs + 1); push_cast at hfuel; omega)
      refine ⟨r, ⟨calls.GetReservedKey st.nKeys, d, false⟩ :: added, hr, ?_, ?_, ?_, hout11,
        ?_, ?_, ?_⟩
      · rw [hsend]; simp
      · intro x hx
        rcases List.mem_cons.1 hx with e | e
        · rw [e]
        · exact hall x e
      · rw [hout]; simp only [List.length_cons]; push_cast; ring
      · rw [hleft]; simp only [List.length_cons]; push_cast; ring
      · intro _
        by_cases he : added = []
        · rw [hleft, he]; simp only [List.length_nil]; push_cast
          have := hc.1
          linarith
        · exact hpos he
      · rw [hkeys]; simp only [List.length_cons]; omega
    · rw [if_neg hc]
      refine ⟨st, [], rfl, by simp, by simp, by simp, hle, by simp, fun h => absurd rfl h, by simp⟩

/-- More tests allowed do not change what the `while` loop of
`CreateDenominated` gives. -/
theorem addDenomOutputs_fuel (calls : ClientCalls) (d : CAmount) (fuel n : Nat) (st r : DenomOutputs)
    (h : addDenomOutputs calls d fuel st = some r) :
    addDenomOutputs calls d (fuel + n) st = some r := by
  induction fuel generalizing st with
  | zero => rw [addDenomOutputs] at h; exact absurd h (by simp)
  | succ fuel ih =>
    rw [Nat.add_right_comm, addDenomOutputs]
    rw [addDenomOutputs] at h
    by_cases hc : st.nValueLeft - d ≥ 0 ∧ st.nOutputs ≤ 10
    · rw [if_pos hc] at h ⊢
      exact ih _ h
    · rw [if_neg hc] at h ⊢
      exact h

/-- With 12 tests allowed the `while` loop of `CreateDenominated`, entered with
`nOutputs = 0`, gives what it gives with any larger allowance. -/
theorem addDenomOutputs_twelve (calls : ClientCalls) (d : CAmount) (fuel : Nat)
    (vecSend : List CRecipient) (nValueLeft : CAmount) (nKeys : Nat) (hfuel : 12 ≤ fuel) :
    addDenomOutputs calls d fuel ⟨vecSend, nValueLeft, nKeys, 0⟩ =
      addDenomOutputs calls d 12 ⟨vecSend, nValueLeft, nKeys, 0⟩ := by
  obtain ⟨r, _, hr, _⟩ := addDenomOutputs_spec calls d 12 ⟨vecSend, nValueLeft, nKeys, 0⟩
    (by show (0 : Int) ≤ 11; decide) (by show (12 : Int) ≤ (12 : Nat) + 0; decide)
  obtain ⟨n, rfl⟩ := Nat.exists_eq_add_of_le hfuel
  rw [hr]
  exact addDenomOutputs_fuel calls d 12 n _ r hr

theorem denominationPass_twelve (calls : ClientCalls) (dc : DenominateCalls) (fuel : Nat)
    (fSkip : Bool) (front : CAmount) (ds : List CAmount) (st : DenomSend) (hfuel : 12 ≤ fuel) :
    denominationPass calls dc fuel fSkip front ds st =
      denominationPass calls dc 12 fSkip front ds st := by
  induction ds generalizing st with
  | nil => rfl
  | cons d rest ih =>
    rw [denominationPass, denominationPass, addDenomOutputs_twelve calls d fuel _ _ _ hfuel]
    simp only [ih]

theorem denominationPasses_twelve (calls : ClientCalls) (dc : DenominateCalls) (fuel fuelPasses : Nat)
    (fSkip : Bool) (st : DenomSend) (hfuel : 12 ≤ fuel) :
    denominationPasses calls dc fuel fuelPasses fSkip st =
      denominationPasses calls dc 12 fuelPasses fSkip st := by
  induction fuelPasses generalizing fSkip st with
  | zero => rfl
  | succ n ih =>
    rw [denominationPasses, denominationPasses, denominationPass_twelve calls dc fuel _ _ _ _ hfuel]
    simp only [ih]

/-- One pass over denominations that are all different: it ends, and what it
appends are outputs of these denominations, at most 11 of each; once it has
appended one, the value left is not negative. -/
theorem denominationPass_spec (calls : ClientCalls) (dc : DenominateCalls) (fSkip : Bool)
    (front : CAmount) (ds : List CAmount) (st : DenomSend) (hnodup : ds.Nodup) :
    ∃ r added, denominationPass calls dc 12 fSkip front ds st = some r ∧
      r.vecSend = st.vecSend ++ added ∧ (∀ x ∈ added, x.nAmount ∈ ds) ∧
      (∀ d, added.countP (fun x => x.nAmount = d) ≤ 11) ∧
      r.nOutputsTotal = st.nOutputsTotal + added.length ∧
      r.nValueLeft = st.nValueLeft - (added.map (fun x => x.nAmount)).sum ∧
      (added ≠ [] → 0 ≤ r.nValueLeft) := by
  induction ds generalizing st with
  | nil =>
    exact ⟨st, [], rfl, by simp, by simp, by simp, by simp, by simp, fun h => absurd rfl h⟩
  | cons d rest ih =>
    have hrest := (List.nodup_cons.1 hnodup).2
    have hd := (List.nodup_cons.1 hnodup).1
    rw [denominationPass]
    by_cases h1 : (fSkip && IsDenomSkipped st.vecDenominationsSkipped d) = true
    · rw [if_pos h1]
      obtain ⟨r, added, hr, hsend, hall, hcount, htotal, hleft, hpos⟩ := ih st hrest
      exact ⟨r, added, hr, hsend, fun x hx => List.mem_cons_of_mem _ (hall x hx), hcount, htotal,
        hleft, hpos⟩
    · rw [if_neg h1]
      by_cases h2 : (fSkip && (d != front &&
          decide (dc.CountInputsWithAmount d > dc.DENOMS_COUNT_MAX))) = true
      · rw [if_pos h2]
        obtain ⟨r, added, hr, hsend, hall, hcount, htotal, hleft, hpos⟩ :=
          ih { st with vecDenominationsSkipped := st.vecDenominationsSkipped ++ [d] } hrest
        exact ⟨r, added, hr, hsend, fun x hx => List.mem_cons_of_mem _ (hall x hx), hcount,
          htotal, hleft, hpos⟩
      · rw [if_neg h2]
        obtain ⟨r0, added0, hr0, hsend0, hall0, hout0, hout11, hleft0, hpos0, _⟩ :=
          addDenomOutputs_spec calls d 12 ⟨st.vecSend, st.nValueLeft, st.nKeys, 0⟩
            (by show (0 : Int) ≤ 11; decide) (by show (12 : Int) ≤ (12 : Nat) + 0; decide)
        rw [hr0]
        have hlen0 : added0.length ≤ 11 := by
          have h3 : r0.nOutputs = (0 : Int) + added0.length := hout0
          omega
        have hsum0 : (added0.map (fun x => x.nAmount)).sum = added0.length * d := by
          have : added0.map (fun x => x.nAmount) = List.replicate added0.length d := by
            rw [List.eq_replicate_iff]
            refine ⟨by simp, ?_⟩
            intro b hb
            obtain ⟨x, hx, rfl⟩ := List.mem_map.1 hb
            exact hall0 x hx
          rw [this, List.sum_replicate]
          simp
        have hcount0 : ∀ d1, added0.countP (fun x => x.nAmount = d1) ≤ 11 :=
          fun d1 => le_trans (List.countP_le_length _) hlen0
        have hout0z : r0.nOutputs = (added0.length : Int) := by
          have h3 : r0.nOutputs = (0 : Int) + added0.length := hout0
          omega
        have hleft0z : r0.nValueLeft = st.nValueLeft - (added0.map (fun x => x.nAmount)).sum := by
          rw [hsum0]; exact hleft0
        by_cases h3 : r0.nValueLeft = 0
        · simp only [h3, if_true]
          refine ⟨_, added0, rfl, hsend0, ?_, hcount0, ?_, ?_, ?_⟩
          · intro x hx
            rw [hall0 x hx]
            exact List.mem_cons_self _ _
          · show st.nOutputsTotal + r0.nOutputs = _
            rw [hout0z]
          · show (0 : Int) = _
            rw [← h3, hleft0z]
          · intro _
            exact le_refl _
        · simp only [h3, if_false]
          obtain ⟨r, added, hr, hsend, hall, hcount, htotal, hleft, hpos⟩ :=
            ih { st with vecSend := r0.vecSend, nValueLeft := r0.nValueLeft, nKeys := r0.nKeys,
                         nOutputsTotal := st.nOutputsTotal + r0.nOutputs } hrest
          refine ⟨r, added0 ++ added, hr, ?_, ?_, ?_, ?_, ?_, ?_⟩
          · rw [hsend]
            show r0.vecSend ++ added = _
            rw [hsend0, List.append_assoc]
          · intro x hx
            rcases List.mem_append.1 hx with e | e
            · rw [hall0 x e]
              exact List.mem_cons_self _ _
            · exact List.mem_cons_of_mem _ (hall x e)
          · intro d1
            rw [List.countP_append]
            by_cases hd1 : d1 = d
            · have hz : added.countP (fun x => x.nAmount = d1) = 0 := by
                rw [List.countP_eq_zero]
                intro x hx
                simp only [decide_eq_true_eq]
                intro e
                apply hd
                rw [← hd1, ← e]
                exact hall x hx
              rw [hz]
              exact hcount0 d1
            · have hz : added0.countP (fun x => x.nAmount = d1) = 0 := by
                rw [List.countP_eq_zero]
                intro x hx
                simp only [decide_eq_true_eq]
                intro e
                apply hd1
                rw [← e]
                exact hall0 x hx
              rw [hz, Nat.zero_add]
              exact hcount d1
          · rw [htotal]
            show st.nOutputsTotal + r0.nOutputs + (added.length : Int) = _
            rw [hout0z, List.length_append]
            push_cast
            ring
          · rw [hleft]
            show r0.nValueLeft - _ = _
            rw [hleft0z, List.map_append, List.sum_append]
            ring
          · intro hne
            by_cases he : added = []
            · rw [hleft, he]
              show 0 ≤ r0.nValueLeft - _
              simp only [List.map_nil, List.sum_nil, sub_zero]
              apply hpos0
              intro e0
              apply hne
              rw [e0, he]
              rfl
            · exact hpos he

theorem vecStandardDenominations_reverse_nodup : vecStandardDenominations.reverse.Nodup := by
  decide

/-- The passes of `CreateDenominated`, begun with skipping on and no output
counted: two passes are enough, and what they append are outputs of standard
denominations, at most 11 of each; once one is appended, the value left is not
negative. -/
theorem denominationPasses_spec (calls : ClientCalls) (dc : DenominateCalls) (n : Nat)
    (st : DenomSend) (htotal0 : st.nOutputsTotal = 0) :
    ∃ r added, denominationPasses calls dc 12 (n + 2) true st = some r ∧
      r.vecSend = st.vecSend ++ added ∧ (∀ x ∈ added, x.nAmount ∈ vecStandardDenominations) ∧
      (∀ d, added.countP (fun x => x.nAmount = d) ≤ 11) ∧
      r.nOutputsTotal = added.length ∧
      r.nValueLeft = st.nValueLeft - (added.map (fun x => x.nAmount)).sum ∧
      (added ≠ [] → 0 ≤ r.nValueLeft) := by
  obtain ⟨r1, added1, hr1, hsend1, hall1, hcount1, htotal1, hleft1, hpos1⟩ :=
    denominationPass_spec calls dc true (vecStandardDenominations.headD 0)
      vecStandardDenominations.reverse st vecStandardDenominations_reverse_nodup
  rw [denominationPasses, hr1]
  rw [htotal0, zero_add] at htotal1
  by_cases hz : r1.nOutputsTotal = 0
  · have hnil : added1 = [] := by
      rw [htotal1] at hz
      exact List.length_eq_zero.1 (by exact_mod_cast hz)
    obtain ⟨r2, added2, hr2, hsend2, hall2, hcount2, htotal2, hleft2, hpos2⟩ :=
      denominationPass_spec calls dc false (vecStandardDenominations.headD 0)
        vecStandardDenominations.reverse r1 vecStandardDenominations_reverse_nodup
    have hstep : denominationPasses calls dc 12 (n + 1) (!true) r1 = some r2 := by
      rw [denominationPasses]
      show (match denominationPass calls dc 12 false (vecStandardDenominations.headD 0)
        vecStandardDenominations.reverse r1 with
        | none => none
        | some st1 =>
          if (decide (st1.nOutputsTotal = 0) && !(!false)) = true then
            denominationPasses calls dc 12 n (!false) st1
          else some st1) = some r2
      rw [hr2]
      simp
    simp only [hz, decide_True, Bool.not_true, Bool.not_false, Bool.and_self, if_true]
    rw [Bool.not_true] at hstep
    rw [hstep]
    refine ⟨r2, added2, rfl, ?_, ?_, hcount2, ?_, ?_, hpos2⟩
    · rw [hsend2, hsend1, hnil, List.append_nil]
    · intro x hx
      exact List.mem_reverse.1 (hall2 x hx)
    · rw [htotal2, hz, zero_add]
    · rw [hleft2, hleft1, hnil]
      simp
  · simp only [hz, decide_False, Bool.false_and, Bool.false_eq_true, if_false]
    refine ⟨r1, added1, rfl, hsend1, ?_, hcount1, htotal1, hleft1, hpos1⟩
    intro x hx
    exact List.mem_reverse.1 (hall1 x hx)

/-- C40: for every tally item, skip list and wallet, the recipient loops of
`CreateDenominated` end: two passes over the denominations and 12 tests of the
inner loop condition per denomination are enough, and more give the same.  The
recipients are the collateral output, if asked for, followed by outputs whose
amounts are standard denominations, at most 11 of each denomination; if there
is at least one of these, the amounts of all recipients sum up to at most
`tallyItem.nAmount - GetCollateralAmount()`. -/
theorem CreateDenominated_recipients (calls : ClientCalls) (dc : DenominateCalls)
    (fuelOutputs fuelPasses : Nat) (vecDenominationsSkipped : List CAmount)
    (tallyItem : CompactTallyItem) (fCreateMixingCollaterals : Bool)
    (hfuelOutputs : 12 ≤ fuelOutputs) (hfuelPasses : 2 ≤ fuelPasses) :
    ∃ r added,
      CreateDenominated calls dc fuelOutputs fuelPasses vecDenominationsSkipped tallyItem
        fCreateMixingCollaterals = some r ∧
      CreateDenominated calls dc 12 2 vecDenominationsSkipped tallyItem
        fCreateMixingCollaterals = some r ∧
      r.2.vecSend =
        (if fCreateMixingCollaterals then
          [⟨calls.GetReservedKey 0, calls.GetMaxCollateralAmount, false⟩] else []) ++ added ∧
      (∀ x ∈ added, x.nAmount ∈ vecStandardDenominations) ∧
      (∀ d, added.countP (fun x => x.nAmount = d) ≤ 11) ∧
      r.2.nValueLeft =
        tallyItem.nAmount - calls.GetCollateralAmount - (r.2.vecSend.map (fun x => x.nAmount)).sum ∧
      (added ≠ [] →
        (r.2.vecSend.map (fun x => x.nAmount)).sum ≤
          tallyItem.nAmount - calls.GetCollateralAmount) := by
  have key : ∀ st : DenomSend, st.nOutputsTotal = 0 →
      st.nValueLeft = tallyItem.nAmount - calls.GetCollateralAmount -
        (st.vecSend.map (fun x => x.nAmount)).sum →
      ∃ r added,
        (match denominationPasses calls dc fuelOutputs fuelPasses true st with
          | none => none
          | some st1 =>
            if (!dc.CreateTransaction st1.vecSend
                (tallyItem.vecTxIn.map (fun txin => txin.prevout))) = true then
              some (false, st1)
            else if (!dc.CommitTransaction) = true then some (false, st1)
            else some (true, st1)) = some r ∧
        (match denominationPasses calls dc 12 2 true st with
          | none => none
          | some st1 =>
            if (!dc.CreateTransaction st1.vecSend
                (tallyItem.vecTxIn.map (fun txin => txin.prevout))) = true then
              some (false, st1)
            else if (!dc.CommitTransaction) = true then some (false, st1)
            else some (true, st1)) = some r ∧
        r.2.vecSend = st.vecSend ++ added ∧
        (∀ x ∈ added, x.nAmount ∈ vecStandardDenominations) ∧
        (∀ d, added.countP (fun x => x.nAmount = d) ≤ 11) ∧
        r.2.nValueLeft =
          tallyItem.nAmount - calls.GetCollateralAmount -
            (r.2.vecSend.map (fun x => x.nAmount)).sum ∧
        (added ≠ [] →
          (r.2.vecSend.map (fun x => x.nAmount)).sum ≤
            tallyItem.nAmount - calls.GetCollateralAmount) := by
    intro st h0 hval
    obtain ⟨n, rfl⟩ := Nat.exists_eq_add_of_le hfuelPasses
    obtain ⟨r, added, hr, hsend, hall, hcount, _, hleft, hpos⟩ :=
      denominationPasses_spec calls dc n st h0
    have hr2 : denominationPasses calls dc 12 2 true st = some r := by
      obtain ⟨r2, added2, hr2, hsend2, _⟩ := denominationPasses_spec calls dc 0 st h0
      have hsame : denominationPasses calls dc 12 (n + 2) true st =
          denominationPasses calls dc 12 2 true st := by
        rw [denominationPasses, denominationPasses]
        cases hp : denominationPass calls dc 12 true (vecStandardDenominations.headD 0)
          vecStandardDenominations.reverse st with
        | none => rfl
        | some st1 =>
          dsimp only
          by_cases hz : (decide (st1.nOutputsTotal = 0) && !(!true)) = true
          · rw [if_pos hz, if_pos hz, denominationPasses, denominationPasses]
            cases hp2 : denominationPass calls dc 12 (!true) (vecStandardDenominations.headD 0)
              vecStandardDenominations.reverse st1 with
            | none => rfl
            | some st2 =>
              dsimp only
              simp
          · rw [if_neg hz, if_neg hz]
      rw [← hsame]
      exact hr
    have hr1 : denominationPasses calls dc fuelOutputs (2 + n) true st = some r := by
      rw [denominationPasses_twelve calls dc fuelOutputs _ _ _ hfuelOutputs, Nat.add_comm]
      exact hr
    have hsum : r.nValueLeft = tallyItem.nAmount - calls.GetCollateralAmount -
        (r.vecSend.map (fun x => x.nAmount)).sum := by
      rw [hleft, hval, hsend, List.map_append, List.sum_append]
      ring
    have hle : added ≠ [] → (r.vecSend.map (fun x => x.nAmount)).sum ≤
        tallyItem.nAmount - calls.GetCollateralAmount := by
      intro hne
      have := hpos hne
      linarith
    rw [hr1, hr2]
    by_cases hc1 : (!dc.CreateTransaction r.vecSend
        (tallyItem.vecTxIn.map (fun txin => txin.prevout))) = true
    · exact ⟨(false, r), added, by dsimp only; rw [if_pos hc1], by dsimp only; rw [if_pos hc1],
        hsend, hall, hcount, hsum, hle⟩
    · by_cases hc2 : (!dc.CommitTransaction) = true
      · exact ⟨(false, r), added, by dsimp only; rw [if_neg hc1, if_pos hc2],
          by dsimp only; rw [if_neg hc1, if_pos hc2], hsend, hall, hcount, hsum, hle⟩
      · exact ⟨(true, r), added, by dsimp only; rw [if_neg hc1, if_neg hc2],
          by dsimp only; rw [if_neg hc1, if_neg hc2], hsend, hall, hcount, hsum, hle⟩
  unfold CreateDenominated
  cases fCreateMixingCollaterals with
  | true =>
    simp only [if_true]
    obtain ⟨r, added, h1, h2, h3⟩ := key
      ⟨[⟨calls.GetReservedKey 0, calls.GetMaxCollateralAmount, false⟩],
        tallyItem.nAmount - calls.GetCollateralAmount - calls.GetMaxCollateralAmount, 1, 0,
        vecDenominationsSkipped⟩ rfl (by simp)
    exact ⟨r, added, h1, h2, h3⟩
  | false =>
    simp only [Bool.false_eq_true, if_false]
    obtain ⟨r, added, h1, h2, h3⟩ := key
      ⟨[], tallyItem.nAmount - calls.GetCollateralAmount, 1, 0, vecDenominationsSkipped⟩ rfl
      (by simp)
    exact ⟨r, added, h1, h2, h3⟩

/-- C40 (witness): the 15.0-coin tally item with two passes and 12 tests
allowed; a tally item of 1000 units needs the second pass. -/
theorem CreateDenominated_recipients_witness :
    12 ≤ 12 ∧ 2 ≤ 2 ∧
      (CreateDenominated demoCalls demoDenominateCalls 12 1 [] ⟨1000, []⟩ true = none) ∧
      ∃ r added,
        CreateDenominated demoCalls demoDenominateCalls 12 2 [] demoTallyItem true = some r ∧
        CreateDenominated demoCalls demoDenominateCalls 12 2 [] demoTallyItem true = some r ∧
        r.2.vecSend =
          (if true then
            [⟨demoCalls.GetReservedKey 0, demoCalls.GetMaxCollateralAmount, false⟩] else []) ++
            added ∧
        (∀ x ∈ added, x.nAmount ∈ vecStandardDenominations) ∧
        (∀ d, added.countP (fun x => x.nAmount = d) ≤ 11) ∧
        r.2.nValueLeft =
          demoTallyItem.nAmount - demoCalls.GetCollateralAmount -
            (r.2.vecSend.map (fun x => x.nAmount)).sum ∧
        (added ≠ [] →
          (r.2.vecSend.map (fun x => x.nAmount)).sum ≤
            demoTallyItem.nAmount - demoCalls.GetCollateralAmount) :=
  ⟨by decide, by decide, by decide,
    CreateDenominated_recipients demoCalls demoDenominateCalls 12 2 [] demoTallyItem true
      (by decide) (by decide)⟩

/-- The `while` loop of `CreateDenominated` when the value left pays for all the
outputs it may still add: it adds them all, each with the next reserve key. -/
theorem addDenomOutputs_full (calls : ClientCalls) (d : CAmount) (hd : 0 ≤ d) (n : Nat) :
    ∀ (fuel : Nat) (vecSend : List CRecipient) (v : CAmount) (k : Nat),
      n ≤ 11 → (n : Int) * d ≤ v → n + 1 ≤ fuel →
      addDenomOutputs calls d fuel ⟨vecSend, v, k, 11 - (n : Int)⟩ =
        some ⟨vecSend ++ (List.range n).map (fun i => ⟨calls.GetReservedKey (k + i), d, false⟩),
          v - (n : Int) * d, k + n, 11⟩ := by
  induction n with
  | zero =>
    intro fuel vecSend v k _ _ hfuel
    obtain ⟨f, rfl⟩ := Nat.exists_eq_add_of_le hfuel
    rw [Nat.add_comm, addDenomOutputs]
    simp
  | succ n ih =>
    intro fuel vecSend v k hn hv hfuel
    obtain ⟨f, rfl⟩ := Nat.exists_eq_add_of_le hfuel
    have hf : n + 1 + 1 + f = (n + 1 + f) + 1 := by omega
    rw [hf, addDenomOutputs]
    have hv1 : (n : Int) * d + d ≤ v := by
      have : ((n + 1 : Nat) : Int) * d = (n : Int) * d + d := by push_cast; ring
      rw [← this]; exact hv
    have hnd : 0 ≤ (n : Int) * d := mul_nonneg (Int.ofNat_nonneg n) hd
    have hc : v - d ≥ 0 ∧ (11 : Int) - ((n + 1 : Nat) : Int) ≤ 10 := by
      constructor
      · linarith
      · push_cast; omega
    rw [if_pos hc]
    have hout : (11 : Int) - ((n + 1 : Nat) : Int) + 1 = 11 - (n : Int) := by push_cast; ring
    show addDenomOutputs calls d (n + 1 + f)
      ⟨vecSend ++ [⟨calls.GetReservedKey k, d, false⟩], v - d, k + 1,
        (11 : Int) - ((n + 1 : Nat) : Int) + 1⟩ = _
    rw [hout, ih (n + 1 + f) _ (v - d) (k + 1) (by omega) (by linarith) (by omega)]
    congr 1
    have hlist : vecSend ++ [⟨calls.GetReservedKey k, d, false⟩] ++
        (List.range n).map (fun i => (⟨calls.GetReservedKey (k + 1 + i), d, false⟩ : CRecipient)) =
        vecSend ++ (List.range (n + 1)).map
          (fun i => (⟨calls.GetReservedKey (k + i), d, false⟩ : CRecipient)) := by
      rw [List.range_succ_eq_map, List.map_cons, List.map_map, List.append_assoc,
        List.singleton_append, Nat.add_zero]
      refine congrArg (fun l => vecSend ++ (⟨calls.GetReservedKey k, d, false⟩ :: l)) ?_
      apply List.map_congr_left
      intro i _
      show (⟨calls.GetReservedKey (k + 1 + i), d, false⟩ : CRecipient) =
        ⟨calls.GetReservedKey (k + (i + 1)), d, false⟩
      rw [Nat.add_assoc, Nat.add_comm 1 i]
    rw [hlist]
    have hval : v - d - (n : Int) * d = v - ((n + 1 : Nat) : Int) * d := by push_cast; ring
    rw [hval, Nat.add_assoc, Nat.add_comm 1 n]

/-- The `while` loop of `CreateDenominated` when the value left does not pay for
one output: it adds none. -/
theorem addDenomOutputs_none_fits (calls : ClientCalls) (d : CAmount) (fuel : Nat)
    (st : DenomOutputs) (hv : st.nValueLeft < d) (hfuel : 1 ≤ fuel) :
    addDenomOutputs calls d fuel st = some st := by
  obtain ⟨f, rfl⟩ := Nat.exists_eq_add_of_le hfuel
  rw [Nat.add_comm, addDenomOutputs]
  have hc : ¬(st.nValueLeft - d ≥ 0 ∧ st.nOutputs ≤ 10) := by
    intro h
    have := h.1
    linarith
  rw [if_neg hc]

/-- One denomination of a pass of `CreateDenominated` that is not skipped. -/
theorem denominationPass_cons (calls : ClientCalls) (dc : DenominateCalls) (fuel : Nat)
    (fSkip : Bool) (front d : CAmount) (rest : List CAmount) (st : DenomSend) (r : DenomOutputs)
    (h1 : IsDenomSkipped st.vecDenominationsSkipped d = false)
    (h2 : dc.CountInputsWithAmount d ≤ dc.DENOMS_COUNT_MAX)
    (hr : addDenomOutputs calls d fuel ⟨st.vecSend, st.nValueLeft, st.nKeys, 0⟩ = some r) :
    denominationPass calls dc fuel fSkip front (d :: rest) st =
      if r.nValueLeft = 0 then
        some ⟨r.vecSend, r.nValueLeft, r.nKeys, st.nOutputsTotal + r.nOutputs,
          st.vecDenominationsSkipped⟩
      else
        denominationPass calls dc fuel fSkip front rest
          ⟨r.vecSend, r.nValueLeft, r.nKeys, st.nOutputsTotal + r.nOutputs,
            st.vecDenominationsSkipped⟩ := by
  rw [denominationPass, hr]
  have h3 : decide (dc.CountInputsWithAmount d > dc.DENOMS_COUNT_MAX) = false := by
    simp only [gt_iff_lt, decide_eq_false_iff_not, not_lt]
    exact h2
  simp only [h1, h3, Bool.and_false, Bool.false_eq_true, if_false]

/-- C33, amended: for a tally item of 15.0 coins and `fCreateMixingCollaterals`,
when no denomination is skipped or counted above `DENOMS_COUNT_MAX` and the
two collateral amounts are not negative and together at most 2.7898779 coins,
`CreateDenominated` builds, in one pass, one output of
`GetMaxCollateralAmount()` followed by 11 outputs of 0.0100001, 11 of 0.100001
and 11 of 1.00001 and no output of 10.0001, each with a reserve key of its own;
2.7898779 coins less the two collateral amounts are left over. -/
theorem CreateDenominated_fifteen_coins (calls : ClientCalls) (dc : DenominateCalls)
    (fuelOutputs fuelPasses : Nat) (vecDenominationsSkipped : List CAmount)
    (tallyItem : CompactTallyItem)
    (hamount : tallyItem.nAmount = 15 * COIN)
    (hcollateral : 0 ≤ calls.GetCollateralAmount)
    (hmax : 0 ≤ calls.GetMaxCollateralAmount)
    (hroom : calls.GetCollateralAmount + calls.GetMaxCollateralAmount ≤ 278987790)
    (hskipped : ∀ d ∈ vecStandardDenominations, IsDenomSkipped vecDenominationsSkipped d = false)
    (hcount : ∀ d ∈ vecStandardDenominations,
      dc.CountInputsWithAmount d ≤ dc.DENOMS_COUNT_MAX)
    (hfuelOutputs : 12 ≤ fuelOutputs) (hfuelPasses : 1 ≤ fuelPasses) :
    ∃ r, CreateDenominated calls dc fuelOutputs fuelPasses vecDenominationsSkipped tallyItem
        true = some r ∧
      r.2.vecSend =
        [⟨calls.GetReservedKey 0, calls.GetMaxCollateralAmount, false⟩] ++
          (List.range 11).map (fun i => ⟨calls.GetReservedKey (1 + i), 1000010, false⟩) ++
          (List.range 11).map (fun i => ⟨calls.GetReservedKey (12 + i), 10000100, false⟩) ++
          (List.range 11).map (fun i => ⟨calls.GetReservedKey (23 + i), 100001000, false⟩) ∧
      r.2.nValueLeft =
        278987790 - calls.GetCollateralAmount - calls.GetMaxCollateralAmount ∧
      r.2.nOutputsTotal = 33 ∧
      r.2.vecDenominationsSkipped = vecDenominationsSkipped ∧
      r.1 = (dc.CreateTransaction r.2.vecSend (tallyItem.vecTxIn.map (fun txin => txin.prevout)) &&
        dc.CommitTransaction) := by
  have hrev : vecStandardDenominations.reverse = [1000010, 10000100, 100001000, 1000010000] := by
    decide
  have hfront : vecStandardDenominations.headD 0 = 1000010000 := by decide
  have hcoin : (15 : CAmount) * COIN = 1500000000 := by decide
  have hpass : denominationPass calls dc fuelOutputs true 1000010000
      [1000010, 10000100, 100001000, 1000010000]
      ⟨[⟨calls.GetReservedKey 0, calls.GetMaxCollateralAmount, false⟩],
        tallyItem.nAmount - calls.GetCollateralAmount - calls.GetMaxCollateralAmount, 1, 0,
        vecDenominationsSkipped⟩ =
      some ⟨[⟨calls.GetReservedKey 0, calls.GetMaxCollateralAmount, false⟩] ++
          (List.range 11).map (fun i => ⟨calls.GetReservedKey (1 + i), 1000010, false⟩) ++
          (List.range 11).map (fun i => ⟨calls.GetReservedKey (12 + i), 10000100, false⟩) ++
          (List.range 11).map (fun i => ⟨calls.GetReservedKey (23 + i), 100001000, false⟩),
        278987790 - calls.GetCollateralAmount - calls.GetMaxCollateralAmount, 34, 33,
        vecDenominationsSkipped⟩ := by
    rw [hamount, hcoin]
    rw [denominationPass_cons calls dc fuelOutputs true _ 1000010 _ _ _
      (hskipped _ (by decide)) (hcount _ (by decide))
      (addDenomOutputs_full calls 1000010 (by decide) 11 fuelOutputs _ _ _ (le_refl _)
        (by push_cast; linarith) hfuelOutputs)]
    dsimp only
    rw [if_neg (by show ¬((1500000000 : Int) - calls.GetCollateralAmount -
      calls.GetMaxCollateralAmount - ((11 : Nat) : Int) * 1000010 = 0); push_cast; intro h; linarith)]
    rw [denominationPass_cons calls dc fuelOutputs true _ 10000100 _ _ _
      (hskipped _ (by decide)) (hcount _ (by decide))
      (addDenomOutputs_full calls 10000100 (by decide) 11 fuelOutputs _ _ _ (le_refl _)
        (by push_cast; linarith) hfuelOutputs)]
    dsimp only
    rw [if_neg (by show ¬((1500000000 : Int) - calls.GetCollateralAmount -
      calls.GetMaxCollateralAmount - ((11 : Nat) : Int) * 1000010 -
      ((11 : Nat) : Int) * 10000100 = 0); push_cast; intro h; linarith)]
    rw [denominationPass_cons calls dc fuelOutputs true _ 100001000 _ _ _
      (hskipped _ (by decide)) (hcount _ (by decide))
      (addDenomOutputs_full calls 100001000 (by decide) 11 fuelOutputs _ _ _ (le_refl _)
        (by push_cast; linarith) hfuelOutputs)]
    dsimp only
    have hleft : (1500000000 : Int) - calls.GetCollateralAmount -
        calls.GetMaxCollateralAmount - ((11 : Nat) : Int) * 1000010 -
        ((11 : Nat) : Int) * 10000100 - ((11 : Nat) : Int) * 100001000 =
        278987790 - calls.GetCollateralAmount - calls.GetMaxCollateralAmount := by
      push_cast; ring
    have htotal : (0 : Int) + 11 + 11 + 11 = 33 := by decide
    by_cases hz : (278987790 : Int) - calls.GetCollateralAmount -
        calls.GetMaxCollateralAmount = 0
    · rw [if_pos (by show _ = (0 : Int); rw [hleft]; exact hz)]
      simp only [hleft, htotal]
    · rw [if_neg (by show ¬(_ = (0 : Int)); rw [hleft]; exact hz)]
      have hlt : (1500000000 : Int) - calls.GetCollateralAmount -
          calls.GetMaxCollateralAmount - ((11 : Nat) : Int) * 1000010 -
          ((11 : Nat) : Int) * 10000100 - ((11 : Nat) : Int) * 100001000 < 1000010000 := by
        rw [hleft]; linarith
      rw [denominationPass_cons calls dc fuelOutputs true _ 1000010000 _ _ _
        (hskipped _ (by decide)) (hcount _ (by decide))
        (addDenomOutputs_none_fits calls 1000010000 fuelOutputs _ hlt (by omega))]
      dsimp only
      rw [if_neg (by show ¬(_ = (0 : Int)); rw [hleft]; exact hz)]
      rw [denominationPass]
      simp only [hleft, htotal, add_zero]
  obtain ⟨f, rfl⟩ := Nat.exists_eq_add_of_le hfuelPasses
  have hpasses : denominationPasses calls dc fuelOutputs (1 + f) true
      ⟨[⟨calls.GetReservedKey 0, calls.GetMaxCollateralAmount, false⟩],
        tallyItem.nAmount - calls.GetCollateralAmount - calls.GetMaxCollateralAmount, 1, 0,
        vecDenominationsSkipped⟩ =
      some ⟨[⟨calls.GetReservedKey 0, calls.GetMaxCollateralAmount, false⟩] ++
          (List.range 11).map (fun i => ⟨calls.GetReservedKey (1 + i), 1000010, false⟩) ++
          (List.range 11).map (fun i => ⟨calls.GetReservedKey (12 + i), 10000100, false⟩) ++
          (List.range 11).map (fun i => ⟨calls.GetReservedKey (23 + i), 100001000, false⟩),
        278987790 - calls.GetCollateralAmount - calls.GetMaxCollateralAmount, 34, 33,
        vecDenominationsSkipped⟩ := by
    rw [Nat.add_comm 1 f, denominationPasses, hrev, hfront, hpass]
    rfl
  unfold CreateDenominated
  simp only [if_true]
  rw [hpasses]
  dsimp only
  split_ifs with hc1 hc2
  · refine ⟨_, rfl, rfl, rfl, rfl, rfl, ?_⟩
    simp only [Bool.not_eq_true'] at hc1
    dsimp only at hc1 ⊢
    rw [hc1, Bool.false_and]
  · refine ⟨_, rfl, rfl, rfl, rfl, rfl, ?_⟩
    simp only [Bool.not_eq_true', Bool.not_eq_false] at hc1 hc2
    dsimp only at hc1 ⊢
    rw [hc1, hc2, Bool.and_false]
  · refine ⟨_, rfl, rfl, rfl, rfl, rfl, ?_⟩
    simp only [Bool.not_eq_true', Bool.not_eq_false] at hc1 hc2
    dsimp only at hc1 ⊢
    rw [hc1, hc2, Bool.and_self]

/-- C33 (witness): the 15.0-coin tally item with collateral amounts of 0.001 and
0.004 coins. -/
theorem CreateDenominated_fifteen_coins_witness :
    demoTallyItem.nAmount = 15 * COIN ∧
      0 ≤ demoCalls.GetCollateralAmount ∧ 0 ≤ demoCalls.GetMaxCollateralAmount ∧
      demoCalls.GetCollateralAmount + demoCalls.GetMaxCollateralAmount ≤ 278987790 ∧
      ∃ r, CreateDenominated demoCalls demoDenominateCalls 12 2 [] demoTallyItem true = some r ∧
        r.2.vecSend =
          [⟨demoCalls.GetReservedKey 0, demoCalls.GetMaxCollateralAmount, false⟩] ++
            (List.range 11).map (fun i => ⟨demoCalls.GetReservedKey (1 + i), 1000010, false⟩) ++
            (List.range 11).map (fun i => ⟨demoCalls.GetReservedKey (12 + i), 10000100, false⟩) ++
            (List.range 11).map (fun i => ⟨demoCalls.GetReservedKey (23 + i), 100001000, false⟩) ∧
        r.2.nValueLeft =
          278987790 - demoCalls.GetCollateralAmount - demoCalls.GetMaxCollateralAmount ∧
        r.2.nOutputsTotal = 33 ∧
        r.2.vecDenominationsSkipped = [] ∧
        r.1 = (demoDenominateCalls.CreateTransaction r.2.vecSend
            (demoTallyItem.vecTxIn.map (fun txin => txin.prevout)) &&
          demoDenominateCalls.CommitTransaction) :=
  ⟨by decide, by decide, by decide, by decide,
    CreateDenominated_fifteen_coins demoCalls demoDenominateCalls 12 2 [] demoTallyItem
      (by decide) (by decide) (by decide) (by decide) (by decide) (by decide) (by decide)
      (by decide)⟩

/-- C33, counterexample: for a tally item of one 15.0-coin input, with
`fCreateMixingCollaterals`, nothing skipped and a wallet without denominated
inputs, `CreateDenominated` hands 34 recipients to `CreateTransaction`: the
collateral output, then 11 outputs of 0.0100001, 11 of 0.100001 and 11 of
1.00001.  No output is worth 10.0001, and 1.00001 occurs 11 times, not once. -/
theorem fifteen_coins_smallest_first :
    (CreateDenominated demoCalls demoDenominateCalls 12 2 [] demoTallyItem true).map
        (fun r => (r.1, r.2.vecSend.map (fun x => x.nAmount), r.2.nValueLeft)) =
      some (true,
        [400000] ++ List.replicate 11 1000010 ++ List.replicate 11 10000100 ++
          List.replicate 11 100001000,
        278487790) ∧
      (CreateDenominated demoCalls demoDenominateCalls 12 2 [] demoTallyItem true).map
        (fun r => (r.2.vecSend.countP (fun x => x.nAmount = 1000010000),
          r.2.vecSend.countP (fun x => x.nAmount = 100001000), r.2.vecSend.length)) =
      some (0, 11, 34) := by
  constructor <;> decide

end PrivatePay
